import Mathlib

/-!
# Kipper: a shallow embedding of the execution core

The development follows the C++ sources of the interpreter (`value.cpp`,
`context.cpp`, `reference.cpp`, `ast.cpp`, `interpreter.cpp`, `heap.cpp`,
`runtime.cpp`).

Conventions of the embedding:

* an `Object*` is a 64-bit tagged word, a `Nat`; the null pointer is the word `0`
  (which is also the word of the double `0.0`, see `Double.Make`);
* for the values and the interpreter the heap is a list of objects, an address is an
  index into it, and the state keeps the bytes left in the new space and in the old
  space; allocation appends when the space has room and throws `AllocationError`
  otherwise, and a run stops where `Heap::Collect` would start (`Heap_Collect`), so
  nothing is moved;
* the allocator and the collectors (`heap.cpp`, `space.hh`, `gc.cpp`) are embedded a
  second time over a memory with addresses, two spaces and metadata (`Heap`); the
  setters that carry a write barrier appear there again, under `Heap.`; allocation
  can fail there, and what the source throws is a `KError`;
* a `Handle` is a location (`Object**`): a cell of the handle scope, a word of a
  context chunk, or a static cell; the cells of a handle scope that has been left
  keep their contents, while the chunks of a destroyed context are deallocated and
  a read through a handle into them has no defined result (`Error.UseAfterFree`);
* the binary64 operations of the platform are a parameter (`FloatOps`); the values
  of doubles are given by `Double.Value`, the laws of IEEE 754 that proofs rely on
  by `FloatOps.Conforms`, and `FloatOps.binary64` is the arithmetic with rounding to
  nearest, ties to even;
* functions that loop or recurse through the heap take a fuel argument.
-/

namespace Kipper

/-! ## Spaces and sizes (`value.hh`, `heap.hh`, `utils.hh`) -/

inductive AllocationSpace where
  | NEW_SPACE
  | OLD_SPACE
  deriving DecidableEq, Repr

inductive AllocationPolicy where
  | NOT_TENURED
  | TENURED
  deriving DecidableEq, Repr

def KB : Nat := 1024

def MB : Nat := 1024 * KB

def kPointerSize : Nat := 8

/-- The function `Align`. -/
def Align (size : Nat) : Nat := (size + kPointerSize - 1) / kPointerSize * kPointerSize

/-! ## Errors -/

/-- Ways in which an evaluation stops without a value. `AllocationError` and
`OutOfMemoryError` are the exceptions of the heap; `Collection` marks the point where
`Heap::Collect` starts, at which a run over the list of objects stops. -/
inductive Error where
  | KSReferenceError
  | KSNotFunctionError
  | NullDereference
  | BadCast
  | Unreachable
  | OutOfBounds
  | OutOfFuel
  | FloatingPoint
  | UseAfterFree
  | AllocationError (space : AllocationSpace)
  | OutOfMemoryError
  | Collection (space : AllocationSpace)
  deriving DecidableEq, Repr

deriving instance DecidableEq for Except

/-! ## The tagged word (`value.hh`, `value.cpp`) -/

/-- An `Object*`. -/
abbrev Object := Nat

def kCanonicalBits : Nat := 48

def kObjectMask : Nat := 2 ^ kCanonicalBits - 1

def kContextChunkLimit : Nat := 16

/-- The expression `PTR_INT(p) & ~kObjectMask`. -/
def READ_TAG (p : Object) : Nat := p / 2 ^ kCanonicalBits * 2 ^ kCanonicalBits

/-- The expression `PTR_INT(p) & kObjectMask`. -/
def ADDRESS (p : Object) : Nat := p % 2 ^ kCanonicalBits

def nullptr : Object := 0

namespace Double

def kDoubleLimit : Nat := 0xfff8000000000000

def kNaN : Nat := 0x7ff8000000000000

/-- The word of a double is its bit pattern. -/
def Make (bits : Nat) : Object := bits

def NaN : Object := Make kNaN

end Double

namespace Int32

def kInt32Tag : Nat := 0xfff9000000000000

def kMaxInt32 : Int := 0x7fffffff

def kMinInt32 : Int := -0x80000000

/-- The conversion `static_cast<int32_t>` of an integer. -/
def wrap (v : Int) : Int := (v + 2 ^ 31) % 2 ^ 32 - 2 ^ 31

def Value (p : Object) : Int := wrap (Int.ofNat (ADDRESS p))

def Make (value : Int) : Object := (value % 2 ^ 32).toNat + kInt32Tag

end Int32

namespace Constant

def kConstantTag : Nat := 0xfffa000000000000

def kBoolTrue : Nat := kConstantTag

def kBoolFalse : Nat := kBoolTrue + 1

def kNull : Nat := kBoolFalse + 1

def kUndefined : Nat := kNull + 1

def Boolean (value : Bool) : Object := if value then kBoolTrue else kBoolFalse

def Null : Object := kNull

def Undefined : Object := kUndefined

end Constant

def kHeapObjectTag : Nat := 0xfffc000000000000

/-- The function `HeapObject::Make`. -/
def HeapObject_Make (addr : Nat) : Object := addr + kHeapObjectTag

def IsDouble (p : Object) : Bool := decide (p ≤ Double.kDoubleLimit)

def IsInt32 (p : Object) : Bool := decide (READ_TAG p = Int32.kInt32Tag)

def IsBoolean (p : Object) : Bool :=
  decide (p = Constant.kBoolTrue) || decide (p = Constant.kBoolFalse)

def IsTrue (p : Object) : Bool := decide (p = Constant.kBoolTrue)

def IsNull (p : Object) : Bool := decide (p = Constant.kNull)

def IsUndefined (p : Object) : Bool := decide (p = Constant.kUndefined)

def IsHeapObject (p : Object) : Bool := decide (READ_TAG p = kHeapObjectTag)

/-! ## Binary64 operations of the platform -/

/-- The operations on doubles, given by their bit patterns. `none` stands for an
operation the instance at hand does not provide. -/
structure FloatOps where
  add : Nat → Nat → Option Nat
  sub : Nat → Nat → Option Nat
  mul : Nat → Nat → Option Nat
  div : Nat → Nat → Option Nat
  fmod : Nat → Nat → Option Nat
  neg : Nat → Option Nat
  ofInt : Int → Option Nat
  trunc : Nat → Option Int
  isnan : Nat → Option Bool
  eq : Nat → Nat → Option Bool
  lt : Nat → Nat → Option Bool
  le : Nat → Nat → Option Bool
  to_string : Nat → Option String
  strtod : String → Option (Option Nat)

/-- A platform without a floating-point unit: every operation on doubles stops the
evaluation. Programs that never compute with doubles run on it unchanged. -/
def FloatOps.unavailable : FloatOps where
  add := fun _ _ => none
  sub := fun _ _ => none
  mul := fun _ _ => none
  div := fun _ _ => none
  fmod := fun _ _ => none
  neg := fun _ => none
  ofInt := fun _ => none
  trunc := fun _ => none
  isnan := fun _ => none
  eq := fun _ _ => none
  lt := fun _ _ => none
  le := fun _ _ => none
  to_string := fun _ => none
  strtod := fun _ => none

/-- Lift a result of the floating-point unit. -/
def fp {α : Type} (r : Option α) : Except Error α :=
  match r with
  | some a => .ok a
  | none => .error .FloatingPoint

/-! ## The values of doubles (IEEE 754 binary64) -/

/-- What a double denotes. -/
inductive IEEE where
  | nan
  | inf (negative : Bool)
  | finite (q : ℚ)
  deriving DecidableEq

namespace IEEE

/-- The comparison `==` of two doubles. -/
def eq : IEEE → IEEE → Bool
  | .finite a, .finite b => decide (a = b)
  | .inf s, .inf t => decide (s = t)
  | _, _ => false

/-- The comparison `<=` of two doubles. -/
def le : IEEE → IEEE → Bool
  | .nan, _ => false
  | _, .nan => false
  | .inf true, _ => true
  | _, .inf false => true
  | .inf false, _ => false
  | _, .inf true => false
  | .finite a, .finite b => decide (a ≤ b)

/-- The comparison `<` of two doubles. -/
def lt : IEEE → IEEE → Bool
  | .nan, _ => false
  | _, .nan => false
  | .inf true, .inf true => false
  | .inf true, _ => true
  | .inf false, _ => false
  | .finite _, .inf negative => !negative
  | .finite a, .finite b => decide (a < b)

/-- The rational truncated toward zero. -/
def truncate (q : ℚ) : Int := if 0 ≤ q then ⌊q⌋ else ⌈q⌉

end IEEE

namespace Double

def sign (bits : Nat) : Nat := bits / 2 ^ 63

def exponent (bits : Nat) : Nat := bits / 2 ^ 52 % 2 ^ 11

def fraction (bits : Nat) : Nat := bits % 2 ^ 52

/-- The magnitude of a finite double, in units of `2 ^ -1074`. -/
def magnitude (bits : Nat) : Nat :=
  if exponent bits = 0 then fraction bits
  else (2 ^ 52 + fraction bits) * 2 ^ (exponent bits - 1)

/-- The function `Double::Value`: the double that a 64-bit pattern encodes. -/
def Value (bits : Nat) : IEEE :=
  if 2 ^ 64 ≤ bits then .nan
  else if exponent bits = 2047 then
    if fraction bits = 0 then .inf (decide (sign bits = 1)) else .nan
  else if sign bits = 1 then .finite (-((magnitude bits : ℚ) / 2 ^ 1074))
  else .finite ((magnitude bits : ℚ) / 2 ^ 1074)

/-- A finite double nearest to the rational `q` has the bit pattern `r`. -/
def Rounds (q : ℚ) (r : Nat) : Prop :=
  ∃ v, Value r = .finite v ∧ ∀ bits w, Value bits = .finite w → |q - v| ≤ |q - w|

/-- The position of the leading bit of `n`; the first argument bounds it. -/
def log2 : Nat → Nat → Nat
  | 0, _ => 0
  | fuel + 1, n => if n < 2 then 0 else log2 fuel (n / 2) + 1

/-- Rounding to nearest, ties to even: the bit pattern of the double nearest to
`num / den` units of `2 ^ -1074`, with the given sign; an infinity when the result
exceeds the finite doubles. -/
def round (negative : Bool) (num den : Nat) : Nat :=
  let shift := if num < den * 2 ^ 53 then 0 else log2 2200 (num / den) - 52
  let d := den * 2 ^ shift
  let m := num / d
  let r := num % d
  let m := if d < 2 * r ∨ (2 * r = d ∧ m % 2 = 1) then m + 1 else m
  let bits := min (shift * 2 ^ 52 + m) (2047 * 2 ^ 52)
  if negative then bits + 2 ^ 63 else bits

/-- The signed magnitude of a finite double, in units of `2 ^ -1074`. -/
def units (bits : Nat) : Int :=
  if sign bits = 1 then -(magnitude bits : Int) else (magnitude bits : Int)

/-- The double nearest to `num / den` units of `2 ^ -1074`; a zero gets the sign
given. -/
def roundInt (num : Int) (den : Nat) (zero_negative : Bool) : Nat :=
  if num = 0 then (if zero_negative then 2 ^ 63 else 0)
  else round (decide (num < 0)) num.natAbs den

def negate (bits : Nat) : Nat := if bits < 2 ^ 63 then bits + 2 ^ 63 else bits - 2 ^ 63

def infinity (negative : Bool) : Nat :=
  if negative then 0xfff0000000000000 else 0x7ff0000000000000

def add (x y : Nat) : Nat :=
  match Value x, Value y with
  | .nan, _ => kNaN
  | _, .nan => kNaN
  | .inf s, .inf t => if s = t then x else kNaN
  | .inf _, .finite _ => x
  | .finite _, .inf _ => y
  | .finite _, .finite _ =>
    roundInt (units x + units y) 1 (decide (sign x = 1) && decide (sign y = 1))

def mul (x y : Nat) : Nat :=
  let negative := decide (sign x ≠ sign y)
  match Value x, Value y with
  | .nan, _ => kNaN
  | _, .nan => kNaN
  | .inf _, .inf _ => infinity negative
  | .inf _, .finite b => if b = 0 then kNaN else infinity negative
  | .finite a, .inf _ => if a = 0 then kNaN else infinity negative
  | .finite _, .finite _ => roundInt (units x * units y) (2 ^ 1074) negative

def div (x y : Nat) : Nat :=
  let negative := decide (sign x ≠ sign y)
  match Value x, Value y with
  | .nan, _ => kNaN
  | _, .nan => kNaN
  | .inf _, .inf _ => kNaN
  | .inf _, .finite _ => infinity negative
  | .finite _, .inf _ => if negative then 2 ^ 63 else 0
  | .finite a, .finite b =>
    if b = 0 then (if a = 0 then kNaN else infinity negative)
    else
      roundInt (if sign y = 1 then -(units x * 2 ^ 1074) else units x * 2 ^ 1074)
        (magnitude y) negative

def fmod (x y : Nat) : Nat :=
  match Value x, Value y with
  | .nan, _ => kNaN
  | _, .nan => kNaN
  | .inf _, _ => kNaN
  | .finite _, .inf _ => x
  | .finite _, .finite b =>
    if b = 0 then kNaN
    else
      roundInt (if sign x = 1 then -((magnitude x % magnitude y : Nat) : Int)
        else ((magnitude x % magnitude y : Nat) : Int)) 1 (decide (sign x = 1))

def ofInt (n : Int) : Nat := roundInt (n * 2 ^ 1074) 1 false

def trunc (x : Nat) : Option Int :=
  match Value x with
  | .finite q => some (IEEE.truncate q)
  | _ => none

end Double

/-- The arithmetic of IEEE 754 binary64 with rounding to nearest, ties to even, and
the conversions and comparisons of C++ on it. The conversions between doubles and
text are not provided. -/
def FloatOps.binary64 : FloatOps where
  add := fun x y => some (Double.add x y)
  sub := fun x y => some (Double.add x (Double.negate y))
  mul := fun x y => some (Double.mul x y)
  div := fun x y => some (Double.div x y)
  fmod := fun x y => some (Double.fmod x y)
  neg := fun x => some (Double.negate x)
  ofInt := fun n => some (Double.ofInt n)
  trunc := Double.trunc
  isnan := fun x => some (decide (Double.Value x = .nan))
  eq := fun x y => some (IEEE.eq (Double.Value x) (Double.Value y))
  lt := fun x y => some (IEEE.lt (Double.Value x) (Double.Value y))
  le := fun x y => some (IEEE.le (Double.Value x) (Double.Value y))
  to_string := fun _ => none
  strtod := fun _ => none

/-- The result `r` of an operation on two finite doubles, kept when it is the exact
result `f a b` of the operation on their values. -/
def FloatOps.keepExact (f : ℚ → ℚ → ℚ) (x y r : Nat) : Option Nat :=
  match Double.Value x, Double.Value y with
  | .finite a, .finite b => if Double.Value r = .finite (f a b) then some r else none
  | _, _ => some r

/-- The part of `FloatOps.binary64` that involves no rounding: an addition, a
subtraction, a multiplication or a conversion of an integer whose exact result is not
a double is not provided. -/
def FloatOps.exact : FloatOps :=
  { FloatOps.binary64 with
    add := fun x y => FloatOps.keepExact (fun a b => a + b) x y (Double.add x y)
    sub := fun x y =>
      FloatOps.keepExact (fun a b => a - b) x y (Double.add x (Double.negate y))
    mul := fun x y => FloatOps.keepExact (fun a b => a * b) x y (Double.mul x y)
    ofInt := fun n =>
      if Double.Value (Double.ofInt n) = .finite n then some (Double.ofInt n) else none }

/-- The laws of IEEE 754 binary64 and of the conversions of C++ that the proofs use:
whatever the platform answers is the answer these laws fix. A conversion of an integer
and a sum, a difference or a product that does not overflow are a nearest double; a
truncation that fits `int32_t` is the truncation toward zero; the tests and the
comparisons are those of the values; a finite double divided by a zero is an
infinity or the default NaN. -/
structure FloatOps.Conforms (F : FloatOps) : Prop where
  ofInt : ∀ (n : Int) (r : Nat), F.ofInt n = some r → |n| ≤ 2 ^ 63 → Double.Rounds n r
  add : ∀ (x y r : Nat) (a b : ℚ), F.add x y = some r → Double.Value x = .finite a →
    Double.Value y = .finite b → |a + b| ≤ 2 ^ 1023 → Double.Rounds (a + b) r
  sub : ∀ (x y r : Nat) (a b : ℚ), F.sub x y = some r → Double.Value x = .finite a →
    Double.Value y = .finite b → |a - b| ≤ 2 ^ 1023 → Double.Rounds (a - b) r
  mul : ∀ (x y r : Nat) (a b : ℚ), F.mul x y = some r → Double.Value x = .finite a →
    Double.Value y = .finite b → |a * b| ≤ 2 ^ 1023 → Double.Rounds (a * b) r
  trunc : ∀ (x : Nat) (t : Int) (q : ℚ), F.trunc x = some t → Double.Value x = .finite q →
    -(2 ^ 31) - 1 < q → q < 2 ^ 31 → t = IEEE.truncate q
  isnan : ∀ (x : Nat) (b : Bool), F.isnan x = some b → b = decide (Double.Value x = .nan)
  eq : ∀ (x y : Nat) (b : Bool), F.eq x y = some b →
    b = IEEE.eq (Double.Value x) (Double.Value y)
  le : ∀ (x y : Nat) (b : Bool), F.le x y = some b →
    b = IEEE.le (Double.Value x) (Double.Value y)
  div_zero : ∀ (x y r : Nat) (a : ℚ), F.div x y = some r → Double.Value x = .finite a →
    Double.Value y = .finite 0 → IsDouble r = true ∧ ∀ q, Double.Value r ≠ .finite q

/-! ## Syntax trees (`ast.hh`, `token.hh`) -/

namespace Token

/-- The token kinds of `TOKEN_LIST`, in its order. -/
inductive Kind where
  | LP | RP | LC | RC | LBRACKET | RBRACKET | SEMI | COMMA | DOT
  | PLUS | SUB | MUL | DIV | MOD | INC | DEC
  | ASSIGN | ADD_ASSIGN | SUB_ASSIGN | MUL_ASSIGN | DIV_ASSIGN | MOD_ASSIGN
  | LOGIC_OR | LOGIC_AND | EQ | NE | LT | GT | LTE | GTE
  | QUES | COLON | NOT
  | ID | INT_LITERAL | DOUBLE_LITERAL | STRING_LITERAL
  | FUNCTION | IF | ELSIF | ELSE | WHILE | FOR | RETURN | BREAK | CONTINUE
  | TRUE | FALSE | UNDEFINED
  | END | UNKNOWN
  deriving DecidableEq, Repr

end Token

inductive MemberAccessType where
  | KEYED
  | DOTTED
  deriving DecidableEq, Repr

/-- Expression nodes. A literal carries the word its pre-bound handle holds, an
identifier the word of its interned name. `FunctionCall.loc` is the printed source
location of the first argument. -/
inductive Expression where
  | Assignment (target value : Expression) (op : Token.Kind)
  | ConditionalExpression (condition then_expr else_expr : Expression)
  | BinaryExpression (left right : Expression) (op : Token.Kind)
  | UnaryExpression (target : Expression) (op : Token.Kind)
  | PostfixExpression (target : Expression) (op : Token.Kind)
  | FunctionCall (target : Expression) (args : List Expression) (loc : String)
  | MemberAccess (target member : Expression) (type : MemberAccessType)
  | Identifier (name : Object)
  | IdentifierName (name : Object)
  | IntLiteral (value : Object)
  | DoubleLiteral (value : Object)
  | StringLiteral (value : Object)
  | BooleanLiteral (value : Object)
  | ArrayLiteral (elements : List Expression)
  | ObjectLiteral (properties : List (Expression × Expression))
  | UndefinedLiteral

inductive Statement where
  | BlockStatement (stmts : List Statement)
  | IfStatement (condition : Expression) (then_stmt : Statement) (else_stmt : Option Statement)
  | WhileStatement (condition : Expression) (loop_stmt : Statement)
  | ForStatement (init condition update : Option Expression) (loop_stmt : Statement)
  | ReturnStatement (value : Option Expression)
  | BreakStatement
  | ContinueStatement
  | ExpressionStatement (expr : Expression)

structure FunctionDecl where
  name : Object
  params : List Object
  body : List Statement

structure TranslationUnit where
  stmts : List Statement
  fn_decls : List FunctionDecl

/-! ## Handles (`handle.hh`) -/

/-- Where a handle points: a cell of the handle scope, a word of a context chunk, or
a cell that is never written after its creation (the static cells of `Constant` and
the cells bound to literals when the script is compiled). -/
inductive Location where
  | cell (index : Nat)
  | slot (context chunk offset : Nat)
  | fixed (value : Object)
  deriving DecidableEq, Repr

/-- A handle; `none` is the empty handle (`location_ == nullptr`). -/
abbrev Handle := Option Location

namespace Constant

def BooleanHandle (value : Bool) : Handle := some (.fixed (Boolean value))

def NullHandle : Handle := some (.fixed Null)

def UndefinedHandle : Handle := some (.fixed Undefined)

end Constant

/-! ## Completions (`completion.hh`) -/

inductive CompletionType where
  | NORMAL
  | RETURN
  | BREAK
  | CONTINUE
  deriving DecidableEq, Repr

structure Completion where
  type : CompletionType := .NORMAL
  value : Handle := Constant.UndefinedHandle
  deriving DecidableEq, Repr

/-! ## Heap objects (`value.hh`) -/

/-- The native functions installed by `runtime.cpp`. -/
inductive FunctionTemplate where
  | Print
  | push
  deriving DecidableEq, Repr

/-- The body word of a function: a statement list, or a tagged native pointer. -/
inductive FunctionBody where
  | KSBody (body : List Statement)
  | Body (template : FunctionTemplate)

/-- A heap object, by `HeapObjectType`, with its fields. -/
inductive HeapObject where
  | KSOBJECT (elements : Object)
  | STRING (elements : Object) (value : String)
  | ARRAY (slots : List Object)
  | KSARRAY (elements : Object) (length : Int) (array : Object)
  | HEAP_NUMBER (value : Int)
  | FUNCTION (name params : Object) (body : FunctionBody)

/-- The function `HeapObject::Size`. -/
def HeapObject.Size : HeapObject → Nat
  | .KSOBJECT _ => 16
  | .STRING _ value => Align (20 + value.length)
  | .ARRAY slots => Align (12 + kPointerSize * slots.length)
  | .KSARRAY _ _ _ => Align (20 + kPointerSize)
  | .HEAP_NUMBER _ => 16
  | .FUNCTION _ _ _ => 32

/-! ## Binding contexts (`context.hh`) -/

/-- A context: `chunks` are the chunks of `chunks_`, each of `kContextChunkLimit`
words; `chunk_start` is the offset of `chunk_start_` in the last chunk (the pointer
is null exactly when there is no chunk, and `chunk_end_` is the end of the last
chunk). `released` is set by the destructor, which deallocates the chunks: a handle
that points into them dangles from then on. -/
structure Context where
  parent : Option Nat
  chunks : List (List Object)
  chunk_start : Nat
  self : Handle
  released : Bool := false
  deriving DecidableEq, Repr

/-! ## The state of the runtime -/

/-- The state of the runtime. `new_space_available` is the number of bytes between
`free_` and `ToSpaceHigh()` of the new space, `old_space_available` the number of
bytes between `free_` and `end()` of the old space; the values they start with are
the sizes `Heap` is configured with when `Heap::Configure` is not called. -/
structure State where
  objects : List HeapObject
  empty_array : Object
  empty_hash_table : Object
  empty_string : Object
  symbol_table : List Object
  array_push_fn : Object
  contexts : List Context
  handles : List Object
  handle : Nat
  out : List String
  new_space_available : Nat := 256 * KB
  old_space_available : Nat := 16 * MB

/-! ## Reading the heap -/

/-- The object a word points to, if the word is a heap reference to one. -/
def State.find (σ : State) (p : Object) : Option HeapObject :=
  if IsHeapObject p then σ.objects[ADDRESS p]? else none

/-- The cast `HeapObject::Cast` followed by a read of the object. -/
def State.deref (σ : State) (p : Object) : Except Error HeapObject :=
  match σ.find p with
  | some o => .ok o
  | none => .error .BadCast

/-- Overwrite the object a heap reference points to. -/
def State.store (σ : State) (p : Object) (o : HeapObject) : State :=
  { σ with objects := σ.objects.set (ADDRESS p) o }

def IsFunction (σ : State) (p : Object) : Bool :=
  match σ.find p with
  | some (.FUNCTION _ _ _) => true
  | _ => false

def IsKSObject (σ : State) (p : Object) : Bool :=
  match σ.find p with
  | some (.KSOBJECT _) => true
  | some (.STRING _ _) => true
  | some (.KSARRAY _ _ _) => true
  | _ => false

def IsString (σ : State) (p : Object) : Bool :=
  match σ.find p with
  | some (.STRING _ _) => true
  | _ => false

def IsArray (σ : State) (p : Object) : Bool :=
  match σ.find p with
  | some (.ARRAY _) => true
  | _ => false

def IsKSArray (σ : State) (p : Object) : Bool :=
  match σ.find p with
  | some (.KSARRAY _ _ _) => true
  | _ => false

def IsHeapNumber (σ : State) (p : Object) : Bool :=
  match σ.find p with
  | some (.HEAP_NUMBER _) => true
  | _ => false

def IsNumber (σ : State) (p : Object) : Bool :=
  IsDouble p || IsInt32 p || IsHeapNumber σ p

namespace String

/-- The function `String::Value` (with the cast of `String::Cast`). -/
def Value (σ : State) (p : Object) : Except Error String :=
  match σ.find p with
  | some (.STRING _ value) => .ok value
  | _ => .error .BadCast

def Length (σ : State) (p : Object) : Except Error Int := do
  let value ← Value σ p
  pure (Int.ofNat value.length)

/-- The conversion `static_cast<int>(ch)` of a `char` (signed). -/
def charToInt (c : Char) : Int :=
  if c.toNat < 128 then Int.ofNat c.toNat else Int.ofNat c.toNat - 256

/-- The function `String::Hash(std::string_view)`. -/
def HashOf (value : String) : Int :=
  match value.data with
  | [] => 0
  | [c] => charToInt c
  | cs => cs.foldl (fun hash ch => Int32.wrap (hash + charToInt ch * 31)) 0

def Hash (σ : State) (p : Object) : Except Error Int := do
  let value ← Value σ p
  pure (HashOf value)

end String

namespace HeapNumber

def Value (σ : State) (p : Object) : Except Error Int :=
  match σ.find p with
  | some (.HEAP_NUMBER value) => .ok value
  | _ => .error .BadCast

def kMaxInt64 : Int := 2 ^ 63 - 1

def kMinInt64 : Int := -(2 ^ 63)

/-- The conversion `static_cast<int64_t>` of an integer. -/
def wrap (v : Int) : Int := (v + 2 ^ 63) % 2 ^ 64 - 2 ^ 63

end HeapNumber

/-! ## Conversions (`conversion-inl.hh`) -/

def IntToString (value : Int) : String := toString value

/-- The function `StringToInt<T>`, through `std::from_chars`: an optional minus sign
and a run of digits; `0` when there is no digit or the value does not fit `T`. -/
def StringToInt (str : String) (lo hi : Int) : Int :=
  let cs := str.data
  let negative := cs.head? = some '-'
  let digits := (if negative then cs.drop 1 else cs).takeWhile Char.isDigit
  if digits.isEmpty then 0
  else
    let n : Nat := digits.foldl (fun a c => a * 10 + (c.toNat - 48)) 0
    let v : Int := if negative then -(Int.ofNat n) else Int.ofNat n
    if lo ≤ v ∧ v ≤ hi then v else 0

section Conversions

variable (F : FloatOps)

def StringToDouble (str : String) : Except Error Nat := do
  match ← fp (F.strtod str) with
  | some result => pure result
  | none => pure Double.kNaN

def DoubleToInt32 (value : Nat) : Except Error Int := do
  if ← fp (F.isnan value) then pure 0
  else
    let int32_max ← fp (F.ofInt Int32.kMaxInt32)
    let int32_min ← fp (F.ofInt Int32.kMinInt32)
    if ← fp (F.le int32_max value) then pure Int32.kMaxInt32
    else if ← fp (F.le value int32_min) then pure Int32.kMinInt32
    else
      let r ← fp (F.trunc value)
      pure (Int32.wrap r)

def DoubleToInt64 (value : Nat) : Except Error Int := do
  if ← fp (F.isnan value) then pure 0
  else
    let int64_max ← fp (F.ofInt HeapNumber.kMaxInt64)
    let int64_min ← fp (F.ofInt HeapNumber.kMinInt64)
    if ← fp (F.le int64_max value) then pure HeapNumber.kMaxInt64
    else if ← fp (F.le value int64_min) then pure HeapNumber.kMinInt64
    else
      let r ← fp (F.trunc value)
      pure (HeapNumber.wrap r)

/-- The function `Object::ToDouble`; the result is a bit pattern. -/
def ToDouble (σ : State) (p : Object) : Except Error Nat :=
  if IsDouble p then pure p
  else if p = Constant.kBoolTrue then fp (F.ofInt 1)
  else if p = Constant.kBoolFalse then fp (F.ofInt 0)
  else if p = Constant.kNull ∨ p = Constant.kUndefined then pure Double.kNaN
  else if IsInt32 p then fp (F.ofInt (Int32.Value p))
  else if IsHeapNumber σ p then do
    let v ← HeapNumber.Value σ p
    fp (F.ofInt v)
  else if IsString σ p then do
    let s ← String.Value σ p
    StringToDouble F s
  else if IsArray σ p || IsFunction σ p || IsKSObject σ p then pure Double.kNaN
  else .error .Unreachable

/-- The function `Object::ToInt32`. -/
def ToInt32 (σ : State) (p : Object) : Except Error Int :=
  if IsInt32 p then pure (Int32.Value p)
  else if IsDouble p then DoubleToInt32 F p
  else if IsHeapNumber σ p then do
    let v ← HeapNumber.Value σ p
    pure (Int32.wrap v)
  else if p = Constant.kBoolTrue then pure 1
  else if p = Constant.kBoolFalse then pure 0
  else if p = Constant.kNull ∨ p = Constant.kUndefined then pure 0
  else if IsString σ p then do
    let s ← String.Value σ p
    pure (StringToInt s Int32.kMinInt32 Int32.kMaxInt32)
  else if IsArray σ p || IsFunction σ p || IsKSObject σ p then pure 0
  else .error .Unreachable

/-- The function `Object::ToInt64`. -/
def ToInt64 (σ : State) (p : Object) : Except Error Int :=
  if IsHeapNumber σ p then HeapNumber.Value σ p
  else if IsDouble p then DoubleToInt64 F p
  else if IsInt32 p then pure (Int32.Value p)
  else if p = Constant.kBoolTrue then pure 1
  else if p = Constant.kBoolFalse then pure 0
  else if p = Constant.kNull ∨ p = Constant.kUndefined then pure 0
  else if IsString σ p then do
    let s ← String.Value σ p
    pure (StringToInt s HeapNumber.kMinInt64 HeapNumber.kMaxInt64)
  else if IsArray σ p || IsFunction σ p || IsKSObject σ p then pure 0
  else .error .Unreachable

/-- The function `Int32::Fit`. -/
def Int32.Fit (value : Nat) : Except Error Bool := do
  let lo ← fp (F.ofInt Int32.kMinInt32)
  let hi ← fp (F.ofInt Int32.kMaxInt32)
  let a ← fp (F.le lo value)
  let b ← fp (F.le value hi)
  pure (a && b)

/-- The function `Double::MakeFit`; `Int32::Make` converts its double argument to
`int32_t`. -/
def Double.MakeFit (value : Nat) : Except Error Object := do
  if ← Int32.Fit F value then
    let r ← fp (F.trunc value)
    pure (Int32.Make r)
  else pure (Double.Make value)

/-- The function `Object::Equals`. -/
def Equals (σ : State) (p that : Object) : Except Error Bool :=
  if p = that then pure true
  else if IsNumber σ p && IsNumber σ that && (IsDouble p || IsDouble that) then do
    let a ← ToDouble F σ p
    let b ← ToDouble F σ that
    fp (F.eq a b)
  else if IsNumber σ p && IsNumber σ that && (IsHeapNumber σ p || IsHeapNumber σ that) then do
    let a ← ToInt64 F σ p
    let b ← ToInt64 F σ that
    pure (decide (a = b))
  else if IsString σ p && IsString σ that then do
    let a ← String.Value σ p
    let b ← String.Value σ that
    pure (decide (a = b))
  else pure false

end Conversions

/-! ## Handle scope (`handle.cpp`) -/

/-- The function `HandleScope::MakeHandle`: the value is written to the cell under
the cursor `current_.handle` and the cursor advances; the chunks of the scope are
one list of cells. -/
def MakeHandle (σ : State) (value : Object) : Location × State :=
  (.cell σ.handle,
   { σ with
     handles := if σ.handle < σ.handles.length then σ.handles.set σ.handle value
                else σ.handles ++ [value]
     handle := σ.handle + 1 })

/-- The word stored at a location. A read through a handle into a context whose
chunks are deallocated has no defined result. -/
def State.read (σ : State) (l : Location) : Except Error Object :=
  match l with
  | .cell i =>
    match σ.handles[i]? with
    | some v => .ok v
    | none => .error .OutOfBounds
  | .slot c k i =>
    match σ.contexts[c]? with
    | some ctx =>
      if ctx.released then .error .UseAfterFree
      else
        match ctx.chunks[k]? with
        | some chunk =>
          match chunk[i]? with
          | some v => .ok v
          | none => .error .OutOfBounds
        | none => .error .OutOfBounds
    | none => .error .OutOfBounds
  | .fixed v => .ok v

/-- The function `Handle::Get`: an empty handle cannot be read. -/
def State.get (σ : State) (h : Handle) : Except Error Object :=
  match h with
  | some l => σ.read l
  | none => .error .NullDereference

/-- The assignment `*h.location() = value`. -/
def State.write (σ : State) (l : Location) (value : Object) : Except Error State :=
  match l with
  | .cell i =>
    if i < σ.handles.length then .ok { σ with handles := σ.handles.set i value }
    else .error .OutOfBounds
  | .slot c k i =>
    match σ.contexts[c]? with
    | some ctx =>
      if ctx.released then .error .UseAfterFree
      else
        match ctx.chunks[k]? with
        | some chunk =>
          if i < chunk.length then
            .ok { σ with contexts :=
                    σ.contexts.set c { ctx with chunks := ctx.chunks.set k (chunk.set i value) } }
          else .error .OutOfBounds
        | none => .error .OutOfBounds
    | none => .error .OutOfBounds
  | .fixed _ => .error .OutOfBounds

/-! ## Allocation (`heap.cpp`) -/

/-- The space of a policy: `policy == NOT_TENURED ? NEW_SPACE : OLD_SPACE`. -/
def AllocationPolicy.space (policy : AllocationPolicy) : AllocationSpace :=
  if policy = .NOT_TENURED then .NEW_SPACE else .OLD_SPACE

/-- The bytes left in a space. -/
def State.available (σ : State) : AllocationSpace → Nat
  | .NEW_SPACE => σ.new_space_available
  | .OLD_SPACE => σ.old_space_available

/-- The state after `Allocate` of the space has advanced `free_` by the size of the
object `o` and the object has been initialised. -/
def State.allocated (σ : State) (space : AllocationSpace) (o : HeapObject) : State :=
  match space with
  | .NEW_SPACE =>
    { σ with objects := σ.objects ++ [o],
             new_space_available := σ.new_space_available - o.Size }
  | .OLD_SPACE =>
    { σ with objects := σ.objects ++ [o],
             old_space_available := σ.old_space_available - o.Size }

/-- The function `Heap::AllocateRaw` followed by the initialisation of the object
`o`, whose size is the size asked for. `Allocate` of the space returns the null
pointer when `free_ + size` lies beyond the end of the space, and `AllocationError`
is thrown; otherwise the object is appended to the heap. -/
def AllocateRaw (σ : State) (space : AllocationSpace) (o : HeapObject) :
    Except Error (Object × State) :=
  if o.Size ≤ σ.available space then
    .ok (HeapObject_Make σ.objects.length, σ.allocated space o)
  else .error (.AllocationError space)

/-- The function `Heap::Collect`. The collectors move the objects and rewrite the
words that point to them; they are embedded over the memory with addresses
(`Heap.Collect`). A run over the list of objects stops where a collection starts. -/
def Heap_Collect (_σ : State) (space : AllocationSpace) : Except Error State :=
  .error (.Collection space)

/-- The macro `CALL_WITH_GC_SUPPORT`: the call is tried; on `AllocationError` the
space is collected and the call is tried again, and `OutOfMemoryError` is thrown when
the allocation fails again. -/
def CALL_WITH_GC_SUPPORT {α : Type} (NO_GC_FUNC : State → Except Error α) (σ : State) :
    Except Error α :=
  match NO_GC_FUNC σ with
  | .error (.AllocationError space) =>
    match Heap_Collect σ space with
    | .ok σ =>
      match NO_GC_FUNC σ with
      | .error (.AllocationError _) => .error .OutOfMemoryError
      | r => r
    | .error e => .error e
  | r => r

/-- The macro `ALLOC_WITH_GC_SUPPORT`, which returns the result of the call. -/
def ALLOC_WITH_GC_SUPPORT (ALLOC_FUNC : State → Except Error (Object × State)) (σ : State) :
    Except Error (Object × State) :=
  CALL_WITH_GC_SUPPORT ALLOC_FUNC σ

/-- The function `NextPowerOf2` on `uint32_t`. -/
def NextPowerOf2 (x : Nat) : Nat :=
  let x := (x + 2 ^ 32 - 1) % 2 ^ 32
  let x := x ||| (x >>> 1)
  let x := x ||| (x >>> 2)
  let x := x ||| (x >>> 4)
  let x := x ||| (x >>> 8)
  let x := x ||| (x >>> 16)
  (x + 1) % 2 ^ 32

/-- The conversion of an `int` to `uint32_t`. -/
def toUInt32 (v : Int) : Nat := (v % 2 ^ 32).toNat

/-- The function `Heap::AllocateArrayNoGCInternal`: every element is `undefined`. -/
def AllocateArrayNoGCInternal (σ : State) (length : Int) (policy : AllocationPolicy) :
    Except Error (Object × State) :=
  let space := policy.space
  AllocateRaw σ space (.ARRAY (List.replicate length.toNat Constant.Undefined))

/-- The function `Heap::AllocateArrayNoGC`: the shared empty array for the length
zero. -/
def AllocateArrayNoGC (σ : State) (length : Int) (policy : AllocationPolicy) :
    Except Error (Object × State) :=
  if length ≠ 0 then AllocateArrayNoGCInternal σ length policy else .ok (σ.empty_array, σ)

/-- The function `Heap::AllocateArray`, which is `Array::New`. -/
def AllocateArray (σ : State) (length : Int) (policy : AllocationPolicy) :
    Except Error (Object × State) :=
  ALLOC_WITH_GC_SUPPORT (fun σ => AllocateArrayNoGC σ length policy) σ

namespace Array

def Length (σ : State) (p : Object) : Except Error Int :=
  match σ.find p with
  | some (.ARRAY slots) => .ok (Int.ofNat slots.length)
  | _ => .error .BadCast

/-- The function `Array::Get`; a read outside the slots is an error. -/
def Get (σ : State) (p : Object) (index : Int) : Except Error Object :=
  match σ.find p with
  | some (.ARRAY slots) =>
    if 0 ≤ index then
      match slots[index.toNat]? with
      | some v => .ok v
      | none => .error .OutOfBounds
    else .error .OutOfBounds
  | _ => .error .BadCast

/-- The function `Array::Set`: the only test is `index < Length()`, so a negative
index writes outside the slots, which is an error here. The write barrier has no
effect without collection. -/
def Set (σ : State) (p : Object) (index : Int) (value : Object) :
    Except Error (Object × State) :=
  match σ.find p with
  | some (.ARRAY slots) =>
    if index < Int.ofNat slots.length then
      if 0 ≤ index then .ok (value, σ.store p (.ARRAY (slots.set index.toNat value)))
      else .error .OutOfBounds
    else .ok (Constant.Undefined, σ)
  | _ => .error .BadCast

/-- The function `Array::Copy`: the slots of `that` are copied over the first slots
of the array. -/
def Copy (σ : State) (p that : Object) : Except Error State :=
  match σ.find p, σ.find that with
  | some (.ARRAY slots), some (.ARRAY other) =>
    if other.length ≤ slots.length then
      .ok (σ.store p (.ARRAY (other ++ slots.drop other.length)))
    else .error .OutOfBounds
  | _, _ => .error .BadCast

end Array

/-! ## Hash tables (`value.cpp`, `value.hh`) -/

namespace HashTable

def kElementsSizeIndex : Int := 0

def kCapacityIndex : Int := 1

def kElementsOffsetIndex : Int := 2

def EntryToIndex (entry : Int) : Int := kElementsOffsetIndex + entry * 2

def EnsureSize (capacity : Int) : Int := EntryToIndex capacity

/-- The function `HashTable::Location`, on 32-bit integers:
`(hash + ((index + index * index) >> 1)) & (capacity - 1)`. The sum and the product
are taken in the integers and the low 32 bits of the result are kept; where an
intermediate result leaves the range of `int`, the C++ expression has no defined
value. -/
def Location (hash index capacity : Int) : Int :=
  Int32.wrap (Int.ofNat (Nat.land (toUInt32 (hash + (index + index * index) / 2))
    (toUInt32 (capacity - 1))))

section

variable (F : FloatOps)

def ElementsSize (σ : State) (t : Object) : Except Error Int := do
  let v ← Array.Get σ t kElementsSizeIndex
  ToInt32 F σ v

def SetElementsSize (σ : State) (t : Object) (elements_size : Int) : Except Error State := do
  let (_, σ) ← Array.Set σ t kElementsSizeIndex (Int32.Make elements_size)
  pure σ

def Capacity (σ : State) (t : Object) : Except Error Int := do
  let v ← Array.Get σ t kCapacityIndex
  ToInt32 F σ v

def SetCapacity (σ : State) (t : Object) (capacity : Int) : Except Error State := do
  let (_, σ) ← Array.Set σ t kCapacityIndex (Int32.Make capacity)
  pure σ

def EntryKeyAt (σ : State) (t : Object) (index : Int) : Except Error Object :=
  Array.Get σ t index

/-- The loop `for (i = 1;; i++)` of `HashTable::FindInsertionIndex`: it has no
bound of its own. -/
def FindInsertionIndexLoop (σ : State) (t : Object) (hash capacity : Int) :
    Nat → Int → Except Error Int
  | 0, _ => .error .OutOfFuel
  | fuel + 1, i => do
    let index := EntryToIndex (Location hash i capacity)
    if IsUndefined (← EntryKeyAt σ t index) then pure index
    else FindInsertionIndexLoop σ t hash capacity fuel (i + 1)

def FindInsertionIndex (fuel : Nat) (σ : State) (t : Object) (hash : Int) :
    Except Error Int := do
  let capacity ← Capacity F σ t
  let index := EntryToIndex (Location hash 0 capacity)
  if IsUndefined (← EntryKeyAt σ t index) then pure index
  else FindInsertionIndexLoop σ t hash capacity fuel 1

/-- The loop `for (i = 1; i < capacity; i++)` of `HashTable::FindEntry`; the first
argument counts the iterations left. -/
def FindEntryLoop (σ : State) (t key : Object) (hash elements_size capacity : Int) :
    Nat → Int → Int → Except Error Int
  | 0, _, _ => pure (-1)
  | n + 1, i, passed_elements_size => do
    let entry := Location hash i capacity
    let entry_key ← EntryKeyAt σ t (EntryToIndex entry)
    if !IsUndefined entry_key then
      if ← Equals F σ entry_key key then pure entry
      else if passed_elements_size + 1 = elements_size then pure (-1)
      else FindEntryLoop σ t key hash elements_size capacity n (i + 1) (passed_elements_size + 1)
    else FindEntryLoop σ t key hash elements_size capacity n (i + 1) passed_elements_size

def FindEntry (σ : State) (t key : Object) (hash : Int) : Except Error Int := do
  let elements_size ← ElementsSize F σ t
  if elements_size = 0 then pure (-1)
  else
    let capacity ← Capacity F σ t
    let entry := Location hash 0 capacity
    let entry_key ← EntryKeyAt σ t (EntryToIndex entry)
    if !IsUndefined entry_key then
      if ← Equals F σ entry_key key then pure entry
      else FindEntryLoop F σ t key hash elements_size capacity (capacity - 1).toNat 1 1
    else FindEntryLoop F σ t key hash elements_size capacity (capacity - 1).toNat 1 0

def SetEntry (σ : State) (t : Object) (index : Int) (key value : Object) :
    Except Error State := do
  let (_, σ) ← Array.Set σ t index key
  let (_, σ) ← Array.Set σ t (index + 1) value
  pure σ

/-- The function `HashTable::Search`; the result is `nullptr` when the key has no
entry. -/
def Search (σ : State) (t key : Object) : Except Error Object := do
  let entry ← FindEntry F σ t key (← String.Hash σ key)
  if entry ≠ -1 then Array.Get σ t (EntryToIndex entry + 1)
  else pure nullptr

end

end HashTable

/-- The function `Heap::AllocateHashTableNoGCInternal`. -/
def AllocateHashTableNoGCInternal (σ : State) (elements_size : Int)
    (policy : AllocationPolicy) : Except Error (Object × State) := do
  let capacity : Int := Int32.wrap (Int.ofNat (NextPowerOf2 (toUInt32 elements_size)))
  let capacity := if capacity < 2 then 2 else capacity
  let (table, σ) ← AllocateArrayNoGC σ (HashTable.EnsureSize capacity) policy
  let σ ← HashTable.SetElementsSize σ table 0
  let σ ← HashTable.SetCapacity σ table capacity
  pure (table, σ)

/-- The function `Heap::AllocateHashTableNoGC`: the shared empty table for the size
zero. -/
def AllocateHashTableNoGC (σ : State) (elements_size : Int) (policy : AllocationPolicy) :
    Except Error (Object × State) :=
  if elements_size ≠ 0 then AllocateHashTableNoGCInternal σ elements_size policy
  else pure (σ.empty_hash_table, σ)

namespace HashTable

section

variable (F : FloatOps)

/-- The loop of `HashTable::AddElement` that re-inserts the entries `i`, `i + 1`, ...
of the old table into the new one; the first argument counts the iterations left. -/
def AddElementLoop (fuel : Nat) (t new_table : Object) :
    Nat → Int → State → Except Error State
  | 0, _, σ => pure σ
  | n + 1, i, σ => do
    let from_index := EntryToIndex i
    let key ← Array.Get σ t from_index
    if !IsUndefined key then
      let insertion_index ← FindInsertionIndex F fuel σ new_table (← String.Hash σ key)
      let σ ← SetEntry σ new_table insertion_index key (← Array.Get σ t (from_index + 1))
      AddElementLoop fuel t new_table n (i + 1) σ
    else AddElementLoop fuel t new_table n (i + 1) σ

/-- The function `HashTable::AddElement`. -/
def AddElement (fuel : Nat) (σ : State) (t : Object) (count : Int) :
    Except Error (Object × State) := do
  let capacity ← Capacity F σ t
  let new_elements_size := (← ElementsSize F σ t) + count
  if new_elements_size + new_elements_size / 4 ≤ capacity then
    let σ ← SetElementsSize σ t new_elements_size
    pure (t, σ)
  else
    let (new_table, σ) ← AllocateHashTableNoGC σ (new_elements_size * 2) .NOT_TENURED
    let σ ← SetElementsSize σ new_table new_elements_size
    let σ ← AddElementLoop F fuel t new_table capacity.toNat 0 σ
    pure (new_table, σ)

/-- The function `HashTable::Insert`; the result is the table that holds the entry. -/
def Insert (fuel : Nat) (σ : State) (t key value : Object) :
    Except Error (Object × State) := do
  let hash ← String.Hash σ key
  let entry ← FindEntry F σ t key hash
  if entry ≠ -1 then
    let (_, σ) ← Array.Set σ t (EntryToIndex entry + 1) value
    pure (t, σ)
  else
    let (table, σ) ← AddElement F fuel σ t 1
    let insertion_index ← FindInsertionIndex F fuel σ table hash
    let σ ← SetEntry σ table insertion_index key value
    pure (table, σ)

/-- The function `HashTable::Delete`. -/
def Delete (σ : State) (t key : Object) : Except Error (Bool × State) := do
  let entry ← FindEntry F σ t key (← String.Hash σ key)
  if entry ≠ -1 then
    let σ ← SetEntry σ t (EntryToIndex entry) Constant.Undefined Constant.Undefined
    let σ ← SetElementsSize σ t ((← ElementsSize F σ t) - 1)
    pure (true, σ)
  else pure (false, σ)

end

end HashTable

/-! ## Strings, numbers and functions on the heap -/

/-- The function `Heap::AllocateStringNoGCInternal` for the bytes `value`, which the
caller copies into the string. -/
def AllocateStringNoGCInternal (σ : State) (value : String) (policy : AllocationPolicy) :
    Except Error (Object × State) :=
  let space := policy.space
  AllocateRaw σ space (.STRING σ.empty_hash_table value)

/-- The function `Heap::AllocateStringNoGC`: the shared empty string for the length
zero. -/
def AllocateStringNoGC (σ : State) (value : String) (policy : AllocationPolicy) :
    Except Error (Object × State) :=
  if value.length ≠ 0 then AllocateStringNoGCInternal σ value policy
  else .ok (σ.empty_string, σ)

/-- The function `Heap::AllocateString`. -/
def AllocateString (σ : State) (value : String) (policy : AllocationPolicy) :
    Except Error (Object × State) :=
  ALLOC_WITH_GC_SUPPORT (fun σ => AllocateStringNoGC σ value policy) σ

/-- The function `String::New`: `Heap::AllocateString`, and the bytes are then copied
in. -/
def String.New (σ : State) (value : String) (policy : AllocationPolicy) :
    Except Error (Object × State) :=
  AllocateString σ value policy

/-- The function `String::Concat`. The operands are words (`String*`) read before the
allocation. -/
def String.Concat (σ : State) (p that : Object) : Except Error (Object × State) := do
  let other ← String.Value σ that
  if other.length = 0 then pure (p, σ)
  else
    let value ← String.Value σ p
    AllocateString σ (value ++ other) .NOT_TENURED

/-- The function `Heap::AllocateHeapNumberNoGC` for the value the caller writes. -/
def AllocateHeapNumberNoGC (σ : State) (value : Int) (policy : AllocationPolicy) :
    Except Error (Object × State) :=
  let space := policy.space
  AllocateRaw σ space (.HEAP_NUMBER value)

/-- The function `HeapNumber::New`: `Heap::AllocateHeapNumber`, and the value is then
written. -/
def HeapNumber.New (σ : State) (value : Int) (policy : AllocationPolicy) :
    Except Error (Object × State) :=
  ALLOC_WITH_GC_SUPPORT (fun σ => AllocateHeapNumberNoGC σ value policy) σ

/-- The function `Heap::AllocateFunctionNoGC` for the fields the caller writes. -/
def AllocateFunctionNoGC (σ : State) (name params : Object) (body : FunctionBody)
    (policy : AllocationPolicy) : Except Error (Object × State) :=
  let space := policy.space
  AllocateRaw σ space (.FUNCTION name params body)

/-- The function `Function::New`: `Heap::AllocateFunction`, and the fields are then
written. -/
def Function.New (σ : State) (name params : Object) (body : FunctionBody)
    (policy : AllocationPolicy) : Except Error (Object × State) :=
  ALLOC_WITH_GC_SUPPORT (fun σ => AllocateFunctionNoGC σ name params body policy) σ

/-- The function `SymbolTable::Find`: the interned string with the given bytes, or
`nullptr`. -/
def SymbolTable_Find (σ : State) (key : String) : Object :=
  match σ.symbol_table.find? (fun sym =>
      match String.Value σ sym with
      | .ok value => decide (value = key)
      | .error _ => false) with
  | some sym => sym
  | none => nullptr

/-- The function `Heap::LookupSymbol`, which is `String::NewSymbol`; the string of a
new symbol is allocated by `Heap::AllocateSymbol`, in the old space. -/
def String.NewSymbol (σ : State) (value : String) : Except Error (Object × State) :=
  let search := SymbolTable_Find σ value
  if search ≠ nullptr then .ok (search, σ)
  else do
    let (result, σ) ← AllocateString σ value .TENURED
    pure (result, { σ with symbol_table := result :: σ.symbol_table })

/-! ## Conversion to strings (`ToStringVisitor`) -/

section

variable (F : FloatOps)

/-- The function `HashTable::IterateHashTableBody` for a visitor that appends text;
the first argument counts the iterations left of `for (i = 0; i < capacity; i++)`. -/
def IterateHashTableBodyLoop (visit : Object → Object → Except Error String) (σ : State)
    (t : Object) (elements_size : Int) : Nat → Int → Int → String → Except Error String
  | 0, _, _, builder => pure builder
  | n + 1, i, passed_elements_size, builder => do
    let index := HashTable.EntryToIndex i
    let key ← Array.Get σ t index
    if !IsUndefined key then
      let builder := builder ++ (← visit key (← Array.Get σ t (index + 1)))
      if passed_elements_size + 1 = elements_size then pure builder
      else IterateHashTableBodyLoop visit σ t elements_size n (i + 1)
            (passed_elements_size + 1) builder
    else IterateHashTableBodyLoop visit σ t elements_size n (i + 1) passed_elements_size builder

def IterateHashTableBody (visit : Object → Object → Except Error String) (σ : State)
    (t : Object) : Except Error String := do
  let elements_size ← HashTable.ElementsSize F σ t
  if elements_size = 0 then pure ""
  else
    let capacity ← HashTable.Capacity F σ t
    IterateHashTableBodyLoop visit σ t elements_size capacity.toNat 0 0 ""

/-- The elements field of a `KSObject` (also of a string or a `KSArray`). -/
def KSObject.Elements (σ : State) (p : Object) : Except Error Object :=
  match σ.find p with
  | some (.KSOBJECT elements) => .ok elements
  | some (.STRING elements _) => .ok elements
  | some (.KSARRAY elements _ _) => .ok elements
  | _ => .error .BadCast

/-- The text `ToStringVisitor::Visit` appends for a value. -/
def ToStdString : Nat → State → Object → Except Error String
  | 0, _, _ => .error .OutOfFuel
  | fuel + 1, σ, obj =>
    if IsString σ obj then String.Value σ obj
    else if obj = Constant.kBoolTrue then pure "true"
    else if obj = Constant.kBoolFalse then pure "false"
    else if obj = Constant.kNull then pure "null"
    else if obj = Constant.kUndefined then pure "undefined"
    else if IsDouble obj then fp (F.to_string obj)
    else if IsInt32 obj then pure (IntToString (Int32.Value obj))
    else
      match σ.deref obj with
      | .error e => .error e
      | .ok (.ARRAY slots) => do
        let items ← slots.mapM (ToStdString fuel σ)
        pure ("[" ++ ", ".intercalate items ++ "]")
      | .ok (.KSARRAY _ _ array) => ToStdString fuel σ array
      | .ok (.FUNCTION _ _ _) => pure "[[function]]"
      | .ok (.HEAP_NUMBER value) => pure (IntToString value)
      | .ok (.STRING _ _) => .error .Unreachable
      | .ok (.KSOBJECT elements) => do
        let body ← IterateHashTableBody F
          (fun key value => do
            let k ← ToStdString fuel σ key
            let v ← ToStdString fuel σ value
            pure (k ++ ": " ++ v ++ ", "))
          σ elements
        let size ← HashTable.ElementsSize F σ elements
        let body := if size ≠ 0 then body.dropRight 2 else body
        pure ("\x7b" ++ body ++ "\x7d")

/-- The function `Object::ToString`. -/
def ToString (fuel : Nat) (σ : State) (p : Object) : Except Error (Object × State) :=
  if IsString σ p then pure (p, σ)
  else do
    let builder ← ToStdString F fuel σ p
    String.New σ builder .NOT_TENURED

/-- The function `Object::ToBoolean`. -/
def ToBoolean (σ : State) (p : Object) : Except Error Object :=
  if IsBoolean p then pure p
  else if IsDouble p then do
    let z ← fp (F.ofInt 0)
    if (← fp (F.eq p z)) || (← fp (F.isnan p)) then pure (Constant.Boolean false)
    else pure (Constant.Boolean true)
  else if p = Constant.kNull ∨ p = Constant.kUndefined then pure (Constant.Boolean false)
  else if IsInt32 p then pure (Constant.Boolean (decide (Int32.Value p ≠ 0)))
  else
    match σ.deref p with
    | .error e => .error e
    | .ok (.KSOBJECT _) => pure (Constant.Boolean true)
    | .ok (.STRING _ value) => pure (Constant.Boolean (decide (value.length ≠ 0)))
    | .ok (.ARRAY slots) => pure (Constant.Boolean (decide (slots.length ≠ 0)))
    | .ok (.KSARRAY _ length _) => pure (Constant.Boolean (decide (length ≠ 0)))
    | .ok (.FUNCTION _ _ _) => pure (Constant.Boolean false)
    | .ok (.HEAP_NUMBER value) => pure (Constant.Boolean (decide (value ≠ 0)))

/-- The function `Object::ToNumber`. -/
def ToNumber (σ : State) (p : Object) : Except Error Object :=
  if IsNumber σ p then pure p
  else if p = Constant.kBoolTrue then pure (Int32.Make 1)
  else if p = Constant.kBoolFalse then pure (Int32.Make 0)
  else if p = Constant.kNull ∨ p = Constant.kUndefined then pure Double.NaN
  else
    match σ.deref p with
    | .error e => .error e
    | .ok (.STRING _ value) => do
      let d ← StringToDouble F value
      pure (Double.Make d)
    | .ok (.ARRAY _) => pure Double.NaN
    | .ok (.KSARRAY _ _ _) => pure Double.NaN
    | .ok (.FUNCTION _ _ _) => pure Double.NaN
    | .ok (.KSOBJECT _) => pure Double.NaN
    | .ok (.HEAP_NUMBER _) => .error .Unreachable

end

/-! ## Objects and arrays of the language (`KSObject`, `KSArray`) -/

namespace KSObject

/-- The function `KSObject::SetElements`. -/
def SetElements (σ : State) (p elements : Object) : Except Error State :=
  match σ.find p with
  | some (.KSOBJECT _) => .ok (σ.store p (.KSOBJECT elements))
  | some (.STRING _ value) => .ok (σ.store p (.STRING elements value))
  | some (.KSARRAY _ length array) => .ok (σ.store p (.KSARRAY elements length array))
  | _ => .error .BadCast

/-- The function `Heap::AllocateKSObjectNoGC`. -/
def AllocateKSObjectNoGC (σ : State) (elements_size : Int) (policy : AllocationPolicy) :
    Except Error (Object × State) := do
  let space := policy.space
  let (properties, σ) ← AllocateHashTableNoGC σ elements_size policy
  AllocateRaw σ space (.KSOBJECT properties)

/-- The function `KSObject::New`, which is `Heap::AllocateKSObject`. -/
def New (σ : State) (elements_size : Int) (policy : AllocationPolicy) :
    Except Error (Object × State) :=
  ALLOC_WITH_GC_SUPPORT (fun σ => AllocateKSObjectNoGC σ elements_size policy) σ

end KSObject

namespace KSArray

def Length (σ : State) (p : Object) : Except Error Int :=
  match σ.find p with
  | some (.KSARRAY _ length _) => .ok length
  | _ => .error .BadCast

def SetLength (σ : State) (p : Object) (length : Int) : Except Error State :=
  match σ.find p with
  | some (.KSARRAY elements _ array) => .ok (σ.store p (.KSARRAY elements length array))
  | _ => .error .BadCast

/-- The function `KSArray::Elements`: the backing store. -/
def Elements (σ : State) (p : Object) : Except Error Object :=
  match σ.find p with
  | some (.KSARRAY _ _ array) => .ok array
  | _ => .error .BadCast

def SetElements (σ : State) (p elements : Object) : Except Error State :=
  match σ.find p with
  | some (.KSARRAY table length _) => .ok (σ.store p (.KSARRAY table length elements))
  | _ => .error .BadCast

def Capacity (σ : State) (p : Object) : Except Error Int := do
  Array.Length σ (← Elements σ p)

/-- The function `KSArray::Get`. -/
def Get (σ : State) (p : Object) (index : Int) : Except Error Object := do
  if index < (← Length σ p) then Array.Get σ (← Elements σ p) index
  else pure Constant.Undefined

/-- The function `KSArray::Set`. -/
def Set (σ : State) (p : Object) (index : Int) (value : Object) :
    Except Error (Object × State) := do
  Array.Set σ (← Elements σ p) index value

/-- The member function `KSArray::Push(Handle<Object>)`, the `NO_GC_FUNC` of the
static function `KSArray::Push`. -/
def PushNoGC (σ : State) (p value : Object) : Except Error State := do
  let current_length ← Length σ p
  let σ ←
    if current_length ≥ (← Capacity σ p) then do
      let length := current_length + 1 + current_length / 2
      let (new_array, σ) ← AllocateArrayNoGC σ length .NOT_TENURED
      let σ ← Array.Copy σ new_array (← Elements σ p)
      SetElements σ p new_array
    else pure σ
  let σ ← SetLength σ p (current_length + 1)
  let (_, σ) ← Array.Set σ (← Elements σ p) current_length value
  pure σ

/-- The static function `KSArray::Push(Handle<KSArray>, Handle<Object>)`. -/
def Push (σ : State) (p value : Object) : Except Error State :=
  CALL_WITH_GC_SUPPORT (fun σ => PushNoGC σ p value) σ

/-- The function `Heap::AllocateKSArrayNoGC`. -/
def AllocateKSArrayNoGC (σ : State) (length : Int) (policy : AllocationPolicy) :
    Except Error (Object × State) := do
  let (elements, σ) ← AllocateArrayNoGC σ length policy
  let space := policy.space
  AllocateRaw σ space (.KSARRAY σ.empty_hash_table length elements)

/-- The function `KSArray::New`, which is `Heap::AllocateKSArray`. -/
def New (σ : State) (length : Int) (policy : AllocationPolicy) :
    Except Error (Object × State) :=
  ALLOC_WITH_GC_SUPPORT (fun σ => AllocateKSArrayNoGC σ length policy) σ

end KSArray

section

variable (F : FloatOps)

/-- The property interceptor installed by `Runtime::InstallNativeProperties`. -/
def RuntimeInterceptor (σ : State) (obj key : Object) : Except Error (Handle × State) := do
  let name ← String.Value σ key
  if IsKSArray σ obj then
    if name = "length" then
      let (l, σ) := MakeHandle σ (Int32.Make (← KSArray.Length σ obj))
      pure (some l, σ)
    else if name = "push" then pure (some (.fixed σ.array_push_fn), σ)
    else pure (none, σ)
  else if IsString σ obj then
    if name = "length" then
      let (l, σ) := MakeHandle σ (Int32.Make (← String.Length σ obj))
      pure (some l, σ)
    else pure (none, σ)
  else pure (none, σ)

/-- The function `KSObject::GetProperty`. -/
def KSObject.GetProperty (fuel : Nat) (σ : State) (p key : Object) :
    Except Error (Object × State) := do
  let (str_key, σ) ← ToString F fuel σ key
  let (result, σ) ← RuntimeInterceptor σ p str_key
  match result with
  | some l => pure (← σ.read l, σ)
  | none =>
    let value ← HashTable.Search F σ (← KSObject.Elements σ p) str_key
    if value ≠ nullptr then pure (value, σ)
    else pure (Constant.Undefined, σ)

/-- The member function `KSObject::SetProperty(Object*, Object*)`, the `NO_GC_FUNC` of
the static function `KSObject::SetProperty`. -/
def KSObject.SetPropertyNoGC (fuel : Nat) (σ : State) (p key value : Object) :
    Except Error (Object × State) := do
  let elements ← KSObject.Elements σ p
  let (str_key, σ) ← ToString F fuel σ key
  let (table, σ) ← HashTable.Insert F fuel σ elements str_key value
  if table = elements then pure (value, σ)
  else
    let σ ← KSObject.SetElements σ p table
    pure (value, σ)

/-- The static function `KSObject::SetProperty(Handle<KSObject>, Handle<Object>,
Handle<Object>)`; the result of the member function is passed on. -/
def KSObject.SetProperty (fuel : Nat) (σ : State) (p key value : Object) :
    Except Error (Object × State) :=
  CALL_WITH_GC_SUPPORT (fun σ => KSObject.SetPropertyNoGC F fuel σ p key value) σ

end

/-! ## Binding contexts (`context.cpp`) -/

namespace Context

/-- The loop `for (it = chunk + i; it != chunk + stop; it += 2)` comparing the key
words with `name`: the offset of the first match. Running off the chunk is an
error. The first argument counts the iterations left. -/
def scanUp (chunk : List Object) (name : Object) (stop : Nat) :
    Nat → Nat → Except Error (Option Nat)
  | 0, i => if i = stop then pure none else .error .OutOfBounds
  | n + 1, i =>
    if i = stop then pure none
    else
      match chunk[i]? with
      | some w => if w = name then pure (some i) else scanUp chunk name stop n (i + 2)
      | none => .error .OutOfBounds

/-- The loop `for (it = chunk + i; it != chunk; it -= 2)` comparing the key words
with `name`. The first argument counts the iterations left. -/
def scanDown (chunk : List Object) (name : Object) : Nat → Nat → Except Error (Option Nat)
  | 0, i => if i = 0 then pure none else .error .OutOfBounds
  | n + 1, i =>
    if i = 0 then pure none
    else
      match chunk[i]? with
      | some w =>
        if w = name then pure (some i)
        else if i < 2 then .error .OutOfBounds
        else scanDown chunk name n (i - 2)
      | none => .error .OutOfBounds

/-- The second loop of `Context::SearchCurrentContext`, over the chunks
`i, i - 1, ..., 0` given as the list of chunks before the last one, reversed. -/
def searchEarlier (c : Nat) (name : Object) : List (Nat × List Object) → Except Error Handle
  | [] => pure none
  | (k, chunk) :: rest => do
    match ← scanDown chunk name kContextChunkLimit (kContextChunkLimit - 2) with
    | some i => pure (some (.slot c k (i + 1)))
    | none => searchEarlier c name rest

/-- The function `Context::SearchCurrentContext`. -/
def SearchCurrentContext (σ : State) (c : Nat) (name : Object) : Except Error Handle :=
  match σ.contexts[c]? with
  | none => .error .OutOfBounds
  | some ctx =>
    match ctx.chunks.getLast? with
    | none => pure none
    | some last => do
      if ctx.chunk_start < 2 then .error .OutOfBounds
      else
        match ← scanUp last name (ctx.chunk_start - 2) kContextChunkLimit 0 with
        | some i => pure (some (.slot c (ctx.chunks.length - 1) (i + 1)))
        | none => searchEarlier c name (ctx.chunks.dropLast.enum.reverse)

/-- The second loop of `Context::Search`, over the chunks before the last one. -/
def searchFull (c : Nat) (name : Object) : List (Nat × List Object) → Except Error Handle
  | [] => pure none
  | (k, chunk) :: rest => do
    match ← scanUp chunk name kContextChunkLimit kContextChunkLimit 0 with
    | some i => pure (some (.slot c k (i + 1)))
    | none => searchFull c name rest

/-- The body of the loop of `Context::Search` for one context. -/
def searchOne (ctx : Context) (c : Nat) (name : Object) : Except Error Handle :=
  match ctx.chunks.getLast? with
  | none => pure none
  | some last => do
    match ← scanUp last name ctx.chunk_start kContextChunkLimit 0 with
    | some i => pure (some (.slot c (ctx.chunks.length - 1) (i + 1)))
    | none => searchFull c name ctx.chunks.dropLast.enum

/-- The function `Context::Search`: the walk up the parent chain; the first argument
bounds the length of the walk. -/
def SearchFrom (σ : State) (name : Object) : Nat → Option Nat → Except Error Handle
  | _, none => pure none
  | 0, some _ => .error .OutOfFuel
  | n + 1, some c =>
    match σ.contexts[c]? with
    | none => .error .OutOfBounds
    | some ctx => do
      match ← searchOne ctx c name with
      | some l => pure (some l)
      | none => SearchFrom σ name n ctx.parent

def Search (σ : State) (c : Nat) (name : Object) : Except Error Handle :=
  SearchFrom σ name σ.contexts.length (some c)

/-- The function `Context::Resolve`. -/
def Resolve (σ : State) (c : Nat) (name : Object) : Except Error Handle :=
  Search σ c name

/-- The function `Context::Push`. The words of a fresh chunk are not initialised by
the allocator; they are zero here and are never read before they are written. -/
def Push (σ : State) (c : Nat) (name value : Object) : Except Error (Handle × State) := do
  match ← SearchCurrentContext σ c name with
  | some l =>
    let σ ← σ.write l value
    pure (some l, σ)
  | none =>
    match σ.contexts[c]? with
    | none => .error .OutOfBounds
    | some ctx =>
      let ctx :=
        if ctx.chunks.isEmpty ∨ ctx.chunk_start = kContextChunkLimit then
          { ctx with chunks := ctx.chunks ++ [List.replicate kContextChunkLimit nullptr]
                     chunk_start := 0 }
        else ctx
      let k := ctx.chunks.length - 1
      let chunk := (ctx.chunks.getLast?.getD []).set ctx.chunk_start name
      let chunk := chunk.set (ctx.chunk_start + 1) value
      let ctx := { ctx with chunks := ctx.chunks.set k chunk
                            chunk_start := ctx.chunk_start + 2 }
      pure (some (.slot c k (ctx.chunk_start - 1)), { σ with contexts := σ.contexts.set c ctx })

/-- The constructor `Context::Context`. -/
def New (σ : State) (parent : Option Nat) : Nat × State :=
  (σ.contexts.length,
   { σ with contexts := σ.contexts ++ [{ parent := parent, chunks := [], chunk_start := 0,
                                          self := none }] })

def set_self (σ : State) (c : Nat) (self : Handle) : Except Error State :=
  match σ.contexts[c]? with
  | none => .error .OutOfBounds
  | some ctx => .ok { σ with contexts := σ.contexts.set c { ctx with self := self } }

/-- The destructor `Context::~Context`: the chunks are deallocated. -/
def Release (σ : State) (c : Nat) : State :=
  match σ.contexts[c]? with
  | none => σ
  | some ctx => { σ with contexts := σ.contexts.set c { ctx with released := true } }

/-- The accessor `Context::self`. -/
def selfOf (σ : State) (c : Nat) : Except Error Handle :=
  match σ.contexts[c]? with
  | none => .error .OutOfBounds
  | some ctx => .ok ctx.self

end Context

/-! ## Start-up (`Heap::Initialize`, `Runtime::InstallNative`) -/

/-- The state before `Heap::Initialize`. -/
def State.empty : State where
  objects := []
  empty_array := nullptr
  empty_hash_table := nullptr
  empty_string := nullptr
  symbol_table := []
  array_push_fn := nullptr
  contexts := []
  handles := []
  handle := 0
  out := []

/-- The context `Heap::GlobalContext()`: the first context created. -/
def GlobalContext : Nat := 0

/-- The function `Heap::Initialize`: the global context and the root list. -/
def Heap_Initialize : Except Error State := do
  let (_, σ) := Context.New State.empty none
  let (empty_array, σ) ← AllocateArrayNoGCInternal σ 0 .TENURED
  let σ := { σ with empty_array := empty_array }
  let (empty_hash_table, σ) ← AllocateHashTableNoGCInternal σ 0 .TENURED
  let σ := { σ with empty_hash_table := empty_hash_table }
  let (empty_string, σ) ← AllocateStringNoGCInternal σ "" .TENURED
  pure { σ with empty_string := empty_string }

/-- The function `Runtime::InstallNative`. -/
def Runtime_InstallNative (σ : State) : Except Error State := do
  let (name, σ) ← String.NewSymbol σ "push"
  let (params, σ) ← AllocateArray σ 0 .NOT_TENURED
  let (array_push_fn, σ) ← Function.New σ name params (.Body .push) .NOT_TENURED
  let σ := { σ with array_push_fn := array_push_fn }
  let (fn_name, σ) ← String.NewSymbol σ "Print"
  let (params, σ) ← AllocateArray σ 0 .NOT_TENURED
  let (print_fn, σ) ← Function.New σ fn_name params (.Body .Print) .NOT_TENURED
  let (_, σ) ← Context.Push σ GlobalContext fn_name print_fn
  pure σ

/-- The function `Kipper::Initialize`. -/
def Initialize : Except Error State := do
  Runtime_InstallNative (← Heap_Initialize)

/-! ## References (`reference.hh`, `reference.cpp`) -/

inductive ReferenceType where
  | ILLEGAL
  | NAMED
  | KEYED
  | DOTTED
  deriving DecidableEq, Repr

/-- A reference; the execution it belongs to is given by the current context. -/
structure Reference where
  expr : Expression
  base : Handle
  key : Handle
  type : ReferenceType

def Reference.IsPropertyReference (ref : Reference) : Bool :=
  decide (ref.type = .KEYED) || decide (ref.type = .DOTTED)

def Reference.GetBase (ref : Reference) : Handle := ref.base

/-- An entry of the execution log, kept for stating properties of runs: a statement
starts executing at a call depth, or a return statement at that depth has produced
its completion, with the value its handle holds (if the handle is not empty). -/
inductive Event where
  | execute (depth : Nat)
  | returned (depth : Nat) (value : Option Object)
  deriving DecidableEq, Repr

section Interpreter

variable (F : FloatOps)

/-- The function `Interpreter::Add`. -/
def Interpreter.Add (fuel : Nat) (σ : State) (left right : Handle) :
    Except Error (Handle × State) := do
  let l ← σ.get left
  let r ← σ.get right
  if IsString σ l || IsString σ r then
    let (ls, σ) ← ToString F fuel σ l
    let (rs, σ) ← ToString F fuel σ r
    let (s, σ) ← String.Concat σ ls rs
    let (h, σ) := MakeHandle σ s
    pure (some h, σ)
  else
    let v ← Double.MakeFit F (← fp (F.add (← ToDouble F σ l) (← ToDouble F σ r)))
    let (h, σ) := MakeHandle σ v
    pure (some h, σ)

/-- The functions `Interpreter::Sub`, `Mult`, `Div` and `Mod`, by the operation on
doubles they apply. -/
def Interpreter.Arith (op : Nat → Nat → Option Nat) (σ : State) (left right : Handle) :
    Except Error (Handle × State) := do
  let l ← σ.get left
  let r ← σ.get right
  let v ← Double.MakeFit F (← fp (op (← ToDouble F σ l) (← ToDouble F σ r)))
  let (h, σ) := MakeHandle σ v
  pure (some h, σ)

def Interpreter.Sub := Interpreter.Arith F F.sub

def Interpreter.Mult := Interpreter.Arith F F.mul

def Interpreter.Div := Interpreter.Arith F F.div

def Interpreter.Mod := Interpreter.Arith F F.fmod

/-- The function `Reference::SetValue`; `c` is the current context of the
execution. -/
def Reference.SetValue (fuel : Nat) (ref : Reference) (c : Nat) (σ : State) (value : Handle) :
    Except Error (Handle × State) :=
  match ref.type with
  | .NAMED =>
    match ref.base with
    | some l => do
      let σ ← σ.write l (← σ.get value)
      pure (ref.base, σ)
    | none =>
      match ref.expr with
      | .Identifier name => do
        let (_, σ) ← Context.Push σ c name (← σ.get value)
        pure (ref.base, σ)
      | _ => .error .NullDereference
  | .KEYED => do
    let base ← σ.get ref.base
    if IsKSArray σ base then
      let index ← ToInt32 F σ (← σ.get ref.key)
      let (r, σ) ← KSArray.Set σ base index (← σ.get value)
      let (h, σ) := MakeHandle σ r
      pure (some h, σ)
    else if IsKSObject σ base then
      let (_, σ) ← KSObject.SetProperty F fuel σ base (← σ.get ref.key) (← σ.get value)
      pure (value, σ)
    else .error .KSReferenceError
  | .DOTTED => do
    let base ← σ.get ref.base
    if IsKSObject σ base then
      let (_, σ) ← KSObject.SetProperty F fuel σ base (← σ.get ref.key) (← σ.get value)
      pure (value, σ)
    else .error .KSReferenceError
  | .ILLEGAL => .error .KSReferenceError

/-- The function `Reference::GetValue`. -/
def Reference.GetValue (fuel : Nat) (ref : Reference) (σ : State) :
    Except Error (Handle × State) :=
  match ref.type with
  | .NAMED => pure (ref.base, σ)
  | .KEYED => do
    let base ← σ.get ref.base
    if IsKSArray σ base then
      let v ← KSArray.Get σ base (← ToInt32 F σ (← σ.get ref.key))
      let (h, σ) := MakeHandle σ v
      pure (some h, σ)
    else if IsKSObject σ base then
      let (v, σ) ← KSObject.GetProperty F fuel σ base (← σ.get ref.key)
      let (h, σ) := MakeHandle σ v
      pure (some h, σ)
    else .error .KSReferenceError
  | .DOTTED => do
    let base ← σ.get ref.base
    if IsKSObject σ base then
      let (v, σ) ← KSObject.GetProperty F fuel σ base (← σ.get ref.key)
      let (h, σ) := MakeHandle σ v
      pure (some h, σ)
    else .error .KSReferenceError
  | .ILLEGAL => .error .KSReferenceError

/-- The loop of `Interpreter::Call` that binds the parameters:
`Push(params->Get(i), args->Get(i))` for `i`, `i + 1`, ...; the first argument counts
the iterations left. -/
def Interpreter.PushParams (c : Nat) (params : Object) (args : Handle) :
    Nat → Int → State → Except Error State
  | 0, _, σ => pure σ
  | n + 1, i, σ => do
    let name ← Array.Get σ params i
    let value ← KSArray.Get σ (← σ.get args) i
    let (_, σ) ← Context.Push σ c name value
    Interpreter.PushParams c params args n (i + 1) σ

/-- The part of `Interpreter::Call` that follows the test of the callee and precedes
the body: the handle of the result, the execution handler (a child context of
`context` and a handle scope), `self`, the parameters and `arguments_`. The result
is the handle for the return value, the new context, the cursor of the handle scope
to restore, and the state. -/
def Interpreter.CallPrologue (σ : State) (self : Handle) (params : Object) (args : Handle)
    (context : Nat) : Except Error (Location × Nat × Nat × State) := do
  let (return_val, σ) := MakeHandle σ nullptr
  let saved := σ.handle
  let (c, σ) := Context.New σ (some context)
  let σ ← Context.set_self σ c self
  let σ ← Interpreter.PushParams c params args (← Array.Length σ params).toNat 0 σ
  let (arguments_, σ) ← String.NewSymbol σ "arguments_"
  let (_, σ) ← Context.Push σ c arguments_ (← σ.get args)
  pure (return_val, c, saved, σ)

/-- The loop of the native `Print` over the arguments `i`, `i + 1`, ...: the text of
each is written to the output, with a separator after all but the last; the fourth
argument counts the iterations left. -/
def PrintLoop (fuel : Nat) (args : Handle) (len : Int) : Nat → Int → State → Except Error State
  | 0, _, σ => pure σ
  | n + 1, i, σ => do
    let (s, σ) ← ToString F fuel σ (← KSArray.Get σ (← σ.get args) i)
    let text ← String.Value σ s
    let σ := { σ with out := σ.out ++ [text] }
    let σ := if i < len - 1 then { σ with out := σ.out ++ [", "] } else σ
    PrintLoop fuel args len n (i + 1) σ

/-- The value stored by `++` and `--` (prefix and postfix) for the current value of
the target and the step `1` or `-1`: the representation of the operand is kept. -/
def Increment (σ : State) (value : Object) (step : Int) : Except Error (Object × State) :=
  if IsInt32 value then pure (Int32.Make (Int32.Value value + step), σ)
  else if IsHeapNumber σ value then do
    HeapNumber.New σ (HeapNumber.wrap ((← HeapNumber.Value σ value) + step)) .NOT_TENURED
  else do
    let v ← fp (F.add (← ToDouble F σ value) (← fp (F.ofInt step)))
    pure (Double.Make v, σ)

/-- The native functions of `runtime.cpp`. -/
def CallTemplate (fuel : Nat) (t : FunctionTemplate) (args : Handle) (c : Nat) (σ : State) :
    Except Error (Handle × State) :=
  match t with
  | .push => do
    match ← Context.selfOf σ c with
    | some self =>
      let (arg, σ) := MakeHandle σ (← KSArray.Get σ (← σ.get args) 0)
      let σ ← KSArray.Push σ (← σ.read self) (← σ.read arg)
      pure (Constant.UndefinedHandle, σ)
    | none => pure (none, σ)
  | .Print => do
    let len ← KSArray.Length σ (← σ.get args)
    let σ ← PrintLoop F fuel args len len.toNat 0 σ
    pure (Constant.UndefinedHandle, { σ with out := σ.out ++ ["\n"] })

/-- The handler `HANDLE_LOOP_COMPLETION`: the completion the loop statement returns
at once, if any. -/
def HANDLE_LOOP_COMPLETION (completion : Completion) : Option Completion :=
  match completion.type with
  | .BREAK => some {}
  | .RETURN => some completion
  | .CONTINUE => none
  | .NORMAL => none

/-- The switch of `Assignment::Evaluate` on the operator, once the reference and the
value are there. -/
def Assignment.Apply (fuel : Nat) (op : Token.Kind) (ref : Reference) (val : Handle) (c : Nat)
    (σ : State) : Except Error (Handle × State) :=
  match op with
  | .ASSIGN => Reference.SetValue F fuel ref c σ val
  | .ADD_ASSIGN => do
    let (cur, σ) ← Reference.GetValue F fuel ref σ
    let (r, σ) ← Interpreter.Add F fuel σ cur val
    Reference.SetValue F fuel ref c σ r
  | .SUB_ASSIGN => do
    let (cur, σ) ← Reference.GetValue F fuel ref σ
    let (r, σ) ← Interpreter.Sub F σ cur val
    Reference.SetValue F fuel ref c σ r
  | .MUL_ASSIGN => do
    let (cur, σ) ← Reference.GetValue F fuel ref σ
    let (r, σ) ← Interpreter.Mult F σ cur val
    Reference.SetValue F fuel ref c σ r
  | .DIV_ASSIGN => do
    let (cur, σ) ← Reference.GetValue F fuel ref σ
    let (r, σ) ← Interpreter.Div F σ cur val
    Reference.SetValue F fuel ref c σ r
  | .MOD_ASSIGN => do
    let (cur, σ) ← Reference.GetValue F fuel ref σ
    let (r, σ) ← Interpreter.Mod F σ cur val
    Reference.SetValue F fuel ref c σ r
  | _ => .error .Unreachable

/-- The switch of `BinaryExpression::Evaluate` on the operator, once both operands
are evaluated. -/
def BinaryExpression.Apply (fuel : Nat) (op : Token.Kind) (σ : State)
    (left_value right_value : Handle) : Except Error (Handle × State) :=
  match op with
  | .PLUS => Interpreter.Add F fuel σ left_value right_value
  | .SUB => Interpreter.Sub F σ left_value right_value
  | .MUL => Interpreter.Mult F σ left_value right_value
  | .DIV => Interpreter.Div F σ left_value right_value
  | .MOD => Interpreter.Mod F σ left_value right_value
  | .EQ => do
    let b ← Equals F σ (← σ.get left_value) (← σ.get right_value)
    pure (Constant.BooleanHandle b, σ)
  | .NE => do
    let b ← Equals F σ (← σ.get left_value) (← σ.get right_value)
    pure (Constant.BooleanHandle (!b), σ)
  | .LOGIC_OR => do
    if IsTrue (← ToBoolean F σ (← σ.get left_value)) then pure (Constant.BooleanHandle true, σ)
    else pure (Constant.BooleanHandle (IsTrue (← ToBoolean F σ (← σ.get right_value))), σ)
  | .LOGIC_AND => do
    if IsTrue (← ToBoolean F σ (← σ.get left_value)) then
      pure (Constant.BooleanHandle (IsTrue (← ToBoolean F σ (← σ.get right_value))), σ)
    else pure (Constant.BooleanHandle false, σ)
  | .LT => do
    let l ← ToDouble F σ (← σ.get left_value)
    let r ← ToDouble F σ (← σ.get right_value)
    pure (Constant.BooleanHandle (← fp (F.lt l r)), σ)
  | .GT => do
    let l ← ToDouble F σ (← σ.get left_value)
    let r ← ToDouble F σ (← σ.get right_value)
    pure (Constant.BooleanHandle (← fp (F.lt r l)), σ)
  | .LTE => do
    let l ← ToDouble F σ (← σ.get left_value)
    let r ← ToDouble F σ (← σ.get right_value)
    pure (Constant.BooleanHandle (← fp (F.le l r)), σ)
  | .GTE => do
    let l ← ToDouble F σ (← σ.get left_value)
    let r ← ToDouble F σ (← σ.get right_value)
    pure (Constant.BooleanHandle (← fp (F.le r l)), σ)
  | _ => .error .Unreachable

/-- The cases `PLUS`, `SUB` and `NOT` of `UnaryExpression::Evaluate`, once the target
is evaluated. -/
def UnaryExpression.Apply (op : Token.Kind) (σ : State) (t : Handle) :
    Except Error (Handle × State) :=
  match op with
  | .PLUS => do
    let (h, σ) := MakeHandle σ (← ToNumber F σ (← σ.get t))
    pure (some h, σ)
  | .SUB => do
    let v ← fp (F.neg (← ToDouble F σ (← σ.get t)))
    let (h, σ) := MakeHandle σ (Double.Make v)
    pure (some h, σ)
  | .NOT => do pure (Constant.BooleanHandle (!IsTrue (← σ.get t)), σ)
  | _ => .error .Unreachable

/-- The common part of `++` and `--`, prefix and postfix, once the reference is
there: read the value, store the stepped value. The result is the handle of the
value read and the handle `SetValue` returns. -/
def StepReference (fuel : Nat) (ref : Reference) (c : Nat) (σ : State) (step : Int) :
    Except Error (Handle × Handle × State) := do
  let (value, σ) ← Reference.GetValue F fuel ref σ
  let (next, σ) ← Increment F σ (← σ.get value) step
  let (h, σ) := MakeHandle σ next
  let (r, σ) ← Reference.SetValue F fuel ref c σ (some h)
  pure (value, r, σ)

/-- The part of `FunctionCall::Evaluate` between the evaluation of the arguments and
the call: for the function named `Assert` the location is pushed as a last
argument. -/
def FunctionCall.PushLocation (σ : State) (name arguments : Object) (loc : String) :
    Except Error State := do
  if (← String.Value σ name) = "Assert" then
    let (text, σ) ← String.New σ loc .TENURED
    let (h, σ) := MakeHandle σ text
    KSArray.Push σ arguments (← σ.read h)
  else pure σ

mutual

/-- The constructor `Reference::Reference(Expression*, Execution&)`. -/
def Reference.New (fuel : Nat) (expr : Expression) (c d : Nat) (σ : State) (log : List Event) :
    Except Error (Reference × State × List Event) :=
  match fuel with
  | 0 => .error .OutOfFuel
  | fuel + 1 =>
    match expr with
    | .Identifier name => do
      let base ← Context.Resolve σ c name
      pure ({ expr := expr, base := base, key := none, type := .NAMED }, σ, log)
    | .MemberAccess target member type => do
      let (base, σ, log) ← Evaluate fuel target c d σ log
      let (key, σ, log) ← Evaluate fuel member c d σ log
      pure ({ expr := expr, base := base, key := key,
              type := if type = .KEYED then .KEYED else .DOTTED }, σ, log)
    | _ => .error .KSReferenceError
termination_by structural fuel

/-- The loop `for (i = ...; i < size; i++) array->Set(i, elements[i]->Evaluate(exec).Get())`
of `ArrayLiteral::Evaluate` and of `FunctionCall::Evaluate`. -/
def EvaluateElements (fuel : Nat) (elements : List Expression) (array : Object) (i : Int)
    (c d : Nat) (σ : State) (log : List Event) : Except Error (State × List Event) :=
  match fuel with
  | 0 => .error .OutOfFuel
  | fuel + 1 =>
    match elements with
    | [] => pure (σ, log)
    | element :: rest => do
      let (h, σ, log) ← Evaluate fuel element c d σ log
      let (_, σ) ← KSArray.Set σ array i (← σ.get h)
      EvaluateElements fuel rest array (i + 1) c d σ log
termination_by structural fuel

/-- The loop of `ObjectLiteral::Evaluate` over the properties. -/
def EvaluateProperties (fuel : Nat) (properties : List (Expression × Expression))
    (object : Object) (c d : Nat) (σ : State) (log : List Event) :
    Except Error (State × List Event) :=
  match fuel with
  | 0 => .error .OutOfFuel
  | fuel + 1 =>
    match properties with
    | [] => pure (σ, log)
    | (name, value) :: rest => do
      let (key, σ, log) ← Evaluate fuel name c d σ log
      let (v, σ, log) ← Evaluate fuel value c d σ log
      let (_, σ) ← KSObject.SetProperty F fuel σ object (← σ.get key) (← σ.get v)
      EvaluateProperties fuel rest object c d σ log
termination_by structural fuel

/-- The functions `Evaluate` of the expression nodes (`ast.cpp`); `c` is the current
context of the execution and `d` the call depth. -/
def Evaluate (fuel : Nat) (expr : Expression) (c d : Nat) (σ : State) (log : List Event) :
    Except Error (Handle × State × List Event) :=
  match fuel with
  | 0 => .error .OutOfFuel
  | fuel + 1 =>
    match expr with
    | .Assignment target value op => do
      let (ref, σ, log) ← Reference.New fuel target c d σ log
      let (val, σ, log) ← Evaluate fuel value c d σ log
      let (h, σ) ← Assignment.Apply F fuel op ref val c σ
      pure (h, σ, log)
    | .ConditionalExpression condition then_expr else_expr => do
      let (cond, σ, log) ← Evaluate fuel condition c d σ log
      if IsTrue (← ToBoolean F σ (← σ.get cond)) then Evaluate fuel then_expr c d σ log
      else Evaluate fuel else_expr c d σ log
    | .BinaryExpression left right op => do
      let (left_value, σ, log) ← Evaluate fuel left c d σ log
      let (right_value, σ, log) ← Evaluate fuel right c d σ log
      let (h, σ) ← BinaryExpression.Apply F fuel op σ left_value right_value
      pure (h, σ, log)
    | .UnaryExpression target op =>
      if op = .INC ∨ op = .DEC then do
        let (ref, σ, log) ← Reference.New fuel target c d σ log
        let (_, r, σ) ← StepReference F fuel ref c σ (if op = .INC then 1 else -1)
        pure (r, σ, log)
      else do
        let (t, σ, log) ← Evaluate fuel target c d σ log
        let (h, σ) ← UnaryExpression.Apply F op σ t
        pure (h, σ, log)
    | .PostfixExpression target op => do
      let (ref, σ, log) ← Reference.New fuel target c d σ log
      let (value, _, σ) ← StepReference F fuel ref c σ (if op = .INC then 1 else -1)
      pure (value, σ, log)
    | .MemberAccess target member type => do
      let (base, σ, log) ← Evaluate fuel target c d σ log
      let (key, σ, log) ← Evaluate fuel member c d σ log
      let ref : Reference := { expr := expr, base := base, key := key,
                               type := if type = .KEYED then .KEYED else .DOTTED }
      let (h, σ) ← Reference.GetValue F fuel ref σ
      pure (h, σ, log)
    | .IntLiteral value => pure (some (.fixed value), σ, log)
    | .DoubleLiteral value => pure (some (.fixed value), σ, log)
    | .StringLiteral value => pure (some (.fixed value), σ, log)
    | .BooleanLiteral value => pure (some (.fixed value), σ, log)
    | .ArrayLiteral elements => do
      let (array, σ) ← KSArray.New σ (Int.ofNat elements.length) .NOT_TENURED
      let (result, σ) := MakeHandle σ array
      let (σ, log) ← EvaluateElements fuel elements array 0 c d σ log
      pure (some result, σ, log)
    | .ObjectLiteral properties => do
      let (obj, σ) ← KSObject.New σ (Int.ofNat properties.length) .NOT_TENURED
      let (object, σ) := MakeHandle σ obj
      let (σ, log) ← EvaluateProperties fuel properties obj c d σ log
      pure (some object, σ, log)
    | .UndefinedLiteral => pure (Constant.UndefinedHandle, σ, log)
    | .Identifier name => do
      match ← Context.Resolve σ c name with
      | some l => pure (some l, σ, log)
      | none => pure (Constant.UndefinedHandle, σ, log)
    | .IdentifierName name => pure (some (.fixed name), σ, log)
    | .FunctionCall target args loc => do
      let (ref, σ, log) ← Reference.New fuel target c d σ log
      let (result, σ) ← Reference.GetValue F fuel ref σ
      match σ.find (← σ.get result) with
      | some (.FUNCTION name _ _) =>
        let self : Handle := if ref.IsPropertyReference then ref.GetBase else none
        let (array, σ) ← KSArray.New σ (Int.ofNat args.length) .TENURED
        let (arguments, σ) := MakeHandle σ array
        let (σ, log) ← EvaluateElements fuel args array 0 c d σ log
        let σ ← FunctionCall.PushLocation σ name (← σ.read arguments) loc
        Call fuel self result (some arguments) c d σ log
      | _ => .error .KSNotFunctionError
termination_by structural fuel

/-- The loop of `BlockStatement::Execute`. -/
def ExecuteStatements (fuel : Nat) (stmts : List Statement) (c d : Nat) (σ : State)
    (log : List Event) : Except Error (Completion × State × List Event) :=
  match fuel with
  | 0 => .error .OutOfFuel
  | fuel + 1 =>
    match stmts with
    | [] => pure ({}, σ, log)
    | stmt :: rest => do
      let (completion, σ, log) ← Execute fuel stmt c d σ log
      if completion.type ≠ .NORMAL then pure (completion, σ, log)
      else ExecuteStatements fuel rest c d σ log
termination_by structural fuel

/-- The loops of `WhileStatement::Execute` and `ForStatement::Execute`: the test of
the condition (none: `for (;;)`), the body, `HANDLE_LOOP_COMPLETION`, the update. -/
def ExecuteLoop (fuel : Nat) (condition update : Option Expression) (loop_stmt : Statement)
    (c d : Nat) (σ : State) (log : List Event) :
    Except Error (Completion × State × List Event) :=
  match fuel with
  | 0 => .error .OutOfFuel
  | fuel + 1 => do
    let (go, σ, log) ←
      (match condition with
       | some e => do
         let (h, σ, log) ← Evaluate fuel e c d σ log
         pure (IsTrue (← σ.get h), σ, log)
       | none => pure (true, σ, log) : Except Error (Bool × State × List Event))
    if go then
      let (completion, σ, log) ← Execute fuel loop_stmt c d σ log
      match HANDLE_LOOP_COMPLETION completion with
      | some r => pure (r, σ, log)
      | none =>
        match update with
        | some e => do
          let (_, σ, log) ← Evaluate fuel e c d σ log
          ExecuteLoop fuel condition update loop_stmt c d σ log
        | none => ExecuteLoop fuel condition update loop_stmt c d σ log
    else pure ({}, σ, log)
termination_by structural fuel

/-- The functions `Execute` of the statement nodes (`ast.cpp`). Every statement that
starts is entered in the log. -/
def Execute (fuel : Nat) (stmt : Statement) (c d : Nat) (σ : State) (log : List Event) :
    Except Error (Completion × State × List Event) :=
  match fuel with
  | 0 => .error .OutOfFuel
  | fuel + 1 =>
    match stmt with
    | .BlockStatement stmts => do
      let saved := σ.handle
      let (current_context, σ) := Context.New σ (some c)
      let (completion, σ, log) ←
        ExecuteStatements fuel stmts current_context d σ (log ++ [.execute d])
      pure (completion, Context.Release { σ with handle := saved } current_context, log)
    | .IfStatement condition then_stmt else_stmt => do
      let (h, σ, log) ← Evaluate fuel condition c d σ (log ++ [.execute d])
      if IsTrue (← σ.get h) then Execute fuel then_stmt c d σ log
      else
        match else_stmt with
        | some s => Execute fuel s c d σ log
        | none => pure ({}, σ, log)
    | .WhileStatement condition loop_stmt =>
      ExecuteLoop fuel (some condition) none loop_stmt c d σ (log ++ [.execute d])
    | .ForStatement init condition update loop_stmt => do
      let (σ, log) ←
        (match init with
         | some e => do
           let (_, σ, log) ← Evaluate fuel e c d σ (log ++ [.execute d])
           pure (σ, log)
         | none => pure (σ, log ++ [.execute d]) : Except Error (State × List Event))
      ExecuteLoop fuel condition update loop_stmt c d σ log
    | .ReturnStatement value =>
      match value with
      | some e => do
        let (h, σ, log) ← Evaluate fuel e c d σ (log ++ [.execute d])
        pure ({ type := .RETURN, value := h }, σ,
              log ++ [.returned d (match σ.get h with | .ok v => some v | .error _ => none)])
      | none =>
        pure ({ type := .RETURN }, σ,
              log ++ [.execute d, .returned d (some Constant.Undefined)])
    | .BreakStatement => pure ({ type := .BREAK }, σ, log ++ [.execute d])
    | .ContinueStatement => pure ({ type := .CONTINUE }, σ, log ++ [.execute d])
    | .ExpressionStatement expr => do
      let (_, σ, log) ← Evaluate fuel expr c d σ (log ++ [.execute d])
      pure ({}, σ, log)
termination_by structural fuel

/-- The loop of `Interpreter::Call` over the statements of the body. -/
def ExecuteBody (fuel : Nat) (stmts : List Statement) (return_val : Location) (c d : Nat)
    (σ : State) (log : List Event) : Except Error (Handle × State × List Event) :=
  match fuel with
  | 0 => .error .OutOfFuel
  | fuel + 1 =>
    match stmts with
    | [] => pure (Constant.UndefinedHandle, σ, log)
    | stmt :: rest => do
      let (completion, σ, log) ← Execute fuel stmt c d σ log
      if completion.type = .RETURN then
        let σ ← σ.write return_val (← σ.get completion.value)
        pure (some return_val, σ, log)
      else ExecuteBody fuel rest return_val c d σ log
termination_by structural fuel

/-- The function `Interpreter::Call`; `d` is the call depth of the caller, and the
body runs at depth `d + 1`. -/
def Call (fuel : Nat) (self obj args : Handle) (context d : Nat) (σ : State)
    (log : List Event) : Except Error (Handle × State × List Event) :=
  match fuel with
  | 0 => .error .OutOfFuel
  | fuel + 1 =>
    match obj with
    | none => .error .KSNotFunctionError
    | some l => do
      match σ.find (← σ.read l) with
      | some (.FUNCTION _ params body) =>
        let (return_val, c, saved, σ) ← Interpreter.CallPrologue σ self params args context
        match body with
        | .Body t => do
          let (h, σ) ← CallTemplate F fuel t args c σ
          pure (h, Context.Release { σ with handle := saved } c, log)
        | .KSBody stmts => do
          let (h, σ, log) ← ExecuteBody fuel stmts return_val c (d + 1) σ log
          pure (h, Context.Release { σ with handle := saved } c, log)
      | _ => .error .KSNotFunctionError
termination_by structural fuel

end

/-- The loop of `FunctionDecl::Evaluate` that stores the parameter names. -/
def FunctionDecl.SetParams (params_array : Object) : List Object → Int → State →
    Except Error State
  | [], _, σ => pure σ
  | param :: rest, i, σ => do
    let (_, σ) ← Array.Set σ params_array i param
    FunctionDecl.SetParams params_array rest (i + 1) σ

/-- The function `FunctionDecl::Evaluate`. -/
def FunctionDecl.Evaluate (decl : FunctionDecl) (c : Nat) (σ : State) : Except Error State := do
  let (array, σ) ← AllocateArray σ (Int.ofNat decl.params.length) .TENURED
  let (params_array, σ) := MakeHandle σ array
  let σ ← FunctionDecl.SetParams array decl.params 0 σ
  let (fn, σ) ← Function.New σ decl.name (← σ.read params_array) (.KSBody decl.body) .TENURED
  let (_, σ) ← Context.Push σ c decl.name fn
  pure σ

/-- The first loop of `TranslationUnit::Evaluate`. -/
def TranslationUnit.Declare (c : Nat) : List FunctionDecl → State → Except Error State
  | [], σ => pure σ
  | decl :: rest, σ => do
    TranslationUnit.Declare c rest (← FunctionDecl.Evaluate decl c σ)

/-- The second loop of `TranslationUnit::Evaluate`: the completions are dropped. -/
def TranslationUnit.Run (fuel : Nat) (c d : Nat) : List Statement → State → List Event →
    Except Error (State × List Event)
  | [], σ, log => pure (σ, log)
  | stmt :: rest, σ, log => do
    let (_, σ, log) ← Execute F fuel stmt c d σ log
    TranslationUnit.Run fuel c d rest σ log

/-- The function `Interpreter::Evaluate(Node*, Context*)` on a translation unit. The
result also names the context the unit ran in, and the state is the one in which the
last statement ended: the context of the unit is still there, so that its bindings
can be looked at. -/
def Interpreter.Evaluate (fuel : Nat) (ast : TranslationUnit) (context : Nat) (σ : State) :
    Except Error (Handle × Nat × State × List Event) := do
  let saved := σ.handle
  let (c, σ) := Context.New σ (some context)
  let σ ← TranslationUnit.Declare c ast.fn_decls σ
  let (σ, log) ← TranslationUnit.Run F fuel c 0 ast.stmts σ []
  pure (Constant.UndefinedHandle, c, { σ with handle := saved }, log)

end Interpreter

/-! ## Scenarios

Concrete runs used by the theorems below. Names are interned first, as the parser
does, and the syntax trees are built from the interned words. -/

/-- The word bound to a name as `Context::Resolve` finds it from the context `c`, or
`none` when the handle is empty. -/
def State.lookup (σ : State) (c : Nat) (name : Object) : Except Error (Option Object) := do
  match ← Context.Resolve σ c name with
  | some l => pure (some (← σ.read l))
  | none => pure none

/-- The number of bindings stored in a context: eight for every chunk before the
last, and the pairs below `chunk_start_` in the last. -/
def Context.count (ctx : Context) : Nat :=
  (ctx.chunks.length - 1) * (kContextChunkLimit / 2) + ctx.chunk_start / 2

/-- The expression statement `name = value;`. -/
def Statement.assign (name : Object) (value : Expression) : Statement :=
  .ExpressionStatement (.Assignment (.Identifier name) value .ASSIGN)

/-- The integer literal `value`. -/
def Expression.int (value : Int) : Expression := .IntLiteral (Int32.Make value)

/-- The call `name()`. -/
def Expression.call0 (name : Object) : Expression := .FunctionCall (.Identifier name) [] ""

section Scenarios

variable (F : FloatOps)

/-- A fresh object with one bucket gets the property `k` with the double `0.0` as
value; the result is the value read back for `k`. -/
def Scenario.zeroProperty : Except Error Object := do
  let σ ← Initialize
  let (o, σ) ← KSObject.New σ 1 .NOT_TENURED
  let (k, σ) ← String.New σ "k" .NOT_TENURED
  let (_, σ) ← KSObject.SetProperty F 4 σ o k (Double.Make 0)
  let (v, _) ← KSObject.GetProperty F 4 σ o k
  pure v

/-- The sequence `Push(x, 1); Push(x, 2); Resolve(x)` on a fresh context: the word
`Resolve` yields and the number of bindings the context then stores. -/
def Scenario.pushTwice : Except Error (Option Object × Nat) := do
  let σ ← Initialize
  let (x, σ) ← String.NewSymbol σ "x"
  let (c, σ) := Context.New σ (some GlobalContext)
  let (_, σ) ← Context.Push σ c x (Int32.Make 1)
  let (_, σ) ← Context.Push σ c x (Int32.Make 2)
  let v ← σ.lookup c x
  match σ.contexts[c]? with
  | some ctx => pure (v, ctx.count)
  | none => .error .OutOfBounds

/-- Bind the names of the list, in order, to the Int32 words `0, 1, ...`. -/
def Scenario.pushAll (c : Nat) : List Object → Int → State → Except Error State
  | [], _, σ => pure σ
  | name :: rest, i, σ => do
    let (_, σ) ← Context.Push σ c name (Int32.Make i)
    Scenario.pushAll c rest (i + 1) σ

/-- Intern the strings of the list. -/
def Scenario.intern : List String → State → Except Error (List Object × State)
  | [], σ => pure ([], σ)
  | s :: rest, σ => do
    let (w, σ) ← String.NewSymbol σ s
    let (ws, σ) ← Scenario.intern rest σ
    pure (w :: ws, σ)

/-- A context receives bindings for the given names, then `Push(names[i], 100)` for a
name that is already bound. The result: the handle of the existing binding of that
name (as `Resolve` finds it) and the number of bindings, before the push; the handle
the push returns, the word the old slot holds, and the number of bindings, after
it. -/
def Scenario.pushExisting (names : List String) (i : Nat) :
    Except Error (Handle × Nat × Handle × Option Object × Nat) := do
  let σ ← Initialize
  let (ws, σ) ← Scenario.intern names σ
  let (c, σ) := Context.New σ (some GlobalContext)
  let σ ← Scenario.pushAll c ws 0 σ
  match ws[i]?, σ.contexts[c]? with
  | some s, some before => do
    let old ← Context.Resolve σ c s
    let (h, σ) ← Context.Push σ c s (Int32.Make 100)
    match σ.contexts[c]?, old with
    | some after, some l => pure (old, before.count, h, some (← σ.read l), after.count)
    | _, _ => .error .OutOfBounds
  | _, _ => .error .OutOfBounds

/-- The script `function f() { return x; } function g() { x = 1; return f(); }
function h() { x = 2; return f(); } r1 = g(); r2 = h();`: the words bound to `r1`,
`r2` and `x` in the context of the unit after the run. -/
def Scenario.dynamicScope : Except Error (Option Object × Option Object × Option Object) := do
  let σ ← Initialize
  let (ws, σ) ← Scenario.intern ["x", "f", "g", "h", "r1", "r2"] σ
  match ws with
  | [x, f, g, h, r1, r2] => do
    let unit : TranslationUnit :=
      { fn_decls :=
          [{ name := f, params := [], body := [.ReturnStatement (some (.Identifier x))] },
           { name := g, params := [],
             body := [.assign x (.int 1), .ReturnStatement (some (.call0 f))] },
           { name := h, params := [],
             body := [.assign x (.int 2), .ReturnStatement (some (.call0 f))] }]
        stmts := [.assign r1 (.call0 g), .assign r2 (.call0 h)] }
    let (_, c, σ, _) ← Interpreter.Evaluate F 16 unit GlobalContext σ
    pure (← σ.lookup c r1, ← σ.lookup c r2, ← σ.lookup c x)
  | _ => .error .Unreachable

/-- The expression `x = 5` with `x` bound nowhere: the handle the assignment
evaluates to, and the word then bound to `x`. -/
def Scenario.assignFresh : Except Error (Handle × Option Object) := do
  let σ ← Initialize
  let (x, σ) ← String.NewSymbol σ "x"
  let (c, σ) := Context.New σ (some GlobalContext)
  let (h, σ, _) ← Evaluate F 8 (.Assignment (.Identifier x) (.int 5) .ASSIGN) c 0 σ []
  pure (h, ← σ.lookup c x)

/-- The script `y = (x = 5);` with `x` and `y` bound nowhere: the word bound to `y`
after the run. -/
def Scenario.assignChain : Except Error (Option Object) := do
  let σ ← Initialize
  let (ws, σ) ← Scenario.intern ["x", "y"] σ
  match ws with
  | [x, y] => do
    let unit : TranslationUnit :=
      { fn_decls := []
        stmts := [.assign y (.Assignment (.Identifier x) (.int 5) .ASSIGN)] }
    let (_, c, σ, _) ← Interpreter.Evaluate F 16 unit GlobalContext σ
    σ.lookup c y
  | _ => .error .Unreachable

/-- The script `x = 1; y = x++;`: the words bound to `x` and `y` after the run. -/
def Scenario.postIncrement : Except Error (Option Object × Option Object) := do
  let σ ← Initialize
  let (ws, σ) ← Scenario.intern ["x", "y"] σ
  match ws with
  | [x, y] => do
    let unit : TranslationUnit :=
      { fn_decls := []
        stmts := [.assign x (.int 1),
                  .assign y (.PostfixExpression (.Identifier x) .INC)] }
    let (_, c, σ, _) ← Interpreter.Evaluate F 16 unit GlobalContext σ
    pure (← σ.lookup c x, ← σ.lookup c y)
  | _ => .error .Unreachable

/-- The script `a = [7]; y = a[0]++;`: the words of `a[0]` and of `y` after the run. -/
def Scenario.postIncrementElement : Except Error (Object × Option Object) := do
  let σ ← Initialize
  let (ws, σ) ← Scenario.intern ["a", "y"] σ
  match ws with
  | [a, y] => do
    let element : Expression := .MemberAccess (.Identifier a) (.int 0) .KEYED
    let unit : TranslationUnit :=
      { fn_decls := []
        stmts := [.assign a (.ArrayLiteral [.int 7]),
                  .assign y (.PostfixExpression element .INC)] }
    let (_, c, σ, _) ← Interpreter.Evaluate F 16 unit GlobalContext σ
    match ← σ.lookup c a with
    | some array => pure (← KSArray.Get σ array 0, ← σ.lookup c y)
    | none => .error .Unreachable
  | _ => .error .Unreachable

/-- The script `q = a / b;`: the word bound to `q` after the run, and what
`ToInt32` makes of it. -/
def Scenario.divide (a b : Int) : Except Error (Option Object × Int) := do
  let σ ← Initialize
  let (q, σ) ← String.NewSymbol σ "q"
  let unit : TranslationUnit :=
    { fn_decls := []
      stmts := [.assign q (.BinaryExpression (.int a) (.int b) .DIV)] }
  let (_, c, σ, _) ← Interpreter.Evaluate F 16 unit GlobalContext σ
  match ← σ.lookup c q with
  | some w => pure (some w, ← ToInt32 F σ w)
  | none => pure (none, 0)

/-- A `HeapNumber` for the integer `n` is compared with the double of bit pattern
`bits`, in both orders. -/
def Scenario.equalsHeapNumber (n : Int) (bits : Nat) : Except Error (Bool × Bool) := do
  let σ ← Initialize
  let (h, σ) ← HeapNumber.New σ n .NOT_TENURED
  pure (← Equals F σ h (Double.Make bits), ← Equals F σ (Double.Make bits) h)

/-- The script `a = 0; if (1) a = 1; w = 0; while (1) { w = 1; break; } f = 0;
for (; 1; ) { f = 1; break; } n = !1; c = 1 ? 2 : 3;`: the words bound to `a`, `w`,
`f`, `n` and `c` after the run. -/
def Scenario.truthiness : Except Error (List (Option Object)) := do
  let σ ← Initialize
  let (ws, σ) ← Scenario.intern ["a", "w", "f", "n", "c"] σ
  match ws with
  | [a, w, f, n, c] => do
    let unit : TranslationUnit :=
      { fn_decls := []
        stmts :=
          [.assign a (.int 0),
           .IfStatement (.int 1) (.assign a (.int 1)) none,
           .assign w (.int 0),
           .WhileStatement (.int 1) (.BlockStatement [.assign w (.int 1), .BreakStatement]),
           .assign f (.int 0),
           .ForStatement none (some (.int 1)) none
             (.BlockStatement [.assign f (.int 1), .BreakStatement]),
           .assign n (.UnaryExpression (.int 1) .NOT),
           .assign c (.ConditionalExpression (.int 1) (.int 2) (.int 3))] }
    let (_, ctx, σ, _) ← Interpreter.Evaluate F 16 unit GlobalContext σ
    pure [← σ.lookup ctx a, ← σ.lookup ctx w, ← σ.lookup ctx f, ← σ.lookup ctx n,
      ← σ.lookup ctx c]
  | _ => .error .Unreachable

/-- The script `function f() { <body> } r = f();`: the word bound to `r` after the
run. The names `x` and `y` are interned for the body. -/
def Scenario.returns (body : Object → Object → List Statement) :
    Except Error (Option Object) := do
  let σ ← Initialize
  let (ws, σ) ← Scenario.intern ["f", "r", "x", "y"] σ
  match ws with
  | [f, r, x, y] => do
    let unit : TranslationUnit :=
      { fn_decls := [{ name := f, params := [], body := body x y }]
        stmts := [.assign r (.call0 f)] }
    let (_, c, σ, _) ← Interpreter.Evaluate F 24 unit GlobalContext σ
    σ.lookup c r
  | _ => .error .Unreachable

/-- A heap with one `KSArray` of length 1 whose backing store has one slot. -/
def Scenario.fullArray : State :=
  { State.empty with
    objects := [.ARRAY [Int32.Make 7], .KSARRAY nullptr 1 (HeapObject_Make 0)] }

/-- A heap with the empty string, as the root `empty_string`, and the string
`"foo"`. -/
def Scenario.fooState : State :=
  { State.empty with
    objects := [.STRING nullptr "", .STRING nullptr "foo"]
    empty_string := HeapObject_Make 0 }

/-- A heap with the empty string, an array of the language whose first element is the
array itself (`a = [0]; a[0] = a;`, at the address 2, with its backing store at the
address 1), and the string `"foo"`. -/
def Scenario.selfArray : State :=
  { State.empty with
    objects := [.STRING nullptr "", .ARRAY [HeapObject_Make 2],
      .KSARRAY nullptr 1 (HeapObject_Make 1), .STRING nullptr "foo"]
    empty_string := HeapObject_Make 0 }

/-- A heap with the symbols `a`, `b` and `x`, the parameter list `[a, b]`, and the
argument array `[7]`, held by the handle cell 0; the global context binds `x` to 1. -/
def Scenario.callState : State :=
  { State.empty with
    objects := [.STRING nullptr "a", .STRING nullptr "b", .STRING nullptr "x",
      .ARRAY [HeapObject_Make 0, HeapObject_Make 1], .ARRAY [Int32.Make 7],
      .KSARRAY nullptr 1 (HeapObject_Make 4)]
    symbol_table := [HeapObject_Make 0, HeapObject_Make 1, HeapObject_Make 2]
    contexts := [{ parent := none
                   chunks := [[HeapObject_Make 2, Int32.Make 1] ++ List.replicate 14 nullptr]
                   chunk_start := 2
                   self := none }]
    handles := [HeapObject_Make 5]
    handle := 1 }

end Scenarios

/-! ## The bindings of a context -/

/-- The bindings a context holds, in the order they were pushed: binding `k` is the
pair of words `2 * (k % 8)`, `2 * (k % 8) + 1` of chunk `k / 8`; every chunk but the
last is full and `chunk_start` is the end of the written part of the last chunk. -/
def Context.Holds (ctx : Context) (bs : List (Object × Object)) : Prop :=
  (∀ chunk ∈ ctx.chunks, chunk.length = kContextChunkLimit) ∧
  ctx.chunks.length = (bs.length + 7) / 8 ∧
  ctx.chunk_start = 2 * (bs.length - 8 * (ctx.chunks.length - 1)) ∧
  ∀ k b, bs[k]? = some b → ∃ chunk, ctx.chunks[k / 8]? = some chunk ∧
    chunk[2 * (k % 8)]? = some b.1 ∧ chunk[2 * (k % 8) + 1]? = some b.2

/-- The state of a context in `Context::Push` after the test for a full chunk: the
last chunk has room for the next binding. -/
def Context.Room (ctx : Context) (bs : List (Object × Object)) : Prop :=
  (∀ chunk ∈ ctx.chunks, chunk.length = kContextChunkLimit) ∧
  ctx.chunks.length = bs.length / 8 + 1 ∧
  ctx.chunk_start = 2 * (bs.length % 8) ∧
  ∀ k b, bs[k]? = some b → ∃ chunk, ctx.chunks[k / 8]? = some chunk ∧
    chunk[2 * (k % 8)]? = some b.1 ∧ chunk[2 * (k % 8) + 1]? = some b.2

/-- The bindings `Interpreter::Call` makes for the parameters `names`, the first of
them the parameter `i`, from an argument array of length `m` over the slots `slots`:
the parameter `j` is bound to `args->Get(j)`, which is the element `j` for `j < m` and
undefined otherwise. -/
def Interpreter.ParamBindings (m : Int) (slots : List Object) (i : Nat)
    (names : List Object) : List (Object × Object) :=
  (names.enumFrom i).map fun p =>
    (p.2, if (p.1 : Int) < m then slots.getD p.1 Constant.Undefined else Constant.Undefined)

/-- What an arithmetic operator returns for two Int32 operands when the exact result
is the integer `n`: a handle that holds the Int32 `n` when `n` fits `int32_t`, and
otherwise a Double, not an Int32, that is a double nearest to `n`. -/
def Interpreter.Int32Result (n : Int) (res : Except Error (Handle × State)) : Prop :=
  ∃ h σ' w, res = .ok (some h, σ') ∧ σ'.read h = .ok w ∧
    ((Int32.kMinInt32 ≤ n ∧ n ≤ Int32.kMaxInt32) → w = Int32.Make n) ∧
    (¬ (Int32.kMinInt32 ≤ n ∧ n ≤ Int32.kMaxInt32) →
      IsDouble w = true ∧ IsInt32 w = false ∧ Double.Rounds n w)

/-- The values that the description of `ToBoolean` lists as false: `false`, `null`,
`undefined`, a double that is zero or NaN, the Int32 0, a `HeapNumber` 0, the empty
string, an array of length zero, and every function. -/
def Falsy (σ : State) (v : Object) : Bool :=
  decide (v = Constant.kBoolFalse) || decide (v = Constant.kNull) ||
  decide (v = Constant.kUndefined) ||
  (IsDouble v && (decide (Double.Value v = .finite 0) || decide (Double.Value v = .nan))) ||
  (IsInt32 v && decide (Int32.Value v = 0)) ||
  (match σ.find v with
   | some (.HEAP_NUMBER value) => decide (value = 0)
   | some (.STRING _ value) => decide (value.length = 0)
   | some (.ARRAY slots) => decide (slots.length = 0)
   | some (.KSARRAY _ length _) => decide (length = 0)
   | some (.FUNCTION _ _ _) => true
   | some (.KSOBJECT _) => false
   | none => false)

/-- An expression over the name `x`, which is bound in no context, is evaluated in a
fresh child of the global context. The result: the handle `Context::Resolve` yields
for `x`, the handle `GetValue` yields for the NAMED reference to `x`, and the error
in which the evaluation of the expression ends, if it does. -/
def Scenario.unbound (F : FloatOps) (expr : Object → Expression) :
    Except Error (Handle × Handle × Option Error) := do
  let σ ← Initialize
  let (x, σ) ← String.NewSymbol σ "x"
  let (c, σ) := Context.New σ (some GlobalContext)
  let resolved ← Context.Resolve σ c x
  let (ref, σ1, _) ← Reference.New F 8 (.Identifier x) c 0 σ []
  let (value, _) ← Reference.GetValue F 8 ref σ1
  match Evaluate F 8 (expr x) c 0 σ [] with
  | .ok _ => pure (resolved, value, none)
  | .error e => pure (resolved, value, some e)

/-- The array `[]` after `push(v)` for each integer `v` of the list, in order: the
array and the state. -/
def Scenario.pushed (values : List Int) : Except Error (Object × State) := do
  let σ ← Initialize
  let (a, σ) ← KSArray.New σ 0 .NOT_TENURED
  let σ ← values.foldlM (fun σ v => KSArray.Push σ a (Int32.Make v)) σ
  pure (a, σ)

/-- What is seen of an array: its length, the capacity of its backing store, its
elements `a[0..length-1]`, and its string form. -/
structure Scenario.Seen where
  length : Int
  capacity : Int
  elements : List Object
  text : String
  deriving DecidableEq, Repr

def Scenario.observe (σ : State) (a : Object) : Except Error Scenario.Seen := do
  let length ← KSArray.Length σ a
  let elements ← (List.range length.toNat).mapM (fun i => KSArray.Get σ a (Int.ofNat i))
  pure { length := length, capacity := ← KSArray.Capacity σ a, elements := elements,
         text := ← ToStdString FloatOps.unavailable 8 σ a }

/-- The array `[]` receives `push(1); push(2); push(3)`, then `Set(index, 9)`. The
result: what is seen of the array before, the word `Set` returns, and what is seen of
the array after. -/
def Scenario.setAt (index : Int) :
    Except Error (Scenario.Seen × Object × Scenario.Seen) := do
  let (a, σ) ← Scenario.pushed [1, 2, 3]
  let before ← Scenario.observe σ a
  let (r, σ) ← KSArray.Set σ a index (Int32.Make 9)
  pure (before, r, ← Scenario.observe σ a)

/-- The array `[]` receives `push(1); push(2); push(3)`, then `Get(index)`. -/
def Scenario.getAt (index : Int) : Except Error Object := do
  let (a, σ) ← Scenario.pushed [1, 2, 3]
  KSArray.Get σ a index

/-- The string form of the array `[]` after the pushes of the list, with its length. -/
def Scenario.pushedString (values : List Int) : Except Error (Int × String) := do
  let (a, σ) ← Scenario.pushed values
  pure (← KSArray.Length σ a, ← ToStdString FloatOps.unavailable 8 σ a)

/-- The string form of a fresh array of the given length. -/
def Scenario.freshString (length : Int) : Except Error String := do
  let σ ← Initialize
  let (a, σ) ← KSArray.New σ length .NOT_TENURED
  ToStdString FloatOps.unavailable 8 σ a

/-- The script `a = [7]; k = a["length"]; d = a.length;`: the words bound to `k` and
`d` after the run. -/
def Scenario.keyedLength : Except Error (Option Object × Option Object) := do
  let σ ← Initialize
  let (ws, σ) ← Scenario.intern ["a", "k", "d", "length"] σ
  match ws with
  | [a, k, d, length] => do
    let (text, σ) ← String.New σ "length" .TENURED
    let unit : TranslationUnit :=
      { fn_decls := []
        stmts := [.assign a (.ArrayLiteral [.int 7]),
                  .assign k (.MemberAccess (.Identifier a) (.StringLiteral text) .KEYED),
                  .assign d (.MemberAccess (.Identifier a) (.IdentifierName length) .DOTTED)] }
    let (_, c, σ, _) ← Interpreter.Evaluate FloatOps.unavailable 16 unit GlobalContext σ
    pure (← σ.lookup c k, ← σ.lookup c d)
  | _ => .error .Unreachable

/-- The symbol table is well formed: every entry is a string of the heap, no two
entries have the same bytes, and the root `empty_string` is the string of length
zero. -/
def SymbolTable.WellFormed (σ : State) : Prop :=
  (∀ sym ∈ σ.symbol_table, IsString σ sym = true) ∧
  σ.symbol_table.Pairwise (fun p q => String.Value σ p ≠ String.Value σ q) ∧
  String.Value σ σ.empty_string = .ok ""

instance (σ : State) : Decidable (SymbolTable.WellFormed σ) := by
  unfold SymbolTable.WellFormed
  infer_instance

/-! ## The heap: spaces, metadata and allocation (`space.hh`, `heap.hh`, `heap.cpp`)

From here on objects have addresses and the heap has two spaces. An object is a cell
of the memory: its metadata word, decoded, and its fields, by type. A cell is stored
under the address of the object, and `HeapObject::Size` gives its extent. The words
that `Heap::IterateRoots` visits in the context chunks and in the handle scope are
the list `slots`. -/

/-- What the heap throws (`AllocationError`, `OutOfMemoryError`), and the ways in
which the embedding stops: `Fault` stands for a step the source leaves undefined or
the embedding does not follow. -/
inductive KError where
  | AllocationError (space : AllocationSpace)
  | OutOfMemoryError
  | Fault (e : Error)
  deriving DecidableEq, Repr

/-- The metadata word of a heap object, decoded: the age (bits 56 to 63), the
forwarding pointer (bits 3 to 47, kept as the address), and the flags `remembered`
and `marked`. The type (bits 48 to 55) is the constructor of the fields. -/
structure Metadata where
  age : Nat := 0
  forwarding : Nat := 0
  remembered : Bool := false
  marked : Bool := false
  deriving DecidableEq, Repr

namespace Metadata

def Age (m : Metadata) : Nat := m.age

def IsForwarding (m : Metadata) : Bool := decide (m.forwarding ≠ 0)

def IsRemembered (m : Metadata) : Bool := m.remembered

def IsMarked (m : Metadata) : Bool := m.marked

/-- The getter `Metadata::Forwarding()`. -/
def Forwarding (m : Metadata) : Object := HeapObject_Make m.forwarding

/-- The function `Metadata::IncrementAge`: the age is a `uint8_t`. -/
def IncrementAge (m : Metadata) : Metadata := { m with age := (m.age + 1) % 2 ^ 8 }

/-- The setter `Metadata::Forwarding(Address)`: `metadata_ |= addr & ForwardingMask`,
and the mask keeps the bits 3 to 47. -/
def SetForwarding (m : Metadata) (addr : Nat) : Metadata :=
  { m with forwarding := m.forwarding ||| (addr % 2 ^ kCanonicalBits / 8 * 8) }

def Remember (m : Metadata) : Metadata := { m with remembered := true }

def Mark (m : Metadata) : Metadata := { m with marked := true }

def ResetForwarding (m : Metadata) : Metadata := { m with forwarding := 0 }

def ResetRemembered (m : Metadata) : Metadata := { m with remembered := false }

def ResetMarked (m : Metadata) : Metadata := { m with marked := false }

end Metadata

/-- The words `HeapObject::IterateBody` visits, in its order. The body word of a
function is a native pointer, which no visitor takes for a heap object, and is left
out. -/
def HeapObject.fields : HeapObject → List Object
  | .ARRAY slots => slots
  | .KSARRAY elements _ array => [array, elements]
  | .KSOBJECT elements => [elements]
  | .STRING elements _ => [elements]
  | .FUNCTION name params _ => [name, params]
  | .HEAP_NUMBER _ => []

/-- The assignment `*handle = value` to the `i`-th word that `IterateBody` visits. -/
def HeapObject.setField : HeapObject → Nat → Object → HeapObject
  | .ARRAY slots, i, v => .ARRAY (slots.set i v)
  | .KSARRAY elements length array, i, v =>
    if i = 0 then .KSARRAY elements length v
    else if i = 1 then .KSARRAY v length array
    else .KSARRAY elements length array
  | .KSOBJECT elements, i, v => if i = 0 then .KSOBJECT v else .KSOBJECT elements
  | .STRING elements value, i, v =>
    if i = 0 then .STRING v value else .STRING elements value
  | .FUNCTION name params body, i, v =>
    if i = 0 then .FUNCTION v params body
    else if i = 1 then .FUNCTION name v body
    else .FUNCTION name params body
  | .HEAP_NUMBER value, _, _ => .HEAP_NUMBER value

/-- A heap object in memory. -/
structure Cell where
  metadata : Metadata
  body : HeapObject

/-- The memory of the heap, by the addresses of the objects. -/
abbrev Memory := Nat → Option Cell

def Memory.set (m : Memory) (addr : Nat) (cell : Cell) : Memory :=
  fun a => if a = addr then some cell else m a

/-- The class `NewSpace` (with the fields of `Space`). -/
structure NewSpace where
  start : Nat
  free : Nat
  size : Nat
  available_objects : Nat := 0
  semispace_size : Nat
  from_space : Nat
  to_space : Nat
  deriving DecidableEq, Repr

namespace NewSpace

/-- The constructor `NewSpace(start, semispace_size)`. -/
def New (start semispace_size : Nat) : NewSpace where
  start := start
  free := start
  size := semispace_size * 2
  available_objects := 0
  semispace_size := semispace_size
  to_space := start
  from_space := start + semispace_size

def begin_ (s : NewSpace) : Nat := s.start

def end_ (s : NewSpace) : Nat := s.start + s.size

def FromSpaceLow (s : NewSpace) : Nat := s.from_space

def FromSpaceHigh (s : NewSpace) : Nat := s.from_space + s.semispace_size

def ToSpaceLow (s : NewSpace) : Nat := s.to_space

def ToSpaceHigh (s : NewSpace) : Nat := s.to_space + s.semispace_size

def Contains (s : NewSpace) (addr : Nat) : Bool := decide (s.begin_ ≤ addr) && decide (addr < s.end_)

def IsInFrom (s : NewSpace) (addr : Nat) : Bool :=
  decide (s.FromSpaceLow ≤ addr) && decide (addr < s.FromSpaceHigh)

/-- The function `NewSpace::Allocate`: the address, or the null pointer. -/
def Allocate (s : NewSpace) (size : Nat) : Nat × NewSpace :=
  if s.free + size > s.ToSpaceHigh then (0, s)
  else (s.free, { s with available_objects := s.available_objects + 1, free := s.free + size })

/-- The function `NewSpace::Flip`. -/
def Flip (s : NewSpace) : NewSpace :=
  { s with from_space := s.to_space, to_space := s.from_space, free := s.from_space,
           available_objects := 0 }

end NewSpace

/-- The class `OldSpace` (with the fields of `Space`); `rset` is the remembered
set. -/
structure OldSpace where
  start : Nat
  free : Nat
  size : Nat
  available_objects : Nat := 0
  rset : List Object := []
  deriving DecidableEq, Repr

namespace OldSpace

/-- The constructor `OldSpace(start, size)`. -/
def New (start size : Nat) : OldSpace where
  start := start
  free := start
  size := size

def begin_ (s : OldSpace) : Nat := s.start

def end_ (s : OldSpace) : Nat := s.start + s.size

def Contains (s : OldSpace) (addr : Nat) : Bool := decide (s.begin_ ≤ addr) && decide (addr < s.end_)

/-- The function `OldSpace::Allocate`. -/
def Allocate (s : OldSpace) (size : Nat) : Nat × OldSpace :=
  if s.free + size > s.end_ then (0, s)
  else (s.free, { s with available_objects := s.available_objects + 1, free := s.free + size })

end OldSpace
/-- The static state of the classes `Heap`, `CopyingCollector` and `GCStats`, the
memory, and the root words. `promoted` holds the objects `AddPromotedObject` has
stored below the top of the to-space, in the order they were added, so that
`prompted_offset_` is `ToSpaceHigh() - 8 * promoted.length`. -/
structure Heap where
  memory : Memory := fun _ => none
  heap_start : Nat := 0
  new_space : NewSpace := NewSpace.New 0 0
  old_space : OldSpace := OldSpace.New 0 0
  slots : List Object := []
  empty_array : Object := nullptr
  empty_hash_table : Object := nullptr
  empty_string : Object := nullptr
  symbol_table : List Object := []
  young_space_size : Nat := 0
  semispace_size : Nat := 256 * KB
  old_space_size : Nat := 16 * MB
  tenure_threshold : Nat := 2
  initialized : Bool := false
  promoted : List Object := []
  young_gc_count : Nat := 0
  old_gc_count : Nat := 0
  full_gc_count : Nat := 0

namespace Heap

/-- The function `Heap::Configure`; `heap_size` is a `size_t`, `NextPowerOf2` takes a
`uint32_t`, and `tenure_threshold` is a `uint8_t`. -/
def Configure (h : Heap) (heap_size tenure_threshold : Nat) : Heap :=
  if h.initialized then h
  else
    let semispace_size := heap_size / 4
    let old_size := heap_size / 2
    let h := if semispace_size > 0 then
      { h with semispace_size := NextPowerOf2 (semispace_size % 2 ^ 32) } else h
    let h := if old_size > 0 then
      { h with old_space_size := NextPowerOf2 (old_size % 2 ^ 32) } else h
    { h with young_space_size := h.semispace_size * 2 % 2 ^ 64
             tenure_threshold := tenure_threshold }

/-- The object at the address of a heap reference; a word that is no reference to an
object cannot be read. -/
def cell (h : Heap) (p : Object) : Except KError Cell :=
  match h.memory (ADDRESS p) with
  | some c => .ok c
  | none => .error (.Fault .BadCast)

/-- Store an object under the address of a heap reference. -/
def store (h : Heap) (p : Object) (c : Cell) : Heap :=
  { h with memory := h.memory.set (ADDRESS p) c }

/-- The function `HeapObject::metadata`. -/
def metadata (h : Heap) (p : Object) : Except KError Metadata := do
  pure (← h.cell p).metadata

/-- The function `HeapObject::set_metadata`. -/
def set_metadata (h : Heap) (p : Object) (m : Metadata) : Except KError Heap := do
  pure (h.store p { (← h.cell p) with metadata := m })

/-- The function `Heap::IsInNewSpace`. -/
def IsInNewSpace (h : Heap) (obj : Object) : Bool :=
  IsHeapObject obj && h.new_space.Contains (ADDRESS obj)

/-- The function `Heap::IsInOldSpace`. -/
def IsInOldSpace (h : Heap) (obj : Object) : Bool := h.old_space.Contains (ADDRESS obj)

/-- The function `OldSpace::RememberObject`. -/
def RememberObject (h : Heap) (obj : Object) : Except KError Heap := do
  let metadata ← h.metadata obj
  if metadata.IsRemembered then pure h
  else
    let h := { h with old_space := { h.old_space with rset := h.old_space.rset ++ [obj] } }
    h.set_metadata obj metadata.Remember

/-- The function `Heap::WriteBarrier`. -/
def WriteBarrier (h : Heap) (obj field : Object) : Except KError Heap :=
  if h.old_space.Contains (ADDRESS obj) && IsHeapObject field &&
      h.new_space.Contains (ADDRESS field) then h.RememberObject obj
  else pure h

/-- The function `Heap::AllocateRaw`. -/
def AllocateRaw (h : Heap) (size : Nat) (space : AllocationSpace) : Except KError Object × Heap :=
  match space with
  | .NEW_SPACE =>
    let (result, s) := h.new_space.Allocate size
    if result ≠ 0 then (.ok (HeapObject_Make result), { h with new_space := s })
    else (.error (.AllocationError space), { h with new_space := s })
  | .OLD_SPACE =>
    let (result, s) := h.old_space.Allocate size
    if result ≠ 0 then (.ok (HeapObject_Make result), { h with old_space := s })
    else (.error (.AllocationError space), { h with old_space := s })

/-- The function `Heap::InitializeMetadata`, with the fields the object starts
with. -/
def InitializeMetadata (h : Heap) (obj : Object) (body : HeapObject) : Heap :=
  h.store obj { metadata := {}, body := body }

/-- The space of a policy: `policy == NOT_TENURED ? NEW_SPACE : OLD_SPACE`. -/
def spaceOf (policy : AllocationPolicy) : AllocationSpace :=
  if policy = .NOT_TENURED then .NEW_SPACE else .OLD_SPACE

namespace Array

/-- The function `Array::Set`, with its write barrier. -/
def Set (h : Heap) (p : Object) (index : Int) (value : Object) :
    Except KError (Object × Heap) := do
  let c ← h.cell p
  match c.body with
  | .ARRAY slots =>
    if index < Int.ofNat slots.length then
      if 0 ≤ index then
        let h ← h.WriteBarrier p value
        let c ← h.cell p
        pure (value, h.store p { c with body := .ARRAY (slots.set index.toNat value) })
      else .error (.Fault .OutOfBounds)
    else pure (Constant.Undefined, h)
  | _ => .error (.Fault .BadCast)

end Array

namespace KSObject

/-- The function `KSObject::SetElements`: the field is written and no barrier
follows. -/
def SetElements (h : Heap) (p elements : Object) : Except KError Heap := do
  let c ← h.cell p
  match c.body with
  | .KSOBJECT _ => pure (h.store p { c with body := .KSOBJECT elements })
  | .STRING _ value => pure (h.store p { c with body := .STRING elements value })
  | .KSARRAY _ length array => pure (h.store p { c with body := .KSARRAY elements length array })
  | _ => .error (.Fault .BadCast)

end KSObject

namespace KSArray

/-- The function `KSArray::SetElements`, with its write barrier. -/
def SetElements (h : Heap) (p elements : Object) : Except KError Heap := do
  let c ← h.cell p
  match c.body with
  | .KSARRAY table length _ =>
    (h.store p { c with body := .KSARRAY table length elements }).WriteBarrier p elements
  | _ => .error (.Fault .BadCast)

/-- The function `KSArray::SetLength`. -/
def SetLength (h : Heap) (p : Object) (length : Int) : Except KError Heap := do
  let c ← h.cell p
  match c.body with
  | .KSARRAY table _ array => pure (h.store p { c with body := .KSARRAY table length array })
  | _ => .error (.Fault .BadCast)

end KSArray

/-- Continue an allocation with its result, or pass the exception on; the state is
kept in both cases. -/
def andThen (r : Except KError Object × Heap)
    (f : Object → Heap → Except KError Object × Heap) : Except KError Object × Heap :=
  match r with
  | (.ok obj, h) => f obj h
  | (.error e, h) => (.error e, h)

/-- The outcome of a step that allocates nothing. -/
def finish (h : Heap) (r : Except KError (Object × Heap)) : Except KError Object × Heap :=
  match r with
  | .ok (obj, h) => (.ok obj, h)
  | .error e => (.error e, h)

/-- The function `Heap::AllocateArrayNoGCInternal`: every element is `undefined`. -/
def AllocateArrayNoGCInternal (h : Heap) (length : Nat) (policy : AllocationPolicy) :
    Except KError Object × Heap :=
  andThen (h.AllocateRaw (Align (12 + kPointerSize * length)) (spaceOf policy)) fun result h =>
    (.ok result, h.InitializeMetadata result (.ARRAY (List.replicate length Constant.Undefined)))

/-- The function `Heap::AllocateArrayNoGC`. -/
def AllocateArrayNoGC (h : Heap) (length : Nat) (policy : AllocationPolicy) :
    Except KError Object × Heap :=
  if length ≠ 0 then h.AllocateArrayNoGCInternal length policy else (.ok h.empty_array, h)

/-- The function `Heap::AllocateHashTableNoGCInternal`. -/
def AllocateHashTableNoGCInternal (h : Heap) (elements_size : Nat) (policy : AllocationPolicy) :
    Except KError Object × Heap :=
  let capacity := NextPowerOf2 elements_size
  let capacity := if capacity < 2 then 2 else capacity
  andThen (h.AllocateArrayNoGC (2 + capacity * 2) policy) fun table h =>
    finish h (do
      let (_, h) ← Array.Set h table 0 (Int32.Make 0)
      let (_, h) ← Array.Set h table 1 (Int32.Make (Int.ofNat capacity))
      pure (table, h))

/-- The function `Heap::AllocateHashTableNoGC`. -/
def AllocateHashTableNoGC (h : Heap) (elements_size : Nat) (policy : AllocationPolicy) :
    Except KError Object × Heap :=
  if elements_size ≠ 0 then h.AllocateHashTableNoGCInternal elements_size policy
  else (.ok h.empty_hash_table, h)

/-- The function `Heap::AllocateStringNoGCInternal`; the bytes are written by the
caller, and are zero until then. -/
def AllocateStringNoGCInternal (h : Heap) (length : Nat) (policy : AllocationPolicy) :
    Except KError Object × Heap :=
  andThen (h.AllocateRaw (Align (20 + length)) (spaceOf policy)) fun result h =>
    finish h (do
      let h := h.InitializeMetadata result
        (.STRING nullptr (String.mk (List.replicate length (Char.ofNat 0))))
      let h ← KSObject.SetElements h result h.empty_hash_table
      pure (result, h))

/-- The function `Heap::AllocateStringNoGC`. -/
def AllocateStringNoGC (h : Heap) (length : Nat) (policy : AllocationPolicy) :
    Except KError Object × Heap :=
  if length ≠ 0 then h.AllocateStringNoGCInternal length policy else (.ok h.empty_string, h)

/-- The function `Heap::AllocateKSObjectNoGC`. -/
def AllocateKSObjectNoGC (h : Heap) (elements_size : Nat) (policy : AllocationPolicy) :
    Except KError Object × Heap :=
  andThen (h.AllocateHashTableNoGC elements_size policy) fun properties h =>
    andThen (h.AllocateRaw 16 (spaceOf policy)) fun result h =>
      finish h (do
        let h := h.InitializeMetadata result (.KSOBJECT nullptr)
        let h ← KSObject.SetElements h result properties
        pure (result, h))

/-- The function `Heap::AllocateKSArrayNoGC`. -/
def AllocateKSArrayNoGC (h : Heap) (length : Nat) (policy : AllocationPolicy) :
    Except KError Object × Heap :=
  andThen (h.AllocateArrayNoGC length policy) fun elements h =>
    andThen (h.AllocateRaw (Align (20 + kPointerSize)) (spaceOf policy)) fun result h =>
      finish h (do
        let h := h.InitializeMetadata result (.KSARRAY nullptr 0 nullptr)
        let h ← KSArray.SetElements h result elements
        let h ← KSArray.SetLength h result (Int.ofNat length)
        let h ← KSObject.SetElements h result h.empty_hash_table
        pure (result, h))

/-- The function `Heap::AllocateHeapNumberNoGC`; the value is written by the caller. -/
def AllocateHeapNumberNoGC (h : Heap) (policy : AllocationPolicy) : Except KError Object × Heap :=
  andThen (h.AllocateRaw 16 (spaceOf policy)) fun result h =>
    (.ok result, h.InitializeMetadata result (.HEAP_NUMBER 0))

/-- The function `Heap::AllocateFunctionNoGC`; the fields are written by the caller. -/
def AllocateFunctionNoGC (h : Heap) (policy : AllocationPolicy) : Except KError Object × Heap :=
  andThen (h.AllocateRaw 32 (spaceOf policy)) fun result h =>
    (.ok result, h.InitializeMetadata result (.FUNCTION nullptr nullptr (.KSBody [])))

/-- The function `Heap::InitializeRootList`. -/
def InitializeRootList (h : Heap) : Except KError Object × Heap :=
  andThen (h.AllocateArrayNoGCInternal 0 .TENURED) fun empty_array h =>
    let h := { h with empty_array := empty_array }
    andThen (h.AllocateHashTableNoGCInternal 0 .TENURED) fun empty_hash_table h =>
      let h := { h with empty_hash_table := empty_hash_table }
      andThen (h.AllocateStringNoGCInternal 0 .TENURED) fun empty_string h =>
        (.ok empty_string, { h with empty_string := empty_string })

/-- The function `Heap::Initialize`; `heap_start` is the address the allocator
returns for the heap. -/
def Initialize (h : Heap) (heap_start : Nat) : Except KError Heap :=
  if h.initialized then pure h
  else
    let new_space := NewSpace.New heap_start h.semispace_size
    let h := { h with heap_start := heap_start, new_space := new_space
                      old_space := OldSpace.New new_space.end_ h.old_space_size }
    match h.InitializeRootList with
    | (.ok _, h) => pure { h with initialized := true }
    | (.error e, _) => .error e

end Heap
/-! ## Visitors and the copying collector (`value.cpp`, `heap.cpp`, `gc.cpp`) -/

/-- An `ObjectVisitor`: what `Visit(Object** handle)` makes of the word `*handle`, of
the state of the visitor, and of the heap. -/
abbrev Visitor (α : Type) := Object → α → Heap → Except KError (Object × α × Heap)

namespace Heap

/-- Visit the words of a list, in order. -/
def visitList {α : Type} (visit : Visitor α) : List Object → α → Heap →
    Except KError (List Object × α × Heap)
  | [], a, h => pure ([], a, h)
  | w :: ws, a, h => do
    let (w, a, h) ← visit w a h
    let (ws, a, h) ← visitList visit ws a h
    pure (w :: ws, a, h)

/-- The function `Heap::IterateRoots`: the words of the contexts and of the handle
scope, then the roots of `ROOT_LIST`. -/
def IterateRoots {α : Type} (visit : Visitor α) (a : α) (h : Heap) : Except KError (α × Heap) := do
  let (slots, a, h) ← visitList visit h.slots a h
  let h := { h with slots := slots }
  let (w, a, h) ← visit h.empty_array a h
  let h := { h with empty_array := w }
  let (w, a, h) ← visit h.empty_hash_table a h
  let h := { h with empty_hash_table := w }
  let (w, a, h) ← visit h.empty_string a h
  pure (a, { h with empty_string := w })

/-- The function `Heap::IterateSymbolTable`. -/
def IterateSymbolTable {α : Type} (visit : Visitor α) (a : α) (h : Heap) :
    Except KError (α × Heap) := do
  let (symbols, a, h) ← visitList visit h.symbol_table a h
  pure (a, { h with symbol_table := symbols })

/-- The loop of `HeapObject::IterateBody` over the words `i`, `i + 1`, ... of the
object; the first argument counts the words left. -/
def IterateBodyFrom {α : Type} (visit : Visitor α) (p : Object) :
    Nat → Nat → α → Heap → Except KError (α × Heap)
  | 0, _, a, h => pure (a, h)
  | n + 1, i, a, h => do
    match (← h.cell p).body.fields[i]? with
    | none => .error (.Fault .OutOfBounds)
    | some w =>
      let (w, a, h) ← visit w a h
      let c ← h.cell p
      IterateBodyFrom visit p n (i + 1) a (h.store p { c with body := c.body.setField i w })

/-- The function `HeapObject::IterateBody`. -/
def IterateBody {α : Type} (visit : Visitor α) (p : Object) (a : α) (h : Heap) :
    Except KError (α × Heap) := do
  IterateBodyFrom visit p (← h.cell p).body.fields.length 0 a h

/-- The function `Heap::Promote`, with `CopyingCollector::AddPromotedObject`. -/
def Promote (h : Heap) (obj : Object) : Except KError Object × Heap :=
  match h.cell obj with
  | .error e => (.error e, h)
  | .ok c =>
    andThen (h.AllocateRaw c.body.Size .OLD_SPACE) fun result h =>
      let h := h.store result c
      let h := h.store obj { c with metadata := c.metadata.SetForwarding (ADDRESS result) }
      (.ok result, { h with promoted := h.promoted ++ [result] })

/-- The function `Heap::CopyObject`. -/
def CopyObject (h : Heap) (from_obj : Object) : Except KError (Object × Heap) :=
  if !h.IsInNewSpace from_obj then pure (from_obj, h)
  else do
    let c ← h.cell from_obj
    let from_metadata := c.metadata
    if from_metadata.IsForwarding then pure (from_metadata.Forwarding, h)
    else
      let copy (h : Heap) : Except KError (Object × Heap) :=
        match h.AllocateRaw c.body.Size .NEW_SPACE with
        | (.error e, _) => .error e
        | (.ok result, h) =>
          let h := h.store result { c with metadata := c.metadata.IncrementAge }
          let h := h.store from_obj
            { c with metadata := from_metadata.SetForwarding (ADDRESS result) }
          pure (result, h)
      if from_metadata.Age ≥ h.tenure_threshold then
        match h.Promote from_obj with
        | (.ok result, h) => pure (result, h)
        | (.error (.AllocationError _), h) => copy h
        | (.error e, _) => .error e
      else copy h

end Heap

/-- The class `CopyObjectVisitor`. -/
def CopyObjectVisitor : Visitor Unit := fun w a h =>
  if h.IsInNewSpace w then do
    let (w, h) ← h.CopyObject w
    pure (w, a, h)
  else pure (w, a, h)

/-- The class `RSetChildrenCopyObjectVisitor`; the state is `is_robj_remove_`. -/
def RSetChildrenCopyObjectVisitor : Visitor Bool := fun w is_robj_remove h =>
  if h.IsInNewSpace w then do
    let (w, h) ← h.CopyObject w
    if !is_robj_remove then pure (w, is_robj_remove, h)
    else pure (w, !h.IsInNewSpace w, h)
  else pure (w, is_robj_remove, h)

/-- The class `RSetCopyObjectVisitor`, for an entry of the remembered set: the entry
stays as it is, and the result says whether it is to be removed. -/
def RSetCopyObjectVisitor (entry : Object) (h : Heap) : Except KError (Object × Bool × Heap) := do
  let (is_robj_remove, h) ← Heap.IterateBody RSetChildrenCopyObjectVisitor entry true h
  pure (entry, is_robj_remove, h)

/-- The loop of `IterateRSet` from the position `i` of the iterator; the first
argument bounds the number of iterations. -/
def IterateRSetFrom (visit : Object → Heap → Except KError (Object × Bool × Heap)) :
    Nat → Nat → Heap → Except KError Heap
  | 0, _, _ => .error (.Fault .OutOfFuel)
  | fuel + 1, i, h =>
    match h.old_space.rset[i]? with
    | none => pure h
    | some entry => do
      let (entry, is_robj_remove, h) ← visit entry h
      let h := { h with old_space := { h.old_space with rset := h.old_space.rset.set i entry } }
      if is_robj_remove then
        let metadata ← h.metadata entry
        let h ← h.set_metadata entry metadata.ResetRemembered
        let rset := h.old_space.rset
        let rset := (rset.set i (rset.getLastD nullptr)).dropLast
        IterateRSetFrom visit fuel i { h with old_space := { h.old_space with rset := rset } }
      else IterateRSetFrom visit fuel (i + 1) h

/-- The function `IterateRSet`. -/
def IterateRSet (visit : Object → Heap → Except KError (Object × Bool × Heap)) (h : Heap) :
    Except KError Heap :=
  IterateRSetFrom visit (h.old_space.rset.length + 1) 0 h

namespace CopyingCollector

/-- The function `CopyingCollector::WriteBarrier`. -/
def WriteBarrier (h : Heap) (obj : Object) : Except KError Heap := do
  if (← h.cell obj).body.fields.any h.IsInNewSpace then h.RememberObject obj
  else pure h

/-- The loop `while (scan != free)` of `CopyingCollector::Copying`. -/
def scanLoop : Nat → Nat → Heap → Except KError (Nat × Heap)
  | 0, _, _ => .error (.Fault .OutOfFuel)
  | fuel + 1, scan, h =>
    if scan ≠ h.new_space.free then do
      let current := HeapObject_Make scan
      let (_, h) ← Heap.IterateBody CopyObjectVisitor current () h
      scanLoop fuel (scan + (← h.cell current).body.Size) h
    else pure (scan, h)

/-- The loop `do ... while (prompted_offset_ < promoted_top)` of
`CopyingCollector::Copying`; `processed` counts the entries between `promoted_top`
and the top of the to-space. -/
def promotedLoop : Nat → Nat → Heap → Except KError (Nat × Heap)
  | 0, _, _ => .error (.Fault .OutOfFuel)
  | fuel + 1, processed, h =>
    match h.promoted[processed]? with
    | none => .error (.Fault .OutOfBounds)
    | some obj => do
      let (_, h) ← Heap.IterateBody CopyObjectVisitor obj () h
      let h ← WriteBarrier h obj
      if processed + 1 < h.promoted.length then promotedLoop fuel (processed + 1) h
      else pure (processed + 1, h)

/-- The loop `while (true)` of `CopyingCollector::Copying`. The objects of the
to-space and the promoted entries share the to-space, which the memory here does not
show: the assertion `scan <= prompted_offset_` is the place where an overlap is
detected. -/
def copyLoop : Nat → Nat → Nat → Heap → Except KError Heap
  | 0, _, _, _ => .error (.Fault .OutOfFuel)
  | fuel + 1, scan, processed, h => do
    let (scan, h) ← scanLoop fuel scan h
    if scan + kPointerSize * h.promoted.length ≤ h.new_space.ToSpaceHigh then
      if processed < h.promoted.length then
        let (processed, h) ← promotedLoop fuel processed h
        copyLoop fuel scan processed h
      else pure h
    else .error (.Fault .OutOfBounds)

/-- The function `CopyingCollector::Copying`. -/
def Copying (fuel : Nat) (h : Heap) : Except KError Heap := do
  let scan := h.new_space.ToSpaceLow
  let h := { h with promoted := [] }
  let (_, h) ← Heap.IterateRoots CopyObjectVisitor () h
  let h ← IterateRSet RSetCopyObjectVisitor h
  copyLoop fuel scan 0 h

/-- The function `CopyingCollector::Collect`. -/
def Collect (fuel : Nat) (h : Heap) : Except KError Heap :=
  Copying fuel { h with new_space := h.new_space.Flip }

end CopyingCollector
/-! ## The mark-compact collector and `Heap::Collect` (`gc.cpp`, `heap.cpp`) -/

/-- The class `MarkObjectVisitor`; the first argument bounds the depth of the
marking. -/
def MarkObjectVisitor : Nat → Visitor Unit
  | 0, _, _, _ => .error (.Fault .OutOfFuel)
  | fuel + 1, w, a, h =>
    if IsHeapObject w && h.IsInOldSpace w then do
      let metadata ← h.metadata w
      if metadata.IsMarked then pure (w, a, h)
      else
        let h ← h.set_metadata w metadata.Mark
        let (a, h) ← Heap.IterateBody (MarkObjectVisitor fuel) w a h
        pure (w, a, h)
    else pure (w, a, h)

/-- The class `AdjustPtrVisitor`. -/
def AdjustPtrVisitor : Visitor Unit := fun w a h =>
  if IsHeapObject w && h.IsInOldSpace w then do
    pure ((← h.metadata w).Forwarding, a, h)
  else pure (w, a, h)

/-- The class `RSetAdjustPtrObjectVisitor`, for an entry of the remembered set. -/
def RSetAdjustPtrObjectVisitor (entry : Object) (h : Heap) :
    Except KError (Object × Bool × Heap) :=
  if IsHeapObject entry && h.IsInOldSpace entry then do
    let metadata ← h.metadata entry
    if metadata.IsMarked then pure (metadata.Forwarding, false, h)
    else pure (entry, true, h)
  else pure (entry, true, h)

namespace Heap

/-- The function `SymbolTable::Cleanup`: the entries that are not marked go. -/
def CleanupSymbolTable (h : Heap) : Except KError Heap := do
  let symbols ← h.symbol_table.filterM (fun symbol => do pure (← h.metadata symbol).IsMarked)
  pure { h with symbol_table := symbols }

end Heap

namespace MarkCompactCollector

/-- The function `MarkCompactCollector::Mark`. -/
def Mark (fuel : Nat) (h : Heap) : Except KError Heap := do
  let (_, h) ← Heap.IterateRoots (MarkObjectVisitor fuel) () h
  h.CleanupSymbolTable

/-- The loop of `MarkCompactCollector::SetForwarding`. -/
def SetForwardingFrom : Nat → Nat → Nat → Heap → Except KError Heap
  | 0, _, _, _ => .error (.Fault .OutOfFuel)
  | fuel + 1, new_addr, scan, h =>
    if scan < h.old_space.free then do
      let obj := HeapObject_Make scan
      let c ← h.cell obj
      if c.metadata.IsMarked then
        let h ← h.set_metadata obj (c.metadata.SetForwarding new_addr)
        SetForwardingFrom fuel (new_addr + c.body.Size) (scan + c.body.Size) h
      else SetForwardingFrom fuel new_addr (scan + c.body.Size) h
    else pure h

def SetForwarding (fuel : Nat) (h : Heap) : Except KError Heap :=
  SetForwardingFrom fuel h.old_space.begin_ h.old_space.begin_ h

/-- The last loop of `MarkCompactCollector::AdjustPtr`. -/
def AdjustPtrFrom : Nat → Nat → Heap → Except KError Heap
  | 0, _, _ => .error (.Fault .OutOfFuel)
  | fuel + 1, scan, h =>
    if scan < h.old_space.free then do
      let obj := HeapObject_Make scan
      let h ← if (← h.metadata obj).IsMarked then do
          let (_, h) ← Heap.IterateBody AdjustPtrVisitor obj () h
          pure h
        else pure h
      AdjustPtrFrom fuel (scan + (← h.cell obj).body.Size) h
    else pure h

/-- The function `MarkCompactCollector::AdjustPtr`. -/
def AdjustPtr (fuel : Nat) (h : Heap) : Except KError Heap := do
  let (_, h) ← Heap.IterateRoots AdjustPtrVisitor () h
  let (_, h) ← Heap.IterateSymbolTable AdjustPtrVisitor () h
  let h ← IterateRSet RSetAdjustPtrObjectVisitor h
  AdjustPtrFrom fuel h.old_space.begin_ h

/-- The loop of `MarkCompactCollector::MoveObject`; the result carries `free` and
`available_objects`. -/
def MoveObjectFrom : Nat → Nat → Nat → Nat → Heap → Except KError (Nat × Nat × Heap)
  | 0, _, _, _, _ => .error (.Fault .OutOfFuel)
  | fuel + 1, free, scan, available_objects, h =>
    if scan < h.old_space.free then do
      let obj := HeapObject_Make scan
      let c ← h.cell obj
      let obj_size := c.body.Size
      if c.metadata.IsMarked then
        let new_addr_obj := c.metadata.Forwarding
        let h := h.store new_addr_obj c
        let new_metadata ← h.metadata new_addr_obj
        let h ← h.set_metadata new_addr_obj new_metadata.ResetForwarding.ResetMarked
        MoveObjectFrom fuel (free + obj_size) (scan + obj_size) (available_objects + 1) h
      else MoveObjectFrom fuel free (scan + obj_size) available_objects h
    else pure (free, available_objects, h)

/-- The function `MarkCompactCollector::MoveObject`. -/
def MoveObject (fuel : Nat) (h : Heap) : Except KError Heap := do
  let (free, available_objects, h) ←
    MoveObjectFrom fuel h.old_space.begin_ h.old_space.begin_ 0 h
  pure { h with old_space :=
    { h.old_space with free := free, available_objects := available_objects } }

/-- The function `MarkCompactCollector::Compact`. -/
def Compact (fuel : Nat) (h : Heap) : Except KError Heap := do
  let h ← SetForwarding fuel h
  let h ← AdjustPtr fuel h
  MoveObject fuel h

/-- The function `MarkCompactCollector::Collect`. -/
def Collect (fuel : Nat) (h : Heap) : Except KError Heap := do
  Compact fuel (← Mark fuel h)

end MarkCompactCollector

/-- The class `RootVerifyObjectVisitor`: its assertions are not checked, and it
walks every object that a word leads to; the first argument bounds the depth of the
walk. -/
def RootVerifyObjectVisitor : Nat → Visitor Unit
  | 0, _, _, _ => .error (.Fault .OutOfFuel)
  | fuel + 1, w, a, h =>
    if IsHeapObject w then do
      let (a, h) ← Heap.IterateBody (RootVerifyObjectVisitor fuel) w a h
      pure (w, a, h)
    else pure (w, a, h)

namespace Heap

/-- The function `Heap::VerifyHeapObjects`. -/
def VerifyHeapObjects (fuel : Nat) (h : Heap) : Except KError Heap := do
  let (_, h) ← Heap.IterateRoots (RootVerifyObjectVisitor fuel) () h
  pure h

/-- The function `Heap::Collect`; the counters are those of `GCStats`. -/
def Collect (fuel : Nat) (space : AllocationSpace) (h : Heap) : Except KError Heap := do
  let h ← h.VerifyHeapObjects fuel
  let h ←
    if space = .NEW_SPACE then
      CopyingCollector.Collect fuel { h with young_gc_count := h.young_gc_count + 1 }
    else if h.new_space.free = h.new_space.ToSpaceHigh then do
      let h ← MarkCompactCollector.Collect fuel { h with full_gc_count := h.full_gc_count + 1 }
      CopyingCollector.Collect fuel h
    else MarkCompactCollector.Collect fuel { h with old_gc_count := h.old_gc_count + 1 }
  h.VerifyHeapObjects fuel

/-- The macro `ALLOC_WITH_GC_SUPPORT` around an allocation `ALLOC_FUNC`. -/
def ALLOC_WITH_GC_SUPPORT (fuel : Nat) (ALLOC_FUNC : Heap → Except KError Object × Heap)
    (h : Heap) : Except KError Object × Heap :=
  match ALLOC_FUNC h with
  | (.error (.AllocationError space), h) =>
    match h.Collect fuel space with
    | .error e => (.error e, h)
    | .ok h =>
      match ALLOC_FUNC h with
      | (.error (.AllocationError _), h) => (.error .OutOfMemoryError, h)
      | r => r
  | r => r

def AllocateKSObject (fuel : Nat) (h : Heap) (elements_size : Nat) (policy : AllocationPolicy) :
    Except KError Object × Heap :=
  ALLOC_WITH_GC_SUPPORT fuel (fun h => h.AllocateKSObjectNoGC elements_size policy) h

def AllocateString (fuel : Nat) (h : Heap) (length : Nat) (policy : AllocationPolicy) :
    Except KError Object × Heap :=
  ALLOC_WITH_GC_SUPPORT fuel (fun h => h.AllocateStringNoGC length policy) h

def AllocateArray (fuel : Nat) (h : Heap) (length : Nat) (policy : AllocationPolicy) :
    Except KError Object × Heap :=
  ALLOC_WITH_GC_SUPPORT fuel (fun h => h.AllocateArrayNoGC length policy) h

def AllocateKSArray (fuel : Nat) (h : Heap) (length : Nat) (policy : AllocationPolicy) :
    Except KError Object × Heap :=
  ALLOC_WITH_GC_SUPPORT fuel (fun h => h.AllocateKSArrayNoGC length policy) h

def AllocateHeapNumber (fuel : Nat) (h : Heap) (policy : AllocationPolicy) :
    Except KError Object × Heap :=
  ALLOC_WITH_GC_SUPPORT fuel (fun h => h.AllocateHeapNumberNoGC policy) h

def AllocateFunction (fuel : Nat) (h : Heap) (policy : AllocationPolicy) :
    Except KError Object × Heap :=
  ALLOC_WITH_GC_SUPPORT fuel (fun h => h.AllocateFunctionNoGC policy) h

def AllocateHashTable (fuel : Nat) (h : Heap) (elements_size : Nat) (policy : AllocationPolicy) :
    Except KError Object × Heap :=
  ALLOC_WITH_GC_SUPPORT fuel (fun h => h.AllocateHashTableNoGC elements_size policy) h

/-- The function `String::New`: `Heap::AllocateString`, then `Content`. -/
def String.New (fuel : Nat) (h : Heap) (value : String) (policy : AllocationPolicy) :
    Except KError Object × Heap :=
  andThen (h.AllocateString fuel value.length policy) fun result h =>
    match h.cell result with
    | .ok { metadata := m, body := .STRING elements _ } =>
      (.ok result, h.store result { metadata := m, body := .STRING elements value })
    | .ok _ => (.error (.Fault .BadCast), h)
    | .error e => (.error e, h)

/-- The function `Function::New`, with its write barriers. -/
def Function.New (fuel : Nat) (h : Heap) (name params : Object) (body : FunctionBody)
    (policy : AllocationPolicy) : Except KError Object × Heap :=
  andThen (h.AllocateFunction fuel policy) fun fn h =>
    finish h (do
      let c ← h.cell fn
      let h := h.store fn { c with body := .FUNCTION name params body }
      let h ← h.WriteBarrier fn name
      let h ← h.WriteBarrier fn params
      pure (fn, h))

end Heap
namespace Heap

namespace Array

/-- The function `Array::Length`. -/
def Length (h : Heap) (p : Object) : Except KError Int := do
  match (← h.cell p).body with
  | .ARRAY slots => pure (Int.ofNat slots.length)
  | _ => .error (.Fault .BadCast)

/-- The function `Array::Get`. -/
def Get (h : Heap) (p : Object) (index : Int) : Except KError Object := do
  match (← h.cell p).body with
  | .ARRAY slots =>
    if 0 ≤ index then
      match slots[index.toNat]? with
      | some v => pure v
      | none => .error (.Fault .OutOfBounds)
    else .error (.Fault .OutOfBounds)
  | _ => .error (.Fault .BadCast)

/-- The function `Array::Copy`: the elements of `that` are copied over the first
elements of the array, and no barrier follows. -/
def Copy (h : Heap) (p that : Object) : Except KError Heap := do
  let c ← h.cell p
  match c.body, (← h.cell that).body with
  | .ARRAY slots, .ARRAY other =>
    if other.length ≤ slots.length then
      pure (h.store p { c with body := .ARRAY (other ++ slots.drop other.length) })
    else .error (.Fault .OutOfBounds)
  | _, _ => .error (.Fault .BadCast)

end Array

namespace KSArray

/-- The function `KSArray::Length`. -/
def Length (h : Heap) (p : Object) : Except KError Int := do
  match (← h.cell p).body with
  | .KSARRAY _ length _ => pure length
  | _ => .error (.Fault .BadCast)

/-- The function `KSArray::Elements`. -/
def Elements (h : Heap) (p : Object) : Except KError Object := do
  match (← h.cell p).body with
  | .KSARRAY _ _ array => pure array
  | _ => .error (.Fault .BadCast)

/-- The function `KSArray::Get`. -/
def Get (h : Heap) (p : Object) (index : Int) : Except KError Object := do
  if index < (← Length h p) then Array.Get h (← Elements h p) index
  else pure Constant.Undefined

/-- The member function `KSArray::Push(Handle<Object>)`; `value` is the cell of the
handle among the root words. -/
def PushNoGC (h : Heap) (p : Object) (value : Nat) : Except KError Object × Heap :=
  match (do
      let current_length ← Length h p
      pure (current_length, decide (current_length ≥ (← Array.Length h (← Elements h p))))
      : Except KError (Int × Bool)) with
  | .error e => (.error e, h)
  | .ok (current_length, grow) =>
    let step (h : Heap) : Except KError Object × Heap :=
      finish h (do
        let h ← SetLength h p (current_length + 1)
        match h.slots[value]? with
        | none => .error (.Fault .NullDereference)
        | some v =>
          let (_, h) ← Array.Set h (← Elements h p) current_length v
          pure (Constant.Undefined, h))
    if grow then
      let length := current_length + 1 + current_length / 2
      andThen (h.AllocateArrayNoGC length.toNat .NOT_TENURED) fun new_array h =>
        match (do
            let h ← Array.Copy h new_array (← Elements h p)
            SetElements h p new_array : Except KError Heap) with
        | .error e => (.error e, h)
        | .ok h => step h
    else step h

/-- The static function `KSArray::Push(Handle<KSArray>, Handle<Object>)`, with the
macro `CALL_WITH_GC_SUPPORT`; `self` and `value` are the cells of the handles among
the root words. -/
def Push (fuel : Nat) (h : Heap) (self value : Nat) : Except KError Object × Heap :=
  ALLOC_WITH_GC_SUPPORT fuel
    (fun h =>
      match h.slots[self]? with
      | some p => PushNoGC h p value
      | none => (.error (.Fault .NullDereference), h))
    h

end KSArray

end Heap

/-! ## Scenarios on the heap -/

/-- The heap after `Heap::Configure(2048, 2)` and `Heap::Initialize`, at the address
4096: semispaces of 512 bytes at 4096 and 4608, an old space of 1024 bytes at 5120
with the three roots at 5120, 5136 and 5200. -/
def Scenario.heap : Except KError Heap :=
  (Heap.Configure {} 2048 2).Initialize 4096

/-- The result of an allocation that is expected not to throw. -/
def Scenario.get (r : Except KError Object × Heap) : Except KError (Object × Heap) :=
  match r with
  | (.ok obj, h) => .ok (obj, h)
  | (.error e, _) => .error e

/-- The fields of the object a word refers to, as `IterateBody` visits them; the
bytes, for a string. -/
def Scenario.look (h : Heap) (p : Object) : Option (List Object × String) :=
  match h.cell p with
  | .ok { metadata := _, body := .STRING elements value } => some ([elements], value)
  | .ok c => some (c.body.fields, "")
  | .error _ => none

/-- What is seen of a heap: the root words, the bounds `free` of both spaces, the
remembered set and the symbol table. -/
structure Scenario.View where
  slots : List Object
  new_free : Nat
  old_free : Nat
  rset : List Object
  symbols : List Object
  deriving DecidableEq, Repr

def Scenario.view (h : Heap) : Scenario.View :=
  { slots := h.slots, new_free := h.new_space.free, old_free := h.old_space.free,
    rset := h.old_space.rset, symbols := h.symbol_table }

/-- Two tenured strings `"a"` (at 5224) and `"b"` (at 5248) and an array `n` of one
element in the new space (at 4096) with `n[0] = b`. The roots are `n` and, if
`rooted`, `b` itself; nothing refers to `a`. Then `Heap::Collect(OLD_SPACE)` runs, and
two more tenured strings `"c"` and `"d"` are allocated. The result: the heap as seen
after the collection, the fields of `n` then, and the object that the word `n[0]`
refers to at the end. -/
def Scenario.oldCollect (rooted : Bool) :
    Except KError (Scenario.View × Option (List Object × String) ×
      Option (List Object × String)) := do
  let h ← Scenario.heap
  let (_, h) ← Scenario.get (Heap.String.New 64 h "a" .TENURED)
  let (b, h) ← Scenario.get (Heap.String.New 64 h "b" .TENURED)
  let (n, h) ← Scenario.get (h.AllocateArray 64 1 .NOT_TENURED)
  let (_, h) ← Heap.Array.Set h n 0 b
  let h := { h with slots := if rooted then [n, b] else [n] }
  let h ← h.Collect 64 .OLD_SPACE
  let seen := Scenario.view h
  let fields := Scenario.look h n
  let (_, h) ← Scenario.get (Heap.String.New 64 h "c" .TENURED)
  let (_, h) ← Scenario.get (Heap.String.New 64 h "d" .TENURED)
  pure (seen, fields, Scenario.look h (HeapObject_Make 5248))

/-- The objects of the old space, from the address `scan` up to `free`, as the
collector walks them; the first argument bounds their number. -/
def Heap.oldObjectsFrom (h : Heap) : Nat → Nat → List Object
  | 0, _ => []
  | fuel + 1, scan =>
    if scan < h.old_space.free then
      match h.memory scan with
      | some c => HeapObject_Make scan :: Heap.oldObjectsFrom h fuel (scan + c.body.Size)
      | none => []
    else []

/-- Every object of the old space that holds a reference into the new space is in
the remembered set and has its remembered flag set; the first argument bounds the
number of objects looked at. -/
def Heap.Remembers (fuel : Nat) (h : Heap) : Bool :=
  (h.oldObjectsFrom fuel h.old_space.begin_).all fun obj =>
    match h.cell obj with
    | .ok c =>
      !c.body.fields.any h.IsInNewSpace ||
        (c.metadata.IsRemembered && decide (obj ∈ h.old_space.rset))
    | .error _ => false

/-- What is seen of the remembered set around a store: whether the old space
remembers its references into the new space before and after, and the remembered
set after. -/
structure Scenario.Stored where
  before : Bool
  after : Bool
  rset : List Object
  deriving DecidableEq, Repr

/-- A tenured object `o` with the shared empty table (at 5224), and a table for six
elements in the new space, as `HashTable::AddElement` allocates it when the object
receives its third property; then `o->SetElements(table)`, as in
`KSObject::SetProperty`. The result: what is seen of the remembered set, and the
elements of `o` after the store. -/
def Scenario.rehash : Except KError (Scenario.Stored × Option (List Object × String)) := do
  let h ← Scenario.heap
  let (o, h) ← Scenario.get (h.AllocateKSObject 64 0 .TENURED)
  let (table, h) ← Scenario.get (h.AllocateHashTableNoGC 6 .NOT_TENURED)
  let before := h.Remembers 64
  let h ← Heap.KSObject.SetElements h o table
  pure (⟨before, h.Remembers 64, h.old_space.rset⟩, Scenario.look h o)

/-- The stores that carry a write barrier, each into a tenured object and of a
reference to an array `n` of the new space: `Array::Set`, `KSArray::SetElements`, and
`Function::New` with `n` as the parameters. The result, for each: whether the old
space remembers its references into the new space after the store, and the
remembered set. -/
def Scenario.barriers : Except KError (List (Bool × List Object)) := do
  let h ← Scenario.heap
  let (n, h) ← Scenario.get (h.AllocateArray 64 1 .NOT_TENURED)
  let (a, h1) ← Scenario.get (h.AllocateArray 64 1 .TENURED)
  let (_, h1) ← Heap.Array.Set h1 a 0 n
  let (k, h2) ← Scenario.get (h.AllocateKSArray 64 0 .TENURED)
  let h2 ← Heap.KSArray.SetElements h2 k n
  let (_, h3) ← Scenario.get (Heap.Function.New 64 h h.empty_string n (.KSBody []) .TENURED)
  pure [(h1.Remembers 64, h1.old_space.rset), (h2.Remembers 64, h2.old_space.rset),
    (h3.Remembers 64, h3.old_space.rset)]

/-- A tenured array `o` (at 5224) whose table of properties is replaced, as in
`KSObject::SetProperty` after a rehash, by a table in the new space (at 4096), with
no barrier. An allocation of an array of 45 elements then fails and collects the new
space: the table, which only `o` refers to, is not copied, and the array `z` is
allocated at 4608. A push of `z` onto `o` makes `o` remembered. The result: the number
of young collections and the heap as seen before the last step, and the outcome of
the last step, `Heap::AllocateArray(30)`. -/
def Scenario.escape : Except KError (Nat × Scenario.View × Except KError Object) := do
  let h ← Scenario.heap
  let (o, h) ← Scenario.get (h.AllocateKSArray 64 0 .TENURED)
  let h := { h with slots := [o, nullptr] }
  let (table, h) ← Scenario.get (h.AllocateHashTableNoGC 6 .NOT_TENURED)
  let h ← Heap.KSObject.SetElements h o table
  let (z, h) ← Scenario.get (h.AllocateArray 64 45 .NOT_TENURED)
  let h := { h with slots := [o, z] }
  let (_, h) ← Scenario.get (Heap.KSArray.Push 64 h 0 1)
  pure (h.young_gc_count, Scenario.view h, (h.AllocateArray 64 30 .NOT_TENURED).1)

/-- On the fresh heap, whose semispaces have 512 bytes, an array of `length`
elements is allocated: the outcome and the number of young collections. -/
def Scenario.allocate (length : Nat) : Except KError (Except KError Object × Nat) := do
  let h ← Scenario.heap
  let (r, h) := h.AllocateArray 64 length .NOT_TENURED
  pure (r, h.young_gc_count)

/-! ## Well-formed heaps and what a word denotes -/

/-- Apply a function to the words `HeapObject::IterateBody` visits. -/
def HeapObject.mapFields (f : Object → Object) : HeapObject → HeapObject
  | .ARRAY slots => .ARRAY (slots.map f)
  | .KSARRAY elements length array => .KSARRAY (f elements) length (f array)
  | .KSOBJECT elements => .KSOBJECT (f elements)
  | .STRING elements value => .STRING (f elements) value
  | .FUNCTION name params body => .FUNCTION (f name) (f params) body
  | .HEAP_NUMBER value => .HEAP_NUMBER value

/-- The type and the scalar fields of an object: its references are blanked. -/
def HeapObject.scalars (b : HeapObject) : HeapObject := b.mapFields (fun _ => nullptr)

/-- What a word denotes, to a depth: a word that is no heap reference, or an object
with its type, its scalar fields, and what its references denote. -/
inductive Shape where
  | word (w : Object)
  | object (scalars : HeapObject) (fields : List Shape)
  | dangling
  | cut

/-- What a word denotes in a heap, to the depth given. -/
def Heap.denote (h : Heap) : Nat → Object → Shape
  | 0, _ => .cut
  | depth + 1, w =>
    if IsHeapObject w then
      match h.memory (ADDRESS w) with
      | some c => .object c.body.scalars (c.body.fields.map (h.denote depth))
      | none => .dangling
    else .word w

/-- The objects at the addresses of the list lie one after the other from `lo` to
`hi`. -/
def Layout (m : Memory) : List Nat → Nat → Nat → Prop
  | [], lo, hi => lo = hi
  | a :: rest, lo, hi =>
    a = lo ∧
      match m a with
      | some c => Layout m rest (lo + c.body.Size) hi
      | none => False

instance (m : Memory) : (l : List Nat) → (lo hi : Nat) → Decidable (Layout m l lo hi)
  | [], lo, hi => inferInstanceAs (Decidable (lo = hi))
  | a :: rest, lo, hi =>
    match hm : m a with
    | some c =>
      match instDecidableLayout m rest (lo + c.body.Size) hi with
      | isTrue hl =>
        if ha : a = lo then isTrue (by simp only [Layout, hm]; exact ⟨ha, hl⟩)
        else isFalse (by simp only [Layout, hm]; exact fun hx => ha hx.1)
      | isFalse hl => isFalse (by simp only [Layout, hm]; exact fun hx => hl hx.2)
    | none => isFalse (by simp only [Layout, hm]; exact fun hx => hx.2)

/-- The property holds of the object stored at the address. -/
def Heap.CellAt (h : Heap) (a : Nat) (P : Cell → Prop) : Prop :=
  match h.memory a with
  | some c => P c
  | none => False

instance (h : Heap) (a : Nat) (P : Cell → Prop) [DecidablePred P] : Decidable (h.CellAt a P) := by
  unfold Heap.CellAt
  split <;> infer_instance

/-- A word is no heap reference, or it refers to one of the objects listed for the
new space (`L`) or for the old space (`O`). -/
def Good (L O : List Nat) (w : Object) : Prop :=
  IsHeapObject w = true → ADDRESS w ∈ L ∨ ADDRESS w ∈ O

instance (L O : List Nat) (w : Object) : Decidable (Good L O w) := by
  unfold Good
  infer_instance

/-- A heap between collections, with the objects of its new space at the addresses
`L` and those of its old space at the addresses `O`: the spaces are aligned, apart
and below `2 ^ 48`; the objects lie one after the other in the allocation semispace
and in the old space, and none of the new space is forwarded; every heap reference
in a root word or in a field of an object refers to an object; the remembered set
lists objects of the old space, each once; and every object of the old space that
holds a reference into the new space is in the remembered set. -/
def Heap.WellFormed (h : Heap) (L O : List Nat) : Prop :=
  0 < h.new_space.start ∧
  h.new_space.start % 8 = 0 ∧
  h.new_space.semispace_size % 8 = 0 ∧
  h.new_space.size = h.new_space.semispace_size * 2 ∧
  ((h.new_space.to_space = h.new_space.start ∧
      h.new_space.from_space = h.new_space.start + h.new_space.semispace_size) ∨
    (h.new_space.from_space = h.new_space.start ∧
      h.new_space.to_space = h.new_space.start + h.new_space.semispace_size)) ∧
  h.new_space.start + h.new_space.size ≤ h.old_space.start ∧
  h.old_space.start + h.old_space.size ≤ 2 ^ 48 ∧
  h.old_space.start % 8 = 0 ∧
  Layout h.memory L h.new_space.to_space h.new_space.free ∧
  h.new_space.free ≤ h.new_space.to_space + h.new_space.semispace_size ∧
  Layout h.memory O h.old_space.start h.old_space.free ∧
  h.old_space.free ≤ h.old_space.start + h.old_space.size ∧
  (∀ a ∈ L, h.CellAt a (fun c => c.metadata.forwarding = 0)) ∧
  (∀ w ∈ h.slots ++ [h.empty_array, h.empty_hash_table, h.empty_string], Good L O w) ∧
  (∀ a ∈ L ++ O, h.CellAt a (fun c => ∀ w ∈ c.body.fields, Good L O w)) ∧
  h.old_space.rset.Nodup ∧
  (∀ e ∈ h.old_space.rset, IsHeapObject e = true ∧ ADDRESS e ∈ O) ∧
  (∀ o ∈ O, h.CellAt o (fun c =>
    (∃ w ∈ c.body.fields, h.IsInNewSpace w = true) → HeapObject_Make o ∈ h.old_space.rset))

instance (h : Heap) (L O : List Nat) : Decidable (h.WellFormed L O) := by
  unfold Heap.WellFormed
  infer_instance

/-- The size of the object stored at an address. -/
def Heap.sizeAt (h : Heap) (a : Nat) : Nat :=
  match h.memory a with
  | some c => c.body.Size
  | none => 0

/-- The pairs of a source and a destination, in the order of the copies: the
destinations lie one after the other from `lo` to `hi`, each with the size of its
source. -/
def Chain (size : Nat → Nat) : List (Nat × Nat) → Nat → Nat → Prop
  | [], lo, hi => lo = hi
  | p :: rest, lo, hi => p.2 = lo ∧ Chain size rest (lo + size p.1) hi

/-- The word `w'` is the word `w` after relocation by the pairs `F` of a source and
a destination: a reference into the new space becomes the reference to the
destination, and every other word stays. -/
def Relocated (B : Heap) (F : List (Nat × Nat)) (w w' : Object) : Prop :=
  if B.IsInNewSpace w = true then ∃ t, (ADDRESS w, t) ∈ F ∧ w' = HeapObject_Make t
  else w' = w

/-- The object at `x` has the type and the scalar fields of `b`, its first `i`
references are those of `b` relocated, and the others are those of `b`. -/
def Heap.Partial (B : Heap) (F : List (Nat × Nat)) (h : Heap) (x : Nat) (b : HeapObject)
    (i : Nat) : Prop :=
  ∃ c, h.memory x = some c ∧ c.body.scalars = b.scalars ∧
    c.body.fields.length = b.fields.length ∧
    (∀ j w, j < i → b.fields[j]? = some w →
      ∃ w', c.body.fields[j]? = some w' ∧ Relocated B F w w') ∧
    (∀ j, i ≤ j → c.body.fields[j]? = b.fields[j]?)

/-- The visit of a word by the copying collector. -/
def copyStep (w : Object) (h : Heap) : Except KError (Object × Heap) :=
  if h.IsInNewSpace w then h.CopyObject w else pure (w, h)

/-- The facts about the heap `B` in which `CopyingCollector::Copying` starts, with
the objects of the from-space at the addresses `L` and those of the old space at the
addresses `O`. -/
structure Copying.Base (B : Heap) (L O : List Nat) : Prop where
  to_pos : 0 < B.new_space.to_space
  to_aligned : B.new_space.to_space % 8 = 0
  to_lo : B.new_space.start ≤ B.new_space.to_space
  to_hi : B.new_space.to_space + B.new_space.semispace_size ≤ B.new_space.start + B.new_space.size
  from_lo : B.new_space.start ≤ B.new_space.from_space
  from_hi :
    B.new_space.from_space + B.new_space.semispace_size ≤ B.new_space.start + B.new_space.size
  apart : B.new_space.to_space + B.new_space.semispace_size ≤ B.new_space.from_space ∨
    B.new_space.from_space + B.new_space.semispace_size ≤ B.new_space.to_space
  spaces : B.new_space.start + B.new_space.size ≤ B.old_space.start
  old_end : B.old_space.start + B.old_space.size ≤ 2 ^ 48
  old_free : B.old_space.free % 8 = 0
  old_lo : B.old_space.start ≤ B.old_space.free
  old_hi : B.old_space.free ≤ B.old_space.start + B.old_space.size
  free : B.new_space.free = B.new_space.to_space
  promoted : B.promoted = []
  cellsL : ∀ a ∈ L, ∃ c, B.memory a = some c ∧ c.metadata.forwarding = 0
  rangeL : ∀ a ∈ L, B.new_space.from_space ≤ a ∧
    a < B.new_space.from_space + B.new_space.semispace_size
  nodupL : L.Nodup
  sumL : (L.map B.sizeAt).sum ≤ B.new_space.semispace_size
  cellsO : ∀ o ∈ O, ∃ c, B.memory o = some c
  rangeO : ∀ o ∈ O, B.old_space.start ≤ o ∧ o < B.old_space.free
  roots : ∀ w ∈ B.slots ++ [B.empty_array, B.empty_hash_table, B.empty_string], Good L O w
  fields : ∀ a ∈ L ++ O, ∀ c, B.memory a = some c → ∀ w ∈ c.body.fields, Good L O w
  rset_nodup : B.old_space.rset.Nodup
  rset : ∀ e ∈ B.old_space.rset, IsHeapObject e = true ∧ ADDRESS e ∈ O
  remembered : ∀ o ∈ O, ∀ c, B.memory o = some c →
    (∃ w ∈ c.body.fields, B.IsInNewSpace w = true) → HeapObject_Make o ∈ B.old_space.rset

/-- The state of a collection in progress from the heap `B`: the bounds of the
spaces are those of `B`; the pairs `FT` (copies in the to-space) and `FP` (promoted
copies) list every forwarded object of the from-space, once, with its destination;
the destinations lie one after the other; and the objects of the from-space keep
their fields. -/
structure Copying.Inv (B : Heap) (L : List Nat) (FT FP : List (Nat × Nat)) (h : Heap) :
    Prop where
  ns_start : h.new_space.start = B.new_space.start
  ns_size : h.new_space.size = B.new_space.size
  ns_semi : h.new_space.semispace_size = B.new_space.semispace_size
  ns_from : h.new_space.from_space = B.new_space.from_space
  ns_to : h.new_space.to_space = B.new_space.to_space
  os_start : h.old_space.start = B.old_space.start
  os_size : h.old_space.size = B.old_space.size
  os_hi : h.old_space.free ≤ B.old_space.start + B.old_space.size
  chainT : Chain B.sizeAt FT B.new_space.to_space h.new_space.free
  chainP : Chain B.sizeAt FP B.old_space.free h.old_space.free
  promoted : h.promoted = FP.map (fun p => HeapObject_Make p.2)
  nodup : ((FT ++ FP).map Prod.fst).Nodup
  sub : ∀ p ∈ FT ++ FP, p.1 ∈ L
  cells : ∀ a ∈ L, ∃ c c0, h.memory a = some c ∧ B.memory a = some c0 ∧ c.body = c0.body ∧
    ((c.metadata.forwarding = 0 ∧ a ∉ (FT ++ FP).map Prod.fst) ∨
      (c.metadata.forwarding ≠ 0 ∧ (a, c.metadata.forwarding) ∈ FT ++ FP))

/-- The address lies in the part of the to-space, or of the old space, that is
allocated. -/
def Copying.Owned (B h : Heap) (x : Nat) : Prop :=
  (B.new_space.to_space ≤ x ∧ x < h.new_space.free) ∨
    (B.old_space.start ≤ x ∧ x < h.old_space.free)

/-- The collection in progress from the heap `B`, with the number `prog x` of
references relocated in the object at `x`: the copies, the promoted copies and the
objects of the old space have the fields of their sources, relocated up to that
number. -/
structure Copying.Prog (B : Heap) (L O : List Nat) (FT FP : List (Nat × Nat))
    (prog : Nat → Nat) (h : Heap) : Prop where
  inv : Copying.Inv B L FT FP h
  part : ∀ p ∈ FT ++ FP ++ O.map (fun o => (o, o)), ∃ c0, B.memory p.1 = some c0 ∧
    Heap.Partial B (FT ++ FP) h p.2 c0.body (prog p.2)
  zero : ∀ x, ¬ Copying.Owned B h x → prog x = 0

/-- The root words and the remembered set of the two heaps are the same. -/
structure Heap.Kept (h h' : Heap) : Prop where
  slots : h'.slots = h.slots
  empty_array : h'.empty_array = h.empty_array
  empty_hash_table : h'.empty_hash_table = h.empty_hash_table
  empty_string : h'.empty_string = h.empty_string
  rset : h'.old_space.rset = h.old_space.rset

/-- The number of references of the object stored at an address. -/
def Heap.fieldsAt (h : Heap) (a : Nat) : Nat :=
  match h.memory a with
  | some c => c.body.fields.length
  | none => 0

/-- The collection in progress, with the copies `D` whose references are all
relocated: so are those of the objects of the old space, and the other copies are
raw. -/
structure Copying.Scan (B : Heap) (L O : List Nat) (FT FP D : List (Nat × Nat))
    (prog : Nat → Nat) (h : Heap) : Prop where
  state : Copying.Prog B L O FT FP prog h
  sub : D ⊆ FT ++ FP
  done : ∀ p ∈ D ++ O.map (fun o => (o, o)), B.fieldsAt p.1 ≤ prog p.2
  raw : ∀ p ∈ FT ++ FP, p ∉ D → prog p.2 = 0

/-- The root words of the two heaps are the same. -/
structure Heap.Rooted (h h' : Heap) : Prop where
  slots : h'.slots = h.slots
  empty_array : h'.empty_array = h.empty_array
  empty_hash_table : h'.empty_hash_table = h.empty_hash_table
  empty_string : h'.empty_string = h.empty_string

/-! ## A heap before a young collection -/

/-- The root word 0 holds an array of the language and the root word 1 the value to
push: the integers `i`, `i + 1`, ... are pushed in order, `n` of them. -/
def Scenario.pushN : Nat → Nat → Heap → Except KError Heap
  | 0, _, h => pure h
  | n + 1, i, h => do
    let h := { h with slots := h.slots.set 1 (Int32.Make (Int.ofNat i)) }
    let (_, h) ← Scenario.get (Heap.KSArray.Push 256 h 0 1)
    Scenario.pushN n (i + 1) h

/-- On the fresh heap: an array of the language in the new space (at 4096), the root
word 0, receives the integers 1, 2 and 3, which leaves its first two backing arrays
(at 4128 and 4152) unreferenced beside the third (at 4184); a string `"x"` is
allocated in the new space (at 4232) and stored in a tenured array (at 5224), the
root word 2, which the write barrier puts in the remembered set. -/
def Scenario.young : Except KError Heap := do
  let h ← Scenario.heap
  let (a, h) ← Scenario.get (h.AllocateKSArray 64 0 .NOT_TENURED)
  let h := { h with slots := [a, nullptr] }
  let h ← Scenario.pushN 3 1 h
  let (s, h) ← Scenario.get (Heap.String.New 64 h "x" .NOT_TENURED)
  let (t, h) ← Scenario.get (h.AllocateArray 64 2 .TENURED)
  let (_, h) ← Heap.Array.Set h t 0 s
  pure { h with slots := h.slots ++ [t] }

/-- The heap of `Scenario.young`. -/
def Scenario.youngHeap : Heap :=
  match Scenario.young with
  | .ok h => h
  | .error _ => {}

/-! ## The scanner (`token.cpp`, `scanner.hh`, `scanner.cpp`) -/

/-- What stops the parser: the exception `KSSyntaxError`, given by the format of its
message and the arguments of the format, or a fault. -/
inductive ParseError where
  | KSSyntaxError (format : String) (args : List String)
  | Fault (e : Error)
  deriving DecidableEq, Repr

namespace Token

/-- The function `Token::GetTokenDesc`. -/
def GetTokenDesc : Kind → String
  | .LP => "("
  | .RP => ")"
  | .LC => "\x7b"
  | .RC => "\x7d"
  | .LBRACKET => "["
  | .RBRACKET => "]"
  | .SEMI => ";"
  | .COMMA => ","
  | .DOT => "."
  | .PLUS => "+"
  | .SUB => "-"
  | .MUL => "*"
  | .DIV => "/"
  | .MOD => "%"
  | .INC => "++"
  | .DEC => "--"
  | .ASSIGN => "="
  | .ADD_ASSIGN => "+="
  | .SUB_ASSIGN => "-="
  | .MUL_ASSIGN => "*="
  | .DIV_ASSIGN => "/="
  | .MOD_ASSIGN => "%="
  | .LOGIC_OR => "||"
  | .LOGIC_AND => "&&"
  | .EQ => "=="
  | .NE => "!="
  | .LT => "<"
  | .GT => ">"
  | .LTE => "<="
  | .GTE => ">="
  | .QUES => "?"
  | .COLON => ":"
  | .NOT => "!"
  | .ID => "identifier"
  | .INT_LITERAL => "int literal"
  | .DOUBLE_LITERAL => "double literal"
  | .STRING_LITERAL => "string literal"
  | .FUNCTION => "function"
  | .IF => "if"
  | .ELSIF => "elsif"
  | .ELSE => "else"
  | .WHILE => "while"
  | .FOR => "for"
  | .RETURN => "return"
  | .BREAK => "break"
  | .CONTINUE => "continue"
  | .TRUE => "true"
  | .FALSE => "false"
  | .UNDEFINED => "undefined"
  | .END => "end of file"
  | .UNKNOWN => "unknown"

/-- The keywords of `TOKEN_LIST`. -/
def keywords : List Kind :=
  [.FUNCTION, .IF, .ELSIF, .ELSE, .WHILE, .FOR, .RETURN, .BREAK, .CONTINUE, .TRUE, .FALSE,
    .UNDEFINED]

/-- The function `Token::FindKeyword`. -/
def FindKeyword (id : String) : Option Kind :=
  keywords.find? (fun kind => decide (GetTokenDesc kind = id))

/-- The function `Token::IsAssignmentOperator`. -/
def IsAssignmentOperator : Kind → Bool
  | .ASSIGN | .ADD_ASSIGN | .SUB_ASSIGN | .MUL_ASSIGN | .DIV_ASSIGN | .MOD_ASSIGN => true
  | _ => false

end Token

/-- The class `Scanner`, without the locations. `code` holds the characters from
`code_` on, each `Char` standing for one `char`, up to the terminating `'\0'`;
`literal` is the literal scanned last, which is what `CurrentLiteral()` returns. -/
structure Scanner where
  code : List Char
  current : Token.Kind := .UNKNOWN
  literal : String := ""
  has_line_terminator : Bool := false
  deriving DecidableEq, Repr

namespace Scanner

/-- The character `'\0'`. -/
def NUL : Char := Char.ofNat 0

def CurrentChar (s : Scanner) : Char := s.code.headD NUL

def NextChar (s : Scanner) : Scanner := { s with code := s.code.tail }

def Consume (s : Scanner) (ch : Char) : Bool × Scanner :=
  if s.CurrentChar = ch then (true, s.NextChar) else (false, s)

def IsWhiteSpace (ch : Char) : Bool := ch = ' ' || ch = '\t'

def IsIdStart (ch : Char) : Bool :=
  (decide ('a'.toNat ≤ ch.toNat) && decide (ch.toNat ≤ 'z'.toNat)) ||
    (decide ('A'.toNat ≤ ch.toNat) && decide (ch.toNat ≤ 'Z'.toNat)) || ch = '$' || ch = '_'

def IsDigit (ch : Char) : Bool := decide ('0'.toNat ≤ ch.toNat) && decide (ch.toNat ≤ '9'.toNat)

/-- The function `Scanner::AcceptLineTerminator`. -/
def AcceptLineTerminator (s : Scanner) : Bool × Scanner :=
  if s.CurrentChar = '\r' then
    let s := { s with has_line_terminator := true }.NextChar
    (true, if s.CurrentChar = '\n' then s.NextChar else s)
  else if s.CurrentChar = '\n' then
    (true, { s with has_line_terminator := true }.NextChar)
  else (false, s)

/-- The loop `while (!AcceptLineTerminator()) NextChar();` of a comment: it has no
test for the end of the code, past which it reads. -/
def skipComment : Nat → Scanner → Except ParseError Scanner
  | 0, _ => .error (.Fault .OutOfFuel)
  | fuel + 1, s =>
    match s.AcceptLineTerminator with
    | (true, s) => pure s
    | (false, s) =>
      if s.code.isEmpty then .error (.Fault .OutOfBounds)
      else skipComment fuel s.NextChar

/-- The loop `do ... while (true)` of `Scanner::SkipWhitespace`. -/
def skipLoop : Nat → Scanner → Except ParseError Scanner
  | 0, _ => .error (.Fault .OutOfFuel)
  | fuel + 1, s =>
    let s := { s with code := s.code.dropWhile IsWhiteSpace }
    match s.Consume '#' with
    | (true, s) => do
      let s ← skipComment (s.code.length + 1) s
      skipLoop fuel s
    | (false, s) =>
      match s.AcceptLineTerminator with
      | (true, s) => skipLoop fuel s
      | (false, s) => pure s

/-- The function `Scanner::SkipWhitespace`. -/
def SkipWhitespace (s : Scanner) : Except ParseError Scanner :=
  skipLoop (s.code.length + 1) { s with has_line_terminator := false }

/-- The function `Scanner::ScanDigitLiteral`. -/
def ScanDigitLiteral (s : Scanner) : Token.Kind × Scanner :=
  let digits := s.code.takeWhile IsDigit
  let s := { s with code := s.code.dropWhile IsDigit }
  match s.Consume '.' with
  | (true, s) =>
    let more := s.code.takeWhile IsDigit
    (.DOUBLE_LITERAL,
      { s with code := s.code.dropWhile IsDigit, literal := String.mk (digits ++ '.' :: more) })
  | (false, s) => (.INT_LITERAL, { s with literal := String.mk digits })

/-- The function `Scanner::ScanStringLiteral`. -/
def ScanStringLiteral (s : Scanner) : Except ParseError Scanner :=
  let s := s.NextChar
  let is_str_part := fun (ch : Char) => ch != '"' && ch != NUL
  let part := s.code.takeWhile is_str_part
  let s := { s with code := s.code.dropWhile is_str_part, literal := String.mk part }
  match s.Consume '"' with
  | (true, s) => pure s
  | (false, _) =>
    .error (.KSSyntaxError "expect character `\"`, but got `\x7b\x7d`" [String.mk [NUL]])

/-- The function `Scanner::ScanIdentifier`. -/
def ScanIdentifier (s : Scanner) : Token.Kind × Scanner :=
  let is_id_part := fun (ch : Char) => IsIdStart ch || IsDigit ch
  let literal := String.mk (s.code.take 1 ++ (s.code.drop 1).takeWhile is_id_part)
  let s := { s with code := (s.code.drop 1).dropWhile is_id_part, literal := literal }
  match Token.FindKeyword literal with
  | some keyword => (keyword, s)
  | none => (.ID, s)

/-- The token for a character that may be followed by `=`. -/
def orAssign (s : Scanner) (with_assign plain : Token.Kind) : Token.Kind × Scanner :=
  match s.NextChar.Consume '=' with
  | (true, s) => (with_assign, s)
  | (false, s) => (plain, s)

/-- The token for `+` or `-`, which may be doubled or followed by `=`. -/
def orDouble (s : Scanner) (ch : Char) (doubled with_assign plain : Token.Kind) :
    Token.Kind × Scanner :=
  match s.NextChar.Consume ch with
  | (true, s) => (doubled, s)
  | (false, s) =>
    match s.Consume '=' with
    | (true, s) => (with_assign, s)
    | (false, s) => (plain, s)

/-- The function `Scanner::Scan`; the first argument bounds its calls of itself. -/
def Scan : Nat → Scanner → Except ParseError (Token.Kind × Scanner)
  | 0, _ => .error (.Fault .OutOfFuel)
  | fuel + 1, s => do
    let s ← s.SkipWhitespace
    let ch := s.CurrentChar
    if ch = '(' then pure (.LP, s.NextChar)
    else if ch = ')' then pure (.RP, s.NextChar)
    else if ch = '\x7b' then pure (.LC, s.NextChar)
    else if ch = '\x7d' then pure (.RC, s.NextChar)
    else if ch = '[' then pure (.LBRACKET, s.NextChar)
    else if ch = ']' then pure (.RBRACKET, s.NextChar)
    else if ch = ';' then pure (.SEMI, s.NextChar)
    else if ch = ',' then pure (.COMMA, s.NextChar)
    else if ch = '.' then pure (.DOT, s.NextChar)
    else if ch = '+' then pure (s.orDouble '+' .INC .ADD_ASSIGN .PLUS)
    else if ch = '-' then pure (s.orDouble '-' .DEC .SUB_ASSIGN .SUB)
    else if ch = '*' then pure (s.orAssign .MUL_ASSIGN .MUL)
    else if ch = '/' then pure (s.orAssign .DIV_ASSIGN .DIV)
    else if ch = '%' then pure (s.orAssign .MOD_ASSIGN .MOD)
    else if ch = '=' then pure (s.orAssign .EQ .ASSIGN)
    else if ch = '?' then pure (.QUES, s.NextChar)
    else if ch = ':' then pure (.COLON, s.NextChar)
    else if ch = '!' then pure (s.orAssign .NE .NOT)
    else if ch = '>' then pure (s.orAssign .GTE .GT)
    else if ch = '<' then pure (s.orAssign .LTE .LT)
    else if ch = '"' then do pure (.STRING_LITERAL, ← s.ScanStringLiteral)
    else if ch = '#' then Scan fuel s
    else if ch = NUL then pure (.END, s)
    else if IsDigit ch then pure s.ScanDigitLiteral
    else if IsIdStart ch then pure s.ScanIdentifier
    else .error (.KSSyntaxError "unexpected character: \x7b\x7d" [String.mk [NUL]])

/-- The function `Scanner::NextToken`. -/
def NextToken (s : Scanner) : Except ParseError Scanner := do
  let (kind, s) ← Scan (s.code.length + 2) s
  pure { s with current := kind }

/-- The function `Scanner::Initialize`. -/
def Initialize (code : String) : Except ParseError Scanner :=
  NextToken { code := code.data, current := .UNKNOWN }

/-- The tokens of a code, one call of `NextToken` after the other up to `END`; the
first argument bounds their number. -/
def tokens : Nat → Scanner → Except ParseError (List Token.Kind)
  | 0, _ => .error (.Fault .OutOfFuel)
  | fuel + 1, s =>
    if s.current = .END then pure [.END]
    else do
      let rest ← tokens fuel (← s.NextToken)
      pure (s.current :: rest)

end Scanner

/-- The tokens of a code. -/
def Scenario.scan (code : String) : Except ParseError (List Token.Kind) := do
  Scanner.tokens (code.length + 1) (← Scanner.Initialize code)

/-! ## The parser (`parser.hh`, `parser.cpp`)

The nodes carry no locations: `FunctionCall.loc` is left empty. The assertions are
not checked. -/

/-- The class `Parser`. -/
structure Parser where
  scanner : Scanner
  is_breakable_scope : Bool := false
  is_fn_scope : Bool := false
  deriving DecidableEq, Repr

/-- The function `atoi` on a literal, which starts with a digit: the value of the
leading digits; the behaviour is undefined when it is not an `int`. -/
def atoi (str : String) : Option Int :=
  let n : Nat := (str.data.takeWhile Scanner.IsDigit).foldl (fun a c => a * 10 + (c.toNat - 48)) 0
  if Int.ofNat n ≤ Int32.kMaxInt32 then some (Int.ofNat n) else none

/-- The function `Node::IsLeftHandSideExpression`. -/
def IsLeftHandSideExpression : Expression → Bool
  | .MemberAccess _ _ _ => true
  | .Identifier _ => true
  | _ => false

namespace Parser

def Peek (p : Parser) : Token.Kind := p.scanner.current

def Look (p : Parser) (kind : Token.Kind) : Bool := decide (p.Peek = kind)

def Next (p : Parser) : Except ParseError Parser := do
  pure { p with scanner := ← p.scanner.NextToken }

def Accept (p : Parser) (kind : Token.Kind) : Except ParseError (Bool × Parser) :=
  if p.Look kind then do pure (true, ← p.Next) else pure (false, p)

def Expect (p : Parser) (kind : Token.Kind) : Except ParseError Parser := do
  let (accepted, p) ← p.Accept kind
  if accepted then pure p
  else
    .error (.KSSyntaxError "expected `\x7b\x7d`, but got `\x7b\x7d`"
      [Token.GetTokenDesc kind, Token.GetTokenDesc p.Peek])

def ExpectEnd (p : Parser) : Except ParseError Parser :=
  if p.scanner.has_line_terminator then pure p
  else do
    let (accepted, p) ← p.Accept .SEMI
    if accepted || p.Look .END then pure p
    else .error (.KSSyntaxError "expected `;`, but got \x7b\x7d" [Token.GetTokenDesc p.Peek])

/-- What the heap throws passes through the parser. -/
def heap {α : Type} : Except Error α → Except ParseError α
  | .ok a => .ok a
  | .error e => .error (.Fault e)

/-- The function `Parser::ParseStringLiteral`. -/
def ParseStringLiteral (p : Parser) (σ : State) :
    Except ParseError (Expression × Parser × State) := do
  let (literal, σ) ← heap (String.New σ p.scanner.literal .TENURED)
  pure (.StringLiteral literal, ← p.Next, σ)

/-- The function `Parser::ParseIdentifier`. -/
def ParseIdentifier (p : Parser) (σ : State) :
    Except ParseError (Expression × Parser × State) := do
  let (symbol, σ) ← heap (String.NewSymbol σ p.scanner.literal)
  pure (.Identifier symbol, ← p.Next, σ)

/-- The function `Parser::ParseIdentifierName`. -/
def ParseIdentifierName (p : Parser) (σ : State) :
    Except ParseError (Expression × Parser × State) := do
  let (symbol, σ) ← heap (String.NewSymbol σ p.scanner.literal)
  pure (.IdentifierName symbol, ← p.Next, σ)

/-- The function `Parser::ParsePropertyName`. -/
def ParsePropertyName (p : Parser) (σ : State) :
    Except ParseError (Expression × Parser × State) :=
  match p.Peek with
  | .ID => p.ParseIdentifierName σ
  | .STRING_LITERAL => p.ParseStringLiteral σ
  | kind =>
    .error (.KSSyntaxError "syntax error: unexpected character `\x7b\x7d`"
      [Token.GetTokenDesc kind])

section

variable (F : FloatOps)

mutual

/-- The function `Parser::ParseExpression`. -/
def ParseExpression : Nat → Parser → State → Except ParseError (Expression × Parser × State)
  | 0, _, _ => .error (.Fault .OutOfFuel)
  | fuel + 1, p, σ => ParseAssignment fuel p σ

/-- The function `Parser::ParseAssignment`. -/
def ParseAssignment : Nat → Parser → State → Except ParseError (Expression × Parser × State)
  | 0, _, _ => .error (.Fault .OutOfFuel)
  | fuel + 1, p, σ => do
    let (conditional, p, σ) ← ParseConditionalExpression fuel p σ
    if IsLeftHandSideExpression conditional && Token.IsAssignmentOperator p.Peek then
      let op := p.Peek
      let p ← p.Next
      let (value, p, σ) ← ParseAssignment fuel p σ
      pure (.Assignment conditional value op, p, σ)
    else pure (conditional, p, σ)

/-- The function `Parser::ParseConditionalExpression`. -/
def ParseConditionalExpression :
    Nat → Parser → State → Except ParseError (Expression × Parser × State)
  | 0, _, _ => .error (.Fault .OutOfFuel)
  | fuel + 1, p, σ => do
    let (logic_or, p, σ) ← ParseLogicOrExpression fuel p σ
    let (accepted, p) ← p.Accept .QUES
    if accepted then
      let (then_expr, p, σ) ← ParseAssignment fuel p σ
      let p ← p.Expect .COLON
      let (else_expr, p, σ) ← ParseAssignment fuel p σ
      pure (.ConditionalExpression logic_or then_expr else_expr, p, σ)
    else pure (logic_or, p, σ)

/-- The function `Parser::ParseLogicOrExpression`. -/
def ParseLogicOrExpression :
    Nat → Parser → State → Except ParseError (Expression × Parser × State)
  | 0, _, _ => .error (.Fault .OutOfFuel)
  | fuel + 1, p, σ => do
    let (result, p, σ) ← ParseLogicAndExpression fuel p σ
    logicOrLoop fuel result p σ

/-- The loop `while (Accept(Token::LOGIC_OR))`. -/
def logicOrLoop :
    Nat → Expression → Parser → State → Except ParseError (Expression × Parser × State)
  | 0, _, _, _ => .error (.Fault .OutOfFuel)
  | fuel + 1, result, p, σ => do
    let (accepted, p) ← p.Accept .LOGIC_OR
    if accepted then
      let (right, p, σ) ← ParseLogicAndExpression fuel p σ
      logicOrLoop fuel (.BinaryExpression result right .LOGIC_OR) p σ
    else pure (result, p, σ)

/-- The function `Parser::ParseLogicAndExpression`. -/
def ParseLogicAndExpression :
    Nat → Parser → State → Except ParseError (Expression × Parser × State)
  | 0, _, _ => .error (.Fault .OutOfFuel)
  | fuel + 1, p, σ => do
    let (result, p, σ) ← ParseEqualityExpression fuel p σ
    logicAndLoop fuel result p σ

/-- The loop `while (Accept(Token::LOGIC_AND))`. -/
def logicAndLoop :
    Nat → Expression → Parser → State → Except ParseError (Expression × Parser × State)
  | 0, _, _, _ => .error (.Fault .OutOfFuel)
  | fuel + 1, result, p, σ => do
    let (accepted, p) ← p.Accept .LOGIC_AND
    if accepted then
      let (right, p, σ) ← ParseEqualityExpression fuel p σ
      logicAndLoop fuel (.BinaryExpression result right .LOGIC_AND) p σ
    else pure (result, p, σ)

/-- The function `Parser::ParseEqualityExpression`. -/
def ParseEqualityExpression :
    Nat → Parser → State → Except ParseError (Expression × Parser × State)
  | 0, _, _ => .error (.Fault .OutOfFuel)
  | fuel + 1, p, σ => do
    let (result, p, σ) ← ParseRelationalExpression fuel p σ
    equalityLoop fuel result p σ

/-- The loop `while (Look(Token::EQ) || Look(Token::NE))`. -/
def equalityLoop :
    Nat → Expression → Parser → State → Except ParseError (Expression × Parser × State)
  | 0, _, _, _ => .error (.Fault .OutOfFuel)
  | fuel + 1, result, p, σ => do
    if p.Look .EQ || p.Look .NE then
      let op := p.Peek
      let p ← p.Next
      let (right, p, σ) ← ParseRelationalExpression fuel p σ
      equalityLoop fuel (.BinaryExpression result right op) p σ
    else pure (result, p, σ)

/-- The function `Parser::ParseRelationalExpression`. -/
def ParseRelationalExpression :
    Nat → Parser → State → Except ParseError (Expression × Parser × State)
  | 0, _, _ => .error (.Fault .OutOfFuel)
  | fuel + 1, p, σ => do
    let (result, p, σ) ← ParseAdditiveExpression fuel p σ
    relationalLoop fuel result p σ

/-- The loop of `Parser::ParseRelationalExpression`. -/
def relationalLoop :
    Nat → Expression → Parser → State → Except ParseError (Expression × Parser × State)
  | 0, _, _, _ => .error (.Fault .OutOfFuel)
  | fuel + 1, result, p, σ => do
    if p.Look .LT || p.Look .GT || p.Look .LTE || p.Look .GTE then
      let op := p.Peek
      let p ← p.Next
      let (right, p, σ) ← ParseAdditiveExpression fuel p σ
      relationalLoop fuel (.BinaryExpression result right op) p σ
    else pure (result, p, σ)

/-- The function `Parser::ParseAdditiveExpression`. -/
def ParseAdditiveExpression :
    Nat → Parser → State → Except ParseError (Expression × Parser × State)
  | 0, _, _ => .error (.Fault .OutOfFuel)
  | fuel + 1, p, σ => do
    let (result, p, σ) ← ParseMultiplicativeExpression fuel p σ
    additiveLoop fuel result p σ

/-- The loop `while (Look(Token::PLUS) || Look(Token::SUB))`. -/
def additiveLoop :
    Nat → Expression → Parser → State → Except ParseError (Expression × Parser × State)
  | 0, _, _, _ => .error (.Fault .OutOfFuel)
  | fuel + 1, result, p, σ => do
    if p.Look .PLUS || p.Look .SUB then
      let op := p.Peek
      let p ← p.Next
      let (right, p, σ) ← ParseMultiplicativeExpression fuel p σ
      additiveLoop fuel (.BinaryExpression result right op) p σ
    else pure (result, p, σ)

/-- The function `Parser::ParseMultiplicativeExpression`. -/
def ParseMultiplicativeExpression :
    Nat → Parser → State → Except ParseError (Expression × Parser × State)
  | 0, _, _ => .error (.Fault .OutOfFuel)
  | fuel + 1, p, σ => do
    let (result, p, σ) ← ParseUnaryExpression fuel p σ
    multiplicativeLoop fuel result p σ

/-- The loop of `Parser::ParseMultiplicativeExpression`. -/
def multiplicativeLoop :
    Nat → Expression → Parser → State → Except ParseError (Expression × Parser × State)
  | 0, _, _, _ => .error (.Fault .OutOfFuel)
  | fuel + 1, result, p, σ => do
    if p.Look .MUL || p.Look .DIV || p.Look .MOD then
      let op := p.Peek
      let p ← p.Next
      let (right, p, σ) ← ParseUnaryExpression fuel p σ
      multiplicativeLoop fuel (.BinaryExpression result right op) p σ
    else pure (result, p, σ)

/-- The function `Parser::ParseUnaryExpression`. -/
def ParseUnaryExpression :
    Nat → Parser → State → Except ParseError (Expression × Parser × State)
  | 0, _, _ => .error (.Fault .OutOfFuel)
  | fuel + 1, p, σ =>
    let op := p.Peek
    if op = .INC ∨ op = .DEC ∨ op = .PLUS ∨ op = .SUB ∨ op = .NOT then do
      let p ← p.Next
      let (target, p, σ) ← ParseUnaryExpression fuel p σ
      pure (.UnaryExpression target op, p, σ)
    else ParsePostfixExpression fuel p σ

/-- The function `Parser::ParsePostfixExpression`. -/
def ParsePostfixExpression :
    Nat → Parser → State → Except ParseError (Expression × Parser × State)
  | 0, _, _ => .error (.Fault .OutOfFuel)
  | fuel + 1, p, σ => do
    let (result, p, σ) ← ParseLeftHandSideExpression fuel p σ
    if p.Look .INC || p.Look .DEC then
      let op := p.Peek
      pure (.PostfixExpression result op, ← p.Next, σ)
    else pure (result, p, σ)

/-- The function `Parser::ParseLeftHandSideExpression`. -/
def ParseLeftHandSideExpression :
    Nat → Parser → State → Except ParseError (Expression × Parser × State)
  | 0, _, _ => .error (.Fault .OutOfFuel)
  | fuel + 1, p, σ => ParseCallExpression fuel p σ

/-- The function `Parser::ParseCallExpression`. -/
def ParseCallExpression :
    Nat → Parser → State → Except ParseError (Expression × Parser × State)
  | 0, _, _ => .error (.Fault .OutOfFuel)
  | fuel + 1, p, σ => do
    let (result, p, σ) ← ParseMemberExpression fuel p σ
    callLoop fuel result p σ

/-- The loop `while (true)` of `Parser::ParseCallExpression`. -/
def callLoop :
    Nat → Expression → Parser → State → Except ParseError (Expression × Parser × State)
  | 0, _, _, _ => .error (.Fault .OutOfFuel)
  | fuel + 1, result, p, σ => do
    let (accepted, p) ← p.Accept .LP
    if accepted then
      if p.Look .RP then callLoop fuel (.FunctionCall result [] "") (← p.Next) σ
      else
        let (args, p, σ) ← listLoop fuel [] p σ
        let p ← p.Expect .RP
        callLoop fuel (.FunctionCall result args "") p σ
    else
      let (accepted, p) ← p.Accept .LBRACKET
      if accepted then
        let (member, p, σ) ← ParseExpression fuel p σ
        let p ← p.Expect .RBRACKET
        callLoop fuel (.MemberAccess result member .KEYED) p σ
      else
        let (accepted, p) ← p.Accept .DOT
        if accepted then
          let (member, p, σ) ← p.ParseIdentifierName σ
          callLoop fuel (.MemberAccess result member .DOTTED) p σ
        else pure (result, p, σ)

/-- The loop `do ... while (Accept(Token::COMMA))` over the arguments of a call
or the elements of an array literal. -/
def listLoop :
    Nat → List Expression → Parser → State →
      Except ParseError (List Expression × Parser × State)
  | 0, _, _, _ => .error (.Fault .OutOfFuel)
  | fuel + 1, items, p, σ => do
    let (item, p, σ) ← ParseAssignment fuel p σ
    let (accepted, p) ← p.Accept .COMMA
    if accepted then listLoop fuel (items ++ [item]) p σ
    else pure (items ++ [item], p, σ)

/-- The function `Parser::ParseMemberExpression`. -/
def ParseMemberExpression :
    Nat → Parser → State → Except ParseError (Expression × Parser × State)
  | 0, _, _ => .error (.Fault .OutOfFuel)
  | fuel + 1, p, σ => do
    let (result, p, σ) ← ParsePrimaryExpression fuel p σ
    memberLoop fuel result p σ

/-- The loop `while (true)` of `Parser::ParseMemberExpression`: a keyed access
continues it, a dotted access ends it. -/
def memberLoop :
    Nat → Expression → Parser → State → Except ParseError (Expression × Parser × State)
  | 0, _, _, _ => .error (.Fault .OutOfFuel)
  | fuel + 1, result, p, σ => do
    let (accepted, p) ← p.Accept .LBRACKET
    if accepted then
      let (member, p, σ) ← ParseExpression fuel p σ
      let p ← p.Expect .RBRACKET
      memberLoop fuel (.MemberAccess result member .KEYED) p σ
    else
      let (accepted, p) ← p.Accept .DOT
      if accepted then
        let (member, p, σ) ← p.ParseIdentifierName σ
        pure (.MemberAccess result member .DOTTED, p, σ)
      else pure (result, p, σ)

/-- The function `Parser::ParsePrimaryExpression`. -/
def ParsePrimaryExpression :
    Nat → Parser → State → Except ParseError (Expression × Parser × State)
  | 0, _, _ => .error (.Fault .OutOfFuel)
  | fuel + 1, p, σ =>
    match p.Peek with
    | .ID => p.ParseIdentifier σ
    | .TRUE => do pure (.BooleanLiteral (Constant.Boolean true), ← p.Next, σ)
    | .FALSE => do pure (.BooleanLiteral (Constant.Boolean false), ← p.Next, σ)
    | .INT_LITERAL =>
      match atoi p.scanner.literal with
      | some value => do pure (.IntLiteral (Int32.Make value), ← p.Next, σ)
      | none => .error (.Fault .Unreachable)
    | .DOUBLE_LITERAL =>
      match atoi p.scanner.literal with
      | some value =>
        match F.ofInt value with
        | some bits => do pure (.DoubleLiteral (Double.Make bits), ← p.Next, σ)
        | none => .error (.Fault .FloatingPoint)
      | none => .error (.Fault .Unreachable)
    | .STRING_LITERAL => p.ParseStringLiteral σ
    | .LBRACKET => ParseArrayLiteral fuel p σ
    | .LC => ParseObjectLiteral fuel p σ
    | .LP => do
      let p ← p.Next
      let (result, p, σ) ← ParseExpression fuel p σ
      pure (result, ← p.Expect .RP, σ)
    | .UNDEFINED => do pure (.UndefinedLiteral, ← p.Next, σ)
    | kind =>
      .error (.KSSyntaxError "syntax error: unexpected token `\x7b\x7d`"
        [Token.GetTokenDesc kind])

/-- The function `Parser::ParseArrayLiteral`. -/
def ParseArrayLiteral :
    Nat → Parser → State → Except ParseError (Expression × Parser × State)
  | 0, _, _ => .error (.Fault .OutOfFuel)
  | fuel + 1, p, σ => do
    let p ← p.Next
    if p.Look .RBRACKET then pure (.ArrayLiteral [], ← p.Next, σ)
    else
      let (elements, p, σ) ← listLoop fuel [] p σ
      pure (.ArrayLiteral elements, ← p.Expect .RBRACKET, σ)

/-- The function `Parser::ParseObjectLiteral`. -/
def ParseObjectLiteral :
    Nat → Parser → State → Except ParseError (Expression × Parser × State)
  | 0, _, _ => .error (.Fault .OutOfFuel)
  | fuel + 1, p, σ => do
    let p ← p.Next
    if p.Look .RC then pure (.ObjectLiteral [], ← p.Next, σ)
    else
      let (properties, p, σ) ← propertyLoop fuel [] p σ
      pure (.ObjectLiteral properties, ← p.Expect .RC, σ)

/-- The loop `do ... while (Accept(Token::COMMA))` of `Parser::ParseObjectLiteral`. -/
def propertyLoop :
    Nat → List (Expression × Expression) → Parser → State →
      Except ParseError (List (Expression × Expression) × Parser × State)
  | 0, _, _, _ => .error (.Fault .OutOfFuel)
  | fuel + 1, properties, p, σ => do
    let (name, p, σ) ← p.ParsePropertyName σ
    let p ← p.Expect .COLON
    let (value, p, σ) ← ParseAssignment fuel p σ
    let (accepted, p) ← p.Accept .COMMA
    if accepted then propertyLoop fuel (properties ++ [(name, value)]) p σ
    else pure (properties ++ [(name, value)], p, σ)

end

/-- The function `Parser::ParseExpressionStatement`. -/
def ParseExpressionStatement (fuel : Nat) (p : Parser) (σ : State) :
    Except ParseError (Statement × Parser × State) := do
  let (expr, p, σ) ← ParseExpression F fuel p σ
  pure (.ExpressionStatement expr, ← p.ExpectEnd, σ)

/-- The function `Parser::ParseReturnStatement`. -/
def ParseReturnStatement (fuel : Nat) (p : Parser) (σ : State) :
    Except ParseError (Statement × Parser × State) := do
  let p ← p.Next
  if p.scanner.has_line_terminator || p.Look .END then pure (.ReturnStatement none, p, σ)
  else
    let (value, p, σ) ← ParseExpression F fuel p σ
    let p ← p.ExpectEnd
    if !p.is_fn_scope then
      .error (.KSSyntaxError "syntax error: illegal return statement" [])
    else pure (.ReturnStatement (some value), p, σ)

/-- The function `Parser::ParseBreakStatement`. -/
def ParseBreakStatement (p : Parser) (σ : State) :
    Except ParseError (Statement × Parser × State) := do
  let p ← p.Next
  let p ← p.ExpectEnd
  if !p.is_breakable_scope then
    .error (.KSSyntaxError "syntax error: illegal break statement" [])
  else pure (.BreakStatement, p, σ)

/-- The function `Parser::ParseContinueStatement`. -/
def ParseContinueStatement (p : Parser) (σ : State) :
    Except ParseError (Statement × Parser × State) := do
  let p ← p.Next
  let p ← p.ExpectEnd
  if !p.is_breakable_scope then
    .error (.KSSyntaxError "syntax error: illegal continue statement" [])
  else pure (.ContinueStatement, p, σ)

mutual

/-- The function `Parser::ParseStatement`. -/
def ParseStatement : Nat → Parser → State → Except ParseError (Statement × Parser × State)
  | 0, _, _ => .error (.Fault .OutOfFuel)
  | fuel + 1, p, σ =>
    match p.Peek with
    | .LC => ParseBlockStatement fuel p σ
    | .IF => ParseIfStatement fuel p σ
    | .WHILE => ParseWhileStatement fuel p σ
    | .FOR => ParseForStatement fuel p σ
    | .RETURN => ParseReturnStatement F fuel p σ
    | .BREAK => ParseBreakStatement p σ
    | .CONTINUE => ParseContinueStatement p σ
    | _ => ParseExpressionStatement F fuel p σ

/-- The function `Parser::ParseBlockStatement`. -/
def ParseBlockStatement : Nat → Parser → State → Except ParseError (Statement × Parser × State)
  | 0, _, _ => .error (.Fault .OutOfFuel)
  | fuel + 1, p, σ => do
    let p ← p.Expect .LC
    let (stmts, p, σ) ← statementsLoop fuel [] p σ
    pure (.BlockStatement stmts, ← p.Expect .RC, σ)

/-- The loop `while (!Look(Token::RC))` over the statements of a block or of the
body of a function. -/
def statementsLoop :
    Nat → List Statement → Parser → State → Except ParseError (List Statement × Parser × State)
  | 0, _, _, _ => .error (.Fault .OutOfFuel)
  | fuel + 1, stmts, p, σ =>
    if !p.Look .RC then do
      let (stmt, p, σ) ← ParseStatement fuel p σ
      statementsLoop fuel (stmts ++ [stmt]) p σ
    else pure (stmts, p, σ)

/-- The function `Parser::ParseIfStatement`. -/
def ParseIfStatement : Nat → Parser → State → Except ParseError (Statement × Parser × State)
  | 0, _, _ => .error (.Fault .OutOfFuel)
  | fuel + 1, p, σ => do
    let p ← p.Next
    let p ← p.Expect .LP
    let (condition, p, σ) ← ParseExpression F fuel p σ
    let p ← p.Expect .RP
    let (then_stmt, p, σ) ← ParseStatement fuel p σ
    let (accepted, p) ← p.Accept .ELSE
    if accepted then
      let (else_stmt, p, σ) ← ParseStatement fuel p σ
      pure (.IfStatement condition then_stmt (some else_stmt), p, σ)
    else pure (.IfStatement condition then_stmt none, p, σ)

/-- The function `Parser::ParseWhileStatement`; the `BreakableScopeHandler` sets
the flag `is_breakable_scope_`, and its destructor clears it. -/
def ParseWhileStatement : Nat → Parser → State → Except ParseError (Statement × Parser × State)
  | 0, _, _ => .error (.Fault .OutOfFuel)
  | fuel + 1, p, σ => do
    let p ← p.Next
    let p ← p.Expect .LP
    let (condition, p, σ) ← ParseExpression F fuel p σ
    let p ← p.Expect .RP
    let p := { p with is_breakable_scope := true }
    let (loop_stmt, p, σ) ← ParseStatement fuel p σ
    pure (.WhileStatement condition loop_stmt, { p with is_breakable_scope := false }, σ)

/-- The function `Parser::ParseForStatement`. -/
def ParseForStatement : Nat → Parser → State → Except ParseError (Statement × Parser × State)
  | 0, _, _ => .error (.Fault .OutOfFuel)
  | fuel + 1, p, σ => do
    let p ← p.Next
    let p ← p.Expect .LP
    let (init, p, σ) ←
      if !p.Look .SEMI then do
        let (e, p, σ) ← ParseExpression F fuel p σ
        pure (some e, p, σ)
      else pure (none, p, σ)
    let p ← p.Expect .SEMI
    let (condition, p, σ) ←
      if !p.Look .SEMI then do
        let (e, p, σ) ← ParseExpression F fuel p σ
        pure (some e, p, σ)
      else pure (none, p, σ)
    let p ← p.Expect .SEMI
    let (update, p, σ) ←
      if !p.Look .RP then do
        let (e, p, σ) ← ParseExpression F fuel p σ
        pure (some e, p, σ)
      else pure (none, p, σ)
    let p ← p.Expect .RP
    let p := { p with is_breakable_scope := true }
    let (loop_stmt, p, σ) ← ParseStatement fuel p σ
    pure (.ForStatement init condition update loop_stmt,
      { p with is_breakable_scope := false }, σ)

end

/-- The loop `do ... while (Accept(Token::COMMA))` over the parameters. -/
def paramsLoop : Nat → List Object → Parser → State →
    Except ParseError (List Object × Parser × State)
  | 0, _, _, _ => .error (.Fault .OutOfFuel)
  | fuel + 1, params, p, σ => do
    let (id, p, σ) ← p.ParseIdentifierName σ
    let symbol := match id with
      | .IdentifierName name => name
      | _ => nullptr
    let (accepted, p) ← p.Accept .COMMA
    if accepted then paramsLoop fuel (params ++ [symbol]) p σ
    else pure (params ++ [symbol], p, σ)

/-- The function `Parser::ParseFunctionDecl`; the `FunctionScopeHandler` sets the
flag `is_fn_scope_`, and its destructor clears it. -/
def ParseFunctionDecl (fuel : Nat) (p : Parser) (σ : State) :
    Except ParseError (FunctionDecl × Parser × State) := do
  let p ← p.Next
  let p ← p.Expect .ID
  let (name, σ) ← heap (String.NewSymbol σ p.scanner.literal)
  let p ← p.Expect .LP
  let (params, p, σ) ←
    if !p.Look .RP then paramsLoop fuel [] p σ else pure ([], p, σ)
  let p ← p.Expect .RP
  let p ← p.Expect .LC
  let p := { p with is_fn_scope := true }
  let (body, p, σ) ← statementsLoop F fuel [] p σ
  let p ← p.Expect .RC
  pure ({ name := name, params := params, body := body }, { p with is_fn_scope := false }, σ)

/-- The loop `while (!Look(Token::END))` of `Parser::Parse`. -/
def parseLoop : Nat → TranslationUnit → Parser → State →
    Except ParseError (TranslationUnit × Parser × State)
  | 0, _, _, _ => .error (.Fault .OutOfFuel)
  | fuel + 1, unit, p, σ =>
    if !p.Look .END then
      if p.Look .FUNCTION then do
        let (decl, p, σ) ← ParseFunctionDecl F fuel p σ
        parseLoop fuel { unit with fn_decls := unit.fn_decls ++ [decl] } p σ
      else do
        let (stmt, p, σ) ← ParseStatement F fuel p σ
        parseLoop fuel { unit with stmts := unit.stmts ++ [stmt] } p σ
    else pure (unit, p, σ)

/-- The function `Parser::Parse` on a code; the first argument bounds the depth of
the calls. -/
def Parse (fuel : Nat) (code : String) (σ : State) :
    Except ParseError (TranslationUnit × State) := do
  let scanner ← Scanner.Initialize code
  let (unit, _, σ) ← parseLoop F fuel { stmts := [], fn_decls := [] } { scanner := scanner } σ
  pure (unit, σ)

end

end Parser

/-- The outcome of `Parser::Parse` on a code, in the state after `Kipper::Initialize`:
the numbers of statements and of function declarations at the top level. -/
def Scenario.parse (code : String) : Except ParseError (Nat × Nat) :=
  match Initialize with
  | .ok σ => do
    let (unit, _) ← Parser.Parse FloatOps.unavailable (4 * code.length + 32) code σ
    pure (unit.stmts.length, unit.fn_decls.length)
  | .error e => .error (.Fault e)

/-! ## Scenarios of the ages -/

/-- What is seen of the object the root word 0 refers to: the word, whether it lies
in the new space, and its age. -/
structure Scenario.Aged where
  root : Object
  in_new_space : Bool
  age : Nat
  deriving DecidableEq, Repr

/-- Young collections, `n` of them, one after the other, with what is seen of the
object of the root word 0 after each. -/
def Scenario.collectN : Nat → Heap → Except KError (List Scenario.Aged)
  | 0, _ => pure []
  | n + 1, h => do
    let h ← h.Collect 64 .NEW_SPACE
    match h.slots[0]? with
    | some x =>
      let m ← h.metadata x
      let rest ← Scenario.collectN n h
      pure (⟨x, h.IsInNewSpace x, m.Age⟩ :: rest)
    | none => .error (.Fault .OutOfBounds)

/-- On the fresh heap, whose tenure threshold is 2: a tenured array of 113 elements
takes the 920 bytes that are left of the old space, a number is allocated in the new
space and made the root word 0, and the new space is collected `n` times. The result:
the tenure threshold, the bytes left in the old space, and what is seen of the number
after each collection. -/
def Scenario.ages (n : Nat) : Except KError (Nat × Nat × List Scenario.Aged) := do
  let h ← Scenario.heap
  let (_, h) ← Scenario.get (h.AllocateArrayNoGC 113 .TENURED)
  let (x, h) ← Scenario.get (h.AllocateHeapNumber 64 .NOT_TENURED)
  let h := { h with slots := [x] }
  pure (h.tenure_threshold, h.old_space.end_ - h.old_space.free, ← Scenario.collectN n h)

/-- Two semispaces of 64 bytes from the address 4096, with the to-space empty, and an
old space of 64 bytes from the address 8192 of which `old_used` are taken; the
from-space holds a number of the given age, at the address 4160; the tenure threshold
is 2. -/
def Scenario.agedHeap (age old_used : Nat) : Heap :=
  { memory := Memory.set (fun _ => none) 4160
      { metadata := { age := age }, body := .HEAP_NUMBER 7 }
    new_space := { start := 4096, free := 4096, size := 128, semispace_size := 64,
                   from_space := 4160, to_space := 4096 }
    old_space := { start := 8192, free := 8192 + old_used, size := 64 }
    tenure_threshold := 2 }

/-! ## Scenarios of the property tables and of the negation -/

section
variable (F : FloatOps)

/-- Two objects created empty with `KSObject::New(0)`, an array of the language and a
string: the property `k` of the first object is set, and `k` is read from each of
the others before and after. The result: the words read before, the words read after,
and whether the four objects are pairwise distinct. -/
def Scenario.sharedTable : Except Error (List Object × List Object × Bool) := do
  let σ ← Initialize
  let (o1, σ) ← KSObject.New σ 0 .NOT_TENURED
  let (o2, σ) ← KSObject.New σ 0 .NOT_TENURED
  let (a, σ) ← KSArray.New σ 0 .NOT_TENURED
  let (s, σ) ← String.New σ "s" .NOT_TENURED
  let (k, σ) ← String.New σ "k" .NOT_TENURED
  let (b2, σ) ← KSObject.GetProperty F 4 σ o2 k
  let (ba, σ) ← KSObject.GetProperty F 4 σ a k
  let (bs, σ) ← KSObject.GetProperty F 4 σ s k
  let (_, σ) ← KSObject.SetProperty F 4 σ o1 k (Int32.Make 7)
  let (a2, σ) ← KSObject.GetProperty F 4 σ o2 k
  let (aa, σ) ← KSObject.GetProperty F 4 σ a k
  let (as, _) ← KSObject.GetProperty F 4 σ s k
  pure ([b2, ba, bs], [a2, aa, as], decide ([o1, o2, a, s].Nodup))

/-- The expressions `-v` and `0 - v` on the Int32 `v`: the words they evaluate to. -/
def Scenario.negate (v : Int) : Except Error (Object × Object) := do
  let σ ← Initialize
  let t : Handle := some (.fixed (Int32.Make v))
  let zero : Handle := some (.fixed (Int32.Make 0))
  let (m, σ) ← UnaryExpression.Apply F .SUB σ t
  let (d, σ) ← Interpreter.Sub F σ zero t
  pure (← σ.get m, ← σ.get d)

end

/-! ## The type predicates of a word -/

/-- The answers of the six type predicates on a word, in the order `IsDouble`,
`IsInt32`, `IsBoolean`, `IsNull`, `IsUndefined`, `IsHeapObject`. -/
def typePredicates (p : Object) : List Bool :=
  [IsDouble p, IsInt32 p, IsBoolean p, IsNull p, IsUndefined p, IsHeapObject p]

/-! ## What a hash table holds -/

/-- The entries that the probe sequence of a hash visits in a table of capacity `c`,
for the indices 0 to `c - 1`, in this order. -/
def HashTable.probes (hash : Int) (c : Nat) : List Int :=
  (List.range c).map (fun i => HashTable.Location hash (Int.ofNat i) (Int.ofNat c))

/-- The key and the value of entry `e`, from the words of a table. -/
def HashTable.entryAt (slots : List Object) (e : Nat) : Object × Object :=
  (slots.getD (2 + 2 * e) Constant.Undefined, slots.getD (2 + 2 * e + 1) Constant.Undefined)

/-- The entries of a table of capacity `c`, from its words. -/
def HashTable.entries (slots : List Object) (c : Nat) : List (Object × Object) :=
  (List.range c).map (HashTable.entryAt slots)

/-- The key/value pairs that a table of capacity `c` holds: the entries whose key is
not undefined. -/
def HashTable.pairs (slots : List Object) (c : Nat) : List (Object × Object) :=
  (HashTable.entries slots c).filter (fun p => !IsUndefined p.1)

/-- A table of `2 ^ k` entries in the state: an array of two words, the Int32 of the
element count and the Int32 of the capacity, and two words for each entry. -/
structure HashTable.Shaped (σ : State) (t : Object) (slots : List Object) (n : Int) (k : Nat) :
    Prop where
  find : σ.find t = some (.ARRAY slots)
  length : slots.length = 2 + 2 * 2 ^ k
  size : slots[0]? = some (Int32.Make n)
  capacity : slots[1]? = some (Int32.Make (2 ^ k))
  bound : k ≤ 30
  fits : Int32.kMinInt32 ≤ n ∧ n ≤ Int32.kMaxInt32

/-- The entry that the probe of index `i` visits, as a natural number. -/
def HashTable.probe (hash : Int) (i c : Nat) : Nat :=
  (HashTable.Location hash (Int.ofNat i) (Int.ofNat c)).toNat

/-- The words of a table after `SetEntry` at entry `e`. -/
def HashTable.setEntry (slots : List Object) (e : Nat) (key value : Object) : List Object :=
  (slots.set (2 + 2 * e) key).set (2 + 2 * e + 1) value

/-- Whether the entry that the probe of index `j` visits has a key. -/
def HashTable.occupied (slots : List Object) (hash : Int) (c : Nat) (j : Nat) : Bool :=
  !IsUndefined (HashTable.entryAt slots (HashTable.probe hash j c)).1

/-- The five steps `x |= x >> 1` to `x |= x >> 16` of `NextPowerOf2`. -/
def NextPowerOf2.smear (y : Nat) : Nat :=
  let x := y
  let x := x ||| (x >>> 1)
  let x := x ||| (x >>> 2)
  let x := x ||| (x >>> 4)
  let x := x ||| (x >>> 8)
  let x := x ||| (x >>> 16)
  x

/-- The states agree on every object other than `t`. -/
def HashTable.Frame (σ σ' : State) (t : Object) : Prop :=
  ∀ q, ADDRESS q ≠ ADDRESS t → σ'.find q = σ.find q

/-- The keys of the pairs of a table are strings of the heap. -/
def HashTable.Keyed (σ : State) (slots : List Object) (c : Nat) : Prop :=
  ∀ p ∈ HashTable.pairs slots c, IsString σ p.1 = true

/-- A well-formed table of `2 ^ k` entries: the element count is the number of pairs
the table holds, the keys of the pairs are strings of the heap, and no two of them have
the same value. -/
structure HashTable.WellFormed (σ : State) (t : Object) (slots : List Object) (k : Nat) :
    Prop where
  shaped : HashTable.Shaped σ t slots ((HashTable.pairs slots (2 ^ k)).length : Int) k
  keys : HashTable.Keyed σ slots (2 ^ k)
  distinct : ((HashTable.pairs slots (2 ^ k)).map (fun p => String.Value σ p.1)).Nodup

/-! ## Scenarios of the hash tables -/

/-- A heap with the strings `a`, `b` and `c`, a table of capacity 2 that holds the pairs
`b ↦ 2` and `a ↦ 1` (object 3), and a table of capacity 4 that holds the pair `c ↦ 3`
in its last entry (object 4). -/
def Scenario.tableState : State :=
  { State.empty with
    objects := [.STRING nullptr "a", .STRING nullptr "b", .STRING nullptr "c",
      .ARRAY [Int32.Make 2, Int32.Make 2, HeapObject_Make 1, Int32.Make 2,
        HeapObject_Make 0, Int32.Make 1],
      .ARRAY [Int32.Make 1, Int32.Make 4, Constant.Undefined, Constant.Undefined,
        Constant.Undefined, Constant.Undefined, Constant.Undefined, Constant.Undefined,
        HeapObject_Make 2, Int32.Make 3]] }

/-- The words of the table of capacity 2 of `Scenario.tableState`. -/
def Scenario.fullTable : List Object :=
  [Int32.Make 2, Int32.Make 2, HeapObject_Make 1, Int32.Make 2, HeapObject_Make 0, Int32.Make 1]

/-- The words of the table of capacity 4 of `Scenario.tableState`. -/
def Scenario.sparseTable : List Object :=
  [Int32.Make 1, Int32.Make 4, Constant.Undefined, Constant.Undefined,
    Constant.Undefined, Constant.Undefined, Constant.Undefined, Constant.Undefined,
    HeapObject_Make 2, Int32.Make 3]

/-! ## Theorems -/

/-! ### The heap -/

theorem IsHeapObject_Make (a : Nat) (h : a < 2 ^ 48) : IsHeapObject (HeapObject_Make a) = true := by
  unfold IsHeapObject READ_TAG HeapObject_Make kHeapObjectTag kCanonicalBits
  simp only [decide_eq_true_eq]
  omega

theorem ADDRESS_Make (a : Nat) (h : a < 2 ^ 48) : ADDRESS (HeapObject_Make a) = a := by
  unfold ADDRESS HeapObject_Make kHeapObjectTag kCanonicalBits
  omega

theorem find_some_iff {σ : State} {p : Object} {o : HeapObject} :
    σ.find p = some o ↔ IsHeapObject p = true ∧ σ.objects[ADDRESS p]? = some o := by
  unfold State.find
  by_cases h : IsHeapObject p = true <;> simp [h]

theorem find_lt {σ : State} {p : Object} {o : HeapObject} (h : σ.find p = some o) :
    ADDRESS p < σ.objects.length := by
  have := (find_some_iff.mp h).2
  exact (List.getElem?_eq_some.mp this).1

theorem find_store_same {σ : State} {p : Object} {o o' : HeapObject} (h : σ.find p = some o) :
    (σ.store p o').find p = some o' := by
  have h1 := find_some_iff.mp h
  have h2 := find_lt h
  apply find_some_iff.mpr
  refine ⟨h1.1, ?_⟩
  simp [State.store, List.getElem?_set, h2]

theorem find_store_other {σ : State} {p q : Object} {o' : HeapObject}
    (h : ADDRESS p ≠ ADDRESS q) : (σ.store p o').find q = σ.find q := by
  unfold State.find State.store
  by_cases hq : IsHeapObject q = true
  · simp [hq, List.getElem?_set, h]
  · simp [hq]

theorem AllocationPolicy.space_not_tenured :
    AllocationPolicy.space .NOT_TENURED = .NEW_SPACE := rfl

theorem AllocationPolicy.space_tenured : AllocationPolicy.space .TENURED = .OLD_SPACE := rfl

theorem AllocateRaw_ok {σ : State} {s : AllocationSpace} {o : HeapObject}
    (h : o.Size ≤ σ.available s) :
    AllocateRaw σ s o = .ok (HeapObject_Make σ.objects.length, σ.allocated s o) := by
  simp only [AllocateRaw, if_pos h]

theorem AllocateRaw_full {σ : State} {s : AllocationSpace} {o : HeapObject}
    (h : σ.available s < o.Size) :
    AllocateRaw σ s o = .error (.AllocationError s) := by
  simp only [AllocateRaw, if_neg (Nat.not_le.2 h)]

theorem State.allocated_objects (σ : State) (space : AllocationSpace) (o : HeapObject) :
    (σ.allocated space o).objects = σ.objects ++ [o] := by
  cases space <;> rfl

theorem State.allocated_frame (σ : State) (space : AllocationSpace) (o : HeapObject) :
    (σ.allocated space o).handles = σ.handles ∧ (σ.allocated space o).handle = σ.handle ∧
      (σ.allocated space o).contexts = σ.contexts ∧
      (σ.allocated space o).symbol_table = σ.symbol_table ∧
      (σ.allocated space o).empty_string = σ.empty_string ∧
      (σ.allocated space o).empty_array = σ.empty_array ∧
      (σ.allocated space o).empty_hash_table = σ.empty_hash_table ∧
      (σ.allocated space o).out = σ.out := by
  cases space <;> exact ⟨rfl, rfl, rfl, rfl, rfl, rfl, rfl, rfl⟩

theorem State.allocated_available (σ : State) (space sp : AllocationSpace) (o : HeapObject) :
    σ.available sp ≤ (σ.allocated space o).available sp + o.Size := by
  cases space <;> cases sp <;> simp only [State.allocated, State.available] <;> omega

theorem CALL_WITH_GC_SUPPORT_ok {α : Type} {f : State → Except Error α} {σ : State} {r : α}
    (h : f σ = .ok r) : CALL_WITH_GC_SUPPORT f σ = .ok r := by
  simp only [CALL_WITH_GC_SUPPORT, h]

theorem CALL_WITH_GC_SUPPORT_full {α : Type} {f : State → Except Error α} {σ : State}
    {space : AllocationSpace} (h : f σ = .error (.AllocationError space)) :
    CALL_WITH_GC_SUPPORT f σ = .error (.Collection space) := by
  simp only [CALL_WITH_GC_SUPPORT, h, Heap_Collect]

theorem find_alloc_old {σ : State} {q : Object} {o o' : HeapObject} {space : AllocationSpace}
    (h : σ.find q = some o) : (σ.allocated space o').find q = some o := by
  have h1 := find_some_iff.mp h
  apply find_some_iff.mpr
  refine ⟨h1.1, ?_⟩
  rw [State.allocated_objects, List.getElem?_append_left (find_lt h)]
  exact h1.2

theorem find_alloc_new {σ : State} {o' : HeapObject} {space : AllocationSpace}
    (h : σ.objects.length < 2 ^ 48) :
    (σ.allocated space o').find (HeapObject_Make σ.objects.length) = some o' := by
  apply find_some_iff.mpr
  refine ⟨IsHeapObject_Make _ h, ?_⟩
  rw [ADDRESS_Make _ h, State.allocated_objects]
  simp

theorem ADDRESS_ne_of_find {σ : State} {p q : Object} {o o' : HeapObject}
    (hp : σ.find p = some o) (hq : σ.find q = some o') (h : o ≠ o') : ADDRESS p ≠ ADDRESS q := by
  intro e
  have h1 := (find_some_iff.mp hp).2
  have h2 := (find_some_iff.mp hq).2
  rw [e] at h1
  rw [h1] at h2
  exact h (Option.some.inj h2)

theorem KSArray.Length_eq {σ : State} {a t arr : Object} {n : Int}
    (ha : σ.find a = some (.KSARRAY t n arr)) : KSArray.Length σ a = .ok n := by
  simp [KSArray.Length, ha]

theorem KSArray.Elements_eq {σ : State} {a t arr : Object} {n : Int}
    (ha : σ.find a = some (.KSARRAY t n arr)) : KSArray.Elements σ a = .ok arr := by
  simp [KSArray.Elements, ha]

theorem KSArray.SetLength_eq {σ : State} {a t arr : Object} {n : Int} (m : Int)
    (ha : σ.find a = some (.KSARRAY t n arr)) :
    KSArray.SetLength σ a m = .ok (σ.store a (.KSARRAY t m arr)) := by
  simp [KSArray.SetLength, ha]

theorem KSArray.SetElements_eq {σ : State} {a t arr : Object} {n : Int} (e : Object)
    (ha : σ.find a = some (.KSARRAY t n arr)) :
    KSArray.SetElements σ a e = .ok (σ.store a (.KSARRAY t n e)) := by
  simp [KSArray.SetElements, ha]

theorem Array.Length_of_slots {σ : State} {arr : Object} {slots : List Object}
    (harr : σ.find arr = some (.ARRAY slots)) : Array.Length σ arr = .ok (slots.length : Int) := by
  simp [Array.Length, harr]

theorem Array.Get_of_slots {σ : State} {arr : Object} {slots : List Object} {i : Int} {w : Object}
    (harr : σ.find arr = some (.ARRAY slots)) (hi : 0 ≤ i) (hw : slots[i.toNat]? = some w) :
    Array.Get σ arr i = .ok w := by
  simp [Array.Get, harr, hi, hw]

theorem Array.Set_eq {σ : State} {arr : Object} {slots : List Object} {i : Int} (v : Object)
    (harr : σ.find arr = some (.ARRAY slots)) (hi : 0 ≤ i) (hlt : i < (slots.length : Int)) :
    Array.Set σ arr i v = .ok (v, σ.store arr (.ARRAY (slots.set i.toNat v))) := by
  simp only [Array.Set, harr, Int.ofNat_eq_coe]
  rw [if_pos hlt, if_pos hi]

theorem Array.Copy_eq {σ : State} {p that : Object} {slots other : List Object}
    (hp : σ.find p = some (.ARRAY slots)) (ht : σ.find that = some (.ARRAY other))
    (hle : other.length ≤ slots.length) :
    Array.Copy σ p that = .ok (σ.store p (.ARRAY (other ++ slots.drop other.length))) := by
  simp [Array.Copy, hp, ht, hle]

theorem KSArray.Get_eq {σ : State} {a t arr : Object} {n : Int} {slots : List Object} (i : Int)
    (ha : σ.find a = some (.KSARRAY t n arr)) (harr : σ.find arr = some (.ARRAY slots)) :
    KSArray.Get σ a i =
      if i < n then
        (if 0 ≤ i then
          match slots[i.toNat]? with
          | some w => .ok w
          | none => .error .OutOfBounds
        else .error .OutOfBounds)
      else .ok Constant.Undefined := by
  simp only [KSArray.Get, KSArray.Length_eq ha, KSArray.Elements_eq ha, Array.Get, harr,
    bind, Except.bind, pure, Except.pure]

theorem KSArray.Push_grow {σ σ1 σ2 σ3 σ4 σ5 : State} {a v na arr x : Object} {n c : Int}
    (h0 : KSArray.Length σ a = .ok n) (hc : KSArray.Capacity σ a = .ok c) (hge : n ≥ c)
    (hAlloc : AllocateArrayNoGC σ (n + 1 + n / 2) .NOT_TENURED = .ok (na, σ1))
    (hE1 : KSArray.Elements σ1 a = .ok arr)
    (hCopy : Array.Copy σ1 na arr = .ok σ2)
    (hSE : KSArray.SetElements σ2 a na = .ok σ3)
    (hSL : KSArray.SetLength σ3 a (n + 1) = .ok σ4)
    (hE4 : KSArray.Elements σ4 a = .ok na)
    (hSet : Array.Set σ4 na n v = .ok (x, σ5)) :
    KSArray.PushNoGC σ a v = .ok σ5 := by
  simp only [KSArray.PushNoGC, h0, hc, bind, Except.bind, pure, Except.pure, if_pos hge, hAlloc,
    hE1, hCopy, hSE, hSL, hE4, hSet]

theorem KSArray.Push_full {σ : State} {a v : Object} {n c : Int} {space : AllocationSpace}
    (h0 : KSArray.Length σ a = .ok n) (hc : KSArray.Capacity σ a = .ok c) (hge : n ≥ c)
    (hAlloc : AllocateArrayNoGC σ (n + 1 + n / 2) .NOT_TENURED
      = .error (.AllocationError space)) :
    KSArray.PushNoGC σ a v = .error (.AllocationError space) := by
  simp only [KSArray.PushNoGC, h0, hc, bind, Except.bind, pure, Except.pure, if_pos hge, hAlloc]

theorem KSArray.Push_room {σ σ4 σ5 : State} {a v arr x : Object} {n c : Int}
    (h0 : KSArray.Length σ a = .ok n) (hc : KSArray.Capacity σ a = .ok c) (hlt : ¬ n ≥ c)
    (hSL : KSArray.SetLength σ a (n + 1) = .ok σ4)
    (hE4 : KSArray.Elements σ4 a = .ok arr)
    (hSet : Array.Set σ4 arr n v = .ok (x, σ5)) :
    KSArray.PushNoGC σ a v = .ok σ5 := by
  simp only [KSArray.PushNoGC, h0, hc, bind, Except.bind, pure, Except.pure, if_neg hlt,
    hSL, hE4, hSet]

theorem KSArray.Capacity_eq {σ : State} {a t arr : Object} {n : Int} {slots : List Object}
    (ha : σ.find a = some (.KSARRAY t n arr)) (harr : σ.find arr = some (.ARRAY slots)) :
    KSArray.Capacity σ a = .ok (slots.length : Int) := by
  simp only [KSArray.Capacity, KSArray.Elements_eq ha, Array.Length_of_slots harr, bind, Except.bind]

/-! ### Strings -/

theorem IsString_iff {σ : State} {p : Object} :
    IsString σ p = true ↔ ∃ e value, σ.find p = some (.STRING e value) := by
  unfold IsString
  split <;> simp_all

theorem String.Value_eq {σ : State} {p e : Object} {value : String}
    (h : σ.find p = some (.STRING e value)) : String.Value σ p = .ok value := by
  simp [String.Value, h]

theorem String.Value_ok {σ : State} {p : Object} {value : String}
    (h : String.Value σ p = .ok value) : ∃ e, σ.find p = some (.STRING e value) := by
  unfold String.Value at h
  split at h
  · rename_i e v hf
    cases h
    exact ⟨e, hf⟩
  · cases h

theorem String.length_zero {s : String} (h : s.length = 0) : s = "" := by
  cases s with
  | mk data =>
    cases data with
    | nil => rfl
    | cons c cs => simp [String.length] at h

theorem ToStdString_of_string (F : FloatOps) {fuel : Nat} {σ : State} {p : Object} {a : String}
    (hs : IsString σ p = true) (h : ToStdString F fuel σ p = .ok a) :
    String.Value σ p = .ok a := by
  cases fuel with
  | zero => simp [ToStdString] at h
  | succ n =>
    rw [ToStdString] at h
    rw [if_pos hs] at h
    exact h

/-- What `Heap::AllocateString` returns when the space of the policy has room for the
string, the heap fits the address space and the root `empty_string` is the empty
string. -/
theorem AllocateString_spec {σ : State} (value : String) (policy : AllocationPolicy)
    (hbound : σ.objects.length < 2 ^ 48)
    (hroot : String.Value σ σ.empty_string = .ok "")
    (hroom : value.length ≠ 0 → Align (20 + value.length) ≤ σ.available policy.space) :
    ∃ s σ', AllocateString σ value policy = .ok (s, σ') ∧ String.Value σ' s = .ok value ∧
      (∀ q o, σ.find q = some o → σ'.find q = some o) ∧
      σ'.objects.length ≤ σ.objects.length + 1 ∧
      σ'.handles = σ.handles ∧ σ'.handle = σ.handle ∧ σ'.contexts = σ.contexts ∧
      σ'.symbol_table = σ.symbol_table ∧ σ'.empty_string = σ.empty_string ∧
      (∀ sp, σ.available sp ≤ σ'.available sp + Align (20 + value.length)) ∧
      (value.length ≠ 0 → s = HeapObject_Make σ.objects.length) := by
  by_cases h : value.length ≠ 0
  · have hf := State.allocated_frame σ policy.space (.STRING σ.empty_hash_table value)
    refine ⟨HeapObject_Make σ.objects.length,
      σ.allocated policy.space (.STRING σ.empty_hash_table value), ?_,
      String.Value_eq (find_alloc_new hbound), fun q o hq => find_alloc_old hq, ?_,
      hf.1, hf.2.1, hf.2.2.1, hf.2.2.2.1, hf.2.2.2.2.1,
      fun sp => State.allocated_available σ policy.space sp _, fun _ => rfl⟩
    · refine CALL_WITH_GC_SUPPORT_ok (f := fun σ => AllocateStringNoGC σ value policy) ?_
      simp only [AllocateStringNoGC, if_pos h, AllocateStringNoGCInternal]
      exact AllocateRaw_ok (hroom h)
    · rw [State.allocated_objects]; simp
  · have : value = "" := String.length_zero (by omega)
    subst this
    refine ⟨σ.empty_string, σ, ?_, hroot, fun q o hq => hq, by omega, rfl, rfl, rfl, rfl, rfl,
      fun sp => Nat.le_add_right _ _, fun h0 => absurd rfl h0⟩
    refine CALL_WITH_GC_SUPPORT_ok (f := fun σ => AllocateStringNoGC σ "" policy) ?_
    simp only [AllocateStringNoGC]
    rfl

/-- Without room for the string, `Heap::AllocateString` starts a collection. -/
theorem AllocateString_full {σ : State} (value : String) (policy : AllocationPolicy)
    (hne : value.length ≠ 0) (hfull : σ.available policy.space < Align (20 + value.length)) :
    AllocateStringNoGC σ value policy = .error (.AllocationError policy.space) ∧
      AllocateString σ value policy = .error (.Collection policy.space) := by
  have h1 : AllocateStringNoGC σ value policy = .error (.AllocationError policy.space) := by
    simp only [AllocateStringNoGC, if_pos hne, AllocateStringNoGCInternal]
    exact AllocateRaw_full hfull
  exact ⟨h1, CALL_WITH_GC_SUPPORT_full (f := fun σ => AllocateStringNoGC σ value policy) h1⟩

/-- What `String::Concat` returns when the new space has room for the result; without
that room `Heap::AllocateString` calls `Heap::Collect` for the new space. -/
theorem String.Concat_spec {σ : State} {p that : Object} {a b : String}
    (hbound : σ.objects.length < 2 ^ 48)
    (ha : String.Value σ p = .ok a) (hb : String.Value σ that = .ok b) :
    ((b.length ≠ 0 → Align (20 + (a.length + b.length)) ≤ σ.new_space_available) →
      ∃ s σ', String.Concat σ p that = .ok (s, σ') ∧ String.Value σ' s = .ok (a ++ b) ∧
        σ'.handles = σ.handles ∧ σ'.handle = σ.handle ∧
        (b.length ≠ 0 → s = HeapObject_Make σ.objects.length)) ∧
    (b.length ≠ 0 → σ.new_space_available < Align (20 + (a.length + b.length)) →
      String.Concat σ p that = .error (.Collection .NEW_SPACE)) := by
  constructor
  · intro hroom
    by_cases h : b.length = 0
    · refine ⟨p, σ, ?_, ?_, rfl, rfl, fun h0 => absurd h h0⟩
      · simp only [String.Concat, hb, bind, Except.bind, if_pos h, pure, Except.pure]
      · rw [String.length_zero h, String.append_empty]; exact ha
    · have hlen : (a ++ b).length ≠ 0 := by rw [String.length_append]; omega
      have hf := State.allocated_frame σ .NEW_SPACE (.STRING σ.empty_hash_table (a ++ b))
      refine ⟨HeapObject_Make σ.objects.length,
        σ.allocated .NEW_SPACE (.STRING σ.empty_hash_table (a ++ b)), ?_,
        String.Value_eq (find_alloc_new hbound), hf.1, hf.2.1, fun _ => rfl⟩
      simp only [String.Concat, hb, ha, bind, Except.bind, if_neg h]
      refine CALL_WITH_GC_SUPPORT_ok
        (f := fun σ => AllocateStringNoGC σ (a ++ b) .NOT_TENURED) ?_
      simp only [AllocateStringNoGC, if_pos hlen, AllocateStringNoGCInternal]
      exact AllocateRaw_ok (s := .NEW_SPACE)
        (by
          simp only [HeapObject.Size, String.length_append]
          exact hroom h)
  · intro h hfull
    have hlen : (a ++ b).length ≠ 0 := by rw [String.length_append]; omega
    simp only [String.Concat, hb, ha, bind, Except.bind, if_neg h]
    exact (AllocateString_full (σ := σ) (a ++ b) .NOT_TENURED hlen
      (by rw [String.length_append]; exact hfull)).2

theorem MakeHandle_read {σ : State} (value : Object) (h : σ.handle ≤ σ.handles.length) :
    (MakeHandle σ value).2.read (MakeHandle σ value).1 = .ok value := by
  simp only [MakeHandle, State.read]
  by_cases hlt : σ.handle < σ.handles.length
  · simp [hlt, List.getElem?_set]
  · have : σ.handle = σ.handles.length := by omega
    simp [this]

theorem MakeHandle_objects (σ : State) (value : Object) :
    (MakeHandle σ value).2.objects = σ.objects := rfl

theorem String.Value_mono {σ σ' : State} {p : Object} {a : String}
    (hmono : ∀ q o, σ.find q = some o → σ'.find q = some o)
    (h : String.Value σ p = .ok a) : String.Value σ' p = .ok a := by
  obtain ⟨e, he⟩ := String.Value_ok h
  exact String.Value_eq (hmono _ _ he)

/-- What `Object::ToString` returns for a value whose text is `a`, when the new space
has room for the text of a value that is not a string. -/
theorem ToString_spec (F : FloatOps) {fuel : Nat} {σ : State} {p : Object} {a : String}
    (hbound : σ.objects.length < 2 ^ 48)
    (hroot : String.Value σ σ.empty_string = .ok "")
    (h : ToStdString F fuel σ p = .ok a)
    (hroom : IsString σ p = false → a.length ≠ 0 →
      Align (20 + a.length) ≤ σ.new_space_available) :
    ∃ ps σ', ToString F fuel σ p = .ok (ps, σ') ∧ String.Value σ' ps = .ok a ∧
      (∀ q o, σ.find q = some o → σ'.find q = some o) ∧
      σ'.objects.length ≤ σ.objects.length + 1 ∧
      σ'.handles = σ.handles ∧ σ'.handle = σ.handle ∧
      (IsString σ p = true → ps = p ∧ σ' = σ) ∧
      σ'.empty_string = σ.empty_string ∧
      σ.new_space_available ≤ σ'.new_space_available + Align (20 + a.length) := by
  by_cases hs : IsString σ p = true
  · refine ⟨p, σ, ?_, ToStdString_of_string F hs h, fun q o hq => hq, by omega, rfl, rfl,
      fun _ => ⟨rfl, rfl⟩, rfl, Nat.le_add_right _ _⟩
    simp only [ToString, if_pos hs, pure, Except.pure]
  · obtain ⟨s, σ', h1, h2, h3, h4, h5, h6, _, _, h9, h10, _⟩ :=
      AllocateString_spec (σ := σ) a .NOT_TENURED hbound hroot
        (hroom (by simpa using hs))
    refine ⟨s, σ', ?_, h2, h3, h4, h5, h6, fun hp => absurd hp hs, h9, h10 .NEW_SPACE⟩
    simp only [ToString, if_neg hs, h, bind, Except.bind, String.New]
    exact h1

theorem Interpreter.Add_string (F : FloatOps) {fuel : Nat} {σ σ1 σ2 σ3 : State}
    {left right : Handle} {l r ls rs s : Object}
    (hl : σ.get left = .ok l) (hr : σ.get right = .ok r)
    (hstr : (IsString σ l || IsString σ r) = true)
    (h1 : ToString F fuel σ l = .ok (ls, σ1)) (h2 : ToString F fuel σ1 r = .ok (rs, σ2))
    (h3 : String.Concat σ2 ls rs = .ok (s, σ3)) :
    Interpreter.Add F fuel σ left right = .ok (some (MakeHandle σ3 s).1, (MakeHandle σ3 s).2) := by
  simp only [Interpreter.Add, hl, hr, bind, Except.bind, if_pos hstr, h1, h2, h3, pure,
    Except.pure]

theorem IsString_mono {σ σ' : State} {p : Object}
    (hmono : ∀ q o, σ.find q = some o → σ'.find q = some o)
    (h : IsString σ p = true) : IsString σ' p = true := by
  obtain ⟨e, value, hf⟩ := IsString_iff.mp h
  exact IsString_iff.mpr ⟨e, value, hmono _ _ hf⟩

/-! ### Binding contexts -/

theorem Context.scanUp_none (chunk : List Object) (name : Object) (stop : Nat) :
    ∀ n i, i ≤ stop → (stop - i) % 2 = 0 → stop - i ≤ 2 * n →
      (∀ j, i ≤ j → j < stop → (j - i) % 2 = 0 → ∃ w, chunk[j]? = some w ∧ w ≠ name) →
      Context.scanUp chunk name stop n i = .ok none := by
  intro n
  induction n with
  | zero =>
    intro i h1 h2 h3 _
    have : i = stop := by omega
    simp [Context.scanUp, this, pure, Except.pure]
  | succ n ih =>
    intro i h1 h2 h3 h
    unfold Context.scanUp
    by_cases hi : i = stop
    · simp [hi, pure, Except.pure]
    · obtain ⟨w, hw, hne⟩ := h i (le_refl _) (by omega) (by simp)
      simp only [hi, if_false, hw, hne]
      exact ih (i + 2) (by omega) (by omega) (by omega)
        (fun j a b c => h j (by omega) b (by omega))

theorem Context.scanUp_found (chunk : List Object) (name : Object) (stop : Nat) :
    ∀ n i j, i ≤ j → (j - i) % 2 = 0 → j < stop → j - i < 2 * n →
      chunk[j]? = some name →
      (∀ k, i ≤ k → k < j → (k - i) % 2 = 0 → ∃ w, chunk[k]? = some w ∧ w ≠ name) →
      Context.scanUp chunk name stop n i = .ok (some j) := by
  intro n
  induction n with
  | zero => intro i j _ _ _ h; omega
  | succ n ih =>
    intro i j h1 h2 h3 h4 hj h
    unfold Context.scanUp
    have hi : i ≠ stop := by omega
    by_cases hij : i = j
    · subst hij
      simp [hi, hj, pure, Except.pure]
    · obtain ⟨w, hw, hne⟩ := h i (le_refl _) (by omega) (by simp)
      simp only [hi, if_false, hw, hne]
      exact ih (i + 2) j (by omega) (by omega) h3 (by omega) hj
        (fun k a b c => h k (by omega) b (by omega))

theorem Context.scanDown_none (chunk : List Object) (name : Object) :
    ∀ n i, i % 2 = 0 → i ≤ 2 * n →
      (∀ j, 2 ≤ j → j ≤ i → j % 2 = 0 → ∃ w, chunk[j]? = some w ∧ w ≠ name) →
      Context.scanDown chunk name n i = .ok none := by
  intro n
  induction n with
  | zero =>
    intro i _ h _
    have : i = 0 := by omega
    simp [Context.scanDown, this, pure, Except.pure]
  | succ n ih =>
    intro i h1 h2 h
    unfold Context.scanDown
    by_cases hi : i = 0
    · simp [hi, pure, Except.pure]
    · obtain ⟨w, hw, hne⟩ := h i (by omega) (le_refl _) h1
      have h2i : ¬ i < 2 := by omega
      simp only [hi, if_false, hw, hne, h2i]
      exact ih (i - 2) (by omega) (by omega) (fun j a b c => h j a (by omega) c)

theorem Context.searchEarlier_none (c : Nat) (name : Object) :
    ∀ l : List (Nat × List Object),
      (∀ p ∈ l, Context.scanDown p.2 name kContextChunkLimit (kContextChunkLimit - 2)
        = .ok none) →
      Context.searchEarlier c name l = .ok none := by
  intro l
  induction l with
  | nil => intro _; rfl
  | cons p rest ih =>
    intro h
    obtain ⟨k, chunk⟩ := p
    have h0 := h (k, chunk) (List.mem_cons_self _ _)
    simp only [Context.searchEarlier, h0, bind, Except.bind]
    exact ih (fun p hp => h p (List.mem_cons_of_mem _ hp))

theorem Context.searchFull_none (c : Nat) (name : Object) :
    ∀ l : List (Nat × List Object),
      (∀ p ∈ l, Context.scanUp p.2 name kContextChunkLimit kContextChunkLimit 0
        = .ok none) →
      Context.searchFull c name l = .ok none := by
  intro l
  induction l with
  | nil => intro _; rfl
  | cons p rest ih =>
    intro h
    obtain ⟨k, chunk⟩ := p
    have h0 := h (k, chunk) (List.mem_cons_self _ _)
    simp only [Context.searchFull, h0, bind, Except.bind]
    exact ih (fun p hp => h p (List.mem_cons_of_mem _ hp))

theorem Context.searchFull_found (c : Nat) (name : Object) (q j : Nat) (chunk : List Object) :
    ∀ (l : List (List Object)) (s : Nat), s ≤ q → l[q - s]? = some chunk →
      (∀ k ch, k < q - s → l[k]? = some ch →
        Context.scanUp ch name kContextChunkLimit kContextChunkLimit 0 = .ok none) →
      Context.scanUp chunk name kContextChunkLimit kContextChunkLimit 0 = .ok (some j) →
      Context.searchFull c name (l.enumFrom s) = .ok (some (.slot c q (j + 1))) := by
  intro l
  induction l with
  | nil => intro s _ h; simp at h
  | cons x rest ih =>
    intro s hs hq hnone hfound
    by_cases hqs : q = s
    · subst hqs
      simp at hq
      subst hq
      simp [Context.searchFull, hfound, bind, Except.bind, pure, Except.pure]
    · have h0 := hnone 0 x (by omega) (by simp)
      simp only [List.enumFrom_cons, Context.searchFull, h0, bind, Except.bind]
      have e : q - s = (q - (s + 1)) + 1 := by omega
      rw [e] at hq
      simp at hq
      exact ih (s + 1) (by omega) hq
        (fun k ch hk hch => hnone (k + 1) ch (by omega) (by simpa using hch)) hfound

theorem Context.Holds_key {ctx : Context} {bs : List (Object × Object)}
    (h : Context.Holds ctx bs) {q m : Nat} {ch : List Object}
    (hq : ctx.chunks[q]? = some ch) (hm : m < 8) (hk : 8 * q + m < bs.length) :
    ∃ b, bs[8 * q + m]? = some b ∧ ch[2 * m]? = some b.1 ∧ ch[2 * m + 1]? = some b.2 := by
  obtain ⟨_, _, _, h4⟩ := h
  have hb : bs[8 * q + m]? = some (bs[8 * q + m]) := List.getElem?_eq_getElem hk
  obtain ⟨chunk, h5, h6, h7⟩ := h4 _ _ hb
  have e1 : (8 * q + m) / 8 = q := by omega
  have e2 : (8 * q + m) % 8 = m := by omega
  rw [e1, hq] at h5
  rw [e2] at h6 h7
  cases h5
  exact ⟨_, hb, h6, h7⟩

theorem Context.SearchCurrentContext_none (σ : State) (c : Nat) (name : Object)
    (ctx : Context) (bs : List (Object × Object)) (hc : σ.contexts[c]? = some ctx)
    (h : Context.Holds ctx bs) (hfresh : ∀ b ∈ bs, b.1 ≠ name) :
    Context.SearchCurrentContext σ c name = .ok none := by
  have hH := h
  obtain ⟨h1, h2, h3, _⟩ := h
  unfold Context.SearchCurrentContext
  rw [hc]
  simp only
  cases hl : ctx.chunks.getLast? with
  | none => rfl
  | some last =>
    simp only
    rw [List.getLast?_eq_getElem?] at hl
    have hL : 0 < ctx.chunks.length := by
      by_contra hn
      have : ctx.chunks.length = 0 := by omega
      rw [List.getElem?_eq_none (by omega)] at hl
      cases hl
    have hcs : ¬ ctx.chunk_start < 2 := by omega
    have hup : Context.scanUp last name (ctx.chunk_start - 2) kContextChunkLimit 0
        = .ok none := by
      apply Context.scanUp_none
      · omega
      · omega
      · simp only [kContextChunkLimit]; omega
      · intro j _ hj hpar
        obtain ⟨b, hb, hk, _⟩ := Context.Holds_key hH (q := ctx.chunks.length - 1)
          (m := j / 2) hl (by omega) (by omega)
        have e : 2 * (j / 2) = j := by omega
        rw [e] at hk
        exact ⟨_, hk, hfresh b (List.getElem?_mem hb)⟩
    simp only [hcs, if_false, hup, bind, Except.bind]
    apply Context.searchEarlier_none
    intro p hp
    rw [List.mem_reverse, List.mem_enum_iff_getElem?, List.getElem?_dropLast] at hp
    split at hp
    · rename_i hlt
      apply Context.scanDown_none
      · simp [kContextChunkLimit]
      · simp [kContextChunkLimit]
      · intro j _ hj hpar
        simp only [kContextChunkLimit] at hj
        obtain ⟨b, hb, hk, _⟩ := Context.Holds_key hH (q := p.1) (m := j / 2) hp
          (by omega) (by omega)
        have e : 2 * (j / 2) = j := by omega
        rw [e] at hk
        exact ⟨_, hk, hfresh b (List.getElem?_mem hb)⟩
    · cases hp

theorem Context.Room_of_Holds {ctx : Context} {bs : List (Object × Object)}
    (h : Context.Holds ctx bs) :
    Context.Room
      (if ctx.chunks.isEmpty ∨ ctx.chunk_start = kContextChunkLimit then
        { ctx with chunks := ctx.chunks ++ [List.replicate kContextChunkLimit nullptr]
                   chunk_start := 0 }
       else ctx) bs := by
  obtain ⟨h1, h2, h3, h4⟩ := h
  have hemp : ctx.chunks.isEmpty = true ↔ ctx.chunks.length = 0 := by
    rw [List.isEmpty_iff]; exact List.length_eq_zero.symm
  by_cases hcond : ctx.chunks.isEmpty ∨ ctx.chunk_start = kContextChunkLimit
  · rw [if_pos hcond]
    have hn : bs.length % 8 = 0 ∧ ctx.chunks.length = bs.length / 8 := by
      rcases hcond with he | he
      · have := hemp.mp he
        omega
      · simp only [kContextChunkLimit] at he
        omega
    refine ⟨?_, ?_, ?_, ?_⟩
    · intro chunk hm
      simp only [List.mem_append, List.mem_singleton] at hm
      rcases hm with hm | hm
      · exact h1 _ hm
      · rw [hm]; simp
    · simp only [List.length_append, List.length_singleton]; omega
    · simp only; omega
    · intro k b hb
      obtain ⟨chunk, h5, h6, h7⟩ := h4 k b hb
      refine ⟨chunk, ?_, h6, h7⟩
      have hk : k < bs.length := by
        by_contra hk
        rw [List.getElem?_eq_none (by omega)] at hb
        cases hb
      simp only
      rw [List.getElem?_append_left (by omega)]
      exact h5
  · rw [if_neg hcond]
    have hne : ctx.chunks.length ≠ 0 := fun e => hcond (Or.inl (hemp.mpr e))
    have hcs : ctx.chunk_start ≠ 16 := fun e => hcond (Or.inr e)
    exact ⟨h1, by omega, by omega, h4⟩

theorem Context.Holds_of_Room {ctx : Context} {bs : List (Object × Object)}
    (h : Context.Room ctx bs) (name value : Object) :
    Context.Holds
      { ctx with
        chunks := ctx.chunks.set (ctx.chunks.length - 1)
          (((ctx.chunks.getLast?.getD []).set ctx.chunk_start name).set
            (ctx.chunk_start + 1) value)
        chunk_start := ctx.chunk_start + 2 } (bs ++ [(name, value)]) := by
  obtain ⟨h1, h2, h3, h4⟩ := h
  have hlast : ∃ last, ctx.chunks[ctx.chunks.length - 1]? = some last :=
    ⟨_, List.getElem?_eq_getElem (by omega)⟩
  obtain ⟨last, hlast⟩ := hlast
  have hg : ctx.chunks.getLast?.getD [] = last := by
    rw [List.getLast?_eq_getElem?, hlast]; rfl
  have hlen : last.length = 16 := h1 _ (List.getElem?_mem hlast)
  rw [hg]
  refine ⟨?_, ?_, ?_, ?_⟩
  · intro chunk hm
    rcases List.mem_or_eq_of_mem_set hm with hm | hm
    · exact h1 _ hm
    · rw [hm]; simp only [List.length_set]; exact hlen
  · simp only [List.length_set, List.length_append, List.length_singleton]; omega
  · simp only [List.length_set, List.length_append, List.length_singleton]; omega
  · intro k b hb
    by_cases hk : k < bs.length
    · rw [List.getElem?_append_left hk] at hb
      obtain ⟨chunk, h5, h6, h7⟩ := h4 k b hb
      by_cases hq : ctx.chunks.length - 1 = k / 8
      · rw [← hq, hlast] at h5
        cases h5
        refine ⟨(last.set ctx.chunk_start name).set (ctx.chunk_start + 1) value, ?_, ?_, ?_⟩
        · simp only
          rw [← hq]
          exact List.getElem?_set_self (by omega)
        · rw [List.getElem?_set_ne (by omega), List.getElem?_set_ne (by omega)]
          exact h6
        · rw [List.getElem?_set_ne (by omega), List.getElem?_set_ne (by omega)]
          exact h7
      · refine ⟨chunk, ?_, h6, h7⟩
        simp only
        rw [List.getElem?_set_ne hq]
        exact h5
    · have hkn : k = bs.length := by
        by_contra hne
        rw [List.getElem?_eq_none (by simp; omega)] at hb
        cases hb
      subst hkn
      rw [List.getElem?_append_right (le_refl _)] at hb
      simp at hb
      subst hb
      refine ⟨(last.set ctx.chunk_start name).set (ctx.chunk_start + 1) value, ?_, ?_, ?_⟩
      · simp only
        have e : ctx.chunks.length - 1 = bs.length / 8 := by omega
        rw [← e]
        exact List.getElem?_set_self (by omega)
      · rw [List.getElem?_set_ne (by omega), ← h3]
        exact List.getElem?_set_self (by omega)
      · rw [← h3]
        exact List.getElem?_set_self (by simp only [List.length_set]; omega)

theorem Context.Push_fresh (σ : State) (c : Nat) (name value : Object) (ctx : Context)
    (bs : List (Object × Object)) (hc : σ.contexts[c]? = some ctx)
    (h : Context.Holds ctx bs) (hfresh : ∀ b ∈ bs, b.1 ≠ name) :
    ∃ l ctx', Context.Push σ c name value
        = .ok (l, { σ with contexts := σ.contexts.set c ctx' }) ∧
      Context.Holds ctx' (bs ++ [(name, value)]) ∧
      ctx'.parent = ctx.parent ∧ ctx'.self = ctx.self ∧ ctx'.released = ctx.released := by
  unfold Context.Push
  rw [Context.SearchCurrentContext_none σ c name ctx bs hc h hfresh]
  simp only [bind, Except.bind, hc, pure, Except.pure]
  refine ⟨_, _, rfl, Context.Holds_of_Room (Context.Room_of_Holds h) name value, ?_, ?_, ?_⟩
  · simp only; split <;> rfl
  · simp only; split <;> rfl
  · simp only; split <;> rfl

theorem Context.chunks_pos {ctx : Context} {bs : List (Object × Object)}
    (h : Context.Holds ctx bs) (hne : 0 < bs.length) :
    ∃ last, ctx.chunks.getLast? = some last ∧
      ctx.chunks[ctx.chunks.length - 1]? = some last ∧ 0 < ctx.chunks.length := by
  obtain ⟨_, h2, _, _⟩ := h
  have hL : 0 < ctx.chunks.length := by omega
  refine ⟨ctx.chunks[ctx.chunks.length - 1], ?_, List.getElem?_eq_getElem (by omega), hL⟩
  rw [List.getLast?_eq_getElem?]
  exact List.getElem?_eq_getElem (by omega)

theorem Context.searchOne_none (ctx : Context) (c : Nat) (name : Object)
    (bs : List (Object × Object)) (h : Context.Holds ctx bs)
    (hfresh : ∀ b ∈ bs, b.1 ≠ name) :
    Context.searchOne ctx c name = .ok none := by
  have hH := h
  obtain ⟨h1, h2, h3, _⟩ := h
  unfold Context.searchOne
  cases hl : ctx.chunks.getLast? with
  | none => rfl
  | some last =>
    simp only
    rw [List.getLast?_eq_getElem?] at hl
    have hL : 0 < ctx.chunks.length := by
      by_contra hn
      rw [List.getElem?_eq_none (by omega)] at hl
      cases hl
    have hup : Context.scanUp last name ctx.chunk_start kContextChunkLimit 0 = .ok none := by
      apply Context.scanUp_none
      · omega
      · omega
      · simp only [kContextChunkLimit]; omega
      · intro j _ hj hpar
        obtain ⟨b, hb, hk, _⟩ := Context.Holds_key hH (q := ctx.chunks.length - 1)
          (m := j / 2) hl (by omega) (by omega)
        have e : 2 * (j / 2) = j := by omega
        rw [e] at hk
        exact ⟨_, hk, hfresh b (List.getElem?_mem hb)⟩
    simp only [hup, bind, Except.bind]
    apply Context.searchFull_none
    intro p hp
    rw [List.mem_enum_iff_getElem?, List.getElem?_dropLast] at hp
    split at hp
    · apply Context.scanUp_none
      · simp
      · simp [kContextChunkLimit]
      · simp [kContextChunkLimit]
      · intro j _ hj hpar
        simp only [kContextChunkLimit] at hj
        obtain ⟨b, hb, hk, _⟩ := Context.Holds_key hH (q := p.1) (m := j / 2) hp
          (by omega) (by omega)
        have e : 2 * (j / 2) = j := by omega
        rw [e] at hk
        exact ⟨_, hk, hfresh b (List.getElem?_mem hb)⟩
    · cases hp

theorem Context.searchOne_found (ctx : Context) (c : Nat) (bs : List (Object × Object))
    (k : Nat) (b : Object × Object) (h : Context.Holds ctx bs) (hk : bs[k]? = some b)
    (huniq : ∀ k' b', bs[k']? = some b' → b'.1 = b.1 → k' = k) :
    Context.searchOne ctx c b.1 = .ok (some (.slot c (k / 8) (2 * (k % 8) + 1))) := by
  have hH := h
  have hkn : k < bs.length := by
    by_contra hn
    rw [List.getElem?_eq_none (by omega)] at hk
    cases hk
  obtain ⟨last, hl, hlast, hL⟩ := Context.chunks_pos h (by omega)
  obtain ⟨h1, h2, h3, h4⟩ := h
  obtain ⟨chunk, hq, hkey, _⟩ := h4 k b hk
  unfold Context.searchOne
  rw [hl]
  simp only
  by_cases hlastq : k / 8 = ctx.chunks.length - 1
  · rw [hlastq, hlast] at hq
    cases hq
    have hup : Context.scanUp last b.1 ctx.chunk_start kContextChunkLimit 0
        = .ok (some (2 * (k % 8))) := by
      apply Context.scanUp_found
      · omega
      · omega
      · omega
      · simp only [kContextChunkLimit]; omega
      · exact hkey
      · intro j _ hj hpar
        obtain ⟨b', hb', hk', _⟩ := Context.Holds_key hH (q := ctx.chunks.length - 1)
          (m := j / 2) hlast (by omega) (by omega)
        have e : 2 * (j / 2) = j := by omega
        rw [e] at hk'
        refine ⟨_, hk', fun heq => ?_⟩
        have := huniq _ _ hb' heq
        omega
    simp only [hup, bind, Except.bind, pure, Except.pure, hlastq]
  · have hup : Context.scanUp last b.1 ctx.chunk_start kContextChunkLimit 0 = .ok none := by
      apply Context.scanUp_none
      · omega
      · omega
      · simp only [kContextChunkLimit]; omega
      · intro j _ hj hpar
        obtain ⟨b', hb', hk', _⟩ := Context.Holds_key hH (q := ctx.chunks.length - 1)
          (m := j / 2) hlast (by omega) (by omega)
        have e : 2 * (j / 2) = j := by omega
        rw [e] at hk'
        refine ⟨_, hk', fun heq => ?_⟩
        have := huniq _ _ hb' heq
        omega
    simp only [hup, bind, Except.bind]
    have hq' : ctx.chunks.dropLast[k / 8 - 0]? = some chunk := by
      rw [Nat.sub_zero, List.getElem?_dropLast, if_pos (by omega)]
      exact hq
    refine Context.searchFull_found c b.1 (k / 8) (2 * (k % 8)) chunk ctx.chunks.dropLast 0
      (Nat.zero_le _) hq' ?_ ?_
    · intro q ch hqlt hch
      rw [List.getElem?_dropLast] at hch
      split at hch
      · apply Context.scanUp_none
        · simp
        · simp [kContextChunkLimit]
        · simp [kContextChunkLimit]
        · intro j _ hj hpar
          simp only [kContextChunkLimit] at hj
          obtain ⟨b', hb', hk', _⟩ := Context.Holds_key hH (q := q) (m := j / 2) hch
            (by omega) (by omega)
          have e : 2 * (j / 2) = j := by omega
          rw [e] at hk'
          refine ⟨_, hk', fun heq => ?_⟩
          have := huniq _ _ hb' heq
          omega
      · cases hch
    · apply Context.scanUp_found
      · omega
      · omega
      · simp only [kContextChunkLimit]; omega
      · simp only [kContextChunkLimit]; omega
      · exact hkey
      · intro j _ hj hpar
        obtain ⟨b', hb', hk', _⟩ := Context.Holds_key hH (q := k / 8) (m := j / 2) hq
          (by omega) (by omega)
        have e : 2 * (j / 2) = j := by omega
        rw [e] at hk'
        refine ⟨_, hk', fun heq => ?_⟩
        have := huniq _ _ hb' heq
        omega

theorem List.set_of_getElem? {α : Type} (l : List α) (i : Nat) (a : α)
    (h : l[i]? = some a) : l.set i a = l := by
  apply List.ext_getElem?
  intro j
  by_cases hij : i = j
  · subst hij
    rw [List.getElem?_set_self' , h]; rfl
  · rw [List.getElem?_set_ne hij]

theorem State.read_contexts (σ : State) (cs : List Context) (c : Nat) (l : Location)
    (hnot : ∀ k o, l ≠ .slot c k o) (hcs : ∀ j, j ≠ c → cs[j]? = σ.contexts[j]?) :
    State.read { σ with contexts := cs } l = σ.read l := by
  cases l with
  | cell i => rfl
  | fixed v => rfl
  | slot c' k o =>
    have hne : c' ≠ c := fun e => hnot k o (by rw [e])
    simp only [State.read, hcs c' hne]

theorem KSArray.Get_argument {σ : State} {a t arr : Object} {m : Int} {slots : List Object}
    (i : Nat) (ha : σ.find a = some (.KSARRAY t m arr))
    (harr : σ.find arr = some (.ARRAY slots)) (hm : m ≤ (slots.length : Int)) :
    KSArray.Get σ a (i : Int) =
      .ok (if (i : Int) < m then slots.getD i Constant.Undefined else Constant.Undefined) := by
  rw [KSArray.Get_eq (i : Int) ha harr]
  by_cases hi : (i : Int) < m
  · have hlt : i < slots.length := by omega
    simp [hi, List.getElem?_eq_getElem hlt, List.getD_eq_getElem?_getD]
  · simp [hi]

theorem Interpreter.PushParams_step {c : Nat} {params : Object} {args : Handle} {n : Nat}
    {i : Int} {σ σ' : State} {name A value : Object} {l : Handle}
    (h1 : Array.Get σ params i = .ok name) (h2 : σ.get args = .ok A)
    (h3 : KSArray.Get σ A i = .ok value) (h4 : Context.Push σ c name value = .ok (l, σ')) :
    Interpreter.PushParams c params args (n + 1) i σ
      = Interpreter.PushParams c params args n (i + 1) σ' := by
  simp only [Interpreter.PushParams, bind, Except.bind, h1, h2, h3, h4]

theorem Interpreter.PushParams_spec (σ0 : State) (c : Nat) (params : Object) (args : Handle)
    (ps : List Object) (A t arr : Object) (m : Int) (slots : List Object)
    (hparams : σ0.find params = some (.ARRAY ps))
    (hA : σ0.find A = some (.KSARRAY t m arr)) (harr : σ0.find arr = some (.ARRAY slots))
    (hm : m ≤ (slots.length : Int)) (hnot : ∀ k o, args ≠ some (.slot c k o)) :
    ∀ (rest : List Object) (i : Nat) (cs : List Context) (ctx : Context)
      (bs : List (Object × Object)),
      (∀ j, j < rest.length → ps[i + j]? = rest[j]?) → cs[c]? = some ctx →
      State.get { σ0 with contexts := cs } args = .ok A → Context.Holds ctx bs →
      (∀ b ∈ bs, b.1 ∉ rest) → rest.Nodup →
      ∃ ctx', Interpreter.PushParams c params args rest.length (i : Int)
          { σ0 with contexts := cs } = .ok { σ0 with contexts := cs.set c ctx' } ∧
        Context.Holds ctx' (bs ++ Interpreter.ParamBindings m slots i rest) ∧
        ctx'.parent = ctx.parent ∧ ctx'.self = ctx.self ∧
        ctx'.released = ctx.released := by
  intro rest
  induction rest with
  | nil =>
    intro i cs ctx bs _ hc _ hH _ _
    refine ⟨ctx, ?_, ?_, rfl, rfl, rfl⟩
    · rw [List.set_of_getElem? cs c ctx hc]; rfl
    · simpa [Interpreter.ParamBindings] using hH
  | cons name rest ih =>
    intro i cs ctx bs hps hc hargs hH hfresh hnodup
    have hname : ps[i]? = some name := by
      have := hps 0 (by simp)
      simpa using this
    have h1 : Array.Get { σ0 with contexts := cs } params (i : Int) = .ok name :=
      Array.Get_of_slots (σ := { σ0 with contexts := cs }) hparams (by omega) (by simpa using hname)
    have h3 := KSArray.Get_argument (σ := { σ0 with contexts := cs }) i hA harr hm
    obtain ⟨l, ctx1, hpush, hH1, hpar1, hself1, hrel1⟩ :=
      Context.Push_fresh { σ0 with contexts := cs } c name
        (if (i : Int) < m then slots.getD i Constant.Undefined else Constant.Undefined)
        ctx bs hc hH (fun b hb e => hfresh b hb (by rw [e]; exact List.mem_cons_self _ _))
    have hlen : c < cs.length := by
      by_contra hn
      rw [List.getElem?_eq_none (by omega)] at hc
      cases hc
    have hargs1 : State.get { σ0 with contexts := cs.set c ctx1 } args = .ok A := by
      rw [← hargs]
      cases args with
      | none => rfl
      | some loc =>
        show State.read _ loc = State.read _ loc
        rw [State.read_contexts { σ0 with contexts := cs } (cs.set c ctx1) c loc
          (fun k o e => hnot k o (by rw [e]))
          (fun j hj => List.getElem?_set_ne (Ne.symm hj))]
    obtain ⟨ctx2, hrun, hH2, hpar2, hself2, hrel2⟩ :=
      ih (i + 1) (cs.set c ctx1) ctx1 (bs ++ [(name,
          if (i : Int) < m then slots.getD i Constant.Undefined else Constant.Undefined)])
        (fun j hj => by
          have := hps (j + 1) (by simp; omega)
          simpa [Nat.add_assoc, Nat.add_comm 1 j] using this)
        (List.getElem?_set_self (by omega)) hargs1 hH1
        (fun b hb => by
          rw [List.mem_append, List.mem_singleton] at hb
          rcases hb with hb | hb
          · exact fun hmem => hfresh b hb (List.mem_cons_of_mem _ hmem)
          · rw [hb]; exact (List.nodup_cons.mp hnodup).1)
        (List.nodup_cons.mp hnodup).2
    refine ⟨ctx2, ?_, ?_, hpar2.trans hpar1, hself2.trans hself1, hrel2.trans hrel1⟩
    · rw [List.length_cons, Interpreter.PushParams_step h1 hargs h3 hpush]
      rw [List.set_set] at hrun
      have e : ((i : Int) + 1) = ((i + 1 : Nat) : Int) := by push_cast; rfl
      rw [e]
      exact hrun
    · simpa [Interpreter.ParamBindings, List.append_assoc] using hH2

theorem State.allocated_with (σ : State) (space : AllocationSpace) (o : HeapObject)
    (hs : List Object) (h : Nat) (cs : List Context) :
    State.allocated { σ with handles := hs, handle := h, contexts := cs } space o
      = { σ.allocated space o with handles := hs, handle := h, contexts := cs } := by
  cases space <;> rfl

theorem AllocateString_frame (σ : State) (value : String) (policy : AllocationPolicy)
    (hs : List Object) (h : Nat) (cs : List Context) :
    AllocateString { σ with handles := hs, handle := h, contexts := cs } value policy
      = (AllocateString σ value policy).map
          (fun r => (r.1, { r.2 with handles := hs, handle := h, contexts := cs })) := by
  by_cases hl : value.length ≠ 0
  · by_cases hr : Align (20 + value.length) ≤ σ.available policy.space
    · have e1 : AllocateString σ value policy = .ok (HeapObject_Make σ.objects.length,
          σ.allocated policy.space (.STRING σ.empty_hash_table value)) := by
        refine CALL_WITH_GC_SUPPORT_ok (f := fun σ => AllocateStringNoGC σ value policy) ?_
        simp only [AllocateStringNoGC, if_pos hl, AllocateStringNoGCInternal]
        exact AllocateRaw_ok hr
      have e2 : AllocateString { σ with handles := hs, handle := h, contexts := cs } value policy
          = .ok (HeapObject_Make σ.objects.length,
            State.allocated { σ with handles := hs, handle := h, contexts := cs } policy.space
              (.STRING σ.empty_hash_table value)) := by
        refine CALL_WITH_GC_SUPPORT_ok (f := fun σ => AllocateStringNoGC σ value policy) ?_
        simp only [AllocateStringNoGC, if_pos hl, AllocateStringNoGCInternal]
        exact AllocateRaw_ok (σ := { σ with handles := hs, handle := h, contexts := cs })
          (by cases hp : policy.space <;> rw [hp] at hr <;> exact hr)
      rw [e1, e2, State.allocated_with]
      rfl
    · have hf : σ.available policy.space < Align (20 + value.length) := by omega
      rw [(AllocateString_full (σ := σ) value policy hl hf).2,
        (AllocateString_full (σ := { σ with handles := hs, handle := h, contexts := cs })
          value policy hl (by cases hp : policy.space <;> rw [hp] at hf <;> exact hf)).2]
      rfl
  · have e1 : ∀ τ : State, AllocateString τ value policy = .ok (τ.empty_string, τ) := by
      intro τ
      refine CALL_WITH_GC_SUPPORT_ok (f := fun σ => AllocateStringNoGC σ value policy) ?_
      simp only [AllocateStringNoGC, if_neg hl]
    rw [e1, e1]
    rfl

theorem String.NewSymbol_frame (σ : State) (value : String) (hs : List Object) (h : Nat)
    (cs : List Context) :
    String.NewSymbol { σ with handles := hs, handle := h, contexts := cs } value
      = (String.NewSymbol σ value).map
          (fun r => (r.1, { r.2 with handles := hs, handle := h, contexts := cs })) := by
  unfold String.NewSymbol
  have e : SymbolTable_Find { σ with handles := hs, handle := h, contexts := cs } value
      = SymbolTable_Find σ value := rfl
  simp only [e]
  split
  · rfl
  · rw [AllocateString_frame]
    cases AllocateString σ value .TENURED <;> rfl

theorem String.NewSymbol_contexts {σ σs : State} {value : String} {sym : Object}
    (h : String.NewSymbol σ value = .ok (sym, σs)) :
    σs.contexts = σ.contexts ∧ σs.handles = σ.handles ∧ σs.handle = σ.handle := by
  unfold String.NewSymbol at h
  simp only at h
  split at h
  · cases h
    exact ⟨rfl, rfl, rfl⟩
  · by_cases hl : value.length ≠ 0
    · by_cases hr : Align (20 + value.length) ≤ σ.available AllocationPolicy.TENURED.space
      · have e1 : AllocateString σ value .TENURED = .ok (HeapObject_Make σ.objects.length,
            σ.allocated AllocationPolicy.TENURED.space (.STRING σ.empty_hash_table value)) := by
          refine CALL_WITH_GC_SUPPORT_ok (f := fun σ => AllocateStringNoGC σ value .TENURED) ?_
          simp only [AllocateStringNoGC, if_pos hl, AllocateStringNoGCInternal]
          exact AllocateRaw_ok hr
        rw [e1] at h
        cases h
        have hf := State.allocated_frame σ AllocationPolicy.TENURED.space
          (.STRING σ.empty_hash_table value)
        exact ⟨hf.2.2.1, hf.1, hf.2.1⟩
      · rw [(AllocateString_full (σ := σ) value .TENURED hl (by omega)).2] at h
        cases h
    · have e1 : AllocateString σ value .TENURED = .ok (σ.empty_string, σ) := by
        refine CALL_WITH_GC_SUPPORT_ok (f := fun σ => AllocateStringNoGC σ value .TENURED) ?_
        simp only [AllocateStringNoGC, if_neg hl]
      rw [e1] at h
      cases h
      exact ⟨rfl, rfl, rfl⟩

theorem State.read_congr (σ σ' : State) (l : Location) (hc : σ'.contexts = σ.contexts)
    (hh : σ'.handles = σ.handles) : σ'.read l = σ.read l := by
  cases l <;> simp only [State.read, hc, hh]

theorem State.read_MakeHandle (σ : State) (value : Object) (cs : List Context)
    (l : Location) (v : Object) (hl : σ.read l = .ok v) (hlive : l ≠ .cell σ.handle)
    (hcs : ∀ j, j < σ.contexts.length → cs[j]? = σ.contexts[j]?) :
    State.read { (MakeHandle σ value).2 with contexts := cs } l = .ok v := by
  cases l with
  | fixed w => exact hl
  | cell i =>
    have hi : σ.handle ≠ i := fun e => hlive (by rw [e])
    simp only [State.read] at hl
    cases hg : σ.handles[i]? with
    | none => rw [hg] at hl; cases hl
    | some w =>
      have hlt : i < σ.handles.length := by
        by_contra hn
        rw [List.getElem?_eq_none (by omega)] at hg
        cases hg
      have hget : (if σ.handle < σ.handles.length then σ.handles.set σ.handle value
          else σ.handles ++ [value])[i]? = some w := by
        split
        · rw [List.getElem?_set_ne hi]; exact hg
        · rw [List.getElem?_append_left hlt]; exact hg
      rw [hg] at hl
      simp only [State.read, MakeHandle, hget]
      exact hl
  | slot c k o =>
    simp only [State.read] at hl ⊢
    cases hg : σ.contexts[c]? with
    | none => rw [hg] at hl; cases hl
    | some ctx =>
      have hlt : c < σ.contexts.length := by
        by_contra hn
        rw [List.getElem?_eq_none (by omega)] at hg
        cases hg
      rw [hcs c hlt]
      exact hl

theorem Context.Holds_nil (parent : Option Nat) (self : Handle) :
    Context.Holds { parent := parent, chunks := [], chunk_start := 0, self := self } [] := by
  refine ⟨?_, rfl, rfl, ?_⟩
  · intro chunk h; cases h
  · intro k b h; simp at h

theorem Interpreter.CallPrologue_step {σ σ2 σ3 σ4 σ5 : State} {self args l : Handle}
    {params A sym : Object} {context : Nat} {n : Int}
    (h1 : Context.set_self (Context.New (MakeHandle σ nullptr).2 (some context)).2
      σ.contexts.length self = .ok σ2)
    (h2 : Array.Length σ2 params = .ok n)
    (h3 : Interpreter.PushParams σ.contexts.length params args n.toNat 0 σ2 = .ok σ3)
    (hs : String.NewSymbol σ3 "arguments_" = .ok (sym, σ4))
    (h4 : σ4.get args = .ok A)
    (h5 : Context.Push σ4 σ.contexts.length sym A = .ok (l, σ5)) :
    Interpreter.CallPrologue σ self params args context
      = .ok (.cell σ.handle, σ.contexts.length, σ.handle + 1, σ5) := by
  have e1 : (Context.New (MakeHandle σ nullptr).2 (some context)).1 = σ.contexts.length := rfl
  simp only [Interpreter.CallPrologue, e1, h1, h2, h3, hs, h4, h5, bind, Except.bind, pure,
    Except.pure]
  rfl

theorem Interpreter.ParamBindings_keys (m : Int) (slots : List Object) :
    ∀ (names : List Object) (i : Nat), ∀ b ∈ Interpreter.ParamBindings m slots i names,
      b.1 ∈ names := by
  intro names
  induction names with
  | nil => intro i b hb; simp [Interpreter.ParamBindings] at hb
  | cons name rest ih =>
    intro i b hb
    simp only [Interpreter.ParamBindings, List.enumFrom_cons, List.map_cons,
      List.mem_cons] at hb
    rcases hb with hb | hb
    · rw [hb]; exact List.mem_cons_self _ _
    · exact List.mem_cons_of_mem _ (ih (i + 1) b hb)

theorem Interpreter.CallPrologue_spec (σ : State) (self args : Handle) (params A : Object)
    (context : Nat) (ps : List Object) (t arr : Object) (m : Int) (slots : List Object)
    (hparams : σ.find params = some (.ARRAY ps)) (hargs : σ.get args = .ok A)
    (hlive : args ≠ some (.cell σ.handle))
    (hA : σ.find A = some (.KSARRAY t m arr)) (harr : σ.find arr = some (.ARRAY slots))
    (hm : m ≤ (slots.length : Int)) (hnodup : ps.Nodup)
    (sym : Object) (σs : State) (hsymbol : String.NewSymbol σ "arguments_" = .ok (sym, σs))
    (hnotargs : sym ∉ ps) :
    ∃ σ' ctx, Interpreter.CallPrologue σ self params args context
        = .ok (.cell σ.handle, σ.contexts.length, σ.handle + 1, σ') ∧
      σ'.contexts = σ.contexts ++ [ctx] ∧ ctx.parent = some context ∧ ctx.self = self ∧
      Context.Holds ctx (Interpreter.ParamBindings m slots 0 ps ++ [(sym, A)]) ∧
      ctx.released = false := by
  obtain ⟨loc, rfl⟩ : ∃ loc, args = some loc := by
    cases args with
    | none => cases hargs
    | some loc => exact ⟨loc, rfl⟩
  have hloc : loc ≠ .cell σ.handle := fun e => hlive (by rw [e])
  have hnot : ∀ k o, some loc ≠ some (Location.slot σ.contexts.length k o) := by
    intro k o e
    cases e
    simp only [State.get, State.read, List.getElem?_eq_none (le_refl _)] at hargs
    cases hargs
  let ctxS : Context := { parent := some context, chunks := [], chunk_start := 0, self := self }
  let σ1 := (MakeHandle σ nullptr).2
  have h1 : Context.set_self (Context.New σ1 (some context)).2 σ.contexts.length self
      = .ok { σ1 with contexts := σ.contexts ++ [ctxS] } := by
    have e : (Context.New σ1 (some context)).2.contexts[σ.contexts.length]?
        = some { parent := some context, chunks := [], chunk_start := 0, self := none } := by
      show (σ.contexts ++ [_])[σ.contexts.length]? = _
      rw [List.getElem?_append_right (le_refl _)]
      simp
    simp only [Context.set_self, e]
    show Except.ok { σ1 with contexts := (σ.contexts ++ [_]).set σ.contexts.length ctxS } = _
    rw [List.set_append_right _ _ (le_refl _)]
    simp
  have h2 : Array.Length { σ1 with contexts := σ.contexts ++ [ctxS] } params
      = .ok (ps.length : Int) :=
    Array.Length_of_slots (σ := { σ1 with contexts := σ.contexts ++ [ctxS] }) hparams
  have hc : (σ.contexts ++ [ctxS])[σ.contexts.length]? = some ctxS := by
    rw [List.getElem?_append_right (le_refl _)]
    simp
  have hargs1 : State.get { σ1 with contexts := σ.contexts ++ [ctxS] } (some loc) = .ok A :=
    State.read_MakeHandle σ nullptr _ loc A hargs hloc
      (fun j hj => List.getElem?_append_left hj)
  obtain ⟨ctx3, h3, hH3, hpar3, hself3, hrel3⟩ :=
    Interpreter.PushParams_spec σ1 σ.contexts.length params (some loc) ps A t arr m slots
      hparams hA harr hm hnot ps 0 (σ.contexts ++ [ctxS]) ctxS [] (fun j _ => by simp) hc
      hargs1 (Context.Holds_nil _ _) (fun b hb => by cases hb) hnodup
  rw [List.nil_append] at hH3
  let S3 : State :=
    { σ1 with contexts := (σ.contexts ++ [ctxS]).set σ.contexts.length ctx3 }
  let S4 : State := { σs with handles := S3.handles, handle := S3.handle,
                               contexts := S3.contexts }
  have hs3 : String.NewSymbol S3 "arguments_" = .ok (sym, S4) := by
    have e := String.NewSymbol_frame σ "arguments_" S3.handles S3.handle S3.contexts
    rw [hsymbol] at e
    exact e
  have h4 : S4.get (some loc) = .ok A := by
    show State.read _ loc = _
    rw [State.read_congr S3 S4 loc rfl rfl]
    exact State.read_MakeHandle σ nullptr _ loc A hargs hloc
      (fun j hj => by
        rw [List.getElem?_set_ne (by omega)]
        exact List.getElem?_append_left hj)
  have hc3 : S4.contexts[σ.contexts.length]? = some ctx3 :=
    List.getElem?_set_self (by simp)
  obtain ⟨l, ctx5, h5, hH5, hpar5, hself5, hrel5⟩ :=
    Context.Push_fresh S4 σ.contexts.length sym A ctx3 _ hc3 hH3
      (fun b hb e => hnotargs (e ▸ Interpreter.ParamBindings_keys m slots ps 0 b hb))
  have h3' : Interpreter.PushParams σ.contexts.length params (some loc)
      ((ps.length : Int)).toNat 0 { σ1 with contexts := σ.contexts ++ [ctxS] }
      = .ok S3 := by
    rw [Int.toNat_ofNat]
    exact h3
  refine ⟨_, ctx5, Interpreter.CallPrologue_step h1 h2 h3' hs3 h4 h5, ?_, ?_, ?_, ?_, ?_⟩
  · show (S4.contexts).set σ.contexts.length ctx5 = _
    show (((σ.contexts ++ [ctxS]).set σ.contexts.length ctx3)).set σ.contexts.length ctx5 = _
    rw [List.set_set, List.set_append_right _ _ (le_refl _)]
    simp
  · rw [hpar5, hpar3]
  · rw [hself5, hself3]
  · exact hH5
  · rw [hrel5, hrel3]

theorem Context.Resolve_found (σ : State) (c : Nat) (ctx : Context)
    (bs : List (Object × Object)) (k : Nat) (b : Object × Object)
    (hc : σ.contexts[c]? = some ctx) (h : Context.Holds ctx bs) (hk : bs[k]? = some b)
    (hnodup : (bs.map Prod.fst).Nodup) (hrel : ctx.released = false) :
    ∃ l, Context.Resolve σ c b.1 = .ok (some l) ∧ σ.read l = .ok b.2 := by
  have huniq : ∀ k' b', bs[k']? = some b' → b'.1 = b.1 → k' = k := by
    intro k' b' hb' heq
    have hlt : k' < (bs.map Prod.fst).length := by
      rw [List.length_map]
      by_contra hn
      rw [List.getElem?_eq_none (by omega)] at hb'
      cases hb'
    apply List.getElem?_inj hlt hnodup
    rw [List.getElem?_map, List.getElem?_map, hb', hk]
    simp [heq]
  have hfound := Context.searchOne_found ctx c bs k b h hk huniq
  have hlen : c < σ.contexts.length := by
    by_contra hn
    rw [List.getElem?_eq_none (by omega)] at hc
    cases hc
  obtain ⟨n, hn⟩ : ∃ n, σ.contexts.length = n + 1 := ⟨σ.contexts.length - 1, by omega⟩
  refine ⟨.slot c (k / 8) (2 * (k % 8) + 1), ?_, ?_⟩
  · simp only [Context.Resolve, Context.Search, hn, Context.SearchFrom, hc, hfound, bind,
      Except.bind, pure, Except.pure]
  · obtain ⟨chunk, hq, _, hv⟩ := h.2.2.2 k b hk
    simp only [State.read, hc, hq, hv, hrel, Bool.false_eq_true, if_false]

theorem Context.SearchFrom_mono (σ σ' : State) (name : Object)
    (hsub : ∀ (i : Nat) (ctx : Context), σ.contexts[i]? = some ctx → σ'.contexts[i]? = some ctx) :
    ∀ (n : Nat) (p : Option Nat) (r : Handle),
      Context.SearchFrom σ name n p = .ok r → Context.SearchFrom σ' name n p = .ok r := by
  intro n
  induction n with
  | zero =>
    intro p r h
    cases p with
    | none => exact h
    | some c => cases h
  | succ n ih =>
    intro p r h
    cases p with
    | none => exact h
    | some c =>
      simp only [Context.SearchFrom] at h ⊢
      cases hc : σ.contexts[c]? with
      | none => rw [hc] at h; cases h
      | some ctx =>
        rw [hc] at h
        rw [hsub c ctx hc]
        simp only [bind, Except.bind] at h ⊢
        cases hs : Context.searchOne ctx c name with
        | error e => rw [hs] at h; cases h
        | ok found =>
          rw [hs] at h
          cases found with
          | some l => exact h
          | none => exact ih _ _ h

theorem Context.searchFull_slot (c : Nat) (name : Object) :
    ∀ (l : List (Nat × List Object)) (loc : Location),
      Context.searchFull c name l = .ok (some loc) → ∃ k o, loc = .slot c k o := by
  intro l
  induction l with
  | nil => intro loc h; cases h
  | cons p rest ih =>
    intro loc h
    obtain ⟨k, chunk⟩ := p
    simp only [Context.searchFull, bind, Except.bind] at h
    cases hs : Context.scanUp chunk name kContextChunkLimit kContextChunkLimit 0 with
    | error e => rw [hs] at h; cases h
    | ok found =>
      rw [hs] at h
      cases found with
      | some i =>
        simp only [pure, Except.pure] at h
        cases h
        exact ⟨k, i + 1, rfl⟩
      | none => exact ih loc h

theorem Context.searchOne_slot (ctx : Context) (c : Nat) (name : Object) (loc : Location)
    (h : Context.searchOne ctx c name = .ok (some loc)) : ∃ k o, loc = .slot c k o := by
  unfold Context.searchOne at h
  cases hl : ctx.chunks.getLast? with
  | none => rw [hl] at h; cases h
  | some last =>
    rw [hl] at h
    simp only [bind, Except.bind] at h
    cases hs : Context.scanUp last name ctx.chunk_start kContextChunkLimit 0 with
    | error e => rw [hs] at h; cases h
    | ok found =>
      rw [hs] at h
      cases found with
      | some i =>
        simp only [pure, Except.pure] at h
        cases h
        exact ⟨_, _, rfl⟩
      | none => exact Context.searchFull_slot c name _ loc h

theorem Context.SearchFrom_slot (σ : State) (name : Object) :
    ∀ (n : Nat) (p : Option Nat) (loc : Location),
      Context.SearchFrom σ name n p = .ok (some loc) →
      ∃ c k o, loc = .slot c k o ∧ c < σ.contexts.length := by
  intro n
  induction n with
  | zero =>
    intro p loc h
    cases p with
    | none => cases h
    | some c => cases h
  | succ n ih =>
    intro p loc h
    cases p with
    | none => cases h
    | some c =>
      simp only [Context.SearchFrom] at h
      cases hc : σ.contexts[c]? with
      | none => rw [hc] at h; cases h
      | some ctx =>
        rw [hc] at h
        simp only [bind, Except.bind] at h
        have hlen : c < σ.contexts.length := by
          by_contra hn
          rw [List.getElem?_eq_none (by omega)] at hc
          cases hc
        cases hs : Context.searchOne ctx c name with
        | error e => rw [hs] at h; cases h
        | ok found =>
          rw [hs] at h
          cases found with
          | some l =>
            simp only [pure, Except.pure] at h
            cases h
            obtain ⟨k, o, e⟩ := Context.searchOne_slot ctx c name _ hs
            exact ⟨c, k, o, e, hlen⟩
          | none => exact ih _ _ h

theorem Interpreter.ParamBindings_getElem? (m : Int) (slots : List Object) :
    ∀ (names : List Object) (i j : Nat) (name : Object), names[j]? = some name →
      (Interpreter.ParamBindings m slots i names)[j]? = some (name,
        if ((i + j : Nat) : Int) < m then slots.getD (i + j) Constant.Undefined
        else Constant.Undefined) := by
  intro names i j name h
  simp only [Interpreter.ParamBindings, List.getElem?_map, List.getElem?_enumFrom, h,
    Option.map_some']

theorem Interpreter.ParamBindings_fst (m : Int) (slots : List Object) :
    ∀ (names : List Object) (i : Nat),
      (Interpreter.ParamBindings m slots i names).map Prod.fst = names := by
  intro names
  induction names with
  | nil => intro i; rfl
  | cons name rest ih =>
    intro i
    simp only [Interpreter.ParamBindings, List.enumFrom_cons, List.map_cons] at ih ⊢
    rw [ih (i + 1)]

/-! ### Doubles -/

theorem Double.Value_normal (negative : Bool) (E frac : Nat) (hE0 : 0 < E) (hE : E < 2047)
    (hf : frac < 2 ^ 52) :
    Double.Value (E * 2 ^ 52 + frac + (if negative then 2 ^ 63 else 0)) =
      .finite ((if negative then -1 else 1) *
        ((((2 ^ 52 + frac) * 2 ^ (E - 1) : Nat) : ℚ) / 2 ^ 1074)) := by
  have hlt : ¬ 2 ^ 64 ≤ E * 2 ^ 52 + frac + (if negative then 2 ^ 63 else 0) := by
    cases negative <;> simp <;> omega
  have hexp : Double.exponent (E * 2 ^ 52 + frac + (if negative then 2 ^ 63 else 0)) = E := by
    unfold Double.exponent
    cases negative <;> simp <;> omega
  have hfrac : Double.fraction (E * 2 ^ 52 + frac + (if negative then 2 ^ 63 else 0))
      = frac := by
    unfold Double.fraction
    cases negative <;> simp <;> omega
  have hsign : Double.sign (E * 2 ^ 52 + frac + (if negative then 2 ^ 63 else 0))
      = if negative then 1 else 0 := by
    unfold Double.sign
    cases negative <;> simp <;> omega
  have hmag : Double.magnitude (E * 2 ^ 52 + frac + (if negative then 2 ^ 63 else 0))
      = (2 ^ 52 + frac) * 2 ^ (E - 1) := by
    unfold Double.magnitude
    rw [hexp, hfrac, if_neg (by omega)]
  unfold Double.Value
  rw [if_neg hlt, hexp, if_neg (by omega), hsign, hmag]
  cases negative <;> simp

theorem Double.Value_zero : Double.Value 0 = .finite 0 := by decide!

theorem Double.two_pow_mul (a b c : Nat) (h : a + b = c) : 2 ^ a * 2 ^ b = 2 ^ c := by
  subst h
  exact (pow_add 2 a b).symm

theorem Double.cast_units (k n : Nat) : ((k * 2 ^ n : Nat) : ℚ) / 2 ^ n = (k : ℚ) := by
  rw [Nat.cast_mul, Nat.cast_pow, Nat.cast_ofNat]
  exact mul_div_cancel_right₀ _ (pow_ne_zero n two_ne_zero)

theorem Double.representable_nat (negative : Bool) (k : Nat) (hk : k ≤ 2 ^ 53) :
    ∃ bits, Double.Value bits = .finite ((if negative then -1 else 1) * (k : ℚ)) := by
  by_cases h0 : k = 0
  · subst h0
    exact ⟨0, by rw [Double.Value_zero]; simp⟩
  · have hpos : 0 < k := Nat.pos_of_ne_zero h0
    have hlo : 2 ^ Nat.log 2 k ≤ k := Nat.pow_log_le_self 2 h0
    have hhi : k < 2 ^ (Nat.log 2 k + 1) := Nat.lt_pow_succ_log_self (by decide) k
    generalize Nat.log 2 k = e at hlo hhi
    have he : e ≤ 53 := by
      by_contra hn
      have : 2 ^ 54 ≤ 2 ^ e := Nat.pow_le_pow_right (by decide) (by omega)
      omega
    by_cases he53 : e = 53
    · subst he53
      have hk53 : k = 2 ^ 53 := by omega
      subst hk53
      refine ⟨1076 * 2 ^ 52 + 0 + (if negative then 2 ^ 63 else 0), ?_⟩
      rw [Double.Value_normal negative 1076 0 (by decide) (by decide) (by decide)]
      congr 2
      have : ((2 ^ 52 + 0) * 2 ^ (1076 - 1) : Nat) = 2 ^ 53 * 2 ^ 1074 := by
        have e1 : (1076 - 1 : Nat) = 1075 := rfl
        rewrite [e1, Nat.add_zero]
        exact (Double.two_pow_mul 52 1075 1127 rfl).trans
          (Double.two_pow_mul 53 1074 1127 rfl).symm
      rw [this, Double.cast_units]
    · have he52 : e ≤ 52 := by omega
      have hfrac : (k - 2 ^ e) * 2 ^ (52 - e) < 2 ^ 52 := by
        have h1 : k - 2 ^ e < 2 ^ e := by
          rw [pow_succ] at hhi
          omega
        calc (k - 2 ^ e) * 2 ^ (52 - e) < 2 ^ e * 2 ^ (52 - e) :=
              Nat.mul_lt_mul_of_pos_right h1 (pow_pos (by decide) _)
          _ = 2 ^ 52 := Double.two_pow_mul _ _ _ (by omega)
      refine ⟨(e + 1023) * 2 ^ 52 + (k - 2 ^ e) * 2 ^ (52 - e)
        + (if negative then 2 ^ 63 else 0), ?_⟩
      rw [Double.Value_normal negative (e + 1023) _ (by omega) (by omega) hfrac]
      congr 2
      have hmag : (2 ^ 52 + (k - 2 ^ e) * 2 ^ (52 - e)) * 2 ^ (e + 1023 - 1)
          = k * 2 ^ 1074 := by
        have h52 : 2 ^ e * 2 ^ (52 - e) = 2 ^ 52 := Double.two_pow_mul _ _ _ (by omega)
        have hA : 2 ^ 52 + (k - 2 ^ e) * 2 ^ (52 - e) = k * 2 ^ (52 - e) := by
          rw [← h52, ← Nat.add_mul, Nat.add_sub_cancel' hlo]
        have hB : 2 ^ (52 - e) * 2 ^ (e + 1023 - 1) = 2 ^ 1074 :=
          Double.two_pow_mul _ _ _ (by omega)
        exact (congrArg (fun t => t * 2 ^ (e + 1023 - 1)) hA).trans
          ((Nat.mul_assoc _ _ _).trans (congrArg (fun t => k * t) hB))
      rw [hmag, Double.cast_units]

theorem Double.representable_int (n : Int) (hn : |n| ≤ 2 ^ 53) :
    ∃ bits, Double.Value bits = .finite (n : ℚ) := by
  have habs : (n.natAbs : Int) = |n| := (Int.abs_eq_natAbs n).symm
  have hk : n.natAbs ≤ 2 ^ 53 := by
    have : (n.natAbs : Int) ≤ 2 ^ 53 := by rw [habs]; exact hn
    exact_mod_cast this
  have hcast : ((n.natAbs : Nat) : ℚ) = |(n : ℚ)| := by
    rw [Nat.cast_natAbs, Int.cast_abs]
  by_cases h : n < 0
  · obtain ⟨bits, hb⟩ := Double.representable_nat true n.natAbs hk
    refine ⟨bits, ?_⟩
    rw [hb, hcast, abs_of_neg (by exact_mod_cast h)]
    simp
  · obtain ⟨bits, hb⟩ := Double.representable_nat false n.natAbs hk
    refine ⟨bits, ?_⟩
    rw [hb, hcast, abs_of_nonneg (by exact_mod_cast (not_lt.mp h))]
    simp

theorem Double.Rounds_exact {q : ℚ} {r bits : Nat} (h : Double.Rounds q r)
    (hq : Double.Value bits = .finite q) : Double.Value r = .finite q := by
  obtain ⟨v, hv, hnear⟩ := h
  have := hnear bits q hq
  rw [sub_self, abs_zero] at this
  have hz : q - v = 0 := abs_eq_zero.mp (le_antisymm this (abs_nonneg _))
  have : v = q := by linarith
  rw [hv, this]

theorem Double.Rounds_ge {q w : ℚ} {r bits : Nat} (h : Double.Rounds q r)
    (hw : Double.Value bits = .finite w) (hle : w ≤ q) :
    ∃ v, Double.Value r = .finite v ∧ w ≤ v := by
  obtain ⟨v, hv, hnear⟩ := h
  refine ⟨v, hv, ?_⟩
  have h1 := hnear bits w hw
  rw [abs_of_nonneg (by linarith : 0 ≤ q - w)] at h1
  have h2 := le_abs_self (q - v)
  linarith

theorem Double.Rounds_le {q w : ℚ} {r bits : Nat} (h : Double.Rounds q r)
    (hw : Double.Value bits = .finite w) (hle : q ≤ w) :
    ∃ v, Double.Value r = .finite v ∧ v ≤ w := by
  obtain ⟨v, hv, hnear⟩ := h
  refine ⟨v, hv, ?_⟩
  have h1 := hnear bits w hw
  rw [abs_of_nonpos (by linarith : q - w ≤ 0)] at h1
  have h2 := neg_abs_le (q - v)
  linarith

theorem Double.IsDouble_of_not_nan {r : Nat} (h : Double.Value r ≠ .nan) :
    IsDouble r = true ∧ IsInt32 r = false ∧ IsHeapObject r = false ∧ IsBoolean r = false ∧
      r ≠ Constant.kNull ∧ r ≠ Constant.kUndefined := by
  unfold Double.Value at h
  have h64 : r < 2 ^ 64 := by
    by_contra hn
    rw [if_pos (by omega)] at h
    exact h rfl
  rw [if_neg (by omega)] at h
  have hlim : r ≤ 0xfff0000000000000 := by
    by_contra hn
    have hexp : Double.exponent r = 2047 := by unfold Double.exponent; omega
    have hfrac : Double.fraction r ≠ 0 := by unfold Double.fraction; omega
    rw [if_pos hexp, if_neg hfrac] at h
    exact h rfl
  simp only [IsDouble, IsInt32, IsHeapObject, IsBoolean, READ_TAG, kCanonicalBits,
    Double.kDoubleLimit, Int32.kInt32Tag, kHeapObjectTag, Constant.kBoolTrue,
    Constant.kBoolFalse, Constant.kNull, Constant.kUndefined, Constant.kConstantTag,
    decide_eq_true_eq, decide_eq_false_iff_not, Bool.or_eq_false_iff, Nat.reducePow]
  have h1 : r ≤ 18444492273895866368 := by omega
  have h2 : ¬ r = 18445055223849287680 := by omega
  have h3 : ¬ r = 18445055223849287680 + 1 := by omega
  exact ⟨h1, by omega, by omega, ⟨h2, h3⟩, by omega, by omega⟩

theorem Double.Rounds_self {q : ℚ} {r : Nat} (h : Double.Value r = .finite q) :
    Double.Rounds q r :=
  ⟨q, h, fun _ _ _ => by rw [sub_self, abs_zero]; exact abs_nonneg _⟩

theorem FloatOps.keepExact_Rounds (f : ℚ → ℚ → ℚ) (x y c r : Nat) (a b : ℚ)
    (h : FloatOps.keepExact f x y c = some r) (hx : Double.Value x = .finite a)
    (hy : Double.Value y = .finite b) : Double.Rounds (f a b) r := by
  unfold FloatOps.keepExact at h
  rw [hx, hy] at h
  simp only at h
  split at h
  · rename_i hv
    cases h
    exact Double.Rounds_self hv
  · cases h

theorem Double.Value_kNaN : Double.Value Double.kNaN = .nan := by decide!

theorem Double.Value_infinity (negative : Bool) :
    Double.Value (Double.infinity negative) = .inf negative := by
  cases negative <;> decide!

theorem Double.div_zero (x y : Nat) (a : ℚ) (hx : Double.Value x = .finite a)
    (hy : Double.Value y = .finite 0) :
    IsDouble (Double.div x y) = true ∧ ∀ q, Double.Value (Double.div x y) ≠ .finite q := by
  unfold Double.div
  rw [hx, hy]
  simp only [if_true]
  by_cases ha : a = 0
  · rw [if_pos ha]
    refine ⟨by decide, fun q => ?_⟩
    rw [Double.Value_kNaN]
    exact fun e => by cases e
  · rw [if_neg ha]
    refine ⟨?_, fun q => ?_⟩
    · cases decide (Double.sign x ≠ Double.sign y) <;> decide
    · rw [Double.Value_infinity]
      exact fun e => by cases e

/-- The platform `FloatOps.exact` obeys the laws. -/
theorem FloatOps.exact_Conforms : FloatOps.Conforms FloatOps.exact where
  ofInt := by
    intro n r h _
    simp only [FloatOps.exact] at h
    split at h
    · rename_i hv
      cases h
      exact Double.Rounds_self hv
    · cases h
  add := fun x y r a b h hx hy _ => FloatOps.keepExact_Rounds _ x y _ r a b h hx hy
  sub := fun x y r a b h hx hy _ => FloatOps.keepExact_Rounds _ x y _ r a b h hx hy
  mul := fun x y r a b h hx hy _ => FloatOps.keepExact_Rounds _ x y _ r a b h hx hy
  trunc := by
    intro x t q h hx _ _
    simp only [FloatOps.exact, FloatOps.binary64, Double.trunc, hx] at h
    cases h
    rfl
  isnan := by
    intro x b h
    simp only [FloatOps.exact, FloatOps.binary64] at h
    cases h
    rfl
  eq := by
    intro x y b h
    simp only [FloatOps.exact, FloatOps.binary64] at h
    cases h
    rfl
  le := by
    intro x y b h
    simp only [FloatOps.exact, FloatOps.binary64] at h
    cases h
    rfl
  div_zero := by
    intro x y r a h hx hy
    simp only [FloatOps.exact, FloatOps.binary64] at h
    cases h
    exact Double.div_zero x y a hx hy

theorem Int32.Make_spec (a : Int) (hlo : Int32.kMinInt32 ≤ a) (hhi : a ≤ Int32.kMaxInt32) :
    IsInt32 (Int32.Make a) = true ∧ IsDouble (Int32.Make a) = false ∧
      IsHeapObject (Int32.Make a) = false ∧ Int32.Make a ≠ Constant.kBoolTrue ∧
      Int32.Make a ≠ Constant.kBoolFalse ∧ Int32.Make a ≠ Constant.kNull ∧
      Int32.Make a ≠ Constant.kUndefined ∧ Int32.Value (Int32.Make a) = a := by
  simp only [Int32.kMinInt32, Int32.kMaxInt32] at hlo hhi
  simp only [IsInt32, IsDouble, IsHeapObject, READ_TAG, ADDRESS, kCanonicalBits,
    Double.kDoubleLimit, Int32.kInt32Tag, kHeapObjectTag, Constant.kBoolTrue,
    Constant.kBoolFalse, Constant.kNull, Constant.kUndefined, Constant.kConstantTag,
    Int32.Make, Int32.Value, Int32.wrap, decide_eq_true_eq, decide_eq_false_iff_not,
    Nat.reducePow, Int.ofNat_eq_coe]
  have h0 : 0 ≤ a % 2 ^ 32 := Int.emod_nonneg _ (by norm_num)
  have h1 : a % 2 ^ 32 < 2 ^ 32 := Int.emod_lt_of_pos _ (by norm_num)
  generalize hk : (a % 2 ^ 32).toNat = k
  have hk' : (k : Int) = a % 2 ^ 32 := by rw [← hk]; exact Int.toNat_of_nonneg h0
  have hk2 : k < 4294967296 := by omega
  have e1 : (k + 18444773748872577024) / 281474976710656 * 281474976710656
      = 18444773748872577024 := by omega
  have e2 : ¬ k + 18444773748872577024 ≤ 18444492273895866368 := by omega
  have e3 : ((k + 18444773748872577024) % 281474976710656 : Nat) = k := by omega
  have e4 : ((((k + 18444773748872577024) % 281474976710656 : Nat) : Int) + 2 ^ 31) % 2 ^ 32
      - 2 ^ 31 = a := by
    rw [e3]
    omega
  have e5 : ¬ k + 18444773748872577024 = 18445055223849287680 := by omega
  have e6 : ¬ k + 18444773748872577024 = 18445055223849287680 + 1 := by omega
  have e7 : ¬ k + 18444773748872577024 = 18445055223849287680 + 1 + 1 := by omega
  have e8 : ¬ k + 18444773748872577024 = 18445055223849287680 + 1 + 1 + 1 := by omega
  have e9 : ¬ (k + 18444773748872577024) / 281474976710656 * 281474976710656
      = 18445618173802708992 := by omega
  exact ⟨e1, e2, e9, e5, e6, e7, e8, e4⟩

theorem IsString_of_not_heap {σ : State} {p : Object} (h : IsHeapObject p = false) :
    IsString σ p = false ∧ IsHeapNumber σ p = false := by
  simp [IsString, IsHeapNumber, State.find, h]

theorem ToDouble_int32 (F : FloatOps) (σ : State) (a : Int) (hlo : Int32.kMinInt32 ≤ a)
    (hhi : a ≤ Int32.kMaxInt32) : ToDouble F σ (Int32.Make a) = fp (F.ofInt a) := by
  obtain ⟨h1, h2, _, h4, h5, h6, h7, h8⟩ := Int32.Make_spec a hlo hhi
  simp only [ToDouble, h1, h2, h4, h5, h6, h7, h8, if_true, if_false, Bool.false_eq_true,
    or_self]

theorem Double.Value_ofInt {F : FloatOps} (hF : F.Conforms) {n : Int} {x : Nat}
    (h : F.ofInt n = some x) (hn : |n| ≤ 2 ^ 53) : Double.Value x = .finite (n : ℚ) := by
  obtain ⟨bits, hb⟩ := Double.representable_int n hn
  exact Double.Rounds_exact (hF.ofInt n x h (le_trans hn (by norm_num))) hb

theorem IEEE.truncate_int (n : Int) : IEEE.truncate (n : ℚ) = n := by
  simp [IEEE.truncate]

/-- What `Double::MakeFit` returns for a finite double, on a platform that answers. -/
theorem Double.MakeFit_finite {F : FloatOps} (hF : F.Conforms) {r : Nat} {v : ℚ}
    (hv : Double.Value r = .finite v)
    (hne : Double.MakeFit F r ≠ .error .FloatingPoint) :
    Double.MakeFit F r = .ok
      (if -(2 ^ 31) ≤ v ∧ v ≤ 2 ^ 31 - 1 then Int32.Make (IEEE.truncate v)
       else Double.Make r) := by
  unfold Double.MakeFit Int32.Fit at hne ⊢
  cases hlo : F.ofInt Int32.kMinInt32 with
  | none => simp [hlo, fp, bind, Except.bind] at hne
  | some lo =>
    cases hhi : F.ofInt Int32.kMaxInt32 with
    | none => simp [hlo, hhi, fp, bind, Except.bind] at hne
    | some hi =>
      cases h1 : F.le lo r with
      | none => simp [hlo, hhi, h1, fp, bind, Except.bind] at hne
      | some b1 =>
        cases h2 : F.le r hi with
        | none => simp [hlo, hhi, h1, h2, fp, bind, Except.bind] at hne
        | some b2 =>
          have vlo : Double.Value lo = .finite ((Int32.kMinInt32 : Int) : ℚ) :=
            Double.Value_ofInt hF hlo (by norm_num [Int32.kMinInt32])
          have vhi : Double.Value hi = .finite ((Int32.kMaxInt32 : Int) : ℚ) :=
            Double.Value_ofInt hF hhi (by norm_num [Int32.kMaxInt32])
          have e1 : b1 = decide (-(2 ^ 31) ≤ v) := by
            rw [hF.le lo r b1 h1, vlo, hv]
            norm_num [IEEE.le, Int32.kMinInt32]
          have e2 : b2 = decide (v ≤ 2 ^ 31 - 1) := by
            rw [hF.le r hi b2 h2, vhi, hv]
            norm_num [IEEE.le, Int32.kMaxInt32]
          by_cases hfit : -(2 ^ 31) ≤ v ∧ v ≤ 2 ^ 31 - 1
          · have hb : (b1 && b2) = true := by simp [e1, e2, hfit.1, hfit.2]
            cases ht : F.trunc r with
            | none =>
              simp [hlo, hhi, h1, h2, ht, hb, fp, bind, Except.bind, pure, Except.pure] at hne
            | some t =>
              have := hF.trunc r t v ht hv (by linarith [hfit.1]) (by linarith [hfit.2])
              simp [hlo, hhi, h1, h2, ht, hb, fp, bind, Except.bind, pure, Except.pure, hfit,
                this]
          · have hb : (b1 && b2) = false := by
              rw [e1, e2]
              by_cases h1' : -(2 ^ 31) ≤ v
              · have : ¬ v ≤ 2 ^ 31 - 1 := fun h => hfit ⟨h1', h⟩
                simp [this]
              · simp [h1']
            simp [hlo, hhi, h1, h2, hb, fp, bind, Except.bind, pure, Except.pure, hfit]

theorem Interpreter.Add_eq_Arith (F : FloatOps) (fuel : Nat) (σ : State) (left right : Handle)
    (l r : Object) (hl : σ.get left = .ok l) (hr : σ.get right = .ok r)
    (hsl : IsString σ l = false) (hsr : IsString σ r = false) :
    Interpreter.Add F fuel σ left right = Interpreter.Arith F F.add σ left right := by
  simp only [Interpreter.Add, Interpreter.Arith, hl, hr, hsl, hsr, bind, Except.bind,
    Bool.or_self, Bool.false_eq_true, if_false]

theorem Interpreter.Arith_unfold (F : FloatOps) (op : Nat → Nat → Option Nat) (σ : State)
    (left right : Handle) (l r : Object) (hl : σ.get left = .ok l)
    (hr : σ.get right = .ok r) :
    Interpreter.Arith F op σ left right =
      match ToDouble F σ l with
      | .error e => .error e
      | .ok x =>
        match ToDouble F σ r with
        | .error e => .error e
        | .ok y =>
          match op x y with
          | none => .error .FloatingPoint
          | some d =>
            match Double.MakeFit F d with
            | .error e => .error e
            | .ok v => .ok (some (MakeHandle σ v).1, (MakeHandle σ v).2) := by
  simp only [Interpreter.Arith, hl, hr, bind, Except.bind, pure, Except.pure]
  cases ToDouble F σ l with
  | error e => rfl
  | ok x =>
    simp only []
    cases ToDouble F σ r with
    | error e => rfl
    | ok y =>
      simp only []
      cases op x y with
      | none => rfl
      | some d =>
        simp only [fp]
        cases Double.MakeFit F d <;> rfl

theorem Double.Rounds_int_fits {n : Int} {r : Nat} {v : ℚ} (h : Double.Rounds (n : ℚ) r)
    (hv : Double.Value r = .finite v) (hlo : -(2 ^ 31) ≤ n) (hhi : n ≤ 2 ^ 31 - 1) :
    v = (n : ℚ) ∧ -(2 ^ 31) ≤ v ∧ v ≤ 2 ^ 31 - 1 := by
  obtain ⟨bits, hbits⟩ := Double.representable_int n (by rw [abs_le]; constructor <;> omega)
  have hvn : Double.Value r = .finite (n : ℚ) := Double.Rounds_exact h hbits
  rw [hv] at hvn
  cases hvn
  have h1 : -(2 ^ 31) ≤ (n : ℚ) := by exact_mod_cast hlo
  have h2 : (n : ℚ) ≤ 2 ^ 31 - 1 := by exact_mod_cast hhi
  exact ⟨rfl, h1, h2⟩

theorem Double.Rounds_int_exceeds {n : Int} {r : Nat} {v : ℚ} (h : Double.Rounds (n : ℚ) r)
    (hv : Double.Value r = .finite v) (hout : ¬ (-(2 ^ 31) ≤ n ∧ n ≤ 2 ^ 31 - 1)) :
    ¬ (-(2 ^ 31) ≤ v ∧ v ≤ 2 ^ 31 - 1) := by
  by_cases hbig : (2 : Int) ^ 31 ≤ n
  · obtain ⟨bits, hbits⟩ := Double.representable_int (2 ^ 31) (by norm_num)
    obtain ⟨v', hv', hge⟩ := Double.Rounds_ge h hbits (by exact_mod_cast hbig)
    rw [hv] at hv'
    cases hv'
    intro hc
    have := hc.2
    push_cast at hge
    linarith
  · have hsmall : n ≤ -(2 ^ 31) - 1 := by omega
    obtain ⟨bits, hbits⟩ := Double.representable_int (-(2 ^ 31) - 1) (by norm_num)
    obtain ⟨v', hv', hle⟩ := Double.Rounds_le h hbits (by exact_mod_cast hsmall)
    rw [hv] at hv'
    cases hv'
    intro hc
    have := hc.1
    push_cast at hle
    linarith

/-- An arithmetic operator that rounds the exact result `f a b`, applied to the Int32
operands `a` and `b`, when `f a b` is the integer `n`. -/
theorem Interpreter.Arith_int32 {F : FloatOps} (hF : F.Conforms)
    (op : Nat → Nat → Option Nat) (f : ℚ → ℚ → ℚ)
    (hop : ∀ (x y r : Nat) (a b : ℚ), op x y = some r → Double.Value x = .finite a →
      Double.Value y = .finite b → |f a b| ≤ 2 ^ 1023 → Double.Rounds (f a b) r)
    (σ : State) (left right : Handle) (a b n : Int)
    (ha : Int32.kMinInt32 ≤ a ∧ a ≤ Int32.kMaxInt32)
    (hb : Int32.kMinInt32 ≤ b ∧ b ≤ Int32.kMaxInt32)
    (hn : f (a : ℚ) (b : ℚ) = (n : ℚ)) (hbound : |n| ≤ 2 ^ 62)
    (hcursor : σ.handle ≤ σ.handles.length)
    (hl : σ.get left = .ok (Int32.Make a)) (hr : σ.get right = .ok (Int32.Make b))
    (hne : Interpreter.Arith F op σ left right ≠ .error .FloatingPoint) :
    Interpreter.Int32Result n (Interpreter.Arith F op σ left right) := by
  have hda := ToDouble_int32 F σ a ha.1 ha.2
  have hdb := ToDouble_int32 F σ b hb.1 hb.2
  have ha' : |a| ≤ 2 ^ 53 := by
    simp only [Int32.kMinInt32, Int32.kMaxInt32] at ha
    rw [abs_le]; constructor <;> omega
  have hb' : |b| ≤ 2 ^ 53 := by
    simp only [Int32.kMinInt32, Int32.kMaxInt32] at hb
    rw [abs_le]; constructor <;> omega
  rw [Interpreter.Arith_unfold F op σ left right _ _ hl hr, hda, hdb] at hne ⊢
  cases hx : F.ofInt a with
  | none => rw [hx] at hne; exact absurd rfl hne
  | some x =>
    rw [hx] at hne
    simp only [fp] at hne ⊢
    cases hy : F.ofInt b with
    | none => rw [hy] at hne; exact absurd rfl hne
    | some y =>
      rw [hy] at hne
      simp only at hne ⊢
      cases hd : op x y with
      | none => rw [hd] at hne; exact absurd rfl hne
      | some d =>
        rw [hd] at hne
        simp only at hne ⊢
        have vx : Double.Value x = .finite (a : ℚ) := Double.Value_ofInt hF hx ha'
        have vy : Double.Value y = .finite (b : ℚ) := Double.Value_ofInt hF hy hb'
        have hqb : |(n : ℚ)| ≤ 2 ^ 1023 := by
          have h1 : |(n : ℚ)| ≤ 2 ^ 62 := by exact_mod_cast hbound
          have h2 : (2 : ℚ) ^ 62 ≤ 2 ^ 1023 := pow_le_pow_right₀ (by norm_num) (by norm_num)
          exact le_trans h1 h2
        have hround : Double.Rounds (n : ℚ) d := by
          have := hop x y d a b hd vx vy (by rw [hn]; exact hqb)
          rwa [hn] at this
        obtain ⟨v, hv, _⟩ := id hround
        have hfit_ne : Double.MakeFit F d ≠ .error .FloatingPoint := by
          intro e
          rw [e] at hne
          exact hne rfl
        rw [Double.MakeFit_finite hF hv hfit_ne]
        simp only
        refine ⟨_, _, _, rfl, MakeHandle_read _ hcursor, ?_, ?_⟩
        · intro hin
          simp only [Int32.kMinInt32, Int32.kMaxInt32] at hin
          obtain ⟨e1, e2, e3⟩ := Double.Rounds_int_fits hround hv (by omega) (by omega)
          rw [if_pos ⟨e2, e3⟩, e1, IEEE.truncate_int]
        · intro hout
          simp only [Int32.kMinInt32, Int32.kMaxInt32] at hout
          have hnot := Double.Rounds_int_exceeds hround hv (by omega)
          rw [if_neg hnot]
          have hnn : Double.Value d ≠ .nan := by rw [hv]; exact fun e => by cases e
          obtain ⟨d1, d2, _⟩ := Double.IsDouble_of_not_nan hnn
          exact ⟨d1, d2, hround⟩

theorem Except.ne_error_of_toBool {ε α : Type} {res : Except ε α} (e : ε)
    (h : res.toBool = true) : res ≠ .error e := by
  intro he
  rw [he] at h
  cases h

theorem DoubleToInt32_unfold (F : FloatOps) (d : Nat) :
    DoubleToInt32 F d =
      match F.isnan d with
      | none => .error .FloatingPoint
      | some b =>
        if b then .ok 0
        else
          match F.ofInt Int32.kMaxInt32 with
          | none => .error .FloatingPoint
          | some hi =>
            match F.ofInt Int32.kMinInt32 with
            | none => .error .FloatingPoint
            | some lo =>
              match F.le hi d with
              | none => .error .FloatingPoint
              | some b1 =>
                if b1 then .ok Int32.kMaxInt32
                else
                  match F.le d lo with
                  | none => .error .FloatingPoint
                  | some b2 =>
                    if b2 then .ok Int32.kMinInt32
                    else
                      match F.trunc d with
                      | none => .error .FloatingPoint
                      | some r => .ok (Int32.wrap r) := by
  unfold DoubleToInt32
  cases F.isnan d with
  | none => rfl
  | some b =>
    cases b with
    | true => rfl
    | false =>
      simp only [fp, bind, Except.bind, Bool.false_eq_true, if_false]
      cases F.ofInt Int32.kMaxInt32 with
      | none => rfl
      | some hi =>
        simp only []
        cases F.ofInt Int32.kMinInt32 with
        | none => rfl
        | some lo =>
          simp only []
          cases F.le hi d with
          | none => rfl
          | some b1 =>
            cases b1 with
            | true => rfl
            | false =>
              simp only [Bool.false_eq_true, if_false]
              cases F.le d lo with
              | none => rfl
              | some b2 =>
                cases b2 with
                | true => rfl
                | false =>
                  simp only [Bool.false_eq_true, if_false]
                  cases F.trunc d <;> rfl

theorem IEEE.truncate_bounds (q : ℚ) (hlo : -2147483648 < q) (hhi : q < 2147483647) :
    -2147483648 ≤ IEEE.truncate q ∧ IEEE.truncate q < 2147483647 := by
  unfold IEEE.truncate
  by_cases h0 : 0 ≤ q
  · rw [if_pos h0]
    have h1 : 0 ≤ ⌊q⌋ := Int.floor_nonneg.mpr h0
    have h2 : ⌊q⌋ < 2147483647 := Int.floor_lt.mpr (by exact_mod_cast hhi)
    omega
  · rw [if_neg h0]
    have h1 : ⌈q⌉ ≤ 0 := Int.ceil_le.mpr (by push_cast; linarith)
    have h2 : -2147483648 < ⌈q⌉ := Int.lt_ceil.mpr (by exact_mod_cast hlo)
    omega

theorem Int32.wrap_of_fits (t : Int) (hlo : -2147483648 ≤ t) (hhi : t < 2147483648) :
    Int32.wrap t = t := by
  unfold Int32.wrap
  omega

/-- What `DoubleToInt32` returns, on a platform that answers. -/
theorem DoubleToInt32_spec {F : FloatOps} (hF : F.Conforms) (d : Nat)
    (hne : DoubleToInt32 F d ≠ .error .FloatingPoint) :
    DoubleToInt32 F d = .ok
      (match Double.Value d with
       | .nan => 0
       | .inf negative => if negative then -2147483648 else 2147483647
       | .finite q =>
         if 2147483647 ≤ q then 2147483647
         else if q ≤ -2147483648 then -2147483648
         else IEEE.truncate q) := by
  rw [DoubleToInt32_unfold] at hne ⊢
  cases hnan : F.isnan d with
  | none => rw [hnan] at hne; exact absurd rfl hne
  | some b =>
    rw [hnan] at hne
    simp only at hne ⊢
    have hb := hF.isnan d b hnan
    by_cases hv : Double.Value d = .nan
    · rw [hv] at hb ⊢
      simp only [decide_True] at hb
      rw [hb, if_pos rfl]
    · have hbf : b = false := by rw [hb]; exact decide_eq_false hv
      subst hbf
      simp only [Bool.false_eq_true, if_false] at hne ⊢
      cases hhi : F.ofInt Int32.kMaxInt32 with
      | none => rw [hhi] at hne; exact absurd rfl hne
      | some hi =>
        rw [hhi] at hne
        simp only at hne ⊢
        cases hlo : F.ofInt Int32.kMinInt32 with
        | none => rw [hlo] at hne; exact absurd rfl hne
        | some lo =>
          rw [hlo] at hne
          simp only at hne ⊢
          have vhi : Double.Value hi = .finite 2147483647 := by
            have := Double.Value_ofInt hF hhi (by norm_num [Int32.kMaxInt32])
            rw [this]; norm_num [Int32.kMaxInt32]
          have vlo : Double.Value lo = .finite (-2147483648) := by
            have := Double.Value_ofInt hF hlo (by norm_num [Int32.kMinInt32])
            rw [this]; norm_num [Int32.kMinInt32]
          cases h1 : F.le hi d with
          | none => rw [h1] at hne; exact absurd rfl hne
          | some b1 =>
            rw [h1] at hne
            simp only at hne ⊢
            have e1 := hF.le hi d b1 h1
            rw [vhi] at e1
            cases hval : Double.Value d with
            | nan => exact absurd hval hv
            | inf negative =>
              rw [hval] at e1
              cases negative with
              | false =>
                simp only [IEEE.le] at e1
                subst e1
                simp only [if_true, Bool.false_eq_true, if_false, Int32.kMaxInt32]
              | true =>
                simp only [IEEE.le] at e1
                subst e1
                simp only [Bool.false_eq_true, if_false] at hne ⊢
                cases h2 : F.le d lo with
                | none => rw [h2] at hne; exact absurd rfl hne
                | some b2 =>
                  have e2 := hF.le d lo b2 h2
                  rw [vlo, hval] at e2
                  simp only [IEEE.le] at e2
                  subst e2
                  simp only [if_true, Int32.kMinInt32]
            | finite q =>
              rw [hval] at e1
              simp only [IEEE.le] at e1
              by_cases hq1 : (2147483647 : ℚ) ≤ q
              · have : b1 = true := by rw [e1]; exact decide_eq_true hq1
                subst this
                simp only [if_true, if_pos hq1, Int32.kMaxInt32]
              · have : b1 = false := by rw [e1]; exact decide_eq_false hq1
                subst this
                simp only [Bool.false_eq_true, if_false, if_neg hq1] at hne ⊢
                cases h2 : F.le d lo with
                | none => rw [h2] at hne; exact absurd rfl hne
                | some b2 =>
                  rw [h2] at hne
                  simp only at hne ⊢
                  have e2 := hF.le d lo b2 h2
                  rw [vlo, hval] at e2
                  simp only [IEEE.le] at e2
                  by_cases hq2 : q ≤ (-2147483648 : ℚ)
                  · have : b2 = true := by rw [e2]; exact decide_eq_true hq2
                    subst this
                    simp only [if_true, if_pos hq2, Int32.kMinInt32]
                  · have : b2 = false := by rw [e2]; exact decide_eq_false hq2
                    subst this
                    simp only [Bool.false_eq_true, if_false, if_neg hq2] at hne ⊢
                    cases ht : F.trunc d with
                    | none => rw [ht] at hne; exact absurd rfl hne
                    | some t =>
                      simp only
                      have htq := hF.trunc d t q ht hval (by linarith) (by linarith)
                      obtain ⟨b1', b2'⟩ := IEEE.truncate_bounds q (by linarith) (by linarith)
                      rw [htq, Int32.wrap_of_fits _ b1' (by omega)]

theorem ToInt32_of_double (F : FloatOps) (σ : State) (d : Object) (hd : IsDouble d = true) :
    ToInt32 F σ d = DoubleToInt32 F d := by
  have hint : IsInt32 d = false := by
    simp only [IsDouble, Double.kDoubleLimit, decide_eq_true_eq] at hd
    have hd' : @LE.le Nat _ d 18444492273895866368 := hd
    simp only [IsInt32, READ_TAG, kCanonicalBits, Int32.kInt32Tag, decide_eq_false_iff_not,
      Nat.reducePow]
    omega
  simp only [ToInt32, hint, hd, Bool.false_eq_true, if_false, if_true]

/-- What `Double::MakeFit` returns for an infinity or a NaN, on a platform that
answers. -/
theorem Double.MakeFit_nonfinite {F : FloatOps} (hF : F.Conforms) {r : Nat}
    (hnf : ∀ q, Double.Value r ≠ .finite q)
    (hne : Double.MakeFit F r ≠ .error .FloatingPoint) :
    Double.MakeFit F r = .ok (Double.Make r) := by
  unfold Double.MakeFit Int32.Fit at hne ⊢
  cases hlo : F.ofInt Int32.kMinInt32 with
  | none => simp [hlo, fp, bind, Except.bind] at hne
  | some lo =>
    cases hhi : F.ofInt Int32.kMaxInt32 with
    | none => simp [hlo, hhi, fp, bind, Except.bind] at hne
    | some hi =>
      cases h1 : F.le lo r with
      | none => simp [hlo, hhi, h1, fp, bind, Except.bind] at hne
      | some b1 =>
        cases h2 : F.le r hi with
        | none => simp [hlo, hhi, h1, h2, fp, bind, Except.bind] at hne
        | some b2 =>
          have vlo : Double.Value lo = .finite ((Int32.kMinInt32 : Int) : ℚ) :=
            Double.Value_ofInt hF hlo (by norm_num [Int32.kMinInt32])
          have vhi : Double.Value hi = .finite ((Int32.kMaxInt32 : Int) : ℚ) :=
            Double.Value_ofInt hF hhi (by norm_num [Int32.kMaxInt32])
          have e1 := hF.le lo r b1 h1
          have e2 := hF.le r hi b2 h2
          rw [vlo] at e1
          rw [vhi] at e2
          have hb : (b1 && b2) = false := by
            cases hval : Double.Value r with
            | nan =>
              rw [hval] at e1
              simp only [IEEE.le] at e1
              rw [e1]; rfl
            | inf negative =>
              rw [hval] at e1 e2
              cases negative with
              | false =>
                simp only [IEEE.le] at e2
                rw [e2]; exact Bool.and_false _
              | true =>
                simp only [IEEE.le] at e1
                rw [e1]; rfl
            | finite q => exact absurd hval (hnf q)
          simp [hlo, hhi, h1, h2, hb, fp, bind, Except.bind, pure, Except.pure]

theorem Falsy_of_boolean (σ : State) (b : Bool) :
    Falsy σ (Constant.Boolean b) = !b ∧ IsBoolean (Constant.Boolean b) = true := by
  cases b with
  | false =>
    have e : Constant.Boolean false = Constant.kBoolFalse := rfl
    refine ⟨?_, by decide⟩
    simp only [Falsy, e, decide_True, Bool.true_or, Bool.not_false]
  | true =>
    have e : Constant.Boolean true = Constant.kBoolTrue := rfl
    have h1 : decide (Constant.kBoolTrue = Constant.kBoolFalse) = false := by decide
    have h2 : decide (Constant.kBoolTrue = Constant.kNull) = false := by decide
    have h3 : decide (Constant.kBoolTrue = Constant.kUndefined) = false := by decide
    have h4 : IsDouble Constant.kBoolTrue = false := by decide
    have h5 : IsInt32 Constant.kBoolTrue = false := by decide
    have h6 : σ.find Constant.kBoolTrue = none := by
      have : IsHeapObject Constant.kBoolTrue = false := by decide
      simp only [State.find, this, Bool.false_eq_true, if_false]
    refine ⟨?_, by decide⟩
    simp only [Falsy, e, h1, h2, h3, h4, h5, h6, Bool.false_and, Bool.or_self, Bool.not_true]

theorem Falsy_of_double (σ : State) (v : Object) (hd : IsDouble v = true) :
    IsBoolean v = false ∧
      Falsy σ v = (decide (Double.Value v = .finite 0) || decide (Double.Value v = .nan)) := by
  have h : IsBoolean v = false ∧ v ≠ Constant.kBoolFalse ∧ v ≠ Constant.kNull ∧
      v ≠ Constant.kUndefined ∧ IsInt32 v = false ∧ IsHeapObject v = false := by
    simp only [IsDouble, IsInt32, IsBoolean, IsHeapObject, READ_TAG, kCanonicalBits,
      Int32.kInt32Tag, kHeapObjectTag, Double.kDoubleLimit, Constant.kBoolTrue,
      Constant.kBoolFalse, Constant.kNull, Constant.kUndefined, Constant.kConstantTag,
      decide_eq_true_eq, decide_eq_false_iff_not, Bool.or_eq_false_iff, Nat.reducePow, Object,
      ne_eq] at hd ⊢
    omega
  obtain ⟨h1, h2, h3, h4, h5, h6⟩ := h
  refine ⟨h1, ?_⟩
  simp [Falsy, State.find, h2, h3, h4, h5, h6, hd]

theorem Falsy_of_int32 (σ : State) (v : Object) (hi : IsInt32 v = true) :
    IsBoolean v = false ∧ IsDouble v = false ∧ v ≠ Constant.kNull ∧
      v ≠ Constant.kUndefined ∧ Falsy σ v = decide (Int32.Value v = 0) := by
  have h : IsBoolean v = false ∧ v ≠ Constant.kBoolFalse ∧ v ≠ Constant.kNull ∧
      v ≠ Constant.kUndefined ∧ IsDouble v = false ∧ IsHeapObject v = false := by
    simp only [IsDouble, IsInt32, IsBoolean, IsHeapObject, READ_TAG, kCanonicalBits,
      Int32.kInt32Tag, kHeapObjectTag, Double.kDoubleLimit, Constant.kBoolTrue,
      Constant.kBoolFalse, Constant.kNull, Constant.kUndefined, Constant.kConstantTag,
      decide_eq_true_eq, decide_eq_false_iff_not, Bool.or_eq_false_iff, Nat.reducePow, Object,
      ne_eq] at hi ⊢
    omega
  obtain ⟨h1, h2, h3, h4, h5, h6⟩ := h
  refine ⟨h1, h5, h3, h4, ?_⟩
  simp [Falsy, State.find, h2, h3, h4, h5, h6, hi]

theorem Falsy_of_heap (σ : State) (v : Object) (o : HeapObject) (ho : σ.find v = some o) :
    IsBoolean v = false ∧ IsDouble v = false ∧ v ≠ Constant.kNull ∧
      v ≠ Constant.kUndefined ∧ IsInt32 v = false ∧
      Falsy σ v = (match o with
        | .HEAP_NUMBER value => decide (value = 0)
        | .STRING _ value => decide (value.length = 0)
        | .ARRAY slots => decide (slots.length = 0)
        | .KSARRAY _ length _ => decide (length = 0)
        | .FUNCTION _ _ _ => true
        | .KSOBJECT _ => false) := by
  have hh : IsHeapObject v = true := (find_some_iff.mp ho).1
  have h : IsBoolean v = false ∧ v ≠ Constant.kBoolFalse ∧ v ≠ Constant.kNull ∧
      v ≠ Constant.kUndefined ∧ IsDouble v = false ∧ IsInt32 v = false := by
    simp only [IsDouble, IsInt32, IsBoolean, IsHeapObject, READ_TAG, kCanonicalBits,
      Int32.kInt32Tag, kHeapObjectTag, Double.kDoubleLimit, Constant.kBoolTrue,
      Constant.kBoolFalse, Constant.kNull, Constant.kUndefined, Constant.kConstantTag,
      decide_eq_true_eq, decide_eq_false_iff_not, Bool.or_eq_false_iff, Nat.reducePow, Object,
      ne_eq] at hh ⊢
    omega
  obtain ⟨h1, h2, h3, h4, h5, h6⟩ := h
  refine ⟨h1, h5, h3, h4, h6, ?_⟩
  simp only [Falsy, h2, h3, h4, h5, h6, ho, decide_False, Bool.false_and, Bool.or_self,
    Bool.false_or]
  cases o <;> rfl

theorem ToBoolean_boolean (F : FloatOps) (σ : State) (b : Bool) :
    ToBoolean F σ (Constant.Boolean b) = .ok (Constant.Boolean b) := by
  have h : IsBoolean (Constant.Boolean b) = true := (Falsy_of_boolean σ b).2
  simp only [ToBoolean, h, if_true, pure, Except.pure]

theorem ToBoolean_double_unfold (F : FloatOps) (σ : State) (v : Object)
    (hb : IsBoolean v = false) (hd : IsDouble v = true) :
    ToBoolean F σ v =
      match F.ofInt 0 with
      | none => .error .FloatingPoint
      | some z =>
        match F.eq v z with
        | none => .error .FloatingPoint
        | some e =>
          match F.isnan v with
          | none => .error .FloatingPoint
          | some n => .ok (Constant.Boolean (!(e || n))) := by
  simp only [ToBoolean, hb, hd, Bool.false_eq_true, if_false, if_true, bind, Except.bind]
  cases F.ofInt 0 with
  | none => rfl
  | some z =>
    simp only [fp]
    cases F.eq v z with
    | none => rfl
    | some e =>
      simp only []
      cases F.isnan v with
      | none => rfl
      | some n =>
        cases e <;> cases n <;> rfl

theorem ToBoolean_double {F : FloatOps} (hF : F.Conforms) (σ : State) (v : Object)
    (hd : IsDouble v = true) (hne : ToBoolean F σ v ≠ .error .FloatingPoint) :
    ToBoolean F σ v = .ok (Constant.Boolean (!Falsy σ v)) := by
  obtain ⟨hb, hfalsy⟩ := Falsy_of_double σ v hd
  rw [ToBoolean_double_unfold F σ v hb hd] at hne ⊢
  cases hz : F.ofInt 0 with
  | none => rw [hz] at hne; exact absurd rfl hne
  | some z =>
    rw [hz] at hne
    simp only at hne ⊢
    cases he : F.eq v z with
    | none => rw [he] at hne; exact absurd rfl hne
    | some e =>
      rw [he] at hne
      simp only at hne ⊢
      cases hn : F.isnan v with
      | none => rw [hn] at hne; exact absurd rfl hne
      | some n =>
        simp only
        have vz : Double.Value z = .finite 0 := by
          have := Double.Value_ofInt hF hz (by norm_num)
          rw [this]; norm_num
        have e1 := hF.eq v z e he
        have e2 := hF.isnan v n hn
        rw [vz] at e1
        rw [hfalsy, e1, e2]
        cases Double.Value v with
        | nan => rfl
        | inf negative => rfl
        | finite a =>
          simp only [IEEE.eq, IEEE.finite.injEq]

/-! ### The interpreter -/

theorem ExecuteLoop_succ (F : FloatOps) (fuel : Nat) (condition update : Option Expression)
    (loop_stmt : Statement) (c d : Nat) (σ : State) (log : List Event) :
    ExecuteLoop F (fuel + 1) condition update loop_stmt c d σ log =
      (do
        let (go, σ, log) ←
          (match condition with
           | some e => do
             let (h, σ, log) ← Evaluate F fuel e c d σ log
             pure (IsTrue (← σ.get h), σ, log)
           | none => pure (true, σ, log) : Except Error (Bool × State × List Event))
        if go then
          let (completion, σ, log) ← Execute F fuel loop_stmt c d σ log
          match HANDLE_LOOP_COMPLETION completion with
          | some r => pure (r, σ, log)
          | none =>
            match update with
            | some e => do
              let (_, σ, log) ← Evaluate F fuel e c d σ log
              ExecuteLoop F fuel condition update loop_stmt c d σ log
            | none => ExecuteLoop F fuel condition update loop_stmt c d σ log
        else pure ({}, σ, log)) := by
  rfl

theorem ExecuteLoop_step (F : FloatOps) (fuel : Nat) (condition update : Option Expression)
    (loop_stmt : Statement) (c d : Nat) (σ σ1 σ2 : State) (log log1 log2 : List Event)
    (completion : Completion)
    (hgo : (condition = none ∧ σ1 = σ ∧ log1 = log) ∨
      ∃ e h v, condition = some e ∧ Evaluate F fuel e c d σ log = .ok (h, σ1, log1) ∧
        σ1.get h = .ok v ∧ IsTrue v = true)
    (hbody : Execute F fuel loop_stmt c d σ1 log1 = .ok (completion, σ2, log2)) :
    ExecuteLoop F (fuel + 1) condition update loop_stmt c d σ log =
      match completion.type with
      | .BREAK => .ok ({}, σ2, log2)
      | .RETURN => .ok (completion, σ2, log2)
      | _ =>
        match update with
        | some e =>
          (Evaluate F fuel e c d σ2 log2).bind
            (fun r => ExecuteLoop F fuel condition update loop_stmt c d r.2.1 r.2.2)
        | none => ExecuteLoop F fuel condition update loop_stmt c d σ2 log2 := by
  rw [ExecuteLoop_succ]
  have htail : (match HANDLE_LOOP_COMPLETION completion with
      | some r => (pure (r, σ2, log2) : Except Error (Completion × State × List Event))
      | none =>
        match update with
        | some e => do
          let (_, σ, log) ← Evaluate F fuel e c d σ2 log2
          ExecuteLoop F fuel condition update loop_stmt c d σ log
        | none => ExecuteLoop F fuel condition update loop_stmt c d σ2 log2) =
      match completion.type with
      | .BREAK => .ok ({}, σ2, log2)
      | .RETURN => .ok (completion, σ2, log2)
      | _ =>
        match update with
        | some e =>
          (Evaluate F fuel e c d σ2 log2).bind
            (fun r => ExecuteLoop F fuel condition update loop_stmt c d r.2.1 r.2.2)
        | none => ExecuteLoop F fuel condition update loop_stmt c d σ2 log2 := by
    cases hct : completion.type with
    | NORMAL =>
      simp only [HANDLE_LOOP_COMPLETION, hct]
      cases update <;> rfl
    | RETURN => simp only [HANDLE_LOOP_COMPLETION, hct, pure, Except.pure]
    | BREAK => simp only [HANDLE_LOOP_COMPLETION, hct, pure, Except.pure]
    | CONTINUE =>
      simp only [HANDLE_LOOP_COMPLETION, hct]
      cases update <;> rfl
  rw [← htail]
  rcases hgo with ⟨h1, h2, h3⟩ | ⟨e, h, v, h1, h2, h3, h4⟩
  · subst h1 h2 h3
    simp only [bind, Except.bind, pure, Except.pure, if_true, hbody]
  · subst h1
    simp only [h2, h3, h4, bind, Except.bind, pure, Except.pure, if_true, hbody]

theorem IsString_of_Value {σ : State} {p : Object} {v : String}
    (h : String.Value σ p = .ok v) : IsString σ p = true := by
  obtain ⟨e, he⟩ := String.Value_ok h
  exact IsString_iff.2 ⟨e, v, he⟩

theorem ne_nullptr_of_find {σ : State} {p : Object} {o : HeapObject}
    (h : σ.find p = some o) : p ≠ nullptr := by
  rintro rfl
  have := (find_some_iff.1 h).1
  revert this
  decide

theorem SymbolTable_Find_found {σ : State} {s : String}
    (h : SymbolTable_Find σ s ≠ nullptr) :
    SymbolTable_Find σ s ∈ σ.symbol_table ∧
      String.Value σ (SymbolTable_Find σ s) = .ok s := by
  unfold SymbolTable_Find at h ⊢
  generalize hf : List.find? _ σ.symbol_table = r at h ⊢
  cases r with
  | none => exact absurd rfl h
  | some sym =>
    have hp := List.find?_some hf
    refine ⟨List.mem_of_find?_eq_some hf, ?_⟩
    cases hv : String.Value σ sym with
    | error e => rw [hv] at hp; cases hp
    | ok v =>
      rw [hv] at hp
      simp only [decide_eq_true_eq] at hp
      rw [hp]

theorem SymbolTable_Find_none {σ : State} {s : String}
    (hwf : SymbolTable.WellFormed σ) (h : SymbolTable_Find σ s = nullptr) :
    ∀ sym ∈ σ.symbol_table, String.Value σ sym ≠ .ok s := by
  unfold SymbolTable_Find at h
  generalize hf : List.find? _ σ.symbol_table = r at h
  cases r with
  | some sym =>
    have hmem := List.mem_of_find?_eq_some hf
    obtain ⟨e, v, hv⟩ := IsString_iff.1 (hwf.1 sym hmem)
    exact absurd h (ne_nullptr_of_find hv)
  | none =>
    intro sym hmem hv
    have := List.find?_eq_none.1 hf sym hmem
    rw [hv] at this
    simp at this

theorem SymbolTable_Find_head {σ : State} {s : String} {p : Object} {rest : List Object}
    (htab : σ.symbol_table = p :: rest) (hv : String.Value σ p = .ok s) :
    SymbolTable_Find σ s = p := by
  unfold SymbolTable_Find
  rw [htab, List.find?_cons_of_pos]
  rw [hv]
  simp

/-- `String::NewSymbol` returns when the bytes are in the table or the old space has
room for the string. -/
theorem String.NewSymbol_returns (σ : State) (value : String)
    (hroom : SymbolTable_Find σ value = nullptr → value.length ≠ 0 →
      Align (20 + value.length) ≤ σ.old_space_available) :
    ∃ sym σs, String.NewSymbol σ value = .ok (sym, σs) := by
  unfold String.NewSymbol
  simp only
  split
  · exact ⟨_, _, rfl⟩
  · rename_i hfound
    have hnone : SymbolTable_Find σ value = nullptr := not_not.1 hfound
    by_cases hl : value.length ≠ 0
    · have e1 : AllocateString σ value .TENURED = .ok (HeapObject_Make σ.objects.length,
          σ.allocated .OLD_SPACE (.STRING σ.empty_hash_table value)) := by
        refine CALL_WITH_GC_SUPPORT_ok (f := fun σ => AllocateStringNoGC σ value .TENURED) ?_
        simp only [AllocateStringNoGC, if_pos hl, AllocateStringNoGCInternal]
        exact AllocateRaw_ok (s := .OLD_SPACE) (hroom hnone hl)
      rw [e1]
      exact ⟨_, _, rfl⟩
    · have e1 : AllocateString σ value .TENURED = .ok (σ.empty_string, σ) := by
        refine CALL_WITH_GC_SUPPORT_ok (f := fun σ => AllocateStringNoGC σ value .TENURED) ?_
        simp only [AllocateStringNoGC, if_neg hl]
      rw [e1]
      exact ⟨_, _, rfl⟩

/-- `String::NewSymbol` on a well-formed table, when the old space has room for the
string of a symbol that is not in the table: the result is a string with the bytes
asked for, the objects of the heap stay, the table stays well formed, and a second
call with the same bytes finds the first result and leaves the state as it is. -/
theorem String.NewSymbol_spec {σ : State} (s : String) (hwf : SymbolTable.WellFormed σ)
    (hbound : σ.objects.length < 2 ^ 48)
    (hroom : SymbolTable_Find σ s = nullptr → s.length ≠ 0 →
      Align (20 + s.length) ≤ σ.old_space_available) :
    ∃ sym σ', String.NewSymbol σ s = .ok (sym, σ') ∧
      String.Value σ' sym = .ok s ∧
      (∀ q o, σ.find q = some o → σ'.find q = some o) ∧
      σ'.objects.length ≤ σ.objects.length + 1 ∧
      SymbolTable.WellFormed σ' ∧
      String.NewSymbol σ' s = .ok (sym, σ') ∧
      σ.old_space_available ≤ σ'.old_space_available + Align (20 + s.length) := by
  by_cases hfound : SymbolTable_Find σ s ≠ nullptr
  · have hr : String.NewSymbol σ s = .ok (SymbolTable_Find σ s, σ) := by
      unfold String.NewSymbol
      simp only [hfound, ne_eq, not_false_eq_true, if_true]
    exact ⟨_, _, hr, (SymbolTable_Find_found hfound).2, fun _ _ h => h, Nat.le_succ _, hwf, hr,
      Nat.le_add_right _ _⟩
  · have hnone : SymbolTable_Find σ s = nullptr := not_not.1 hfound
    obtain ⟨x, σ0, halloc, hval, hmono, hlen, _, _, _, htab, hroot, havail, _⟩ :=
      AllocateString_spec (σ := σ) s .TENURED hbound hwf.2.2 (hroom hnone)
    have hr : String.NewSymbol σ s =
        .ok (x, { σ0 with symbol_table := x :: σ0.symbol_table }) := by
      unfold String.NewSymbol
      simp only [hnone, ne_eq, not_true_eq_false, if_false, halloc, bind, Except.bind, pure,
        Except.pure]
    set σ1 : State := { σ0 with symbol_table := x :: σ0.symbol_table } with hσ1
    have hfind : ∀ q, σ1.find q = σ0.find q := fun _ => rfl
    have hval1 : ∀ q, String.Value σ1 q = String.Value σ0 q := fun _ => rfl
    have hmono1 : ∀ q o, σ.find q = some o → σ1.find q = some o := fun q o h => by
      rw [hfind]; exact hmono q o h
    have hkeep : ∀ sym ∈ σ.symbol_table, String.Value σ1 sym = String.Value σ sym := by
      intro sym hmem
      obtain ⟨e, v, hv⟩ := IsString_iff.1 (hwf.1 sym hmem)
      rw [String.Value_eq hv, String.Value_eq (hmono1 _ _ hv)]
    have hwf1 : SymbolTable.WellFormed σ1 := by
      refine ⟨?_, ?_, ?_⟩
      · intro sym hmem
        have hmem' : sym = x ∨ sym ∈ σ.symbol_table := by
          simpa [hσ1, htab] using hmem
        rcases hmem' with rfl | hmem'
        · exact IsString_of_Value ((hval1 _).trans hval)
        · exact IsString_mono hmono1 (hwf.1 sym hmem')
      · show List.Pairwise _ (x :: σ0.symbol_table)
        rw [htab, List.pairwise_cons]
        refine ⟨?_, ?_⟩
        · intro q hq
          rw [hkeep q hq, hval1, hval]
          exact fun h => SymbolTable_Find_none hwf hnone q hq h.symm
        · refine hwf.2.1.imp_of_mem ?_
          intro p q hp hq hne
          rw [hkeep p hp, hkeep q hq]
          exact hne
      · show String.Value σ1 σ0.empty_string = .ok ""
        rw [hroot]
        obtain ⟨e, he⟩ := String.Value_ok hwf.2.2
        exact String.Value_eq (hmono1 _ _ he)
    refine ⟨x, σ1, hr, (hval1 _).trans hval, hmono1, hlen, hwf1, ?_, havail .OLD_SPACE⟩
    have hhead : SymbolTable_Find σ1 s = x :=
      SymbolTable_Find_head rfl ((hval1 _).trans hval)
    obtain ⟨e, he⟩ := String.Value_ok ((hval1 _).trans hval)
    have hnn : x ≠ nullptr := ne_nullptr_of_find he
    unfold String.NewSymbol
    simp only [hhead, hnn, ne_eq, not_false_eq_true, if_true]

/-! ### The copying collector -/

theorem HeapObject.Size_bounds (b : HeapObject) : 16 ≤ b.Size ∧ b.Size % 8 = 0 := by
  cases b with
  | KSOBJECT e => simp [HeapObject.Size]
  | STRING e v => simp only [HeapObject.Size, Align, kPointerSize]; omega
  | ARRAY s => simp only [HeapObject.Size, Align, kPointerSize]; omega
  | KSARRAY e l a => simp [HeapObject.Size, Align, kPointerSize]
  | HEAP_NUMBER v => simp [HeapObject.Size]
  | FUNCTION n p b => simp [HeapObject.Size]

theorem HeapObject.setField_fields (b : HeapObject) (i : Nat) (v : Object) :
    (b.setField i v).fields = b.fields.set i v := by
  cases b with
  | KSOBJECT e => rcases i with _ | i <;> simp [HeapObject.fields, HeapObject.setField]
  | STRING e s => rcases i with _ | i <;> simp [HeapObject.fields, HeapObject.setField]
  | ARRAY s => simp [HeapObject.fields, HeapObject.setField]
  | KSARRAY e l a => rcases i with _ | _ | i <;> simp [HeapObject.fields, HeapObject.setField]
  | HEAP_NUMBER n => simp [HeapObject.fields, HeapObject.setField]
  | FUNCTION n p b => rcases i with _ | _ | i <;> simp [HeapObject.fields, HeapObject.setField]

theorem HeapObject.setField_scalars (b : HeapObject) (i : Nat) (v : Object) :
    (b.setField i v).scalars = b.scalars := by
  cases b with
  | KSOBJECT e =>
    rcases i with _ | i <;> simp [HeapObject.scalars, HeapObject.mapFields, HeapObject.setField]
  | STRING e s =>
    rcases i with _ | i <;> simp [HeapObject.scalars, HeapObject.mapFields, HeapObject.setField]
  | ARRAY s => simp [HeapObject.scalars, HeapObject.mapFields, HeapObject.setField]
  | KSARRAY e l a =>
    rcases i with _ | _ | i <;>
      simp [HeapObject.scalars, HeapObject.mapFields, HeapObject.setField]
  | HEAP_NUMBER n => simp [HeapObject.scalars, HeapObject.mapFields, HeapObject.setField]
  | FUNCTION n p b =>
    rcases i with _ | _ | i <;>
      simp [HeapObject.scalars, HeapObject.mapFields, HeapObject.setField]

theorem HeapObject.length_of_scalars {b b' : HeapObject} (h : b'.scalars = b.scalars) :
    b'.fields.length = b.fields.length := by
  cases b <;> cases b' <;>
    simp only [HeapObject.scalars, HeapObject.mapFields, reduceCtorEq] at h <;>
    simp only [HeapObject.fields, List.length_cons, List.length_nil]
  injection h with h1
  simpa using congrArg List.length h1

theorem HeapObject.Size_of_scalars {b b' : HeapObject} (h : b'.scalars = b.scalars) :
    b'.Size = b.Size := by
  have hl := HeapObject.length_of_scalars h
  cases b <;> cases b' <;>
    simp only [HeapObject.scalars, HeapObject.mapFields, reduceCtorEq] at h <;>
    simp only [HeapObject.Size]
  · injection h with h1 h2; rw [h2]
  · simp only [HeapObject.fields] at hl; rw [hl]

theorem Memory.set_same (m : Memory) (a : Nat) (c : Cell) : m.set a c a = some c := by
  simp [Memory.set]

theorem Memory.set_other (m : Memory) {a x : Nat} (c : Cell) (h : x ≠ a) :
    m.set a c x = m x := by
  simp [Memory.set, h]

theorem IsHeapObject_eq_Make {w : Object} (h : IsHeapObject w = true) :
    w = HeapObject_Make (ADDRESS w) := by
  simp only [IsHeapObject, READ_TAG, decide_eq_true_eq, kCanonicalBits, Nat.reducePow, kHeapObjectTag] at h
  simp only [HeapObject_Make, ADDRESS, kCanonicalBits, Nat.reducePow, kHeapObjectTag, Object]
  omega

theorem ADDRESS_lt (w : Object) : ADDRESS w < 2 ^ 48 := by
  simp only [ADDRESS, kCanonicalBits]
  exact Nat.mod_lt _ (by decide)

theorem Heap.sizeAt_mod (B : Heap) (a : Nat) : B.sizeAt a % 8 = 0 := by
  unfold Heap.sizeAt
  split
  · exact (HeapObject.Size_bounds _).2
  · rfl

theorem Heap.sizeAt_of_cell {B : Heap} {a : Nat} {c : Cell} (h : B.memory a = some c) :
    B.sizeAt a = c.body.Size := by
  unfold Heap.sizeAt
  rw [h]

theorem Chain.append {size : Nat → Nat} {F : List (Nat × Nat)} {lo hi : Nat} (a : Nat)
    (h : Chain size F lo hi) : Chain size (F ++ [(a, hi)]) lo (hi + size a) := by
  induction F generalizing lo with
  | nil => cases h; exact ⟨rfl, rfl⟩
  | cons p rest ih => exact ⟨h.1, ih h.2⟩

theorem Chain.sum {size : Nat → Nat} {F : List (Nat × Nat)} {lo hi : Nat}
    (h : Chain size F lo hi) : hi = lo + (F.map (fun p => size p.1)).sum := by
  induction F generalizing lo with
  | nil => cases h; simp
  | cons p rest ih =>
    have := ih h.2
    simp only [List.map_cons, List.sum_cons]
    omega

theorem Chain.mem {size : Nat → Nat} {F : List (Nat × Nat)} {lo hi : Nat}
    (h : Chain size F lo hi) {p : Nat × Nat} (hp : p ∈ F) :
    lo ≤ p.2 ∧ p.2 + size p.1 ≤ hi := by
  induction F generalizing lo with
  | nil => cases hp
  | cons q rest ih =>
    have hs := Chain.sum h.2
    rcases List.mem_cons.1 hp with rfl | hp
    · rw [h.1]; omega
    · have := ih h.2 hp
      omega

theorem Chain.aligned {size : Nat → Nat} {F : List (Nat × Nat)} {lo hi : Nat}
    (h : Chain size F lo hi) (hsize : ∀ a, size a % 8 = 0) (hlo : lo % 8 = 0) : hi % 8 = 0 := by
  induction F generalizing lo with
  | nil => cases h; exact hlo
  | cons p rest ih =>
    refine ih h.2 ?_
    have := hsize p.1
    omega

theorem Chain.split {size : Nat → Nat} {F G : List (Nat × Nat)} {lo hi : Nat}
    (h : Chain size (F ++ G) lo hi) : ∃ mid, Chain size F lo mid ∧ Chain size G mid hi := by
  induction F generalizing lo with
  | nil => exact ⟨lo, rfl, h⟩
  | cons p rest ih =>
    obtain ⟨mid, h1, h2⟩ := ih h.2
    exact ⟨mid, ⟨h.1, h1⟩, h2⟩

theorem Chain.join {size : Nat → Nat} {F G : List (Nat × Nat)} {lo mid hi : Nat}
    (h1 : Chain size F lo mid) (h2 : Chain size G mid hi) : Chain size (F ++ G) lo hi := by
  induction F generalizing lo with
  | nil => cases h1; exact h2
  | cons p rest ih => exact ⟨h1.1, ih h1.2⟩

theorem List.sum_map_le_of_nodup_subset (f : Nat → Nat) {xs L : List Nat} (hn : xs.Nodup)
    (hs : xs ⊆ L) : (xs.map f).sum ≤ (L.map f).sum := by
  obtain ⟨l, hperm, hsub⟩ := List.subperm_of_subset hn hs
  have h1 : (l.map f).sum = (xs.map f).sum := (hperm.map f).sum_eq
  have h2 : (l.map f).sum ≤ (L.map f).sum :=
    (hsub.map f).sum_le_sum (fun _ _ => Nat.zero_le _)
  omega

theorem Metadata.SetForwarding_forwarding {m : Metadata} {t : Nat} (h0 : m.forwarding = 0)
    (ht : t < 2 ^ 48) (h8 : t % 8 = 0) : (m.SetForwarding t).forwarding = t := by
  simp only [Metadata.SetForwarding, h0, Nat.zero_or, kCanonicalBits]
  rw [Nat.mod_eq_of_lt ht]
  omega

theorem Copying.Inv.IsInNewSpace {B h : Heap} {L : List Nat} {FT FP : List (Nat × Nat)}
    (hI : Copying.Inv B L FT FP h) (w : Object) : h.IsInNewSpace w = B.IsInNewSpace w := by
  simp only [Heap.IsInNewSpace, NewSpace.Contains, NewSpace.begin_, NewSpace.end_, hI.ns_start,
    hI.ns_size]

theorem Copying.Inv.free_lo {B h : Heap} {L : List Nat} {FT FP : List (Nat × Nat)}
    (hI : Copying.Inv B L FT FP h) :
    B.new_space.to_space ≤ h.new_space.free ∧ B.old_space.free ≤ h.old_space.free := by
  have h1 := Chain.sum hI.chainT
  have h2 := Chain.sum hI.chainP
  omega

theorem Copying.Inv.room {B h : Heap} {L O : List Nat} {FT FP : List (Nat × Nat)}
    (hB : Copying.Base B L O) (hI : Copying.Inv B L FT FP h) {a : Nat} (ha : a ∈ L)
    (hn : a ∉ (FT ++ FP).map Prod.fst) :
    h.new_space.free + B.sizeAt a ≤ B.new_space.to_space + B.new_space.semispace_size := by
  have h1 := Chain.sum hI.chainT
  have hnd : (a :: (FT ++ FP).map Prod.fst).Nodup := List.nodup_cons.2 ⟨hn, hI.nodup⟩
  have hsub : (a :: (FT ++ FP).map Prod.fst) ⊆ L := by
    intro x hx
    rcases List.mem_cons.1 hx with rfl | hx
    · exact ha
    · obtain ⟨p, hp, rfl⟩ := List.mem_map.1 hx
      exact hI.sub p hp
  have h2 := List.sum_map_le_of_nodup_subset B.sizeAt hnd hsub
  have h3 := hB.sumL
  simp only [List.map_cons, List.sum_cons, List.map_append, List.map_map, List.sum_append] at h2
  have h4 : (FT.map (fun p => B.sizeAt p.1)).sum = (List.map (B.sizeAt ∘ Prod.fst) FT).sum := rfl
  omega

theorem Copying.mem_middle {α : Type} {x y : α} {F G : List α} :
    y ∈ F ++ [x] ++ G ↔ y = x ∨ y ∈ F ++ G := by
  simp only [List.mem_append, List.mem_singleton]
  tauto

theorem Copying.nodup_middle {F G : List (Nat × Nat)} {x : Nat × Nat}
    (hn : ((F ++ G).map Prod.fst).Nodup) (hx : x.1 ∉ (F ++ G).map Prod.fst) :
    ((F ++ [x] ++ G).map Prod.fst).Nodup := by
  have hp : (F ++ [x] ++ G).Perm (x :: (F ++ G)) := by
    simp
  exact (hp.map Prod.fst).nodup_iff.2 (List.nodup_cons.2 ⟨hx, hn⟩)

theorem Copying.Base.apartL {B : Heap} {L O : List Nat} (hB : Copying.Base B L O) {a t : Nat}
    (ha : a ∈ L) (h1 : B.new_space.to_space ≤ t)
    (h2 : t < B.new_space.to_space + B.new_space.semispace_size) : a ≠ t := by
  have := hB.rangeL a ha
  have := hB.apart
  omega

theorem Copying.Base.oldL {B : Heap} {L O : List Nat} (hB : Copying.Base B L O) {a t : Nat}
    (ha : a ∈ L) (h1 : B.old_space.start ≤ t) : a ≠ t := by
  have := hB.rangeL a ha
  have := hB.from_hi
  have := hB.spaces
  omega

/-- The invariant after a copy of the object at `a` to the bound `free` of the
to-space. -/
theorem Copying.Inv.copy {B h : Heap} {L O : List Nat} {FT FP : List (Nat × Nat)}
    (hB : Copying.Base B L O) (hI : Copying.Inv B L FT FP h) {a : Nat} {c c0 : Cell}
    (ha : a ∈ L) (hc : h.memory a = some c) (hc0 : B.memory a = some c0)
    (hb : c.body = c0.body) (hn : a ∉ (FT ++ FP).map Prod.fst) (cT : Cell) (m' : Metadata)
    (hm' : m'.forwarding = h.new_space.free) (avail : Nat) :
    Copying.Inv B L (FT ++ [(a, h.new_space.free)]) FP
      { h with
        new_space := { h.new_space with available_objects := avail
                                        free := h.new_space.free + c.body.Size }
        memory := (h.memory.set h.new_space.free cT).set a { c with metadata := m' } } := by
  have hsize : c.body.Size = B.sizeAt a := by rw [Heap.sizeAt_of_cell hc0, hb]
  have hroom := Copying.Inv.room hB hI ha hn
  have hlo := hI.free_lo
  have hpos := (HeapObject.Size_bounds c.body).1
  refine
    { ns_start := hI.ns_start, ns_size := hI.ns_size, ns_semi := hI.ns_semi
      ns_from := hI.ns_from, ns_to := hI.ns_to, os_start := hI.os_start
      os_size := hI.os_size, os_hi := hI.os_hi, chainT := ?_, chainP := hI.chainP
      promoted := hI.promoted, nodup := ?_, sub := ?_, cells := ?_ }
  · show Chain B.sizeAt (FT ++ [(a, h.new_space.free)]) _ (h.new_space.free + c.body.Size)
    rw [hsize]
    exact Chain.append a hI.chainT
  · exact Copying.nodup_middle hI.nodup hn
  · intro p hp
    rcases Copying.mem_middle.1 hp with rfl | hp
    · exact ha
    · exact hI.sub p hp
  · intro a' ha'
    by_cases haa : a' = a
    · subst haa
      refine ⟨{ c with metadata := m' }, c0, Memory.set_same _ _ _, hc0, hb, Or.inr ⟨?_, ?_⟩⟩
      · show m'.forwarding ≠ 0
        rw [hm']
        have := hB.to_pos
        omega
      · show (a', m'.forwarding) ∈ _
        rw [hm']
        exact Copying.mem_middle.2 (Or.inl rfl)
    · obtain ⟨c', c0', h1, h2, h3, h4⟩ := hI.cells a' ha'
      have hne : a' ≠ h.new_space.free := Copying.Base.apartL hB ha' hlo.1 (by omega)
      refine ⟨c', c0', ?_, h2, h3, ?_⟩
      · show ((h.memory.set h.new_space.free cT).set a _) a' = some c'
        rw [Memory.set_other _ _ haa, Memory.set_other _ _ hne, h1]
      · rcases h4 with ⟨h5, h6⟩ | ⟨h5, h6⟩
        · refine Or.inl ⟨h5, fun hmem => ?_⟩
          obtain ⟨p, hp, hpa⟩ := List.mem_map.1 hmem
          rcases Copying.mem_middle.1 hp with rfl | hp
          · exact haa hpa.symm
          · exact h6 (List.mem_map.2 ⟨p, hp, hpa⟩)
        · exact Or.inr ⟨h5, Copying.mem_middle.2 (Or.inr h6)⟩

/-- The invariant after a promotion of the object at `a` to the bound `free` of the
old space. -/
theorem Copying.Inv.promote {B h : Heap} {L O : List Nat} {FT FP : List (Nat × Nat)}
    (hB : Copying.Base B L O) (hI : Copying.Inv B L FT FP h) {a : Nat} {c c0 : Cell}
    (ha : a ∈ L) (hc : h.memory a = some c) (hc0 : B.memory a = some c0)
    (hb : c.body = c0.body) (hn : a ∉ (FT ++ FP).map Prod.fst) (cT : Cell) (m' : Metadata)
    (hm' : m'.forwarding = h.old_space.free) (avail : Nat)
    (hroom : h.old_space.free + c.body.Size ≤ B.old_space.start + B.old_space.size) :
    Copying.Inv B L FT (FP ++ [(a, h.old_space.free)])
      { h with
        old_space := { h.old_space with available_objects := avail
                                        free := h.old_space.free + c.body.Size }
        memory := (h.memory.set h.old_space.free cT).set a { c with metadata := m' }
        promoted := h.promoted ++ [HeapObject_Make h.old_space.free] } := by
  have hsize : c.body.Size = B.sizeAt a := by rw [Heap.sizeAt_of_cell hc0, hb]
  have hlo := hI.free_lo
  have hmid : ∀ y : Nat × Nat, y ∈ FT ++ (FP ++ [(a, h.old_space.free)]) ↔
      y = (a, h.old_space.free) ∨ y ∈ FT ++ FP := by
    intro y
    simp only [List.mem_append, List.mem_singleton]
    tauto
  refine
    { ns_start := hI.ns_start, ns_size := hI.ns_size, ns_semi := hI.ns_semi
      ns_from := hI.ns_from, ns_to := hI.ns_to, os_start := hI.os_start
      os_size := hI.os_size, os_hi := hroom, chainT := hI.chainT, chainP := ?_
      promoted := ?_, nodup := ?_, sub := ?_, cells := ?_ }
  · show Chain B.sizeAt (FP ++ [(a, h.old_space.free)]) _ (h.old_space.free + c.body.Size)
    rw [hsize]
    exact Chain.append a hI.chainP
  · show h.promoted ++ [HeapObject_Make h.old_space.free] = _
    rw [hI.promoted, List.map_append]
    rfl
  · have hp : (FT ++ (FP ++ [(a, h.old_space.free)])).Perm ((a, h.old_space.free) :: (FT ++ FP)) := by
      rw [← List.append_assoc]
      exact List.perm_append_singleton _ _
    exact (hp.map Prod.fst).nodup_iff.2 (List.nodup_cons.2 ⟨hn, hI.nodup⟩)
  · intro p hp
    rcases (hmid p).1 hp with rfl | hp
    · exact ha
    · exact hI.sub p hp
  · intro a' ha'
    by_cases haa : a' = a
    · subst haa
      refine ⟨{ c with metadata := m' }, c0, Memory.set_same _ _ _, hc0, hb, Or.inr ⟨?_, ?_⟩⟩
      · show m'.forwarding ≠ 0
        rw [hm']
        have := hB.to_pos
        have := hB.to_lo
        have := hB.to_hi
        have := hB.spaces
        have := hB.old_lo
        omega
      · show (a', m'.forwarding) ∈ _
        rw [hm']
        exact (hmid _).2 (Or.inl rfl)
    · obtain ⟨c', c0', h1, h2, h3, h4⟩ := hI.cells a' ha'
      have hne : a' ≠ h.old_space.free :=
        Copying.Base.oldL hB ha' (by have := hB.old_lo; omega)
      refine ⟨c', c0', ?_, h2, h3, ?_⟩
      · show ((h.memory.set h.old_space.free cT).set a _) a' = some c'
        rw [Memory.set_other _ _ haa, Memory.set_other _ _ hne, h1]
      · rcases h4 with ⟨h5, h6⟩ | ⟨h5, h6⟩
        · refine Or.inl ⟨h5, fun hmem => ?_⟩
          obtain ⟨p, hp, hpa⟩ := List.mem_map.1 hmem
          rcases (hmid p).1 hp with rfl | hp
          · exact haa hpa.symm
          · exact h6 (List.mem_map.2 ⟨p, hp, hpa⟩)
        · exact Or.inr ⟨h5, (hmid _).2 (Or.inr h6)⟩

/-- The function `Heap::CopyObject` on a reference to an object of the from-space:
it returns the destination of the object, after copying or promoting it if it is
not forwarded; the invariant is kept, and the memory changes only at the object and
at the bounds of the two spaces. -/
theorem Heap.CopyObject_spec {B h : Heap} {L O : List Nat} {FT FP : List (Nat × Nat)}
    (hB : Copying.Base B L O) (hI : Copying.Inv B L FT FP h) {w : Object}
    (hw : B.IsInNewSpace w = true) (hL : ADDRESS w ∈ L) :
    ∃ w' h' nt np, h.CopyObject w = .ok (w', h') ∧
      Copying.Inv B L (FT ++ nt) (FP ++ np) h' ∧
      nt.length + np.length ≤ 1 ∧
      Relocated B ((FT ++ nt) ++ (FP ++ np)) w w' ∧
      (∀ x, x ≠ ADDRESS w → (∀ p ∈ nt ++ np, p.2 ≠ x) → h'.memory x = h.memory x) ∧
      (∀ p ∈ nt, p.2 = h.new_space.free) ∧ (∀ p ∈ np, p.2 = h.old_space.free) ∧
      (∀ p ∈ nt ++ np, ∃ c c0, h'.memory p.2 = some c ∧ B.memory p.1 = some c0 ∧
        c.body = c0.body) ∧
      h'.slots = h.slots ∧ h'.empty_array = h.empty_array ∧
      h'.empty_hash_table = h.empty_hash_table ∧ h'.empty_string = h.empty_string ∧
      h'.old_space.rset = h.old_space.rset := by
  obtain ⟨c, c0, hc, hc0, hb, hfw⟩ := hI.cells _ hL
  have hnew : h.IsInNewSpace w = true := by rw [hI.IsInNewSpace, hw]
  have hcell : h.cell w = .ok c := by simp only [Heap.cell, hc]
  have hlo := hI.free_lo
  have hT8 : h.new_space.free % 8 = 0 := Chain.aligned hI.chainT B.sizeAt_mod hB.to_aligned
  have hP8 : h.old_space.free % 8 = 0 := Chain.aligned hI.chainP B.sizeAt_mod hB.old_free
  have hsize : c.body.Size = B.sizeAt (ADDRESS w) := by rw [Heap.sizeAt_of_cell hc0, hb]
  have hpos := (HeapObject.Size_bounds c.body).1
  have hheap : IsHeapObject w = true := by
    simp only [Heap.IsInNewSpace, Bool.and_eq_true] at hw
    exact hw.1
  rcases hfw with ⟨hf0, hn⟩ | ⟨hf1, hmem⟩
  · -- the object is not forwarded
    have hroom := Copying.Inv.room hB hI hL hn
    have hT48 : h.new_space.free < 2 ^ 48 := by
      have := hB.to_hi; have := hB.spaces; have := hB.old_end
      omega
    have hTaddr : ADDRESS (HeapObject_Make h.new_space.free) = h.new_space.free :=
      ADDRESS_Make _ hT48
    have hTne : h.new_space.free ≠ 0 := by have := hB.to_pos; omega
    have halloc : h.AllocateRaw c.body.Size .NEW_SPACE =
        (.ok (HeapObject_Make h.new_space.free),
          { h with new_space :=
            { h.new_space with available_objects := h.new_space.available_objects + 1
                               free := h.new_space.free + c.body.Size } }) := by
      have hfit : ¬ (h.new_space.free + c.body.Size > h.new_space.ToSpaceHigh) := by
        simp only [NewSpace.ToSpaceHigh, hI.ns_to, hI.ns_semi]
        omega
      simp only [Heap.AllocateRaw, NewSpace.Allocate, hfit, if_false, ne_eq, hTne,
        not_false_eq_true, if_true]
    -- the result of the copy into the to-space
    have hcopy : ∃ h', (match h.AllocateRaw c.body.Size .NEW_SPACE with
          | (.error e, _) => (.error e : Except KError (Object × Heap))
          | (.ok result, h) =>
            let h := h.store result { c with metadata := c.metadata.IncrementAge }
            let h := h.store w { c with metadata := c.metadata.SetForwarding (ADDRESS result) }
            pure (result, h)) = .ok (HeapObject_Make h.new_space.free, h') ∧
        Copying.Inv B L (FT ++ [(ADDRESS w, h.new_space.free)]) (FP ++ []) h' ∧
        (∀ x, x ≠ ADDRESS w → x ≠ h.new_space.free → h'.memory x = h.memory x) ∧
        (∃ c', h'.memory h.new_space.free = some c' ∧ c'.body = c0.body) ∧
        h'.slots = h.slots ∧ h'.empty_array = h.empty_array ∧
        h'.empty_hash_table = h.empty_hash_table ∧ h'.empty_string = h.empty_string ∧
        h'.old_space.rset = h.old_space.rset := by
      rw [halloc]
      refine ⟨_, rfl, ?_, ?_, ?_, rfl, rfl, rfl, rfl, rfl⟩
      · rw [List.append_nil]
        simp only [Heap.store, hTaddr]
        exact Copying.Inv.copy hB hI hL hc hc0 hb hn _ _
          (Metadata.SetForwarding_forwarding hf0 hT48 hT8) _
      · intro x h1 h2
        simp only [Heap.store, hTaddr]
        rw [Memory.set_other _ _ h1, Memory.set_other _ _ h2]
      · refine ⟨{ c with metadata := c.metadata.IncrementAge }, ?_, hb⟩
        simp only [Heap.store, hTaddr]
        have hne : h.new_space.free ≠ ADDRESS w :=
          fun he => Copying.Base.apartL hB hL hlo.1 (by omega) he.symm
        rw [Memory.set_other _ _ hne, Memory.set_same]
    have hfin : ∀ h', Copying.Inv B L (FT ++ [(ADDRESS w, h.new_space.free)]) (FP ++ []) h' →
        Relocated B ((FT ++ [(ADDRESS w, h.new_space.free)]) ++ (FP ++ [])) w
          (HeapObject_Make h.new_space.free) := by
      intro h' _
      simp only [Relocated, hw, if_true]
      exact ⟨_, by simp, rfl⟩
    have hnf : c.metadata.IsForwarding = false := by
      simp [Metadata.IsForwarding, hf0]
    by_cases hage : c.metadata.Age ≥ h.tenure_threshold
    · -- promotion is tried first
      by_cases hfit : h.old_space.free + c.body.Size > h.old_space.end_
      · -- the old space is full: the object is copied
        have hprom : h.Promote w = (.error (.AllocationError .OLD_SPACE), h) := by
          simp only [Heap.Promote, hcell, Heap.AllocateRaw, OldSpace.Allocate, hfit, if_true,
            ne_eq, not_true_eq_false, if_false, Heap.andThen]
        obtain ⟨h', h1, h2, h3, ⟨c', h4, h5⟩, h6⟩ := hcopy
        refine ⟨_, h', [(ADDRESS w, h.new_space.free)], [], ?_, h2, by simp, hfin h' h2,
          fun x hx1 hx2 => h3 x hx1 (fun he => hx2 (ADDRESS w, h.new_space.free) (by simp)
            he.symm),
          by simp, by simp, ?_, h6⟩
        · simp only [Heap.CopyObject, hnew, Bool.not_true, Bool.false_eq_true, if_false, hcell,
            bind, Except.bind, hnf, hage, if_true, hprom]
          exact h1
        · intro p hp
          simp only [List.append_nil, List.mem_singleton] at hp
          subst hp
          exact ⟨c', c0, h4, hc0, h5⟩
      · -- the object is promoted
        have hP48 : h.old_space.free < 2 ^ 48 := by
          simp only [OldSpace.end_, hI.os_start, hI.os_size] at hfit
          have := hB.old_end
          omega
        have hPaddr : ADDRESS (HeapObject_Make h.old_space.free) = h.old_space.free :=
          ADDRESS_Make _ hP48
        have hPne : h.old_space.free ≠ 0 := by
          have := hB.to_pos; have := hB.to_lo; have := hB.to_hi; have := hB.spaces
          have := hB.old_lo
          omega
        have hroomP : h.old_space.free + c.body.Size ≤ B.old_space.start + B.old_space.size := by
          simp only [OldSpace.end_, hI.os_start, hI.os_size] at hfit
          omega
        have hprom : h.Promote w = (.ok (HeapObject_Make h.old_space.free),
            { h with
              old_space := { h.old_space with
                available_objects := h.old_space.available_objects + 1
                free := h.old_space.free + c.body.Size }
              memory := (h.memory.set h.old_space.free c).set (ADDRESS w)
                { c with metadata := c.metadata.SetForwarding h.old_space.free }
              promoted := h.promoted ++ [HeapObject_Make h.old_space.free] }) := by
          simp only [Heap.Promote, hcell, Heap.AllocateRaw, OldSpace.Allocate, hfit, if_false,
            ne_eq, hPne, not_false_eq_true, if_true, Heap.andThen, Heap.store, hPaddr]
        refine ⟨HeapObject_Make h.old_space.free,
          { h with
              old_space := { h.old_space with
                available_objects := h.old_space.available_objects + 1
                free := h.old_space.free + c.body.Size }
              memory := (h.memory.set h.old_space.free c).set (ADDRESS w)
                { c with metadata := c.metadata.SetForwarding h.old_space.free }
              promoted := h.promoted ++ [HeapObject_Make h.old_space.free] },
          [], [(ADDRESS w, h.old_space.free)], ?_, ?_, by simp, ?_, ?_, by simp,
          by simp, ?_, rfl, rfl, rfl, rfl, rfl⟩
        · simp only [Heap.CopyObject, hnew, Bool.not_true, Bool.false_eq_true, if_false, hcell,
            bind, Except.bind, hnf, hage, if_true, hprom]
          rfl
        · rw [List.append_nil]
          exact Copying.Inv.promote hB hI hL hc hc0 hb hn _ _
            (Metadata.SetForwarding_forwarding hf0 hP48 hP8) _ hroomP
        · simp only [Relocated, hw, if_true]
          exact ⟨_, by simp, rfl⟩
        · intro x h1 h2
          have h3 : x ≠ h.old_space.free :=
            fun he => h2 (ADDRESS w, h.old_space.free) (by simp) he.symm
          show ((h.memory.set h.old_space.free c).set (ADDRESS w) _) x = _
          rw [Memory.set_other _ _ h1, Memory.set_other _ _ h3]
        · intro p hp
          simp only [List.nil_append, List.mem_singleton] at hp
          subst hp
          refine ⟨c, c0, ?_, hc0, hb⟩
          show ((h.memory.set h.old_space.free c).set (ADDRESS w) _) h.old_space.free = _
          have hne : h.old_space.free ≠ ADDRESS w :=
            fun he => Copying.Base.oldL hB hL (by have := hB.old_lo; omega) he.symm
          rw [Memory.set_other _ _ hne, Memory.set_same]
    · obtain ⟨h', h1, h2, h3, ⟨c', h4, h5⟩, h6⟩ := hcopy
      refine ⟨_, h', [(ADDRESS w, h.new_space.free)], [], ?_, h2, by simp, hfin h' h2,
        fun x hx1 hx2 => h3 x hx1 (fun he => hx2 (ADDRESS w, h.new_space.free) (by simp)
          he.symm),
        by simp, by simp, ?_, h6⟩
      · simp only [Heap.CopyObject, hnew, Bool.not_true, Bool.false_eq_true, if_false, hcell,
          bind, Except.bind, hnf, hage]
        exact h1
      · intro p hp
        simp only [List.append_nil, List.mem_singleton] at hp
        subst hp
        exact ⟨c', c0, h4, hc0, h5⟩
  · -- the object is forwarded
    have hfwd : c.metadata.IsForwarding = true := by
      simp [Metadata.IsForwarding, hf1]
    refine ⟨c.metadata.Forwarding, h, [], [], ?_, ?_, by simp, ?_, fun _ _ _ => rfl,
      by simp, by simp, by simp, rfl, rfl, rfl, rfl, rfl⟩
    · simp only [Heap.CopyObject, hnew, Bool.not_true, Bool.false_eq_true, if_false, hcell,
        bind, Except.bind, hfwd, if_true]
      rfl
    · simpa using hI
    · simp only [Relocated, hw, if_true, List.append_nil]
      exact ⟨_, hmem, rfl⟩

theorem Relocated.mono_pairs {B : Heap} {F G : List (Nat × Nat)} {w w' : Object}
    (h : Relocated B F w w') (hs : F ⊆ G) : Relocated B G w w' := by
  unfold Relocated at h ⊢
  by_cases hw : B.IsInNewSpace w = true
  · rw [if_pos hw] at h ⊢
    obtain ⟨t, ht, rfl⟩ := h
    exact ⟨t, hs ht, rfl⟩
  · rw [if_neg hw] at h ⊢
    exact h

theorem Heap.Partial.mono_heap {B h h' : Heap} {F G : List (Nat × Nat)} {x : Nat} {b : HeapObject}
    {i : Nat} (hp : Heap.Partial B F h x b i) (hs : F ⊆ G) (hm : h'.memory x = h.memory x) :
    Heap.Partial B G h' x b i := by
  obtain ⟨c, h1, h2, h3, h4, h5⟩ := hp
  refine ⟨c, by rw [hm, h1], h2, h3, fun j w hj hw => ?_, h5⟩
  obtain ⟨w', h6, h7⟩ := h4 j w hj hw
  exact ⟨w', h6, h7.mono_pairs hs⟩

theorem Copying.Inv.subL {B h : Heap} {L : List Nat} {FT FP : List (Nat × Nat)}
    (hI : Copying.Inv B L FT FP h) : (FT ++ FP).map Prod.fst ⊆ L := by
  intro x hx
  obtain ⟨p, hp, rfl⟩ := List.mem_map.1 hx
  exact hI.sub p hp

theorem Copying.Inv.free_hi {B h : Heap} {L O : List Nat} {FT FP : List (Nat × Nat)}
    (hB : Copying.Base B L O) (hI : Copying.Inv B L FT FP h) :
    h.new_space.free ≤ B.new_space.to_space + B.new_space.semispace_size := by
  have h1 := Chain.sum hI.chainT
  have h2 := List.sum_map_le_of_nodup_subset B.sizeAt hI.nodup hI.subL
  have h3 := hB.sumL
  simp only [List.map_append, List.map_map, List.sum_append] at h2
  have h4 : (FT.map (fun p => B.sizeAt p.1)).sum = (List.map (B.sizeAt ∘ Prod.fst) FT).sum := rfl
  omega

theorem Copying.Inv.length_le {B h : Heap} {L : List Nat} {FT FP : List (Nat × Nat)}
    (hI : Copying.Inv B L FT FP h) : FT.length + FP.length ≤ L.length := by
  have hlen : ∀ l : List Nat, (l.map (fun _ => 1)).sum = l.length := by
    intro l
    induction l with
    | nil => rfl
    | cons a l ih => simp only [List.map_cons, List.sum_cons, ih, List.length_cons]; omega
  have h2 := List.sum_map_le_of_nodup_subset (fun _ => 1) hI.nodup hI.subL
  rw [hlen, hlen, List.length_map, List.length_append] at h2
  exact h2

theorem Copying.Base.size_pos {B : Heap} {L O : List Nat} (hB : Copying.Base B L O) {a : Nat}
    (ha : a ∈ L) : 16 ≤ B.sizeAt a := by
  obtain ⟨c, hc, _⟩ := hB.cellsL a ha
  rw [Heap.sizeAt_of_cell hc]
  exact (HeapObject.Size_bounds _).1

theorem Copying.Inv.boundsT {B h : Heap} {L O : List Nat} {FT FP : List (Nat × Nat)}
    (hB : Copying.Base B L O) (hI : Copying.Inv B L FT FP h) {p : Nat × Nat} (hp : p ∈ FT) :
    B.new_space.to_space ≤ p.2 ∧ p.2 + 16 ≤ h.new_space.free := by
  have h1 := Chain.mem hI.chainT hp
  have h2 := hB.size_pos (hI.sub p (List.mem_append_left _ hp))
  omega

theorem Copying.Inv.boundsP {B h : Heap} {L O : List Nat} {FT FP : List (Nat × Nat)}
    (hB : Copying.Base B L O) (hI : Copying.Inv B L FT FP h) {p : Nat × Nat} (hp : p ∈ FP) :
    B.old_space.free ≤ p.2 ∧ p.2 + 16 ≤ h.old_space.free := by
  have h1 := Chain.mem hI.chainP hp
  have h2 := hB.size_pos (hI.sub p (List.mem_append_right _ hp))
  omega

theorem Copying.Inv.owned {B h : Heap} {L O : List Nat} {FT FP : List (Nat × Nat)}
    (hB : Copying.Base B L O) (hI : Copying.Inv B L FT FP h) {p : Nat × Nat}
    (hp : p ∈ FT ++ FP ++ O.map (fun o => (o, o))) : Copying.Owned B h p.2 := by
  rcases List.mem_append.1 hp with hp | hp
  · rcases List.mem_append.1 hp with hp | hp
    · have := hI.boundsT hB hp
      exact Or.inl (by omega)
    · have := hI.boundsP hB hp
      have := hB.old_lo
      exact Or.inr (by omega)
  · obtain ⟨o, ho, rfl⟩ := List.mem_map.1 hp
    have := hB.rangeO o ho
    have := hI.free_lo
    exact Or.inr (by omega)

theorem Copying.Owned.notL {B h : Heap} {L O : List Nat} {FT FP : List (Nat × Nat)}
    (hB : Copying.Base B L O) (hI : Copying.Inv B L FT FP h) {x : Nat}
    (hx : Copying.Owned B h x) : x ∉ L := by
  intro hL
  have h1 := hB.rangeL x hL
  have h2 := hI.free_hi hB
  have h3 := hB.apart
  have h4 := hB.from_hi
  have h5 := hB.spaces
  rcases hx with hx | hx <;> omega

theorem Copying.Inv.free_mono {B h h' : Heap} {L : List Nat} {FT FP FT' FP' : List (Nat × Nat)}
    (hI : Copying.Inv B L FT FP h) (hI' : Copying.Inv B L FT' FP' h') (hT : FT <+: FT')
    (hP : FP <+: FP') :
    h.new_space.free ≤ h'.new_space.free ∧ h.old_space.free ≤ h'.old_space.free := by
  obtain ⟨nt, rfl⟩ := hT
  obtain ⟨np, rfl⟩ := hP
  have h1 := Chain.sum hI.chainT
  have h2 := Chain.sum hI.chainP
  have h3 := Chain.sum hI'.chainT
  have h4 := Chain.sum hI'.chainP
  simp only [List.map_append, List.sum_append] at h3 h4
  omega

theorem Copying.Owned.mono {B h h' : Heap} {x : Nat} (hx : Copying.Owned B h x)
    (h1 : h.new_space.free ≤ h'.new_space.free) (h2 : h.old_space.free ≤ h'.old_space.free) :
    Copying.Owned B h' x := by
  rcases hx with hx | hx
  · exact Or.inl (by omega)
  · exact Or.inr (by omega)

theorem Copying.Base.memL {B : Heap} {L O : List Nat} (hB : Copying.Base B L O) {w : Object}
    (hw : Good L O w) (hn : B.IsInNewSpace w = true) : ADDRESS w ∈ L := by
  simp only [Heap.IsInNewSpace, NewSpace.Contains, NewSpace.begin_, NewSpace.end_,
    Bool.and_eq_true, decide_eq_true_eq] at hn
  rcases hw hn.1 with h | h
  · exact h
  · have := hB.rangeO _ h
    have := hB.spaces
    have := hB.old_lo
    omega

theorem Copying.Base.notNew {B : Heap} {L O : List Nat} (hB : Copying.Base B L O) {o : Nat}
    (ho : o ∈ O) : B.IsInNewSpace (HeapObject_Make o) = false := by
  have h1 := hB.rangeO _ ho
  have h2 := hB.spaces
  have h3 := hB.old_lo
  have h4 := hB.old_hi
  have h5 := hB.old_end
  have h6 : ADDRESS (HeapObject_Make o) = o := ADDRESS_Make _ (by omega)
  simp only [Heap.IsInNewSpace, NewSpace.Contains, NewSpace.begin_, NewSpace.end_, h6,
    Bool.and_eq_false_imp, Bool.and_eq_true, decide_eq_true_eq, decide_eq_false_iff_not]
  intro _ _
  omega

/-- A visit of a word by the copying collector: the word is relocated, the objects
that were there keep their state, and an object that is copied is raw. -/
theorem Copying.Prog.step {B h : Heap} {L O : List Nat} {FT FP : List (Nat × Nat)}
    {prog : Nat → Nat} (hB : Copying.Base B L O) (hP : Copying.Prog B L O FT FP prog h)
    {w : Object} (hw : Good L O w) :
    ∃ w' h' FT' FP', copyStep w h = .ok (w', h') ∧ Copying.Prog B L O FT' FP' prog h' ∧
      FT <+: FT' ∧ FP <+: FP' ∧ Relocated B (FT' ++ FP') w w' ∧ h.Kept h' := by
  unfold copyStep
  by_cases hn : h.IsInNewSpace w = true
  · rw [if_pos hn]
    have hnB : B.IsInNewSpace w = true := by rw [← hP.inv.IsInNewSpace, hn]
    have hL := hB.memL hw hnB
    obtain ⟨w', h', nt, np, h1, h2, _, h4, h5, h6, h7, h8, h9⟩ :=
      Heap.CopyObject_spec hB hP.inv hnB hL
    have hmono := hP.inv.free_mono h2 (List.prefix_append _ _) (List.prefix_append _ _)
    have hfresh : ∀ q ∈ nt ++ np, ¬ Copying.Owned B h q.2 := by
      intro q hq ho
      have hhi := hP.inv.free_hi hB
      have hlo := hP.inv.free_lo
      have hs := hB.spaces
      have hto := hB.to_hi
      have hol := hB.old_lo
      rcases List.mem_append.1 hq with hq | hq
      · have e := h6 q hq
        have hb := h2.boundsT hB (List.mem_append_right _ hq)
        have hhi' := h2.free_hi hB
        rcases ho with ho | ho <;> omega
      · have e := h7 q hq
        rcases ho with ho | ho <;> omega
    refine ⟨w', h', FT ++ nt, FP ++ np, h1, ⟨h2, ?_, ?_⟩, List.prefix_append _ _,
      List.prefix_append _ _, h4, ⟨h9.1, h9.2.1, h9.2.2.1, h9.2.2.2.1, h9.2.2.2.2⟩⟩
    · intro p hp
      have hold : p ∈ FT ++ FP ++ O.map (fun o => (o, o)) ∨ p ∈ nt ++ np := by
        simp only [List.mem_append] at hp ⊢
        tauto
      rcases hold with hp | hp
      · obtain ⟨c0, hc0, hpart⟩ := hP.part p hp
        have ho := hP.inv.owned hB hp
        refine ⟨c0, hc0, hpart.mono_heap ?_ (h5 _ ?_ ?_)⟩
        · intro q hq
          simp only [List.mem_append] at hq ⊢
          tauto
        · intro he
          exact Copying.Owned.notL hB hP.inv ho (he ▸ hL)
        · intro q hq he
          exact hfresh q hq (he ▸ ho)
      · obtain ⟨c, c0, hc, hc0, hb⟩ := h8 p hp
        refine ⟨c0, hc0, ?_⟩
        rw [hP.zero _ (hfresh p hp)]
        exact ⟨c, hc, by rw [hb], by rw [hb], fun j w hj => absurd hj (Nat.not_lt_zero j),
          fun j _ => by rw [hb]⟩
    · intro x hx
      exact hP.zero x (fun ho => hx (ho.mono hmono.1 hmono.2))
  · rw [if_neg hn]
    have hnB : ¬ B.IsInNewSpace w = true := by rw [← hP.inv.IsInNewSpace]; exact hn
    refine ⟨w, h, FT, FP, rfl, hP, List.prefix_refl _, List.prefix_refl _, ?_,
      ⟨rfl, rfl, rfl, rfl, rfl⟩⟩
    unfold Relocated
    rw [if_neg hnB]

theorem Heap.Kept.refl (h : Heap) : h.Kept h := ⟨rfl, rfl, rfl, rfl, rfl⟩

theorem Heap.Kept.trans {h1 h2 h3 : Heap} (a : h1.Kept h2) (b : h2.Kept h3) : h1.Kept h3 :=
  ⟨b.slots.trans a.slots, b.empty_array.trans a.empty_array,
    b.empty_hash_table.trans a.empty_hash_table, b.empty_string.trans a.empty_string,
    b.rset.trans a.rset⟩

theorem Copying.pairs_mono {FT FP FT' FP' X : List (Nat × Nat)} (hT : FT <+: FT')
    (hP : FP <+: FP') {p : Nat × Nat} (hp : p ∈ FT ++ FP ++ X) : p ∈ FT' ++ FP' ++ X := by
  have h1 := hT.subset
  have h2 := hP.subset
  simp only [List.mem_append] at hp ⊢
  rcases hp with (hp | hp) | hp
  · exact Or.inl (Or.inl (h1 hp))
  · exact Or.inl (Or.inr (h2 hp))
  · exact Or.inr hp

theorem Copying.Inv.src_mem {B h : Heap} {L O : List Nat} {FT FP : List (Nat × Nat)}
    (hI : Copying.Inv B L FT FP h) {p : Nat × Nat}
    (hp : p ∈ FT ++ FP ++ O.map (fun o => (o, o))) : p.1 ∈ L ++ O := by
  rcases List.mem_append.1 hp with hp | hp
  · exact List.mem_append_left _ (hI.sub p hp)
  · obtain ⟨o, ho, rfl⟩ := List.mem_map.1 hp
    exact List.mem_append_right _ ho

theorem Heap.Partial.congr_body {B h h' : Heap} {F : List (Nat × Nat)} {x : Nat} {b : HeapObject}
    {i : Nat} (hp : Heap.Partial B F h x b i)
    (hm : (h'.memory x).map Cell.body = (h.memory x).map Cell.body) :
    Heap.Partial B F h' x b i := by
  obtain ⟨c, h1, h2, h3, h4, h5⟩ := hp
  rw [h1, Option.map_some'] at hm
  obtain ⟨c', hc', hb⟩ := Option.map_eq_some'.1 hm
  exact ⟨c', hc', by rw [hb]; exact h2, by rw [hb]; exact h3, by rw [hb]; exact h4,
    by rw [hb]; exact h5⟩

/-- The invariant depends on the bounds of the spaces, on the promoted entries and on
the objects of the from-space. -/
theorem Copying.Inv.of_eq_bounds {B h h' : Heap} {L : List Nat} {FT FP : List (Nat × Nat)}
    (hI : Copying.Inv B L FT FP h) (h1 : h'.new_space = h.new_space)
    (h2 : h'.old_space.start = h.old_space.start) (h3 : h'.old_space.size = h.old_space.size)
    (h4 : h'.old_space.free = h.old_space.free) (h5 : h'.promoted = h.promoted)
    (h6 : ∀ a ∈ L, h'.memory a = h.memory a) : Copying.Inv B L FT FP h' where
  ns_start := by rw [h1]; exact hI.ns_start
  ns_size := by rw [h1]; exact hI.ns_size
  ns_semi := by rw [h1]; exact hI.ns_semi
  ns_from := by rw [h1]; exact hI.ns_from
  ns_to := by rw [h1]; exact hI.ns_to
  os_start := by rw [h2]; exact hI.os_start
  os_size := by rw [h3]; exact hI.os_size
  os_hi := by rw [h4]; exact hI.os_hi
  chainT := by rw [h1]; exact hI.chainT
  chainP := by rw [h4]; exact hI.chainP
  promoted := by rw [h5]; exact hI.promoted
  nodup := hI.nodup
  sub := hI.sub
  cells := by
    intro a ha
    rw [h6 a ha]
    exact hI.cells a ha

/-- The state of the collection depends, besides, on the fields of the objects in the
to-space and in the old space. -/
theorem Copying.Prog.of_eq_bodies {B h h' : Heap} {L O : List Nat} {FT FP : List (Nat × Nat)}
    {prog : Nat → Nat} (hB : Copying.Base B L O) (hP : Copying.Prog B L O FT FP prog h)
    (h1 : h'.new_space = h.new_space)
    (h2 : h'.old_space.start = h.old_space.start) (h3 : h'.old_space.size = h.old_space.size)
    (h4 : h'.old_space.free = h.old_space.free) (h5 : h'.promoted = h.promoted)
    (h6 : ∀ a ∈ L, h'.memory a = h.memory a)
    (h7 : ∀ x, Copying.Owned B h x → (h'.memory x).map Cell.body = (h.memory x).map Cell.body) :
    Copying.Prog B L O FT FP prog h' where
  inv := hP.inv.of_eq_bounds h1 h2 h3 h4 h5 h6
  part := by
    intro p hp
    obtain ⟨c0, hc0, hpart⟩ := hP.part p hp
    exact ⟨c0, hc0, hpart.congr_body (h7 _ (hP.inv.owned hB hp))⟩
  zero := by
    intro x hx
    refine hP.zero x (fun ho => hx ?_)
    unfold Copying.Owned at ho ⊢
    rw [h1, h4]
    exact ho

/-- The assignment of the relocated word to the field `i` of an object in progress. -/
theorem Copying.Prog.setField {B h : Heap} {L O : List Nat} {FT FP : List (Nat × Nat)}
    {prog : Nat → Nat} (hB : Copying.Base B L O) (hP : Copying.Prog B L O FT FP prog h)
    {x i : Nat} (hx : Copying.Owned B h x) {c : Cell} (hc : h.memory x = some c)
    {w w' : Object} (hw : c.body.fields[i]? = some w) (hprog : prog x = i)
    (hr : Relocated B (FT ++ FP) w w') :
    Copying.Prog B L O FT FP (Function.update prog x (i + 1))
      { h with memory := h.memory.set x { c with body := c.body.setField i w' } } where
  inv := by
    refine hP.inv.of_eq_bounds rfl rfl rfl rfl rfl (fun a ha => ?_)
    have hne : a ≠ x := fun he => Copying.Owned.notL hB hP.inv hx (he ▸ ha)
    exact Memory.set_other _ _ hne
  part := by
    intro p hp
    obtain ⟨c0, hc0, hpart⟩ := hP.part p hp
    refine ⟨c0, hc0, ?_⟩
    by_cases hpx : p.2 = x
    · rw [hpx, Function.update_same]
      rw [hpx, hprog] at hpart
      obtain ⟨c1, h1, h2, h3, h4, h5⟩ := hpart
      rw [hc] at h1
      cases h1
      have hlt : i < c.body.fields.length := by
        by_contra hge
        rw [List.getElem?_eq_none (by omega)] at hw
        cases hw
      refine ⟨_, Memory.set_same _ _ _, ?_, ?_, ?_, ?_⟩
      · show (c.body.setField i w').scalars = _
        rw [HeapObject.setField_scalars, h2]
      · show (c.body.setField i w').fields.length = _
        rw [HeapObject.setField_fields, List.length_set, h3]
      · intro j w0 hj hw0
        show ∃ w1, (c.body.setField i w').fields[j]? = some w1 ∧ _
        rw [HeapObject.setField_fields]
        by_cases hji : j = i
        · subst hji
          have e : c.body.fields[j]? = c0.body.fields[j]? := h5 j (Nat.le_refl _)
          rw [hw, hw0] at e
          cases e
          exact ⟨w', by simp [hlt], hr⟩
        · obtain ⟨w1, h6, h7⟩ := h4 j w0 (by omega) hw0
          refine ⟨w1, ?_, h7⟩
          rw [List.getElem?_set_ne (fun he => hji he.symm)]
          exact h6
      · intro j hj
        show (c.body.setField i w').fields[j]? = _
        rw [HeapObject.setField_fields, List.getElem?_set_ne (by omega)]
        exact h5 j (by omega)
    · rw [Function.update_noteq hpx]
      exact hpart.mono_heap (fun _ hq => hq) (Memory.set_other _ _ hpx)
  zero := by
    intro y hy
    have hne : y ≠ x := fun he => hy (he ▸ hx)
    rw [Function.update_noteq hne]
    exact hP.zero y hy

/-- The loop of `HeapObject::IterateBody` with a visitor that copies: the references
of the object, from the `i`-th on, are relocated. -/
theorem Copying.Prog.body {α : Type} {visit : Visitor α} {B : Heap} {L O : List Nat}
    (hv : ∀ w a h w' h', copyStep w h = .ok (w', h') → ∃ a', visit w a h = .ok (w', a', h'))
    (hB : Copying.Base B L O) (obj : Object) (p : Nat × Nat) (c0 : Cell)
    (hobj : ADDRESS obj = p.2) (hc0 : B.memory p.1 = some c0) :
    ∀ (n i : Nat) (a : α) (h : Heap) (FT FP : List (Nat × Nat)) (prog : Nat → Nat),
      Copying.Prog B L O FT FP prog h → p ∈ FT ++ FP ++ O.map (fun o => (o, o)) →
      prog p.2 = i → i + n = c0.body.fields.length →
      ∃ a' h' FT' FP', Heap.IterateBodyFrom visit obj n i a h = .ok (a', h') ∧
        Copying.Prog B L O FT' FP' (Function.update prog p.2 (i + n)) h' ∧
        FT <+: FT' ∧ FP <+: FP' ∧ h.Kept h' := by
  intro n
  induction n with
  | zero =>
    intro i a h FT FP prog hP hp hi _
    refine ⟨a, h, FT, FP, rfl, ?_, List.prefix_refl _, List.prefix_refl _, Heap.Kept.refl h⟩
    rw [Nat.add_zero, ← hi, Function.update_eq_self]
    exact hP
  | succ n ih =>
    intro i a h FT FP prog hP hp hi hn
    obtain ⟨c0', hc0', c, hc, hs, hl, h4, h5⟩ := hP.part p hp
    rw [hc0] at hc0'
    cases hc0'
    have hcell : h.cell obj = .ok c := by simp only [Heap.cell, hobj, hc]
    have hlt : i < c0.body.fields.length := by omega
    obtain ⟨w, hw0⟩ : ∃ w, c0.body.fields[i]? = some w :=
      ⟨_, List.getElem?_eq_getElem hlt⟩
    have hw : c.body.fields[i]? = some w := by rw [h5 i (by omega), hw0]
    have hgood : Good L O w :=
      hB.fields p.1 (hP.inv.src_mem hp) c0 hc0 w (List.mem_iff_getElem?.2 ⟨i, hw0⟩)
    obtain ⟨w', h1, FT1, FP1, hstep, hP1, hT1, hF1, hr, hk1⟩ := hP.step hB hgood
    obtain ⟨a1, hvisit⟩ := hv w a h w' h1 hstep
    have hp1 := Copying.pairs_mono hT1 hF1 hp
    obtain ⟨c0', hc0', c1, hc1, hs1, hl1, h41, h51⟩ := hP1.part p hp1
    rw [hc0] at hc0'
    cases hc0'
    have hcell1 : h1.cell obj = .ok c1 := by simp only [Heap.cell, hobj, hc1]
    have hw1 : c1.body.fields[i]? = some w := by rw [h51 i (by omega), hw0]
    have hP2 := hP1.setField hB (hP1.inv.owned hB hp1) hc1 hw1 hi hr
    obtain ⟨a', h', FT', FP', hrun, hP', hT', hF', hk'⟩ :=
      ih (i + 1) a1 _ FT1 FP1 _ hP2 hp1 (Function.update_same _ _ _) (by omega)
    refine ⟨a', h', FT', FP', ?_, ?_, hT1.trans hT', hF1.trans hF', ?_⟩
    · simp only [Heap.IterateBodyFrom, hcell, bind, Except.bind, hw, hvisit, hcell1, Heap.store,
        hobj]
      exact hrun
    · rw [Function.update_idem] at hP'
      have e : i + 1 + n = i + (n + 1) := by omega
      rw [e] at hP'
      exact hP'
    · refine hk1.trans (Heap.Kept.trans ?_ hk')
      exact ⟨rfl, rfl, rfl, rfl, rfl⟩

/-- The function `HeapObject::IterateBody` with a visitor that copies, on a raw
object: all its references are relocated. -/
theorem Copying.Prog.iterateBody {α : Type} {visit : Visitor α} {B h : Heap} {L O : List Nat}
    {FT FP : List (Nat × Nat)} {prog : Nat → Nat}
    (hv : ∀ w a h w' h', copyStep w h = .ok (w', h') → ∃ a', visit w a h = .ok (w', a', h'))
    (hB : Copying.Base B L O) (hP : Copying.Prog B L O FT FP prog h) {o : Object}
    {p : Nat × Nat} {c0 : Cell} (hobj : ADDRESS o = p.2) (hc0 : B.memory p.1 = some c0)
    (hp : p ∈ FT ++ FP ++ O.map (fun o => (o, o))) (h0 : prog p.2 = 0) (a : α) :
    ∃ a' h' FT' FP', Heap.IterateBody visit o a h = .ok (a', h') ∧
      Copying.Prog B L O FT' FP' (Function.update prog p.2 c0.body.fields.length) h' ∧
      FT <+: FT' ∧ FP <+: FP' ∧ h.Kept h' := by
  obtain ⟨c0', hc0', c, hc, hs, hl, h4, h5⟩ := hP.part p hp
  rw [hc0] at hc0'
  cases hc0'
  have hcell : h.cell o = .ok c := by simp only [Heap.cell, hobj, hc]
  obtain ⟨a', h', FT', FP', hrun, hP', hT', hF', hk'⟩ :=
    Copying.Prog.body hv hB o p c0 hobj hc0 c0.body.fields.length 0 a h FT FP prog hP hp h0
      (by omega)
  refine ⟨a', h', FT', FP', ?_, ?_, hT', hF', hk'⟩
  · simp only [Heap.IterateBody, hcell, bind, Except.bind, hl]
    exact hrun
  · rw [Nat.zero_add] at hP'
    exact hP'

theorem CopyObjectVisitor_copyStep (w : Object) (a : Unit) (h : Heap) (w' : Object) (h' : Heap)
    (hs : copyStep w h = .ok (w', h')) : ∃ a', CopyObjectVisitor w a h = .ok (w', a', h') := by
  unfold copyStep at hs
  unfold CopyObjectVisitor
  by_cases hn : h.IsInNewSpace w = true
  · rw [if_pos hn] at hs ⊢
    exact ⟨a, by simp only [hs, bind, Except.bind]; rfl⟩
  · rw [if_neg hn] at hs ⊢
    cases hs
    exact ⟨a, rfl⟩

theorem RSetChildrenCopyObjectVisitor_copyStep (w : Object) (a : Bool) (h : Heap) (w' : Object)
    (h' : Heap) (hs : copyStep w h = .ok (w', h')) :
    ∃ a', RSetChildrenCopyObjectVisitor w a h = .ok (w', a', h') := by
  unfold copyStep at hs
  unfold RSetChildrenCopyObjectVisitor
  by_cases hn : h.IsInNewSpace w = true
  · rw [if_pos hn] at hs ⊢
    simp only [hs, bind, Except.bind]
    by_cases ha : (!a) = true
    · rw [if_pos ha]; exact ⟨_, rfl⟩
    · rw [if_neg ha]; exact ⟨_, rfl⟩
  · rw [if_neg hn] at hs ⊢
    cases hs
    exact ⟨a, rfl⟩

theorem List.getLastD_cons_of_ne_nil {α : Type} (a d : α) {l : List α} (h : l ≠ []) :
    (a :: l).getLastD d = l.getLastD d := by
  cases l with
  | nil => exact absurd rfl h
  | cons b l => simp [List.getLastD]

theorem List.dropLast_append_getLastD {α : Type} (d : α) (l : List α) (h : l ≠ []) :
    l.dropLast ++ [l.getLastD d] = l := by
  induction l generalizing d with
  | nil => exact absurd rfl h
  | cons a l ih =>
    cases l with
    | nil => rfl
    | cons b l =>
      rw [List.getLastD_cons_of_ne_nil a d (by simp), List.dropLast_cons₂, List.cons_append,
        ih d (by simp)]

theorem List.swap_remove_perm {α : Type} (d : α) (l : List α) (i : Nat) (e : α)
    (h : l[i]? = some e) :
    ((l.set i (l.getLastD d)).dropLast.drop i).Perm (l.drop (i + 1)) := by
  induction l generalizing i with
  | nil => simp at h
  | cons a l ih =>
    cases i with
    | zero =>
      cases l with
      | nil => simp
      | cons b l =>
        rw [List.getLastD_cons_of_ne_nil a d (by simp)]
        simp only [List.set_cons_zero, List.dropLast_cons₂, List.drop_zero, List.drop_succ_cons]
        have e2 := List.dropLast_append_getLastD d (b :: l) (by simp)
        have e3 : ((b :: l).dropLast ++ [(b :: l).getLastD d]).Perm (b :: l) := by
          rw [e2]
        refine List.Perm.trans ?_ e3
        exact @List.perm_append_comm _ [(b :: l).getLastD d] (b :: l).dropLast
    | succ j =>
      have hl : l ≠ [] := by
        intro he
        subst he
        simp at h
      have hj : l[j]? = some e := by simpa using h
      rw [List.getLastD_cons_of_ne_nil a d hl]
      have hs : l.set j (l.getLastD d) ≠ [] := by
        intro he
        have := congrArg List.length he
        simp at this
        exact hl this
      simp only [List.set_cons_succ, List.drop_succ_cons]
      rw [List.dropLast_cons_of_ne_nil hs, List.drop_succ_cons]
      exact ih j hj

theorem List.set_self_of_getElem? {α : Type} (l : List α) (i : Nat) (e : α)
    (h : l[i]? = some e) : l.set i e = l := by
  induction l generalizing i with
  | nil => rfl
  | cons a l ih =>
    cases i with
    | zero => simp at h; simp [h]
    | succ j => simp at h; simp [ih j h]

theorem List.drop_of_getElem? {α : Type} (l : List α) (i : Nat) (e : α)
    (h : l[i]? = some e) : l.drop i = e :: l.drop (i + 1) := by
  induction l generalizing i with
  | nil => simp at h
  | cons a l ih =>
    cases i with
    | zero => simp at h; simp [h]
    | succ j => simp at h; simpa using ih j h

theorem Copying.append_subset {FT FP FT' FP' : List (Nat × Nat)} (hT : FT <+: FT')
    (hP : FP <+: FP') : FT ++ FP ⊆ FT' ++ FP' := by
  intro q hq
  rcases List.mem_append.1 hq with hq | hq
  · exact List.mem_append_left _ (hT.subset hq)
  · exact List.mem_append_right _ (hP.subset hq)

/-- A visit of a word by a visitor that copies. -/
theorem Copying.Prog.visit {α : Type} {visit : Visitor α} {B h : Heap} {L O : List Nat}
    {FT FP : List (Nat × Nat)} {prog : Nat → Nat}
    (hv : ∀ w a h w' h', copyStep w h = .ok (w', h') → ∃ a', visit w a h = .ok (w', a', h'))
    (hB : Copying.Base B L O) (hP : Copying.Prog B L O FT FP prog h) {w : Object}
    (hw : Good L O w) (a : α) :
    ∃ w' a' h' FT' FP', visit w a h = .ok (w', a', h') ∧ Copying.Prog B L O FT' FP' prog h' ∧
      FT <+: FT' ∧ FP <+: FP' ∧ Relocated B (FT' ++ FP') w w' ∧ h.Kept h' := by
  obtain ⟨w', h', FT', FP', h1, h2, h3, h4, h5, h6⟩ := hP.step hB hw
  obtain ⟨a', h7⟩ := hv w a h w' h' h1
  exact ⟨w', a', h', FT', FP', h7, h2, h3, h4, h5, h6⟩

/-- The visit of a list of words by a visitor that copies. -/
theorem Copying.Prog.visitList {α : Type} {visit : Visitor α} {B : Heap} {L O : List Nat}
    {prog : Nat → Nat}
    (hv : ∀ w a h w' h', copyStep w h = .ok (w', h') → ∃ a', visit w a h = .ok (w', a', h'))
    (hB : Copying.Base B L O) :
    ∀ (ws : List Object) (a : α) (h : Heap) (FT FP : List (Nat × Nat)),
      Copying.Prog B L O FT FP prog h → (∀ w ∈ ws, Good L O w) →
      ∃ ws' a' h' FT' FP', Heap.visitList visit ws a h = .ok (ws', a', h') ∧
        Copying.Prog B L O FT' FP' prog h' ∧ FT <+: FT' ∧ FP <+: FP' ∧
        List.Forall₂ (Relocated B (FT' ++ FP')) ws ws' ∧ h.Kept h' := by
  intro ws
  induction ws with
  | nil =>
    intro a h FT FP hP _
    exact ⟨[], a, h, FT, FP, rfl, hP, List.prefix_refl _, List.prefix_refl _, List.Forall₂.nil,
      Heap.Kept.refl h⟩
  | cons w ws ih =>
    intro a h FT FP hP hws
    obtain ⟨w', a1, h1, FT1, FP1, e1, hP1, hT1, hF1, hr1, hk1⟩ :=
      hP.visit hv hB (hws w (List.mem_cons_self _ _)) a
    obtain ⟨ws', a2, h2, FT2, FP2, e2, hP2, hT2, hF2, hr2, hk2⟩ :=
      ih a1 h1 FT1 FP1 hP1 (fun x hx => hws x (List.mem_cons_of_mem _ hx))
    refine ⟨w' :: ws', a2, h2, FT2, FP2, ?_, hP2, hT1.trans hT2, hF1.trans hF2,
      List.Forall₂.cons (hr1.mono_pairs (Copying.append_subset hT2 hF2)) hr2, hk1.trans hk2⟩
    simp only [Heap.visitList, e1, e2, bind, Except.bind]
    rfl

/-- The function `Heap::IterateRoots` with a visitor that copies: the root words are
relocated. -/
theorem Copying.Prog.roots {α : Type} {visit : Visitor α} {B h : Heap} {L O : List Nat}
    {FT FP : List (Nat × Nat)} {prog : Nat → Nat}
    (hv : ∀ w a h w' h', copyStep w h = .ok (w', h') → ∃ a', visit w a h = .ok (w', a', h'))
    (hB : Copying.Base B L O) (hP : Copying.Prog B L O FT FP prog h)
    (hg : ∀ w ∈ h.slots ++ [h.empty_array, h.empty_hash_table, h.empty_string], Good L O w)
    (a : α) :
    ∃ a' h' FT' FP', Heap.IterateRoots visit a h = .ok (a', h') ∧
      Copying.Prog B L O FT' FP' prog h' ∧ FT <+: FT' ∧ FP <+: FP' ∧
      List.Forall₂ (Relocated B (FT' ++ FP')) h.slots h'.slots ∧
      Relocated B (FT' ++ FP') h.empty_array h'.empty_array ∧
      Relocated B (FT' ++ FP') h.empty_hash_table h'.empty_hash_table ∧
      Relocated B (FT' ++ FP') h.empty_string h'.empty_string ∧
      h'.old_space.rset = h.old_space.rset := by
  obtain ⟨ws', a1, h1, FT1, FP1, e1, hP1, hT1, hF1, hr1, hk1⟩ :=
    Copying.Prog.visitList hv hB h.slots a h FT FP hP
      (fun w hw => hg w (List.mem_append_left _ hw))
  have hP1' : Copying.Prog B L O FT1 FP1 prog { h1 with slots := ws' } :=
    hP1.of_eq_bodies hB rfl rfl rfl rfl rfl (fun _ _ => rfl) (fun _ _ => rfl)
  obtain ⟨w2, a2, h2, FT2, FP2, e2, hP2, hT2, hF2, hr2, hk2⟩ :=
    hP1'.visit hv hB (w := h1.empty_array)
      (by rw [hk1.empty_array]; exact hg _ (by simp)) a1
  have hP2' : Copying.Prog B L O FT2 FP2 prog { h2 with empty_array := w2 } :=
    hP2.of_eq_bodies hB rfl rfl rfl rfl rfl (fun _ _ => rfl) (fun _ _ => rfl)
  obtain ⟨w3, a3, h3, FT3, FP3, e3, hP3, hT3, hF3, hr3, hk3⟩ :=
    hP2'.visit hv hB (w := h2.empty_hash_table)
      (by rw [hk2.empty_hash_table, hk1.empty_hash_table]; exact hg _ (by simp)) a2
  have hP3' : Copying.Prog B L O FT3 FP3 prog { h3 with empty_hash_table := w3 } :=
    hP3.of_eq_bodies hB rfl rfl rfl rfl rfl (fun _ _ => rfl) (fun _ _ => rfl)
  obtain ⟨w4, a4, h4, FT4, FP4, e4, hP4, hT4, hF4, hr4, hk4⟩ :=
    hP3'.visit hv hB (w := h3.empty_string)
      (by rw [hk3.empty_string, hk2.empty_string, hk1.empty_string]; exact hg _ (by simp)) a3
  have hP4' : Copying.Prog B L O FT4 FP4 prog { h4 with empty_string := w4 } :=
    hP4.of_eq_bodies hB rfl rfl rfl rfl rfl (fun _ _ => rfl) (fun _ _ => rfl)
  have s43 := Copying.append_subset hT4 hF4
  have s32 := Copying.append_subset hT3 hF3
  have s21 := Copying.append_subset hT2 hF2
  refine ⟨a4, { h4 with empty_string := w4 }, FT4, FP4, ?_, hP4',
    hT1.trans (hT2.trans (hT3.trans hT4)), hF1.trans (hF2.trans (hF3.trans hF4)), ?_, ?_, ?_, ?_,
    ?_⟩
  · simp only [Heap.IterateRoots, e1, bind, Except.bind, e2, e3, e4]
    rfl
  · show List.Forall₂ _ h.slots h4.slots
    have e : h4.slots = ws' := by
      rw [hk4.slots, hk3.slots, hk2.slots]
    rw [e]
    exact hr1.imp (fun _ _ hr => hr.mono_pairs (fun _ hq => s43 (s32 (s21 hq))))
  · show Relocated _ _ h.empty_array h4.empty_array
    have e : h4.empty_array = w2 := by
      rw [hk4.empty_array, hk3.empty_array]
    rw [e, ← hk1.empty_array]
    exact hr2.mono_pairs (fun _ hq => s43 (s32 hq))
  · show Relocated _ _ h.empty_hash_table h4.empty_hash_table
    have e : h4.empty_hash_table = w3 := by
      rw [hk4.empty_hash_table]
    rw [e, ← hk1.empty_hash_table, ← hk2.empty_hash_table]
    exact hr3.mono_pairs s43
  · show Relocated _ _ h.empty_string w4
    rw [← hk1.empty_string, ← hk2.empty_string, ← hk3.empty_string]
    exact hr4
  · show h4.old_space.rset = _
    rw [hk4.rset, hk3.rset, hk2.rset, hk1.rset]

/-- The loop of `IterateRSet` in a collection: every entry from the position `i` on is
visited once, and the references of the object it names are relocated. -/
theorem Copying.Prog.rsetFrom {B : Heap} {L O : List Nat} (hB : Copying.Base B L O) :
    ∀ (fuel i : Nat) (h : Heap) (FT FP : List (Nat × Nat)) (prog : Nat → Nat),
      Copying.Prog B L O FT FP prog h →
      (h.old_space.rset.drop i).Nodup →
      (∀ e ∈ h.old_space.rset.drop i,
        IsHeapObject e = true ∧ ADDRESS e ∈ O ∧ prog (ADDRESS e) = 0) →
      (h.old_space.rset.drop i).length + 1 ≤ fuel →
      ∃ h' FT' FP' prog', IterateRSetFrom RSetCopyObjectVisitor fuel i h = .ok h' ∧
        Copying.Prog B L O FT' FP' prog' h' ∧ FT <+: FT' ∧ FP <+: FP' ∧
        h'.slots = h.slots ∧ h'.empty_array = h.empty_array ∧
        h'.empty_hash_table = h.empty_hash_table ∧ h'.empty_string = h.empty_string ∧
        (∀ x, x ∉ (h.old_space.rset.drop i).map ADDRESS → prog' x = prog x) ∧
        (∀ e ∈ h.old_space.rset.drop i, prog' (ADDRESS e) = B.fieldsAt (ADDRESS e)) := by
  intro fuel
  induction fuel with
  | zero =>
    intro i h FT FP prog _ _ _ hf
    omega
  | succ fuel ih =>
    intro i h FT FP prog hP hnd hpend hf
    cases hget : h.old_space.rset[i]? with
    | none =>
      have hnil : h.old_space.rset.drop i = [] :=
        List.drop_eq_nil_of_le (List.getElem?_eq_none_iff.1 hget)
      refine ⟨h, FT, FP, prog, ?_, hP, List.prefix_refl _, List.prefix_refl _, rfl, rfl, rfl, rfl,
        fun _ _ => rfl, ?_⟩
      · simp only [IterateRSetFrom, hget]
        rfl
      · rw [hnil]
        intro e he
        cases he
    | some e =>
      have hd := List.drop_of_getElem? _ _ _ hget
      rw [hd] at hnd hpend hf
      have he := hpend e (List.mem_cons_self _ _)
      have hp : (ADDRESS e, ADDRESS e) ∈ FT ++ FP ++ O.map (fun o => (o, o)) :=
        List.mem_append_right _ (List.mem_map.2 ⟨ADDRESS e, he.2.1, rfl⟩)
      obtain ⟨c0, hc0⟩ := hB.cellsO _ he.2.1
      obtain ⟨r, h1, FT1, FP1, hrun, hP1, hT1, hF1, hk1⟩ :=
        Copying.Prog.iterateBody RSetChildrenCopyObjectVisitor_copyStep hB hP
          (o := e) (p := (ADDRESS e, ADDRESS e)) rfl hc0 hp he.2.2 true
      have hset : h1.old_space.rset.set i e = h.old_space.rset := by
        rw [hk1.rset]
        exact List.set_self_of_getElem? _ _ _ hget
      have hlen : B.fieldsAt (ADDRESS e) = c0.body.fields.length := by
        simp only [Heap.fieldsAt, hc0]
      -- what follows the visit of the entry
      have key : ∀ (hs : Heap) (j : Nat),
          Copying.Prog B L O FT1 FP1
            (Function.update prog (ADDRESS e) c0.body.fields.length) hs →
          (hs.old_space.rset.drop j).Perm (h.old_space.rset.drop (i + 1)) →
          hs.slots = h.slots → hs.empty_array = h.empty_array →
          hs.empty_hash_table = h.empty_hash_table → hs.empty_string = h.empty_string →
          ∃ h' FT' FP' prog', IterateRSetFrom RSetCopyObjectVisitor fuel j hs = .ok h' ∧
            Copying.Prog B L O FT' FP' prog' h' ∧ FT <+: FT' ∧ FP <+: FP' ∧
            h'.slots = h.slots ∧ h'.empty_array = h.empty_array ∧
            h'.empty_hash_table = h.empty_hash_table ∧ h'.empty_string = h.empty_string ∧
            (∀ x, x ∉ (e :: h.old_space.rset.drop (i + 1)).map ADDRESS → prog' x = prog x) ∧
            (∀ e' ∈ e :: h.old_space.rset.drop (i + 1),
              prog' (ADDRESS e') = B.fieldsAt (ADDRESS e')) := by
        intro hs j hPs hperm e1 e2 e3 e4
        have hne : ∀ e' ∈ h.old_space.rset.drop (i + 1), ADDRESS e' ≠ ADDRESS e := by
          intro e' he' heq
          have h1 := IsHeapObject_eq_Make (hpend e' (List.mem_cons_of_mem _ he')).1
          have h2 := IsHeapObject_eq_Make he.1
          rw [heq, ← h2] at h1
          exact (List.nodup_cons.1 hnd).1 (h1 ▸ he')
        obtain ⟨h', FT', FP', prog', hrun', hP', hT', hF', f1, f2, f3, f4, f5, f6⟩ :=
          ih j hs FT1 FP1 _ hPs (hperm.nodup_iff.2 (List.nodup_cons.1 hnd).2)
            (fun e' he' => by
              have hm := hperm.subset he'
              have hq := hpend e' (List.mem_cons_of_mem _ hm)
              refine ⟨hq.1, hq.2.1, ?_⟩
              rw [Function.update_noteq (hne e' hm)]
              exact hq.2.2)
            (by
              have := hperm.length_eq
              simp only [List.length_cons] at hf
              omega)
        refine ⟨h', FT', FP', prog', hrun', hP', hT1.trans hT', hF1.trans hF', f1.trans e1,
          f2.trans e2, f3.trans e3, f4.trans e4, ?_, ?_⟩
        · intro x hx
          simp only [List.map_cons, List.mem_cons, not_or] at hx
          have hx' : x ∉ (hs.old_space.rset.drop j).map ADDRESS := by
            intro hm
            obtain ⟨e', he', rfl⟩ := List.mem_map.1 hm
            exact hx.2 (List.mem_map.2 ⟨e', hperm.subset he', rfl⟩)
          rw [f5 x hx', Function.update_noteq hx.1]
        · intro e' he'
          rcases List.mem_cons.1 he' with rfl | he'
          · have hx' : ADDRESS e' ∉ (hs.old_space.rset.drop j).map ADDRESS := by
              intro hm
              obtain ⟨e2, he2, heq⟩ := List.mem_map.1 hm
              exact hne e2 (hperm.subset he2) heq
            rw [f5 _ hx', Function.update_same, hlen]
          · exact f6 e' (hperm.symm.subset he')
      have hvisit : RSetCopyObjectVisitor e h = .ok (e, r, h1) := by
        simp only [RSetCopyObjectVisitor, hrun, bind, Except.bind]
        rfl
      rw [hd]
      cases r with
      | false =>
        obtain ⟨h', FT', FP', prog', hrun', rest⟩ :=
          key { h1 with old_space := { h1.old_space with rset := h1.old_space.rset.set i e } }
            (i + 1)
            (hP1.of_eq_bodies hB rfl rfl rfl rfl rfl (fun _ _ => rfl) (fun _ _ => rfl))
            (by
              show ((h1.old_space.rset.set i e).drop (i + 1)).Perm _
              rw [hset])
            hk1.slots hk1.empty_array hk1.empty_hash_table hk1.empty_string
        refine ⟨h', FT', FP', prog', ?_, rest⟩
        simp only [IterateRSetFrom, hget, hvisit, bind, Except.bind, Bool.false_eq_true, if_false]
        exact hrun'
      | true =>
        obtain ⟨c0', hc0', c1, hc1, _⟩ := hP1.part _ (Copying.pairs_mono hT1 hF1 hp)
        have hown := hP1.inv.owned hB (Copying.pairs_mono hT1 hF1 hp)
        obtain ⟨h', FT', FP', prog', hrun', rest⟩ :=
          key { h1 with
                old_space := { h1.old_space with
                  rset := ((h1.old_space.rset.set i e).set i
                    ((h1.old_space.rset.set i e).getLastD nullptr)).dropLast }
                memory := h1.memory.set (ADDRESS e)
                  { c1 with metadata := c1.metadata.ResetRemembered } }
            i
            (hP1.of_eq_bodies hB rfl rfl rfl rfl rfl
              (fun a ha => Memory.set_other _ _
                (fun heq => Copying.Owned.notL hB hP1.inv hown (heq ▸ ha)))
              (fun x _ => by
                by_cases hx : x = ADDRESS e
                · subst hx
                  show Option.map Cell.body (Memory.set _ _ _ _) = _
                  rw [Memory.set_same, hc1]
                  rfl
                · show Option.map Cell.body (Memory.set _ _ _ _) = _
                  rw [Memory.set_other _ _ hx]))
            (by
              show (((h1.old_space.rset.set i e).set i
                ((h1.old_space.rset.set i e).getLastD nullptr)).dropLast.drop i).Perm _
              rw [hset]
              exact List.swap_remove_perm nullptr _ i e hget)
            hk1.slots hk1.empty_array hk1.empty_hash_table hk1.empty_string
        refine ⟨h', FT', FP', prog', ?_, rest⟩
        have hcell : Heap.cell
            { h1 with old_space := { h1.old_space with rset := h1.old_space.rset.set i e } } e =
            .ok c1 := by
          simp only [Heap.cell]
          show (match h1.memory (ADDRESS e) with
            | some c => Except.ok c
            | none => Except.error (KError.Fault Error.BadCast)) = _
          rw [hc1]
        simp only [IterateRSetFrom, hget, hvisit, bind, Except.bind, if_true, Heap.metadata,
          Heap.set_metadata, hcell, pure, Except.pure, Heap.store]
        exact hrun'

/-- The function `IterateRSet` in a collection. -/
theorem Copying.Prog.rset {B h : Heap} {L O : List Nat} {FT FP : List (Nat × Nat)}
    {prog : Nat → Nat} (hB : Copying.Base B L O) (hP : Copying.Prog B L O FT FP prog h)
    (hnd : h.old_space.rset.Nodup)
    (hpend : ∀ e ∈ h.old_space.rset,
      IsHeapObject e = true ∧ ADDRESS e ∈ O ∧ prog (ADDRESS e) = 0) :
    ∃ h' FT' FP' prog', IterateRSet RSetCopyObjectVisitor h = .ok h' ∧
      Copying.Prog B L O FT' FP' prog' h' ∧ FT <+: FT' ∧ FP <+: FP' ∧
      h'.slots = h.slots ∧ h'.empty_array = h.empty_array ∧
      h'.empty_hash_table = h.empty_hash_table ∧ h'.empty_string = h.empty_string ∧
      (∀ x, x ∉ h.old_space.rset.map ADDRESS → prog' x = prog x) ∧
      (∀ e ∈ h.old_space.rset, prog' (ADDRESS e) = B.fieldsAt (ADDRESS e)) := by
  have := Copying.Prog.rsetFrom hB (h.old_space.rset.length + 1) 0 h FT FP prog hP
    (by rw [List.drop_zero]; exact hnd) (by rw [List.drop_zero]; exact hpend)
    (by rw [List.drop_zero])
  rw [List.drop_zero] at this
  exact this

theorem Heap.Rooted.refl_roots (h : Heap) : h.Rooted h := ⟨rfl, rfl, rfl, rfl⟩

theorem Heap.Rooted.trans_roots {h1 h2 h3 : Heap} (a : h1.Rooted h2) (b : h2.Rooted h3) :
    h1.Rooted h3 :=
  ⟨b.slots.trans a.slots, b.empty_array.trans a.empty_array,
    b.empty_hash_table.trans a.empty_hash_table, b.empty_string.trans a.empty_string⟩

theorem Heap.Kept.rooted {h h' : Heap} (a : h.Kept h') : h.Rooted h' :=
  ⟨a.slots, a.empty_array, a.empty_hash_table, a.empty_string⟩

theorem Chain.inj {size : Nat → Nat} {F : List (Nat × Nat)} {lo hi : Nat}
    (h : Chain size F lo hi) (hs : ∀ p ∈ F, 0 < size p.1) {p q : Nat × Nat} (hp : p ∈ F)
    (hq : q ∈ F) (e : p.2 = q.2) : p = q := by
  induction F generalizing lo with
  | nil => cases hp
  | cons r rest ih =>
    have hr := hs r (List.mem_cons_self _ _)
    rcases List.mem_cons.1 hp with hp1 | hp1 <;> rcases List.mem_cons.1 hq with hq1 | hq1
    · rw [hp1, hq1]
    · have := Chain.mem h.2 hq1
      have := h.1
      rw [hp1] at e
      omega
    · have := Chain.mem h.2 hp1
      have := h.1
      rw [hq1] at e
      omega
    · exact ih h.2 (fun x hx => hs x (List.mem_cons_of_mem _ hx)) hp1 hq1

theorem Chain.unique {size : Nat → Nat} {F : List (Nat × Nat)} {lo hi hi' : Nat}
    (h : Chain size F lo hi) (h' : Chain size F lo hi') : hi = hi' := by
  rw [Chain.sum h, Chain.sum h']

theorem Copying.Inv.dest_inj {B h : Heap} {L O : List Nat} {FT FP : List (Nat × Nat)}
    (hB : Copying.Base B L O) (hI : Copying.Inv B L FT FP h) {p q : Nat × Nat}
    (hp : p ∈ FT ++ FP ++ O.map (fun o => (o, o)))
    (hq : q ∈ FT ++ FP ++ O.map (fun o => (o, o))) (e : p.2 = q.2) : p.1 = q.1 := by
  have hcls : ∀ r ∈ FT ++ FP ++ O.map (fun o => (o, o)),
      (r ∈ FT ∧ B.new_space.to_space ≤ r.2 ∧
        r.2 < B.new_space.to_space + B.new_space.semispace_size) ∨
      (r ∈ FP ∧ B.old_space.free ≤ r.2) ∨
      (r.1 = r.2 ∧ B.old_space.start ≤ r.2 ∧ r.2 < B.old_space.free) := by
    intro r hr
    rcases List.mem_append.1 hr with hr | hr
    · rcases List.mem_append.1 hr with hr | hr
      · have := hI.boundsT hB hr
        have := hI.free_hi hB
        exact Or.inl ⟨hr, by omega, by omega⟩
      · exact Or.inr (Or.inl ⟨hr, (hI.boundsP hB hr).1⟩)
    · obtain ⟨o, ho, rfl⟩ := List.mem_map.1 hr
      exact Or.inr (Or.inr ⟨rfl, hB.rangeO o ho⟩)
  have h1 := hB.to_hi
  have h2 := hB.spaces
  have h3 := hB.old_lo
  have hsz : ∀ r ∈ FT ++ FP, 0 < B.sizeAt r.1 := by
    intro r hr
    have := hB.size_pos (hI.sub r hr)
    omega
  rcases hcls p hp with ⟨a1, a2, a3⟩ | ⟨a1, a2⟩ | ⟨a1, a2, a3⟩ <;>
    rcases hcls q hq with ⟨b1, b2, b3⟩ | ⟨b1, b2⟩ | ⟨b1, b2, b3⟩
  · rw [Chain.inj hI.chainT (fun r hr => hsz r (List.mem_append_left _ hr)) a1 b1 e]
  · omega
  · omega
  · omega
  · rw [Chain.inj hI.chainP (fun r hr => hsz r (List.mem_append_right _ hr)) a1 b1 e]
  · omega
  · omega
  · omega
  · omega

theorem Copying.Inv.src_inj {B h : Heap} {L : List Nat} {FT FP : List (Nat × Nat)}
    (hI : Copying.Inv B L FT FP h) {p q : Nat × Nat} (hp : p ∈ FT ++ FP) (hq : q ∈ FT ++ FP)
    (e : p.1 = q.1) : p = q :=
  List.inj_on_of_nodup_map hI.nodup hp hq e

theorem Copying.Inv.fresh {B h h' : Heap} {L O : List Nat} {FT FP FT' FP' : List (Nat × Nat)}
    (hB : Copying.Base B L O) (hI : Copying.Inv B L FT FP h)
    (hI' : Copying.Inv B L FT' FP' h') (hT : FT <+: FT') (hP : FP <+: FP') {q : Nat × Nat}
    (hq : q ∈ FT' ++ FP') (hn : q ∉ FT ++ FP) : ¬ Copying.Owned B h q.2 := by
  obtain ⟨nt, rfl⟩ := hT
  obtain ⟨np, rfl⟩ := hP
  have h1 := hB.to_hi
  have h2 := hB.spaces
  have h3 := hB.old_lo
  have h4 := hI'.free_hi hB
  have h5 := hI.free_lo
  have h6 := hI.free_hi hB
  have hsz := hB.size_pos (hI'.sub q hq)
  intro ho
  simp only [List.mem_append, not_or] at hn
  rcases List.mem_append.1 hq with hq | hq
  · rcases List.mem_append.1 hq with hq | hq
    · exact hn.1 hq
    · obtain ⟨mid, c1, c2⟩ := Chain.split hI'.chainT
      have := Chain.unique c1 hI.chainT
      subst this
      have := Chain.mem c2 hq
      rcases ho with ho | ho <;> omega
  · rcases List.mem_append.1 hq with hq | hq
    · exact hn.2 hq
    · obtain ⟨mid, c1, c2⟩ := Chain.split hI'.chainP
      have := Chain.unique c1 hI.chainP
      subst this
      have := Chain.mem c2 hq
      rcases ho with ho | ho <;> omega

/-- A raw copy whose references have been relocated joins the copies that are
done. -/
theorem Copying.Scan.advance {B h h1 : Heap} {L O : List Nat}
    {FT FP D FT1 FP1 : List (Nat × Nat)} {prog : Nat → Nat} (hB : Copying.Base B L O)
    (hS : Copying.Scan B L O FT FP D prog h) {p : Nat × Nat} (hp : p ∈ FT ++ FP) {c0 : Cell}
    (hc0 : B.memory p.1 = some c0)
    (hP1 : Copying.Prog B L O FT1 FP1 (Function.update prog p.2 c0.body.fields.length) h1)
    (hT : FT <+: FT1) (hF : FP <+: FP1) :
    Copying.Scan B L O FT1 FP1 (p :: D) (Function.update prog p.2 c0.body.fields.length) h1 where
  state := hP1
  sub := by
    intro q hq
    rcases List.mem_cons.1 hq with rfl | hq
    · exact Copying.append_subset hT hF hp
    · exact Copying.append_subset hT hF (hS.sub hq)
  done := by
    have hlen : B.fieldsAt p.1 = c0.body.fields.length := by simp only [Heap.fieldsAt, hc0]
    intro q hq
    by_cases e : q.2 = p.2
    · have hq' : q ∈ FT ++ FP ++ O.map (fun o => (o, o)) := by
        rcases List.mem_append.1 hq with hq | hq
        · rcases List.mem_cons.1 hq with rfl | hq
          · exact List.mem_append_left _ hp
          · exact List.mem_append_left _ (hS.sub hq)
        · exact List.mem_append_right _ hq
      have := hS.state.inv.dest_inj hB hq' (List.mem_append_left _ hp) e
      rw [e, Function.update_same, this, hlen]
    · rw [Function.update_noteq e]
      rcases List.mem_append.1 hq with hq | hq
      · rcases List.mem_cons.1 hq with rfl | hq
        · exact absurd rfl e
        · exact hS.done q (List.mem_append_left _ hq)
      · exact hS.done q (List.mem_append_right _ hq)
  raw := by
    intro q hq hqD
    simp only [List.mem_cons, not_or] at hqD
    by_cases hold : q ∈ FT ++ FP
    · have e : q.2 ≠ p.2 := by
        intro e
        have := hS.state.inv.dest_inj hB (List.mem_append_left _ hold)
          (List.mem_append_left _ hp) e
        exact hqD.1 (hS.state.inv.src_inj hold hp this)
      rw [Function.update_noteq e]
      exact hS.raw q hold hqD.2
    · have hfr := hS.state.inv.fresh hB hP1.inv hT hF hq hold
      have e : q.2 ≠ p.2 := by
        intro e
        exact hfr (e ▸ hS.state.inv.owned hB (List.mem_append_left _ hp))
      rw [Function.update_noteq e]
      exact hS.state.zero _ hfr

theorem Copying.Scan.congr {B h : Heap} {L O : List Nat} {FT FP D E : List (Nat × Nat)}
    {prog : Nat → Nat} (hS : Copying.Scan B L O FT FP D prog h) (hD : ∀ q, q ∈ E ↔ q ∈ D) :
    Copying.Scan B L O FT FP E prog h where
  state := hS.state
  sub := fun q hq => hS.sub ((hD q).1 hq)
  done := by
    intro q hq
    refine hS.done q ?_
    rcases List.mem_append.1 hq with hq | hq
    · exact List.mem_append_left _ ((hD q).1 hq)
    · exact List.mem_append_right _ hq
  raw := fun q hq hqD => hS.raw q hq (fun hm => hqD ((hD q).2 hm))

theorem Copying.Inv.pending_notin {B h : Heap} {L : List Nat}
    {FTd FTp FPd FPp : List (Nat × Nat)}
    (hI : Copying.Inv B L (FTd ++ FTp) (FPd ++ FPp) h) {p : Nat × Nat}
    (hp : p ∈ FTp ++ FPp) : p ∉ FTd ++ FPd := by
  have hnd : ((FTd ++ FTp) ++ (FPd ++ FPp)).Nodup := hI.nodup.of_map
  have hperm : ((FTd ++ FTp) ++ (FPd ++ FPp)).Perm ((FTd ++ FPd) ++ (FTp ++ FPp)) := by
    simp only [List.append_assoc]
    exact List.Perm.append_left FTd (List.perm_append_comm_assoc FTp FPd FPp)
  have hnd' := hperm.nodup_iff.1 hnd
  intro hd
  exact (List.nodup_append.1 hnd').2.2 hd hp

theorem Copying.sum_ge {f : Nat → Nat} (F : List (Nat × Nat))
    (hs : ∀ p ∈ F, 16 ≤ f p.1) : 16 * F.length ≤ (F.map (fun p => f p.1)).sum := by
  induction F with
  | nil => simp
  | cons p rest ih =>
    have h1 := hs p (List.mem_cons_self _ _)
    have h2 := ih (fun q hq => hs q (List.mem_cons_of_mem _ hq))
    simp only [List.length_cons, List.map_cons, List.sum_cons]
    omega

/-- The copies of the to-space and the promoted entries at its top do not meet. -/
theorem Copying.Inv.top {B h : Heap} {L O : List Nat} {FT FP : List (Nat × Nat)}
    (hB : Copying.Base B L O) (hI : Copying.Inv B L FT FP h) :
    h.new_space.free + kPointerSize * h.promoted.length ≤ h.new_space.ToSpaceHigh := by
  have h1 := Chain.sum hI.chainT
  have h2 := List.sum_map_le_of_nodup_subset B.sizeAt hI.nodup hI.subL
  have h3 := hB.sumL
  simp only [List.map_append, List.map_map, List.sum_append] at h2
  have h4 : (FT.map (fun p => B.sizeAt p.1)).sum = (List.map (B.sizeAt ∘ Prod.fst) FT).sum := rfl
  have h5 : (FP.map (fun p => B.sizeAt p.1)).sum = (List.map (B.sizeAt ∘ Prod.fst) FP).sum := rfl
  have h6 := Copying.sum_ge (f := B.sizeAt) FP
    (fun p hp => hB.size_pos (hI.sub p (List.mem_append_right _ hp)))
  have h7 : h.promoted.length = FP.length := by rw [hI.promoted, List.length_map]
  simp only [NewSpace.ToSpaceHigh, hI.ns_to, hI.ns_semi, kPointerSize, h7]
  omega

/-- The loop `while (scan != free)` of the collection: the copies of the to-space are
scanned one after the other, those it adds included. -/
theorem Copying.Scan.scanLoop {B : Heap} {L O : List Nat} (hB : Copying.Base B L O) :
    ∀ (fuel scan : Nat) (h : Heap) (FTd FTp FPd FPp : List (Nat × Nat)) (prog : Nat → Nat),
      Copying.Scan B L O (FTd ++ FTp) (FPd ++ FPp) (FTd ++ FPd) prog h →
      Chain B.sizeAt FTd B.new_space.to_space scan →
      L.length - (FTd.length + FPd.length) + 1 ≤ fuel →
      ∃ h' FTd' FPp' prog', CopyingCollector.scanLoop fuel scan h = .ok (h'.new_space.free, h') ∧
        Copying.Scan B L O FTd' (FPd ++ FPp') (FTd' ++ FPd) prog' h' ∧
        FTd ++ FTp <+: FTd' ∧ FPp <+: FPp' ∧ h.Rooted h' := by
  intro fuel
  induction fuel with
  | zero =>
    intro scan h FTd FTp FPd FPp prog _ _ hf
    omega
  | succ fuel ih =>
    intro scan h FTd FTp FPd FPp prog hS hd hf
    have hI := hS.state.inv
    obtain ⟨mid, c1, c2⟩ := Chain.split hI.chainT
    have := Chain.unique c1 hd
    subst this
    cases FTp with
    | nil =>
      have hfree : mid = h.new_space.free := c2
      refine ⟨h, FTd, FPp, prog, ?_, ?_, ?_, List.prefix_refl _, Heap.Rooted.refl_roots h⟩
      · rw [CopyingCollector.scanLoop, if_neg (by rw [hfree]; exact fun hne => hne rfl), hfree]
        rfl
      · rw [List.append_nil] at hS
        exact hS
      · rw [List.append_nil]
    | cons p rest =>
      have hpT : p ∈ FTd ++ p :: rest := List.mem_append_right _ (List.mem_cons_self _ _)
      have hp : p ∈ (FTd ++ p :: rest) ++ (FPd ++ FPp) := List.mem_append_left _ hpT
      have hpp : p ∈ (FTd ++ p :: rest) ++ (FPd ++ FPp) ++ O.map (fun o => (o, o)) :=
        List.mem_append_left _ hp
      have hb := hI.boundsT hB hpT
      have hhi := hI.free_hi hB
      have hne : mid ≠ h.new_space.free := by
        have := c2.1
        omega
      have hraw : prog p.2 = 0 :=
        hS.raw p hp (hI.pending_notin (List.mem_append_left _ (List.mem_cons_self _ _)))
      obtain ⟨c0, hc0, _⟩ := hB.cellsL _ (hI.sub p hp)
      have haddr : ADDRESS (HeapObject_Make mid) = p.2 := by
        rw [c2.1]
        refine ADDRESS_Make _ ?_
        have := c2.1
        have := hB.to_hi
        have := hB.spaces
        have := hB.old_end
        omega
      obtain ⟨a', h1, FT1, FP1, hrun, hP1, hT1, hF1, hk1⟩ :=
        Copying.Prog.iterateBody CopyObjectVisitor_copyStep hB hS.state haddr hc0 hpp hraw ()
      have hS1 := hS.advance hB hp hc0 hP1 hT1 hF1
      obtain ⟨nt, rfl⟩ := hT1
      obtain ⟨np, rfl⟩ := hF1
      have eT : FTd ++ p :: rest ++ nt = (FTd ++ [p]) ++ (rest ++ nt) := by
        simp
      have eP : FPd ++ FPp ++ np = FPd ++ (FPp ++ np) := List.append_assoc _ _ _
      rw [eT, eP] at hS1 hP1
      have hS2 := hS1.congr (E := (FTd ++ [p]) ++ FPd)
        (fun q => Copying.mem_middle.trans List.mem_cons.symm)
      obtain ⟨c0', hc0', c1', hc1', hs1, _⟩ := hP1.part p
        (List.mem_append_left _ (List.mem_append_left _ (List.mem_append_left _
          (List.mem_append_right _ (List.mem_singleton_self p)))))
      rw [hc0] at hc0'
      cases hc0'
      have hcell1 : h1.cell (HeapObject_Make mid) = .ok c1' := by
        simp only [Heap.cell, haddr, hc1']
      have hsize : c1'.body.Size = B.sizeAt p.1 := by
        rw [Heap.sizeAt_of_cell hc0, HeapObject.Size_of_scalars hs1]
      have hd' : Chain B.sizeAt (FTd ++ [p]) B.new_space.to_space (mid + B.sizeAt p.1) := by
        have := Chain.append p.1 hd
        have e : (p.1, mid) = p := Prod.ext rfl c2.1.symm
        rw [e] at this
        exact this
      have hlen := hI.length_le
      simp only [List.length_append, List.length_cons] at hlen
      obtain ⟨h', FTd', FPp', prog', hrun', hS', hT', hF', hr'⟩ :=
        ih (mid + B.sizeAt p.1) h1 (FTd ++ [p]) (rest ++ nt) FPd (FPp ++ np) _ hS2 hd' (by
          simp only [List.length_append, List.length_cons, List.length_nil]
          omega)
      refine ⟨h', FTd', FPp', prog', ?_, hS', ?_, (List.prefix_append _ _).trans hF',
        hk1.rooted.trans_roots hr'⟩
      · rw [CopyingCollector.scanLoop, if_pos hne]
        simp only [hrun, bind, Except.bind, hcell1, hsize]
        exact hrun'
      · have hpre : FTd ++ p :: rest <+: (FTd ++ [p]) ++ (rest ++ nt) := by
          rw [← eT]
          exact List.prefix_append _ _
        exact hpre.trans hT'

theorem Copying.Scan.of_eq {B h h' : Heap} {L O : List Nat} {FT FP D : List (Nat × Nat)}
    {prog : Nat → Nat} (hB : Copying.Base B L O) (hS : Copying.Scan B L O FT FP D prog h)
    (h1 : h'.new_space = h.new_space)
    (h2 : h'.old_space.start = h.old_space.start) (h3 : h'.old_space.size = h.old_space.size)
    (h4 : h'.old_space.free = h.old_space.free) (h5 : h'.promoted = h.promoted)
    (h6 : ∀ a ∈ L, h'.memory a = h.memory a)
    (h7 : ∀ x, Copying.Owned B h x → (h'.memory x).map Cell.body = (h.memory x).map Cell.body) :
    Copying.Scan B L O FT FP D prog h' :=
  ⟨hS.state.of_eq_bodies hB h1 h2 h3 h4 h5 h6 h7, hS.sub, hS.done, hS.raw⟩

/-- The function `CopyingCollector::WriteBarrier` on a promoted copy: the flag of the
copy and the remembered set change at most. -/
theorem Copying.Scan.writeBarrier {B h : Heap} {L O : List Nat} {FT FP D : List (Nat × Nat)}
    {prog : Nat → Nat} (hB : Copying.Base B L O) (hS : Copying.Scan B L O FT FP D prog h)
    {obj : Object} {c : Cell} (hc : h.memory (ADDRESS obj) = some c)
    (ho : Copying.Owned B h (ADDRESS obj)) :
    ∃ h', CopyingCollector.WriteBarrier h obj = .ok h' ∧ Copying.Scan B L O FT FP D prog h' ∧
      h.Rooted h' := by
  have hcell : h.cell obj = .ok c := by simp only [Heap.cell, hc]
  have hcell' : Heap.cell
      { h with old_space := { h.old_space with rset := h.old_space.rset ++ [obj] } } obj =
      .ok c := by
    simp only [Heap.cell]
    show (match h.memory (ADDRESS obj) with
      | some c => Except.ok c
      | none => Except.error (KError.Fault Error.BadCast)) = _
    rw [hc]
  simp only [CopyingCollector.WriteBarrier, Heap.RememberObject, Heap.metadata,
    Heap.set_metadata, hcell, hcell', bind, Except.bind, pure, Except.pure, Heap.store]
  split
  · split
    · exact ⟨h, rfl, hS, Heap.Rooted.refl_roots h⟩
    · refine ⟨_, rfl, hS.of_eq hB rfl rfl rfl rfl rfl ?_ ?_, ⟨rfl, rfl, rfl, rfl⟩⟩
      · intro a ha
        exact Memory.set_other _ _ (fun heq => Copying.Owned.notL hB hS.state.inv ho (heq ▸ ha))
      · intro x _
        by_cases hx : x = ADDRESS obj
        · subst hx
          show Option.map Cell.body (Memory.set _ _ _ _) = _
          rw [Memory.set_same, hc]
          rfl
        · show Option.map Cell.body (Memory.set _ _ _ _) = _
          rw [Memory.set_other _ _ hx]
  · exact ⟨h, rfl, hS, Heap.Rooted.refl_roots h⟩

/-- The loop over the promoted entries: their references are relocated, those of the
entries it adds included. -/
theorem Copying.Scan.promotedLoop {B : Heap} {L O : List Nat} (hB : Copying.Base B L O) :
    ∀ (fuel : Nat) (h : Heap) (FTd FTp FPd : List (Nat × Nat)) (p : Nat × Nat)
      (rest : List (Nat × Nat)) (prog : Nat → Nat),
      Copying.Scan B L O (FTd ++ FTp) (FPd ++ p :: rest) (FTd ++ FPd) prog h →
      L.length - (FTd.length + FPd.length) ≤ fuel →
      ∃ h' FTp' FPd' prog',
        CopyingCollector.promotedLoop fuel FPd.length h = .ok (FPd'.length, h') ∧
        Copying.Scan B L O (FTd ++ FTp') FPd' (FTd ++ FPd') prog' h' ∧
        FTp <+: FTp' ∧ FPd ++ p :: rest <+: FPd' ∧ h.Rooted h' := by
  intro fuel
  induction fuel with
  | zero =>
    intro h FTd FTp FPd p rest prog hS hf
    have hlen := hS.state.inv.length_le
    simp only [List.length_append, List.length_cons] at hlen
    omega
  | succ fuel ih =>
    intro h FTd FTp FPd p rest prog hS hf
    have hI := hS.state.inv
    have hpP : p ∈ FPd ++ p :: rest := List.mem_append_right _ (List.mem_cons_self _ _)
    have hp : p ∈ (FTd ++ FTp) ++ (FPd ++ p :: rest) := List.mem_append_right _ hpP
    have hpp : p ∈ (FTd ++ FTp) ++ (FPd ++ p :: rest) ++ O.map (fun o => (o, o)) :=
      List.mem_append_left _ hp
    have hb := hI.boundsP hB hpP
    have hget : h.promoted[FPd.length]? = some (HeapObject_Make p.2) := by
      rw [hI.promoted, List.map_append, List.map_cons,
        List.getElem?_append_right (by rw [List.length_map])]
      simp
    have hraw : prog p.2 = 0 :=
      hS.raw p hp (hI.pending_notin (List.mem_append_right _ (List.mem_cons_self _ _)))
    obtain ⟨c0, hc0, _⟩ := hB.cellsL _ (hI.sub p hp)
    have haddr : ADDRESS (HeapObject_Make p.2) = p.2 := by
      refine ADDRESS_Make _ ?_
      have := hI.os_hi
      have := hB.old_end
      omega
    obtain ⟨a', h1, FT1, FP1, hrun, hP1, hT1, hF1, hk1⟩ :=
      Copying.Prog.iterateBody CopyObjectVisitor_copyStep hB hS.state haddr hc0 hpp hraw ()
    have hS1 := hS.advance hB hp hc0 hP1 hT1 hF1
    obtain ⟨nt, rfl⟩ := hT1
    obtain ⟨np, rfl⟩ := hF1
    have eT : FTd ++ FTp ++ nt = FTd ++ (FTp ++ nt) := List.append_assoc _ _ _
    have eP : FPd ++ p :: rest ++ np = (FPd ++ [p]) ++ (rest ++ np) := by simp
    rw [eT, eP] at hS1 hP1
    have hS2 := hS1.congr (E := FTd ++ (FPd ++ [p])) (by
      intro q
      simp only [List.mem_append, List.mem_cons, List.not_mem_nil, or_false]
      constructor
      · rintro (hq | hq | hq)
        · exact Or.inr (Or.inl hq)
        · exact Or.inr (Or.inr hq)
        · exact Or.inl hq
      · rintro (hq | hq | hq)
        · exact Or.inr (Or.inr hq)
        · exact Or.inl hq
        · exact Or.inr (Or.inl hq))
    have hp1 : p ∈ FTd ++ (FTp ++ nt) ++ ((FPd ++ [p]) ++ (rest ++ np)) ++
        O.map (fun o => (o, o)) :=
      List.mem_append_left _ (List.mem_append_right _ (List.mem_append_left _
        (List.mem_append_right _ (List.mem_singleton_self p))))
    obtain ⟨c0', hc0', c1', hc1', _⟩ := hP1.part p hp1
    rw [← haddr] at hc1'
    obtain ⟨h2, hwb, hS3, hr3⟩ := hS2.writeBarrier hB hc1'
      (by rw [haddr]; exact hP1.inv.owned hB hp1)
    have hlen2 : h2.promoted.length = FPd.length + 1 + (rest ++ np).length := by
      rw [hS3.state.inv.promoted, List.length_map]
      simp only [List.length_append, List.length_cons, List.length_nil]
    have hlen := hI.length_le
    simp only [List.length_append, List.length_cons] at hlen
    cases hrest : rest ++ np with
    | nil =>
      rw [hrest] at hS3 hlen2
      rw [List.append_nil] at hS3
      refine ⟨h2, FTp ++ nt, FPd ++ [p], _, ?_, hS3, List.prefix_append _ _, ?_,
        hk1.rooted.trans_roots hr3⟩
      · rw [CopyingCollector.promotedLoop]
        simp only [hget, hrun, bind, Except.bind, hwb]
        rw [if_neg (by rw [hlen2]; simp)]
        simp only [List.length_append, List.length_cons, List.length_nil]
        rfl
      · have e : rest = [] := (List.append_eq_nil.1 hrest).1
        rw [e]
    | cons p' rest' =>
      rw [hrest] at hS3 hlen2
      obtain ⟨h', FTp', FPd', prog', hrun', hS', hT', hF', hr'⟩ :=
        ih h2 FTd (FTp ++ nt) (FPd ++ [p]) p' rest' _ hS3 (by
          simp only [List.length_append, List.length_cons, List.length_nil]
          omega)
      refine ⟨h', FTp', FPd', prog', ?_, hS', (List.prefix_append _ _).trans hT', ?_,
        hk1.rooted.trans_roots (hr3.trans_roots hr')⟩
      · rw [CopyingCollector.promotedLoop]
        simp only [hget, hrun, bind, Except.bind, hwb]
        rw [if_pos (by rw [hlen2]; simp)]
        simp only [List.length_append, List.length_cons, List.length_nil] at hrun'
        exact hrun'
      · have hpre : FPd ++ p :: rest <+: (FPd ++ [p]) ++ (p' :: rest') := by
          rw [← hrest, ← eP]
          exact List.prefix_append _ _
        exact hpre.trans hF'

/-- The loop `while (true)` of `CopyingCollector::Copying`: it returns, and the
references of every copy are relocated. -/
theorem Copying.Scan.copyLoop {B : Heap} {L O : List Nat} (hB : Copying.Base B L O) :
    ∀ (fuel scan : Nat) (h : Heap) (FTd FTp FPd FPp : List (Nat × Nat)) (prog : Nat → Nat),
      Copying.Scan B L O (FTd ++ FTp) (FPd ++ FPp) (FTd ++ FPd) prog h →
      Chain B.sizeAt FTd B.new_space.to_space scan →
      L.length - (FTd.length + FPd.length) + 2 ≤ fuel →
      ∃ h' FT' FP' prog', CopyingCollector.copyLoop fuel scan FPd.length h = .ok h' ∧
        Copying.Scan B L O FT' FP' (FT' ++ FP') prog' h' ∧
        FTd ++ FTp <+: FT' ∧ FPd ++ FPp <+: FP' ∧ h.Rooted h' := by
  intro fuel
  induction fuel with
  | zero =>
    intro scan h FTd FTp FPd FPp prog _ _ hf
    omega
  | succ fuel ih =>
    intro scan h FTd FTp FPd FPp prog hS hd hf
    obtain ⟨h1, FTd1, FPp1, prog1, hrun1, hS1, hT1, hF1, hr1⟩ :=
      Copying.Scan.scanLoop hB fuel scan h FTd FTp FPd FPp prog hS hd (by omega)
    have hI1 := hS1.state.inv
    have htop := hI1.top hB
    have hlenP : h1.promoted.length = FPd.length + FPp1.length := by
      rw [hI1.promoted, List.length_map, List.length_append]
    have hlen1 := hI1.length_le
    have hlenT := hT1.length_le
    simp only [List.length_append] at hlen1 hlenT
    cases FPp1 with
    | nil =>
      refine ⟨h1, FTd1, FPd, prog1, ?_, ?_, hT1, ?_, hr1⟩
      · rw [CopyingCollector.copyLoop]
        simp only [hrun1, bind, Except.bind]
        rw [if_pos htop, if_neg (by rw [hlenP]; simp)]
        rfl
      · rw [List.append_nil] at hS1
        exact hS1
      · obtain ⟨x, hx⟩ := hF1
        rw [(List.append_eq_nil.1 hx).1, List.append_nil]
    | cons p rest =>
      have hS1' : Copying.Scan B L O (FTd1 ++ []) (FPd ++ p :: rest) (FTd1 ++ FPd) prog1 h1 := by
        rw [List.append_nil]
        exact hS1
      obtain ⟨h2, FTp2, FPd2, prog2, hrun2, hS2, hT2, hF2, hr2⟩ :=
        Copying.Scan.promotedLoop hB fuel h1 FTd1 [] FPd p rest prog1 hS1' (by omega)
      have hlenF := hF2.length_le
      simp only [List.length_append, List.length_cons] at hlenF
      have hS2' : Copying.Scan B L O (FTd1 ++ FTp2) (FPd2 ++ []) (FTd1 ++ FPd2) prog2 h2 := by
        rw [List.append_nil]
        exact hS2
      have hlen2 := hS2.state.inv.length_le
      simp only [List.length_append] at hlen2
      obtain ⟨h', FT', FP', prog', hrun', hS', hT', hF', hr'⟩ :=
        ih h1.new_space.free h2 FTd1 FTp2 FPd2 [] prog2 hS2' hI1.chainT (by omega)
      refine ⟨h', FT', FP', prog', ?_, hS', ?_, ?_, hr1.trans_roots (hr2.trans_roots hr')⟩
      · rw [CopyingCollector.copyLoop]
        simp only [hrun1, bind, Except.bind]
        rw [if_pos htop, if_pos (by rw [hlenP]; simp)]
        simp only [hrun2]
        exact hrun'
      · exact hT1.trans ((List.prefix_append _ _).trans hT')
      · rw [List.append_nil] at hF'
        exact ((List.prefix_append_right_inj FPd).2 hF1).trans (hF2.trans hF')

theorem Layout.chain {h : Heap} {l : List Nat} {lo hi : Nat} (hl : Layout h.memory l lo hi) :
    Chain h.sizeAt (l.map (fun a => (a, a))) lo hi ∧ ∀ a ∈ l, ∃ c, h.memory a = some c := by
  induction l generalizing lo with
  | nil => exact ⟨hl, fun a ha => by cases ha⟩
  | cons a rest ih =>
    simp only [Layout] at hl
    obtain ⟨ha, hrest⟩ := hl
    cases hm : h.memory a with
    | none => rw [hm] at hrest; exact absurd hrest id
    | some c =>
      rw [hm] at hrest
      obtain ⟨h1, h2⟩ := ih hrest
      refine ⟨⟨ha, ?_⟩, ?_⟩
      · show Chain h.sizeAt _ (lo + h.sizeAt a) hi
        rw [Heap.sizeAt_of_cell hm]
        exact h1
      · intro x hx
        rcases List.mem_cons.1 hx with rfl | hx
        · exact ⟨c, hm⟩
        · exact h2 x hx

theorem Chain.nodup {size : Nat → Nat} {F : List (Nat × Nat)} {lo hi : Nat}
    (h : Chain size F lo hi) (hs : ∀ p ∈ F, 0 < size p.1) : (F.map Prod.snd).Nodup := by
  induction F generalizing lo with
  | nil => exact List.nodup_nil
  | cons r rest ih =>
    simp only [List.map_cons, List.nodup_cons]
    refine ⟨?_, ih h.2 (fun p hp => hs p (List.mem_cons_of_mem _ hp))⟩
    intro hm
    obtain ⟨q, hq, e⟩ := List.mem_map.1 hm
    have h1 := Chain.mem h.2 hq
    have h2 := hs r (List.mem_cons_self _ _)
    have h3 := h.1
    omega

/-- A well-formed heap, once the semispaces are flipped and the promoted entries are
cleared, is one in which `CopyingCollector::Copying` starts. -/
theorem Heap.WellFormed.base {h : Heap} {L O : List Nat} (hwf : h.WellFormed L O) :
    Copying.Base { h with new_space := h.new_space.Flip, promoted := [] } L O := by
  obtain ⟨w1, w2, w3, w4, w5, w6, w7, w8, w9, w10, w11, w12, w13, w14, w15, w16, w17, w18⟩ :=
    hwf
  obtain ⟨cL, eL⟩ := Layout.chain w9
  obtain ⟨cO, eO⟩ := Layout.chain w11
  have hsz : ∀ (l : List Nat), (∀ a ∈ l, ∃ c, h.memory a = some c) →
      ∀ p ∈ l.map (fun a => (a, a)), 16 ≤ h.sizeAt p.1 := by
    intro l hl p hp
    obtain ⟨a, ha, rfl⟩ := List.mem_map.1 hp
    obtain ⟨c, hc⟩ := hl a ha
    rw [Heap.sizeAt_of_cell hc]
    exact (HeapObject.Size_bounds _).1
  have hmemL : ∀ a ∈ L, h.new_space.to_space ≤ a ∧ a + 16 ≤ h.new_space.free := by
    intro a ha
    have hp : (a, a) ∈ L.map (fun a => (a, a)) := List.mem_map.2 ⟨a, ha, rfl⟩
    have h1 := Chain.mem cL hp
    have h2 := hsz L eL _ hp
    simp only at h1 h2
    omega
  have hmemO : ∀ a ∈ O, h.old_space.start ≤ a ∧ a + 16 ≤ h.old_space.free := by
    intro a ha
    have hp : (a, a) ∈ O.map (fun a => (a, a)) := List.mem_map.2 ⟨a, ha, rfl⟩
    have h1 := Chain.mem cO hp
    have h2 := hsz O eO _ hp
    simp only at h1 h2
    omega
  have hsumL := Chain.sum cL
  have hsumO := Chain.sum cO
  simp only [List.map_map] at hsumL hsumO
  refine
    { to_pos := ?_, to_aligned := ?_, to_lo := ?_, to_hi := ?_, from_lo := ?_, from_hi := ?_
      apart := ?_, spaces := w6, old_end := w7, old_free := ?_, old_lo := ?_, old_hi := w12
      free := rfl, promoted := rfl, cellsL := ?_, rangeL := ?_, nodupL := ?_, sumL := ?_
      cellsO := eO, rangeO := ?_, roots := w14, fields := ?_, rset_nodup := w16, rset := w17
      remembered := ?_ }
  · show 0 < h.new_space.from_space
    omega
  · show h.new_space.from_space % 8 = 0
    omega
  · show h.new_space.start ≤ h.new_space.from_space
    omega
  · show h.new_space.from_space + h.new_space.semispace_size ≤
      h.new_space.start + h.new_space.size
    omega
  · show h.new_space.start ≤ h.new_space.to_space
    omega
  · show h.new_space.to_space + h.new_space.semispace_size ≤
      h.new_space.start + h.new_space.size
    omega
  · show h.new_space.from_space + h.new_space.semispace_size ≤ h.new_space.to_space ∨
      h.new_space.to_space + h.new_space.semispace_size ≤ h.new_space.from_space
    omega
  · show h.old_space.free % 8 = 0
    exact Chain.aligned cO h.sizeAt_mod w8
  · show h.old_space.start ≤ h.old_space.free
    omega
  · intro a ha
    have := w13 a ha
    unfold Heap.CellAt at this
    cases hm : h.memory a with
    | none => rw [hm] at this; exact absurd this id
    | some c => rw [hm] at this; exact ⟨c, rfl, this⟩
  · intro a ha
    have := hmemL a ha
    show h.new_space.to_space ≤ a ∧ a < h.new_space.to_space + h.new_space.semispace_size
    omega
  · have := Chain.nodup cL (fun p hp => by have := hsz L eL p hp; omega)
    simpa [List.map_map, Function.comp_def] using this
  · show (L.map h.sizeAt).sum ≤ h.new_space.semispace_size
    have e : (L.map ((fun p => h.sizeAt p.1) ∘ fun a => (a, a))).sum = (L.map h.sizeAt).sum := rfl
    omega
  · intro o ho
    have := hmemO o ho
    show h.old_space.start ≤ o ∧ o < h.old_space.free
    omega
  · intro a ha c hc w hw
    have := w15 a ha
    unfold Heap.CellAt at this
    rw [hc] at this
    exact this w hw
  · intro o ho c hc hex
    have := w18 o ho
    unfold Heap.CellAt at this
    rw [hc] at this
    exact this hex

/-- At the start of `CopyingCollector::Copying` nothing is copied and every object is
raw. -/
theorem Copying.Base.start {B : Heap} {L O : List Nat} (hB : Copying.Base B L O) :
    Copying.Prog B L O [] [] (fun _ => 0) B where
  inv :=
    { ns_start := rfl, ns_size := rfl, ns_semi := rfl, ns_from := rfl, ns_to := rfl
      os_start := rfl, os_size := rfl, os_hi := hB.old_hi
      chainT := hB.free.symm, chainP := rfl, promoted := hB.promoted
      nodup := List.nodup_nil, sub := fun p hp => by cases hp
      cells := fun a ha => by
        obtain ⟨c, hc, hf⟩ := hB.cellsL a ha
        exact ⟨c, c, hc, hc, rfl, Or.inl ⟨hf, fun hm => by cases hm⟩⟩ }
  part := by
    intro p hp
    obtain ⟨o, ho, rfl⟩ := List.mem_map.1 hp
    obtain ⟨c0, hc0⟩ := hB.cellsO o ho
    exact ⟨c0, hc0, c0, hc0, rfl, rfl, fun j w hj => absurd hj (Nat.not_lt_zero j),
      fun j _ => rfl⟩
  zero := fun _ _ => rfl

theorem Copying.Inv.notO {B h : Heap} {L O : List Nat} {FT FP : List (Nat × Nat)}
    (hB : Copying.Base B L O) (hI : Copying.Inv B L FT FP h) {p : Nat × Nat}
    (hp : p ∈ FT ++ FP) : p.2 ∉ O := by
  intro ho
  have h1 := hI.dest_inj hB (p := p) (q := (p.2, p.2)) (List.mem_append_left _ hp)
    (List.mem_append_right _ (List.mem_map.2 ⟨p.2, ho, rfl⟩)) rfl
  have h2 := hB.rangeL _ (hI.sub p hp)
  have h3 := hB.rangeO _ ho
  have h4 := hB.from_hi
  have h5 := hB.spaces
  simp only at h1
  omega

/-- The state after the remembered set has been visited: the references of every
object of the old space are relocated, since an object that is not remembered has
none into the new space. -/
theorem Copying.Prog.old_done {B h : Heap} {L O : List Nat} {FT FP : List (Nat × Nat)}
    {prog : Nat → Nat} (hB : Copying.Base B L O) (hP : Copying.Prog B L O FT FP prog h)
    (h0 : ∀ x, x ∉ B.old_space.rset.map ADDRESS → prog x = 0)
    (h1 : ∀ e ∈ B.old_space.rset, prog (ADDRESS e) = B.fieldsAt (ADDRESS e)) :
    Copying.Scan B L O FT FP [] (fun x => if x ∈ O then B.fieldsAt x else prog x) h where
  state :=
    { inv := hP.inv
      part := by
        intro p hp
        obtain ⟨c0, hc0, hpart⟩ := hP.part p hp
        refine ⟨c0, hc0, ?_⟩
        rcases List.mem_append.1 hp with hp | hp
        · rw [if_neg (hP.inv.notO hB hp)]
          exact hpart
        · obtain ⟨o, ho, rfl⟩ := List.mem_map.1 hp
          have hlen : B.fieldsAt o = c0.body.fields.length := by
            simp only [Heap.fieldsAt, hc0]
          show Heap.Partial B (FT ++ FP) h o c0.body (if o ∈ O then B.fieldsAt o else prog o)
          rw [if_pos ho]
          by_cases hr : o ∈ B.old_space.rset.map ADDRESS
          · obtain ⟨e, he, rfl⟩ := List.mem_map.1 hr
            have := h1 e he
            simp only at hpart
            rw [this] at hpart
            exact hpart
          · have hz := h0 o hr
            simp only at hpart
            rw [hz] at hpart
            obtain ⟨c, g1, g2, g3, _, g5⟩ := hpart
            refine ⟨c, g1, g2, g3, ?_, fun j _ => g5 j (Nat.zero_le j)⟩
            intro j w _ hw
            refine ⟨w, by rw [g5 j (Nat.zero_le j), hw], ?_⟩
            unfold Relocated
            rw [if_neg]
            intro hnew
            have hmem := hB.remembered o ho c0 hc0
              ⟨w, List.mem_iff_getElem?.2 ⟨j, hw⟩, hnew⟩
            refine hr (List.mem_map.2 ⟨_, hmem, ADDRESS_Make _ ?_⟩)
            have := hB.rangeO o ho
            have := hB.old_hi
            have := hB.old_end
            omega
      zero := by
        intro x hx
        have hxO : x ∉ O := fun ho =>
          hx (hP.inv.owned hB (p := (x, x))
            (List.mem_append_right _ (List.mem_map.2 ⟨x, ho, rfl⟩)))
        show (if x ∈ O then B.fieldsAt x else prog x) = 0
        rw [if_neg hxO]
        exact hP.zero x hx }
  sub := fun q hq => by cases hq
  done := by
    intro p hp
    rcases List.mem_append.1 hp with hp | hp
    · cases hp
    · obtain ⟨o, ho, rfl⟩ := List.mem_map.1 hp
      show B.fieldsAt o ≤ (if o ∈ O then B.fieldsAt o else prog o)
      rw [if_pos ho]
  raw := by
    intro p hp _
    show (if p.2 ∈ O then B.fieldsAt p.2 else prog p.2) = 0
    rw [if_neg (hP.inv.notO hB hp)]
    refine h0 _ (fun hm => ?_)
    obtain ⟨e, he, heq⟩ := List.mem_map.1 hm
    exact hP.inv.notO hB hp (heq ▸ (hB.rset e he).2)

theorem Heap.denote_congr {g h : Heap} (hm : g.memory = h.memory) :
    ∀ (d : Nat) (w : Object), g.denote d w = h.denote d w := by
  intro d
  induction d with
  | zero => intro w; rfl
  | succ d ih =>
    intro w
    simp only [Heap.denote, hm]
    have e : g.denote d = h.denote d := funext ih
    rw [e]

theorem Copying.Owned.lt {B h : Heap} {L O : List Nat} {FT FP : List (Nat × Nat)}
    (hB : Copying.Base B L O) (hI : Copying.Inv B L FT FP h) {x : Nat}
    (hx : Copying.Owned B h x) : x < 2 ^ 48 := by
  have h1 := hI.free_hi hB
  have h2 := hI.os_hi
  have h3 := hB.to_hi
  have h4 := hB.spaces
  have h5 := hB.old_end
  rcases hx with hx | hx <;> omega

/-- The function `CopyingCollector::Copying` returns, and then the references of
every copy and of every object of the old space are relocated, and so are the root
words. -/
theorem CopyingCollector.Copying_spec {h : Heap} {L O : List Nat} {fuel : Nat}
    (hB : Copying.Base { h with promoted := [] } L O) (hf : L.length + 2 ≤ fuel) :
    ∃ h' FT FP prog, CopyingCollector.Copying fuel h = .ok h' ∧
      Copying.Scan { h with promoted := [] } L O FT FP (FT ++ FP) prog h' ∧
      List.Forall₂ (Relocated { h with promoted := [] } (FT ++ FP)) h.slots h'.slots ∧
      Relocated { h with promoted := [] } (FT ++ FP) h.empty_array h'.empty_array ∧
      Relocated { h with promoted := [] } (FT ++ FP) h.empty_hash_table
        h'.empty_hash_table ∧
      Relocated { h with promoted := [] } (FT ++ FP) h.empty_string h'.empty_string := by
  obtain ⟨a1, h1, FT1, FP1, e1, hP1, _, _, r1, r2, r3, r4, hrs⟩ :=
    Copying.Prog.roots CopyObjectVisitor_copyStep hB hB.start hB.roots ()
  obtain ⟨h2, FT2, FP2, prog2, e2, hP2, hT2, hF2, s1, s2, s3, s4, f5, f6⟩ :=
    Copying.Prog.rset hB hP1 (by rw [hrs]; exact hB.rset_nodup)
      (fun e he => by
        rw [hrs] at he
        exact ⟨(hB.rset e he).1, (hB.rset e he).2, rfl⟩)
  rw [hrs] at f5 f6
  have hS2 := hP2.old_done hB f5 f6
  obtain ⟨h', FT', FP', prog', e3, hS', hT', hF', hr'⟩ :=
    Copying.Scan.copyLoop hB fuel h.new_space.to_space h2 [] FT2 [] FP2 _ hS2 rfl
      (by simp only [List.length_nil]; omega)
  have hsub : FT1 ++ FP1 ⊆ FT' ++ FP' :=
    Copying.append_subset (hT2.trans hT') (hF2.trans hF')
  refine ⟨h', FT', FP', prog', ?_, hS', ?_, ?_, ?_, ?_⟩
  · simp only [CopyingCollector.Copying, e1, bind, Except.bind, e2]
    exact e3
  · rw [hr'.slots, s1]
    exact r1.imp (fun _ _ hr => hr.mono_pairs hsub)
  · rw [hr'.empty_array, s2]
    exact r2.mono_pairs hsub
  · rw [hr'.empty_hash_table, s3]
    exact r3.mono_pairs hsub
  · rw [hr'.empty_string, s4]
    exact r4.mono_pairs hsub

/-- An object whose references are all relocated, with what they denote. -/
theorem Copying.Scan.object {B h1 : Heap} {L O : List Nat} {FT FP : List (Nat × Nat)}
    {prog : Nat → Nat} (hB : Copying.Base B L O)
    (hS : Copying.Scan B L O FT FP (FT ++ FP) prog h1) (d : Nat)
    (ih : ∀ w w', Good L O w → Relocated B (FT ++ FP) w w' → h1.denote d w' = B.denote d w)
    {p : Nat × Nat} (hp : p ∈ FT ++ FP ++ O.map (fun o => (o, o))) :
    ∃ c c0, h1.memory p.2 = some c ∧ B.memory p.1 = some c0 ∧
      c.body.scalars = c0.body.scalars ∧
      c.body.fields.map (h1.denote d) = c0.body.fields.map (B.denote d) := by
  obtain ⟨c0, hc0, c, hc, g2, g3, g4, g5⟩ := hS.state.part p hp
  have hdone := hS.done p hp
  have hlen : B.fieldsAt p.1 = c0.body.fields.length := by simp only [Heap.fieldsAt, hc0]
  rw [hlen] at hdone
  refine ⟨c, c0, hc, hc0, g2, ?_⟩
  apply List.ext_getElem?
  intro j
  rw [List.getElem?_map, List.getElem?_map]
  cases hw : c0.body.fields[j]? with
  | none =>
    have hj := List.getElem?_eq_none_iff.1 hw
    rw [List.getElem?_eq_none_iff.2 (by omega)]
    rfl
  | some w =>
    have hj : j < c0.body.fields.length := by
      by_contra hge
      rw [List.getElem?_eq_none_iff.2 (by omega)] at hw
      cases hw
    obtain ⟨w', hw', hr⟩ := g4 j w (by omega) hw
    rw [hw']
    have hgood : Good L O w :=
      hB.fields p.1 (hS.state.inv.src_mem hp) c0 hc0 w (List.mem_iff_getElem?.2 ⟨j, hw⟩)
    simp only [Option.map_some', ih w w' hgood hr]

/-- After the collection, a relocated word denotes what the word denoted before. -/
theorem Copying.Scan.denote {B h1 : Heap} {L O : List Nat} {FT FP : List (Nat × Nat)}
    {prog : Nat → Nat} (hB : Copying.Base B L O)
    (hS : Copying.Scan B L O FT FP (FT ++ FP) prog h1) :
    ∀ (d : Nat) (w w' : Object), Good L O w → Relocated B (FT ++ FP) w w' →
      h1.denote d w' = B.denote d w := by
  intro d
  induction d with
  | zero => intro w w' _ _; rfl
  | succ d ih =>
    intro w w' hg hr
    unfold Relocated at hr
    by_cases hn : B.IsInNewSpace w = true
    · rw [if_pos hn] at hr
      obtain ⟨t, ht, rfl⟩ := hr
      have hp : (ADDRESS w, t) ∈ FT ++ FP ++ O.map (fun o => (o, o)) :=
        List.mem_append_left _ ht
      obtain ⟨c, c0, hc, hc0, hs, hf⟩ := hS.object hB d ih hp
      have ht48 := Copying.Owned.lt hB hS.state.inv (hS.state.inv.owned hB hp)
      have hh : IsHeapObject w = true := by
        simp only [Heap.IsInNewSpace, Bool.and_eq_true] at hn
        exact hn.1
      simp only at hc hc0 ht48
      simp only [Heap.denote, IsHeapObject_Make t ht48, ADDRESS_Make t ht48, if_true, hc, hh,
        hc0, hs, hf]
    · rw [if_neg hn] at hr
      rw [hr]
      by_cases hh : IsHeapObject w = true
      · have hO : ADDRESS w ∈ O := by
          rcases hg hh with hL | hO
          · exfalso
            apply hn
            have h1 := hB.rangeL _ hL
            have h2 := hB.from_lo
            have h3 := hB.from_hi
            simp only [Heap.IsInNewSpace, hh, NewSpace.Contains, NewSpace.begin_, NewSpace.end_,
              Bool.true_and, Bool.and_eq_true, decide_eq_true_eq]
            omega
          · exact hO
        have hp : (ADDRESS w, ADDRESS w) ∈ FT ++ FP ++ O.map (fun o => (o, o)) :=
          List.mem_append_right _ (List.mem_map.2 ⟨_, hO, rfl⟩)
        obtain ⟨c, c0, hc, hc0, hs, hf⟩ := hS.object hB d ih hp
        simp only at hc hc0
        simp only [Heap.denote, hh, if_true, hc, hc0, hs, hf]
      · simp only [Heap.denote, hh, Bool.false_eq_true, if_false]

theorem Token.FindKeyword_mem {id : String} {kind : Token.Kind}
    (h : Token.FindKeyword id = some kind) : kind ∈ Token.keywords :=
  List.mem_of_find?_eq_some h

/-- No call of `Scanner::Scan` returns `LOGIC_OR` or `LOGIC_AND`. -/
theorem Scanner.Scan_ne_logic : ∀ (fuel : Nat) (s s' : Scanner) (kind : Token.Kind),
    Scanner.Scan fuel s = .ok (kind, s') → kind ≠ .LOGIC_OR ∧ kind ≠ .LOGIC_AND := by
  intro fuel
  induction fuel with
  | zero => intro s s' kind h; simp [Scanner.Scan] at h
  | succ fuel ih =>
    intro s s' kind h
    simp only [Scanner.Scan, bind, Except.bind] at h
    cases hs : s.SkipWhitespace with
    | error e => rw [hs] at h; cases h
    | ok s1 =>
      rw [hs] at h
      simp only [pure, Except.pure] at h
      have hd : ∀ (ch : Char) (a b c : Token.Kind),
          (a ≠ .LOGIC_OR ∧ a ≠ .LOGIC_AND) → (b ≠ .LOGIC_OR ∧ b ≠ .LOGIC_AND) →
          (c ≠ .LOGIC_OR ∧ c ≠ .LOGIC_AND) → s1.orDouble ch a b c = (kind, s') →
          kind ≠ .LOGIC_OR ∧ kind ≠ .LOGIC_AND := by
        intro ch a b c h1 h2 h3 he
        unfold Scanner.orDouble at he
        split at he
        · cases he; exact h1
        · split at he
          · cases he; exact h2
          · cases he; exact h3
      have ha : ∀ (a b : Token.Kind), (a ≠ .LOGIC_OR ∧ a ≠ .LOGIC_AND) →
          (b ≠ .LOGIC_OR ∧ b ≠ .LOGIC_AND) → s1.orAssign a b = (kind, s') →
          kind ≠ .LOGIC_OR ∧ kind ≠ .LOGIC_AND := by
        intro a b h1 h2 he
        unfold Scanner.orAssign at he
        split at he
        · cases he; exact h1
        · cases he; exact h2
      have hdig : s1.ScanDigitLiteral = (kind, s') →
          kind ≠ .LOGIC_OR ∧ kind ≠ .LOGIC_AND := by
        intro he
        dsimp only [Scanner.ScanDigitLiteral] at he
        split at he <;> cases he <;> exact ⟨fun e => (by cases e), fun e => (by cases e)⟩
      have hid : s1.ScanIdentifier = (kind, s') →
          kind ≠ .LOGIC_OR ∧ kind ≠ .LOGIC_AND := by
        intro he
        dsimp only [Scanner.ScanIdentifier] at he
        split at he
        · rename_i keyword hk
          have hm := Token.FindKeyword_mem hk
          cases he
          constructor <;> intro e <;> rw [e] at hm <;> exact absurd hm (by decide)
        · cases he; exact ⟨fun e => (by cases e), fun e => (by cases e)⟩
      have hc : ∀ (a : Token.Kind) (x : Scanner), (a ≠ .LOGIC_OR ∧ a ≠ .LOGIC_AND) →
          (Except.ok (a, x) : Except ParseError _) = .ok (kind, s') →
          kind ≠ .LOGIC_OR ∧ kind ≠ .LOGIC_AND := by
        intro a x h1 he
        cases he
        exact h1
      have hp : ∀ (x : Token.Kind × Scanner),
          (Except.ok x : Except ParseError _) = .ok (kind, s') → x = (kind, s') := by
        intro x he
        cases he
        rfl
      by_cases c : s1.CurrentChar = '('
      · rw [if_pos c] at h
        first
        | exact hc _ _ (by decide) h
        | exact hd _ _ _ _ (by decide) (by decide) (by decide) (hp _ h)
        | exact ha _ _ (by decide) (by decide) (hp _ h)
      rw [if_neg c] at h
      clear c
      by_cases c : s1.CurrentChar = ')'
      · rw [if_pos c] at h
        first
        | exact hc _ _ (by decide) h
        | exact hd _ _ _ _ (by decide) (by decide) (by decide) (hp _ h)
        | exact ha _ _ (by decide) (by decide) (hp _ h)
      rw [if_neg c] at h
      clear c
      by_cases c : s1.CurrentChar = '\x7b'
      · rw [if_pos c] at h
        first
        | exact hc _ _ (by decide) h
        | exact hd _ _ _ _ (by decide) (by decide) (by decide) (hp _ h)
        | exact ha _ _ (by decide) (by decide) (hp _ h)
      rw [if_neg c] at h
      clear c
      by_cases c : s1.CurrentChar = '\x7d'
      · rw [if_pos c] at h
        first
        | exact hc _ _ (by decide) h
        | exact hd _ _ _ _ (by decide) (by decide) (by decide) (hp _ h)
        | exact ha _ _ (by decide) (by decide) (hp _ h)
      rw [if_neg c] at h
      clear c
      by_cases c : s1.CurrentChar = '['
      · rw [if_pos c] at h
        first
        | exact hc _ _ (by decide) h
        | exact hd _ _ _ _ (by decide) (by decide) (by decide) (hp _ h)
        | exact ha _ _ (by decide) (by decide) (hp _ h)
      rw [if_neg c] at h
      clear c
      by_cases c : s1.CurrentChar = ']'
      · rw [if_pos c] at h
        first
        | exact hc _ _ (by decide) h
        | exact hd _ _ _ _ (by decide) (by decide) (by decide) (hp _ h)
        | exact ha _ _ (by decide) (by decide) (hp _ h)
      rw [if_neg c] at h
      clear c
      by_cases c : s1.CurrentChar = ';'
      · rw [if_pos c] at h
        first
        | exact hc _ _ (by decide) h
        | exact hd _ _ _ _ (by decide) (by decide) (by decide) (hp _ h)
        | exact ha _ _ (by decide) (by decide) (hp _ h)
      rw [if_neg c] at h
      clear c
      by_cases c : s1.CurrentChar = ','
      · rw [if_pos c] at h
        first
        | exact hc _ _ (by decide) h
        | exact hd _ _ _ _ (by decide) (by decide) (by decide) (hp _ h)
        | exact ha _ _ (by decide) (by decide) (hp _ h)
      rw [if_neg c] at h
      clear c
      by_cases c : s1.CurrentChar = '.'
      · rw [if_pos c] at h
        first
        | exact hc _ _ (by decide) h
        | exact hd _ _ _ _ (by decide) (by decide) (by decide) (hp _ h)
        | exact ha _ _ (by decide) (by decide) (hp _ h)
      rw [if_neg c] at h
      clear c
      by_cases c : s1.CurrentChar = '+'
      · rw [if_pos c] at h
        first
        | exact hc _ _ (by decide) h
        | exact hd _ _ _ _ (by decide) (by decide) (by decide) (hp _ h)
        | exact ha _ _ (by decide) (by decide) (hp _ h)
      rw [if_neg c] at h
      clear c
      by_cases c : s1.CurrentChar = '-'
      · rw [if_pos c] at h
        first
        | exact hc _ _ (by decide) h
        | exact hd _ _ _ _ (by decide) (by decide) (by decide) (hp _ h)
        | exact ha _ _ (by decide) (by decide) (hp _ h)
      rw [if_neg c] at h
      clear c
      by_cases c : s1.CurrentChar = '*'
      · rw [if_pos c] at h
        first
        | exact hc _ _ (by decide) h
        | exact hd _ _ _ _ (by decide) (by decide) (by decide) (hp _ h)
        | exact ha _ _ (by decide) (by decide) (hp _ h)
      rw [if_neg c] at h
      clear c
      by_cases c : s1.CurrentChar = '/'
      · rw [if_pos c] at h
        first
        | exact hc _ _ (by decide) h
        | exact hd _ _ _ _ (by decide) (by decide) (by decide) (hp _ h)
        | exact ha _ _ (by decide) (by decide) (hp _ h)
      rw [if_neg c] at h
      clear c
      by_cases c : s1.CurrentChar = '%'
      · rw [if_pos c] at h
        first
        | exact hc _ _ (by decide) h
        | exact hd _ _ _ _ (by decide) (by decide) (by decide) (hp _ h)
        | exact ha _ _ (by decide) (by decide) (hp _ h)
      rw [if_neg c] at h
      clear c
      by_cases c : s1.CurrentChar = '='
      · rw [if_pos c] at h
        first
        | exact hc _ _ (by decide) h
        | exact hd _ _ _ _ (by decide) (by decide) (by decide) (hp _ h)
        | exact ha _ _ (by decide) (by decide) (hp _ h)
      rw [if_neg c] at h
      clear c
      by_cases c : s1.CurrentChar = '?'
      · rw [if_pos c] at h
        first
        | exact hc _ _ (by decide) h
        | exact hd _ _ _ _ (by decide) (by decide) (by decide) (hp _ h)
        | exact ha _ _ (by decide) (by decide) (hp _ h)
      rw [if_neg c] at h
      clear c
      by_cases c : s1.CurrentChar = ':'
      · rw [if_pos c] at h
        first
        | exact hc _ _ (by decide) h
        | exact hd _ _ _ _ (by decide) (by decide) (by decide) (hp _ h)
        | exact ha _ _ (by decide) (by decide) (hp _ h)
      rw [if_neg c] at h
      clear c
      by_cases c : s1.CurrentChar = '!'
      · rw [if_pos c] at h
        first
        | exact hc _ _ (by decide) h
        | exact hd _ _ _ _ (by decide) (by decide) (by decide) (hp _ h)
        | exact ha _ _ (by decide) (by decide) (hp _ h)
      rw [if_neg c] at h
      clear c
      by_cases c : s1.CurrentChar = '>'
      · rw [if_pos c] at h
        first
        | exact hc _ _ (by decide) h
        | exact hd _ _ _ _ (by decide) (by decide) (by decide) (hp _ h)
        | exact ha _ _ (by decide) (by decide) (hp _ h)
      rw [if_neg c] at h
      clear c
      by_cases c : s1.CurrentChar = '<'
      · rw [if_pos c] at h
        first
        | exact hc _ _ (by decide) h
        | exact hd _ _ _ _ (by decide) (by decide) (by decide) (hp _ h)
        | exact ha _ _ (by decide) (by decide) (hp _ h)
      rw [if_neg c] at h
      clear c
      by_cases c : s1.CurrentChar = '"'
      · rw [if_pos c] at h
        cases hq : s1.ScanStringLiteral with
        | error e => rw [hq] at h; cases h
        | ok s2 => rw [hq] at h; exact hc _ _ (by decide) h
      rw [if_neg c] at h
      clear c
      by_cases c : s1.CurrentChar = '#'
      · rw [if_pos c] at h
        exact ih _ _ _ h
      rw [if_neg c] at h
      clear c
      by_cases c : s1.CurrentChar = Scanner.NUL
      · rw [if_pos c] at h
        exact hc _ _ (by decide) h
      rw [if_neg c] at h
      clear c
      by_cases c : Scanner.IsDigit s1.CurrentChar = true
      · rw [if_pos c] at h
        exact hdig (hp _ h)
      rw [if_neg c] at h
      clear c
      by_cases c : Scanner.IsIdStart s1.CurrentChar = true
      · rw [if_pos c] at h
        exact hid (hp _ h)
      rw [if_neg c] at h
      cases h

/-! ### Hash tables -/

theorem toUInt32_land_mask (x : Int) (k : Nat) (hk : k ≤ 32) :
    (Nat.land (toUInt32 x) (2 ^ k - 1) : Nat) = (x % 2 ^ k).toNat := by
  have h1 : Nat.land (toUInt32 x) (2 ^ k - 1) = toUInt32 x % 2 ^ k :=
    Nat.and_pow_two_sub_one_eq_mod _ _
  rw [h1]
  unfold toUInt32
  have hd : ((2 : Int) ^ k) ∣ 2 ^ 32 := pow_dvd_pow 2 hk
  have h2 : (0 : Int) ≤ x % 2 ^ 32 := Int.emod_nonneg _ (by norm_num)
  have h3 : (0 : Int) ≤ x % 2 ^ k := Int.emod_nonneg _ (by positivity)
  apply Int.ofNat_inj.mp
  rw [Int.natCast_mod, Int.toNat_of_nonneg h2, Int.toNat_of_nonneg h3]
  push_cast
  exact Int.emod_emod_of_dvd _ hd

theorem HashTable.Location_eq (hash index : Int) (k : Nat) (hk : k ≤ 30) :
    HashTable.Location hash index (2 ^ k) = (hash + (index + index * index) / 2) % 2 ^ k := by
  unfold HashTable.Location
  have hc : toUInt32 ((2 : Int) ^ k - 1) = 2 ^ k - 1 := by
    unfold toUInt32
    have h1 : (1 : Int) ≤ 2 ^ k := one_le_pow₀ (by norm_num)
    have h2 : (2 : Int) ^ k ≤ 2 ^ 30 := pow_le_pow_right₀ (by norm_num) hk
    rw [Int.emod_eq_of_lt (by omega) (by omega)]
    have : ((2 : Int) ^ k - 1) = ((2 ^ k - 1 : Nat) : Int) := by
      have : 1 ≤ 2 ^ k := Nat.one_le_two_pow
      push_cast [Nat.cast_sub this]
      rfl
    rw [this, Int.toNat_natCast]
  rw [hc, toUInt32_land_mask _ k (by omega)]
  have h3 : (0 : Int) ≤ (hash + (index + index * index) / 2) % 2 ^ k :=
    Int.emod_nonneg _ (by positivity)
  have h4 : (hash + (index + index * index) / 2) % 2 ^ k < 2 ^ k :=
    Int.emod_lt_of_pos _ (by positivity)
  have h2 : (2 : Int) ^ k ≤ 2 ^ 30 := pow_le_pow_right₀ (by norm_num) hk
  rw [Int.ofNat_eq_coe, Int.toNat_of_nonneg h3]
  exact Int32.wrap_of_fits _ (by omega) (by omega)

theorem HashTable.triangular_inj (k i j : Nat) (hi : i < 2 ^ k) (hij : j ≤ i)
    (h : 2 ^ (k + 1) ∣ (i - j) * (i + j + 1)) : i = j := by
  have hp : 2 ^ (k + 1) = 2 * 2 ^ k := by rw [pow_succ]; ring
  rcases Nat.even_or_odd (i - j) with he | ho
  · have hodd : Odd (i + j + 1) := by
      obtain ⟨r, hr⟩ := he
      exact ⟨j + r, by omega⟩
    have hc : Nat.Coprime (2 ^ (k + 1)) (i + j + 1) :=
      Nat.Coprime.pow_left _ (Nat.coprime_two_left.mpr hodd)
    have hd : 2 ^ (k + 1) ∣ i - j := hc.dvd_of_dvd_mul_right h
    have hlt : i - j < 2 ^ (k + 1) := by omega
    have := Nat.eq_zero_of_dvd_of_lt hd hlt
    omega
  · have hc : Nat.Coprime (2 ^ (k + 1)) (i - j) :=
      Nat.Coprime.pow_left _ (Nat.coprime_two_left.mpr ho)
    have hd : 2 ^ (k + 1) ∣ i + j + 1 := hc.dvd_of_dvd_mul_left h
    have hlt : i + j + 1 < 2 ^ (k + 1) := by omega
    have := Nat.eq_zero_of_dvd_of_lt hd hlt
    omega

theorem HashTable.triangular_cast (i : Nat) :
    ((i : Int) + i * i) / 2 = (((i + i * i) / 2 : Nat) : Int) := by
  push_cast
  rfl

theorem HashTable.triangular_double (i : Nat) : 2 * ((i + i * i) / 2) = i + i * i := by
  have h : Even (i + i * i) := by
    have := Nat.even_mul_succ_self i
    rwa [Nat.mul_succ, Nat.add_comm] at this
  obtain ⟨r, hr⟩ := h
  omega

theorem HashTable.triangular_le {i j : Nat} (h : j ≤ i) : (j + j * j) / 2 ≤ (i + i * i) / 2 := by
  apply Nat.div_le_div_right
  have := Nat.mul_le_mul h h
  omega

theorem HashTable.Location_inj_le (hash : Int) (k : Nat) (hk : k ≤ 30) (i j : Nat)
    (hi : i < 2 ^ k) (hij : j ≤ i)
    (h : HashTable.Location hash i (2 ^ k) = HashTable.Location hash j (2 ^ k)) : i = j := by
  rw [HashTable.Location_eq _ _ _ hk, HashTable.Location_eq _ _ _ hk,
    HashTable.triangular_cast, HashTable.triangular_cast] at h
  have h1 := Int.emod_emod_of_dvd
  have hd : ((2 : Int) ^ k) ∣ ((hash + ((i + i * i) / 2 : Nat)) - (hash + ((j + j * j) / 2 : Nat))) :=
    Int.ModEq.dvd (Eq.symm h)
  have hle := HashTable.triangular_le hij
  have hd2 : (2 ^ k : Nat) ∣ (i + i * i) / 2 - (j + j * j) / 2 := by
    apply Int.natCast_dvd_natCast.mp
    rw [Nat.cast_sub hle]
    push_cast
    have e : (hash + ((i : Int) + i * i) / 2) - (hash + ((j : Int) + j * j) / 2) =
        ((i : Int) + i * i) / 2 - ((j : Int) + j * j) / 2 := by ring
    push_cast at hd
    rw [e] at hd
    exact hd
  apply HashTable.triangular_inj k i j hi hij
  have h2 : 2 ^ (k + 1) ∣ 2 * ((i + i * i) / 2 - (j + j * j) / 2) := by
    rw [pow_succ, Nat.mul_comm]
    exact Nat.mul_dvd_mul_left 2 hd2
  have e2 : 2 * ((i + i * i) / 2 - (j + j * j) / 2) = (i - j) * (i + j + 1) := by
    rw [Nat.mul_sub, HashTable.triangular_double, HashTable.triangular_double]
    obtain ⟨d, rfl⟩ := Nat.exists_eq_add_of_le hij
    rw [Nat.add_sub_cancel_left]
    have : j + d + (j + d) * (j + d) = (j + j * j) + d * (j + d + j + 1) := by ring
    rw [this, Nat.add_sub_cancel_left]
  rwa [e2] at h2

theorem HashTable.Location_inj (hash : Int) (k : Nat) (hk : k ≤ 30) (i j : Nat)
    (hi : i < 2 ^ k) (hj : j < 2 ^ k)
    (h : HashTable.Location hash i (2 ^ k) = HashTable.Location hash j (2 ^ k)) : i = j := by
  rcases Nat.le_total j i with hij | hij
  · exact HashTable.Location_inj_le hash k hk i j hi hij h
  · exact (HashTable.Location_inj_le hash k hk j i hj hij h.symm).symm

theorem HashTable.Location_range (hash index : Int) (k : Nat) (hk : k ≤ 30) :
    0 ≤ HashTable.Location hash index (2 ^ k) ∧ HashTable.Location hash index (2 ^ k) < 2 ^ k := by
  rw [HashTable.Location_eq _ _ _ hk]
  exact ⟨Int.emod_nonneg _ (by positivity), Int.emod_lt_of_pos _ (by positivity)⟩

theorem HashTable.probes_perm (hash : Int) (k : Nat) (hk : k ≤ 30) :
    (HashTable.probes hash (2 ^ k)).Perm ((List.range (2 ^ k)).map Int.ofNat) := by
  have hc : Int.ofNat (2 ^ k) = (2 : Int) ^ k := by simp
  have hnd : (HashTable.probes hash (2 ^ k)).Nodup := by
    unfold HashTable.probes
    refine List.Nodup.map_on ?_ (List.nodup_range _)
    intro i hi j hj h
    rw [hc] at h
    exact HashTable.Location_inj hash k hk i j (List.mem_range.mp hi) (List.mem_range.mp hj) h
  have hsub : HashTable.probes hash (2 ^ k) ⊆ (List.range (2 ^ k)).map Int.ofNat := by
    intro x hx
    unfold HashTable.probes at hx
    obtain ⟨i, _, rfl⟩ := List.mem_map.mp hx
    rw [hc]
    obtain ⟨h0, h1⟩ := HashTable.Location_range hash (Int.ofNat i) k hk
    refine List.mem_map.mpr ⟨(HashTable.Location hash (Int.ofNat i) (2 ^ k)).toNat, ?_, ?_⟩
    · rw [List.mem_range]
      apply Int.ofNat_lt.mp
      rw [Int.toNat_of_nonneg h0]
      push_cast
      exact h1
    · simp only [Int.ofNat_eq_coe]
      exact Int.toNat_of_nonneg h0
  exact (List.Nodup.subperm hnd hsub).perm_of_length_le (by simp [HashTable.probes])

theorem HashTable.exists_probe (hash : Int) (k : Nat) (hk : k ≤ 30) (e : Nat) (he : e < 2 ^ k) :
    ∃ i, i < 2 ^ k ∧ HashTable.Location hash (Int.ofNat i) (2 ^ k) = Int.ofNat e := by
  have hm : Int.ofNat e ∈ (List.range (2 ^ k)).map Int.ofNat :=
    List.mem_map.mpr ⟨e, List.mem_range.mpr he, rfl⟩
  have hp := (HashTable.probes_perm hash k hk).mem_iff.mpr hm
  unfold HashTable.probes at hp
  obtain ⟨i, hi, h⟩ := List.mem_map.mp hp
  refine ⟨i, List.mem_range.mp hi, ?_⟩
  rw [← h]
  simp

theorem ToInt32_int32 (F : FloatOps) (σ : State) (a : Int) (hlo : Int32.kMinInt32 ≤ a)
    (hhi : a ≤ Int32.kMaxInt32) : ToInt32 F σ (Int32.Make a) = .ok a := by
  obtain ⟨h1, _, _, _, _, _, _, h8⟩ := Int32.Make_spec a hlo hhi
  simp only [ToInt32, h1, h8, if_true]
  rfl

theorem HashTable.pow_fits {k : Nat} (hk : k ≤ 30) :
    Int32.kMinInt32 ≤ (2 : Int) ^ k ∧ (2 : Int) ^ k ≤ Int32.kMaxInt32 := by
  have h1 : (1 : Int) ≤ 2 ^ k := one_le_pow₀ (by norm_num)
  have h2 : (2 : Int) ^ k ≤ 2 ^ 30 := pow_le_pow_right₀ (by norm_num) hk
  simp only [Int32.kMinInt32, Int32.kMaxInt32]
  constructor <;> omega

theorem HashTable.Shaped.Capacity_ok {σ : State} {t : Object} {slots : List Object} {n : Int}
    {k : Nat} (F : FloatOps) (h : HashTable.Shaped σ t slots n k) :
    HashTable.Capacity F σ t = .ok (2 ^ k) := by
  have hg : Array.Get σ t HashTable.kCapacityIndex = .ok (Int32.Make (2 ^ k)) :=
    Array.Get_of_slots h.find (by decide) h.capacity
  simp only [HashTable.Capacity, hg, bind, Except.bind]
  exact ToInt32_int32 F σ _ (HashTable.pow_fits h.bound).1 (HashTable.pow_fits h.bound).2

theorem HashTable.Shaped.ElementsSize_ok {σ : State} {t : Object} {slots : List Object} {n : Int}
    {k : Nat} (F : FloatOps) (h : HashTable.Shaped σ t slots n k) :
    HashTable.ElementsSize F σ t = .ok n := by
  have hg : Array.Get σ t HashTable.kElementsSizeIndex = .ok (Int32.Make n) :=
    Array.Get_of_slots h.find (by decide) h.size
  simp only [HashTable.ElementsSize, hg, bind, Except.bind]
  exact ToInt32_int32 F σ _ h.fits.1 h.fits.2

theorem HashTable.Shaped.get_key {σ : State} {t : Object} {slots : List Object} {n : Int}
    {k : Nat} (h : HashTable.Shaped σ t slots n k) {e : Nat} (he : e < 2 ^ k) :
    Array.Get σ t (HashTable.EntryToIndex (Int.ofNat e)) = .ok (HashTable.entryAt slots e).1 := by
  have hl := h.length
  apply Array.Get_of_slots h.find
  · simp only [HashTable.EntryToIndex, HashTable.kElementsOffsetIndex, Int.ofNat_eq_coe]; omega
  · have e1 : (HashTable.EntryToIndex (Int.ofNat e)).toNat = 2 + 2 * e := by
      simp only [HashTable.EntryToIndex, HashTable.kElementsOffsetIndex, Int.ofNat_eq_coe]; omega
    rw [e1]
    simp only [HashTable.entryAt, List.getD_eq_getElem?_getD]
    rw [List.getElem?_eq_getElem (by omega)]
    rfl

theorem HashTable.Shaped.get_value {σ : State} {t : Object} {slots : List Object} {n : Int}
    {k : Nat} (h : HashTable.Shaped σ t slots n k) {e : Nat} (he : e < 2 ^ k) :
    Array.Get σ t (HashTable.EntryToIndex (Int.ofNat e) + 1) =
      .ok (HashTable.entryAt slots e).2 := by
  have hl := h.length
  apply Array.Get_of_slots h.find
  · simp only [HashTable.EntryToIndex, HashTable.kElementsOffsetIndex, Int.ofNat_eq_coe]; omega
  · have e1 : (HashTable.EntryToIndex (Int.ofNat e) + 1).toNat = 2 + 2 * e + 1 := by
      simp only [HashTable.EntryToIndex, HashTable.kElementsOffsetIndex, Int.ofNat_eq_coe]; omega
    rw [e1]
    simp only [HashTable.entryAt, List.getD_eq_getElem?_getD]
    rw [List.getElem?_eq_getElem (by omega)]
    rfl

theorem HashTable.probe_spec (hash : Int) (i k : Nat) (hk : k ≤ 30) :
    HashTable.probe hash i (2 ^ k) < 2 ^ k ∧
    HashTable.Location hash (Int.ofNat i) (2 ^ k) = Int.ofNat (HashTable.probe hash i (2 ^ k)) := by
  have hc : Int.ofNat (2 ^ k) = (2 : Int) ^ k := by simp
  obtain ⟨h0, h1⟩ := HashTable.Location_range hash (Int.ofNat i) k hk
  unfold HashTable.probe
  rw [hc]
  constructor
  · apply Int.ofNat_lt.mp
    rw [Int.toNat_of_nonneg h0]
    push_cast
    exact h1
  · simp only [Int.ofNat_eq_coe]
    exact (Int.toNat_of_nonneg h0).symm

theorem HashTable.FindInsertionIndexLoop_spec {σ : State} {t : Object} {slots : List Object}
    {n : Int} {k : Nat} (h : HashTable.Shaped σ t slots n k) (hash : Int) :
    ∀ (d i fuel : Nat),
      IsUndefined (HashTable.entryAt slots (HashTable.probe hash (i + d) (2 ^ k))).1 = true →
      (∀ j, i ≤ j → j < i + d →
        IsUndefined (HashTable.entryAt slots (HashTable.probe hash j (2 ^ k))).1 = false) →
      d < fuel →
      HashTable.FindInsertionIndexLoop σ t hash (2 ^ k) fuel (Int.ofNat i) =
        .ok (HashTable.EntryToIndex (Int.ofNat (HashTable.probe hash (i + d) (2 ^ k)))) := by
  intro d
  induction d with
  | zero =>
    intro i fuel h1 _ hf
    obtain ⟨fuel, rfl⟩ : ∃ f, fuel = f + 1 := ⟨fuel - 1, by omega⟩
    obtain ⟨hp1, hp2⟩ := HashTable.probe_spec hash i k h.bound
    simp only [HashTable.FindInsertionIndexLoop, HashTable.EntryKeyAt, hp2, h.get_key hp1,
      bind, Except.bind]
    rw [Nat.add_zero] at h1 ⊢
    simp only [h1, if_true]
    rfl
  | succ d ih =>
    intro i fuel h1 h2 hf
    obtain ⟨fuel, rfl⟩ : ∃ f, fuel = f + 1 := ⟨fuel - 1, by omega⟩
    obtain ⟨hp1, hp2⟩ := HashTable.probe_spec hash i k h.bound
    simp only [HashTable.FindInsertionIndexLoop, HashTable.EntryKeyAt, hp2, h.get_key hp1,
      bind, Except.bind]
    have h3 := h2 i (Nat.le_refl _) (by omega)
    simp only [h3, Bool.false_eq_true, if_false]
    have e : i + (d + 1) = (i + 1) + d := by omega
    rw [e] at h1 ⊢
    have := ih (i + 1) fuel h1 (fun j hj1 hj2 => h2 j (by omega) (by omega)) (by omega)
    simpa using this

theorem HashTable.FindInsertionIndex_spec {σ : State} {t : Object} {slots : List Object}
    {n : Int} {k : Nat} (F : FloatOps) (h : HashTable.Shaped σ t slots n k) (hash : Int)
    (fuel : Nat) (hfuel : 2 ^ k ≤ fuel)
    (hempty : ∃ e, e < 2 ^ k ∧ IsUndefined (HashTable.entryAt slots e).1 = true) :
    ∃ e, e < 2 ^ k ∧ IsUndefined (HashTable.entryAt slots e).1 = true ∧
      HashTable.FindInsertionIndex F fuel σ t hash = .ok (HashTable.EntryToIndex (Int.ofNat e)) := by
  obtain ⟨e, he, hu⟩ := hempty
  obtain ⟨i, hi, hloc⟩ := HashTable.exists_probe hash k h.bound e he
  have hex : ∃ i, i < 2 ^ k ∧
      IsUndefined (HashTable.entryAt slots (HashTable.probe hash i (2 ^ k))).1 = true := by
    refine ⟨i, hi, ?_⟩
    have := (HashTable.probe_spec hash i k h.bound).2
    rw [hloc] at this
    rw [← Int.ofNat_inj.mp this]
    exact hu
  classical
  let i0 := Nat.find hex
  have hi0 : i0 < 2 ^ k ∧
      IsUndefined (HashTable.entryAt slots (HashTable.probe hash i0 (2 ^ k))).1 = true :=
    Nat.find_spec hex
  have hmin : ∀ j, j < i0 →
      IsUndefined (HashTable.entryAt slots (HashTable.probe hash j (2 ^ k))).1 = false := by
    intro j hj
    have := Nat.find_min hex hj
    rw [not_and] at this
    have := this (by omega)
    simpa using this
  obtain ⟨hp1, hp2⟩ := HashTable.probe_spec hash 0 k h.bound
  refine ⟨HashTable.probe hash i0 (2 ^ k), (HashTable.probe_spec hash i0 k h.bound).1, hi0.2, ?_⟩
  have hz : (0 : Int) = Int.ofNat 0 := rfl
  simp only [HashTable.FindInsertionIndex, h.Capacity_ok F, HashTable.EntryKeyAt, bind,
    Except.bind]
  rw [hz, hp2, h.get_key hp1]
  by_cases h0 : i0 = 0
  · have h1 := hi0.2
    rw [h0] at h1 ⊢
    simp only [h1, if_true]
    rfl
  · have h1 := hmin 0 (by omega)
    simp only [h1, Bool.false_eq_true, if_false]
    have := HashTable.FindInsertionIndexLoop_spec h hash (i0 - 1) 1 fuel
      (by rw [show 1 + (i0 - 1) = i0 by omega]; exact hi0.2)
      (fun j hj1 hj2 => hmin j (by omega)) (by omega)
    rw [show 1 + (i0 - 1) = i0 by omega] at this
    exact this

theorem HashTable.length_setEntry (slots : List Object) (e : Nat) (key value : Object) :
    (HashTable.setEntry slots e key value).length = slots.length := by
  simp [HashTable.setEntry]

theorem HashTable.entryAt_setEntry_same (slots : List Object) (e : Nat) (key value : Object)
    (h : 2 + 2 * e + 1 < slots.length) :
    HashTable.entryAt (HashTable.setEntry slots e key value) e = (key, value) := by
  simp only [HashTable.entryAt, HashTable.setEntry, List.getD_eq_getElem?_getD]
  rw [List.getElem?_set_ne (by omega), List.getElem?_set_self (by omega),
    List.getElem?_set_self (by simp; omega)]
  rfl

theorem HashTable.entryAt_setEntry_other (slots : List Object) (e e' : Nat) (key value : Object)
    (h : e' ≠ e) :
    HashTable.entryAt (HashTable.setEntry slots e key value) e' = HashTable.entryAt slots e' := by
  simp only [HashTable.entryAt, HashTable.setEntry, List.getD_eq_getElem?_getD]
  rw [List.getElem?_set_ne (by omega), List.getElem?_set_ne (by omega),
    List.getElem?_set_ne (by omega), List.getElem?_set_ne (by omega)]

theorem HashTable.head_setEntry (slots : List Object) (e : Nat) (key value : Object) :
    (HashTable.setEntry slots e key value)[0]? = slots[0]? ∧
    (HashTable.setEntry slots e key value)[1]? = slots[1]? := by
  simp only [HashTable.setEntry]
  constructor
  · rw [List.getElem?_set_ne (by omega), List.getElem?_set_ne (by omega)]
  · rw [List.getElem?_set_ne (by omega), List.getElem?_set_ne (by omega)]

theorem HashTable.entries_setEntry (slots : List Object) (c e : Nat) (key value : Object)
    (h : 2 + 2 * e + 1 < slots.length) :
    HashTable.entries (HashTable.setEntry slots e key value) c =
      (HashTable.entries slots c).set e (key, value) := by
  apply List.ext_getElem?
  intro i
  simp only [HashTable.entries]
  by_cases hi : i < c
  · by_cases hie : i = e
    · subst hie
      rw [List.getElem?_set_self (by simpa using hi)]
      simp [List.getElem?_map, List.getElem?_range hi, HashTable.entryAt_setEntry_same _ _ _ _ h]
    · rw [List.getElem?_set_ne (fun x => hie x.symm)]
      simp [List.getElem?_map, List.getElem?_range hi,
        HashTable.entryAt_setEntry_other _ _ _ _ _ hie]
  · rw [List.getElem?_eq_none (by simpa using hi), List.getElem?_eq_none (by simpa using hi)]

theorem HashTable.entries_getElem? (slots : List Object) (c e : Nat) (h : e < c) :
    (HashTable.entries slots c)[e]? = some (HashTable.entryAt slots e) := by
  simp [HashTable.entries, List.getElem?_map, List.getElem?_range h]

theorem List.filter_set_perm {α : Type} (p : α → Bool) :
    ∀ (l : List α) (e : Nat) (x y : α), l[e]? = some y → p y = false → p x = true →
      ((l.set e x).filter p).Perm (x :: l.filter p)
  | [], _, _, _, h, _, _ => by simp at h
  | a :: l, 0, x, y, h, hy, hx => by
    simp only [List.getElem?_cons_zero, Option.some.injEq] at h
    subst h
    simp [List.filter_cons, hy, hx]
  | a :: l, e + 1, x, y, h, hy, hx => by
    simp only [List.getElem?_cons_succ] at h
    have ih := List.filter_set_perm p l e x y h hy hx
    simp only [List.set_cons_succ, List.filter_cons]
    by_cases ha : p a = true
    · simp only [ha, if_true]
      exact (List.Perm.cons a ih).trans (List.Perm.swap x a _)
    · simp only [ha, Bool.false_eq_true, if_false]
      exact ih

theorem HashTable.pairs_setEntry (slots : List Object) (c e : Nat) (key value : Object)
    (h : 2 + 2 * e + 1 < slots.length) (he : e < c)
    (hold : IsUndefined (HashTable.entryAt slots e).1 = true) (hnew : IsUndefined key = false) :
    (HashTable.pairs (HashTable.setEntry slots e key value) c).Perm
      ((key, value) :: HashTable.pairs slots c) := by
  unfold HashTable.pairs
  rw [HashTable.entries_setEntry _ _ _ _ _ h]
  exact List.filter_set_perm _ _ _ _ _ (HashTable.entries_getElem? slots c e he)
    (by simp [hold]) (by simp [hnew])

theorem HashTable.mem_pairs {slots : List Object} {c : Nat} {p : Object × Object} :
    p ∈ HashTable.pairs slots c ↔
      ∃ e, e < c ∧ HashTable.entryAt slots e = p ∧ IsUndefined p.1 = false := by
  simp only [HashTable.pairs, HashTable.entries, List.mem_filter, List.mem_map, List.mem_range,
    Bool.not_eq_true']
  constructor
  · rintro ⟨⟨e, he, rfl⟩, h2⟩
    exact ⟨e, he, rfl, h2⟩
  · rintro ⟨e, he, rfl, h2⟩
    exact ⟨⟨e, he, rfl⟩, h2⟩

theorem HashTable.exists_empty (slots : List Object) (c : Nat)
    (h : (HashTable.pairs slots c).length < c) :
    ∃ e, e < c ∧ IsUndefined (HashTable.entryAt slots e).1 = true := by
  have hl : (HashTable.entries slots c).length = c := by simp [HashTable.entries]
  have h' : ((HashTable.entries slots c).filter (fun p => !IsUndefined p.1)).length <
      (HashTable.entries slots c).length := by
    rw [hl]
    exact h
  obtain ⟨x, hx, hp⟩ := List.length_filter_lt_length_iff_exists.mp h'
  simp only [HashTable.entries, List.mem_map, List.mem_range] at hx
  obtain ⟨e, he, rfl⟩ := hx
  exact ⟨e, he, by simpa using hp⟩

theorem HashTable.length_pairs_le (slots : List Object) (c : Nat) :
    (HashTable.pairs slots c).length ≤ c := by
  have hl : (HashTable.entries slots c).length = c := by simp [HashTable.entries]
  unfold HashTable.pairs
  exact (List.length_filter_le _ _).trans (le_of_eq hl)

theorem State.store_store (σ : State) (p : Object) (a b : HeapObject) :
    (σ.store p a).store p b = σ.store p b := by
  simp [State.store, List.set_set]

theorem HashTable.Shaped.store_slots {σ : State} {t : Object} {slots : List Object} {n : Int}
    {k : Nat} (h : HashTable.Shaped σ t slots n k) (slots' : List Object) (n' : Int)
    (hl : slots'.length = slots.length) (h0 : slots'[0]? = some (Int32.Make n'))
    (h1 : slots'[1]? = slots[1]?)
    (hn : Int32.kMinInt32 ≤ n' ∧ n' ≤ Int32.kMaxInt32) :
    HashTable.Shaped (σ.store t (.ARRAY slots')) t slots' n' k where
  find := find_store_same h.find
  length := hl.trans h.length
  size := h0
  capacity := h1.trans h.capacity
  bound := h.bound
  fits := hn

theorem HashTable.Shaped.SetEntry_eq {σ : State} {t : Object} {slots : List Object} {n : Int}
    {k : Nat} (h : HashTable.Shaped σ t slots n k) {e : Nat} (he : e < 2 ^ k)
    (key value : Object) :
    HashTable.SetEntry σ t (HashTable.EntryToIndex (Int.ofNat e)) key value =
      .ok (σ.store t (.ARRAY (HashTable.setEntry slots e key value))) := by
  have hl := h.length
  have e1 : (HashTable.EntryToIndex (Int.ofNat e)).toNat = 2 + 2 * e := by
    simp only [HashTable.EntryToIndex, HashTable.kElementsOffsetIndex, Int.ofNat_eq_coe]; omega
  have e2 : (HashTable.EntryToIndex (Int.ofNat e) + 1).toNat = 2 + 2 * e + 1 := by
    simp only [HashTable.EntryToIndex, HashTable.kElementsOffsetIndex, Int.ofNat_eq_coe]; omega
  have h1 : Array.Set σ t (HashTable.EntryToIndex (Int.ofNat e)) key =
      .ok (key, σ.store t (.ARRAY (slots.set (2 + 2 * e) key))) := by
    rw [← e1]
    apply Array.Set_eq key h.find
    · simp only [HashTable.EntryToIndex, HashTable.kElementsOffsetIndex, Int.ofNat_eq_coe]; omega
    · simp only [HashTable.EntryToIndex, HashTable.kElementsOffsetIndex, Int.ofNat_eq_coe]; omega
  have h2 : Array.Set (σ.store t (.ARRAY (slots.set (2 + 2 * e) key)))
      t (HashTable.EntryToIndex (Int.ofNat e) + 1) value =
      .ok (value, (σ.store t (.ARRAY (slots.set (2 + 2 * e) key))).store t
        (.ARRAY ((slots.set (2 + 2 * e) key).set (2 + 2 * e + 1) value))) := by
    rw [← e2]
    apply Array.Set_eq value (find_store_same h.find)
    · simp only [HashTable.EntryToIndex, HashTable.kElementsOffsetIndex, Int.ofNat_eq_coe]; omega
    · simp only [HashTable.EntryToIndex, HashTable.kElementsOffsetIndex, Int.ofNat_eq_coe,
        List.length_set]
      omega
  simp only [HashTable.SetEntry, h1, h2, bind, Except.bind, State.store_store]
  rfl

theorem HashTable.Shaped.SetElementsSize_ok {σ : State} {t : Object} {slots : List Object}
    {n : Int} {k : Nat} (h : HashTable.Shaped σ t slots n k) (m : Int) :
    HashTable.SetElementsSize σ t m = .ok (σ.store t (.ARRAY (slots.set 0 (Int32.Make m)))) := by
  have hl := h.length
  have h1 : Array.Set σ t HashTable.kElementsSizeIndex (Int32.Make m) =
      .ok (Int32.Make m, σ.store t (.ARRAY (slots.set 0 (Int32.Make m)))) :=
    Array.Set_eq _ h.find (by decide) (by simp only [HashTable.kElementsSizeIndex]; omega)
  simp only [HashTable.SetElementsSize, h1, bind, Except.bind]
  rfl

theorem HashTable.entryAt_set_zero (slots : List Object) (w : Object) (e : Nat) :
    HashTable.entryAt (slots.set 0 w) e = HashTable.entryAt slots e := by
  simp only [HashTable.entryAt, List.getD_eq_getElem?_getD]
  rw [List.getElem?_set_ne (by omega), List.getElem?_set_ne (by omega)]

theorem HashTable.pairs_set_zero (slots : List Object) (w : Object) (c : Nat) :
    HashTable.pairs (slots.set 0 w) c = HashTable.pairs slots c := by
  simp only [HashTable.pairs, HashTable.entries, HashTable.entryAt_set_zero]
  congr 2
  funext e
  exact HashTable.entryAt_set_zero slots w e

theorem String.find_store {σ : State} {t p : Object} {slots slots' : List Object}
    (ht : σ.find t = some (.ARRAY slots)) (hp : IsString σ p = true) :
    (σ.store t (.ARRAY slots')).find p = σ.find p := by
  obtain ⟨e, v, hf⟩ := IsString_iff.mp hp
  exact find_store_other (ADDRESS_ne_of_find ht hf (by simp))

theorem IsHeapObject_not_number (p : Nat) (h : IsHeapObject p = true) :
    IsDouble p = false ∧ IsInt32 p = false := by
  simp only [IsHeapObject, IsDouble, IsInt32, READ_TAG, kCanonicalBits, kHeapObjectTag,
    Double.kDoubleLimit, Int32.kInt32Tag, decide_eq_true_eq, decide_eq_false_iff_not] at h ⊢
  have h' : (p : Nat) / 2 ^ 48 * 2 ^ 48 = 18445618173802708992 := h
  constructor
  · intro hle
    have hle' : (p : Nat) ≤ 18444492273895866368 := hle
    omega
  · intro he
    have he' : (p : Nat) / 2 ^ 48 * 2 ^ 48 = 18444773748872577024 := he
    omega

theorem Equals_strings (F : FloatOps) {σ : State} {p q : Object} {a b : String}
    (hp : String.Value σ p = .ok a) (hq : String.Value σ q = .ok b) :
    Equals F σ p q = .ok (decide (a = b)) := by
  obtain ⟨e1, h1⟩ := String.Value_ok hp
  obtain ⟨e2, h2⟩ := String.Value_ok hq
  by_cases hpq : p = q
  · subst hpq
    rw [h1] at h2
    cases h2
    simp only [Equals, if_true, decide_True]
    rfl
  · have hh : IsHeapObject p = true := (find_some_iff.mp h1).1
    obtain ⟨hd, hi⟩ := IsHeapObject_not_number p hh
    have hn : IsNumber σ p = false := by
      simp [IsNumber, hd, hi, IsHeapNumber, h1]
    have hs1 : IsString σ p = true := IsString_iff.mpr ⟨e1, a, h1⟩
    have hs2 : IsString σ q = true := IsString_iff.mpr ⟨e2, b, h2⟩
    simp only [Equals, hpq, hn, if_false, Bool.false_and, Bool.false_eq_true, hs1, hs2,
      Bool.and_self, if_true, hp, hq, bind, Except.bind]
    rfl

theorem IsString_value {σ : State} {p : Object} (h : IsString σ p = true) :
    ∃ a, String.Value σ p = .ok a := by
  obtain ⟨e, v, hf⟩ := IsString_iff.mp h
  exact ⟨v, String.Value_eq hf⟩

theorem HashTable.FindEntryLoop_absent (F : FloatOps) {σ : State} {t key : Object}
    {slots : List Object} {n : Int} {k : Nat} {s : String}
    (h : HashTable.Shaped σ t slots n k) (hkeys : HashTable.Keyed σ slots (2 ^ k))
    (hkey : String.Value σ key = .ok s)
    (habs : ∀ p ∈ HashTable.pairs slots (2 ^ k), String.Value σ p.1 ≠ .ok s)
    (hash m : Int) :
    ∀ (r i : Nat) (passed : Int),
      HashTable.FindEntryLoop F σ t key hash m (2 ^ k) r (Int.ofNat i) passed = .ok (-1) := by
  intro r
  induction r with
  | zero => intro i passed; rfl
  | succ r ih =>
    intro i passed
    obtain ⟨hp1, hp2⟩ := HashTable.probe_spec hash i k h.bound
    simp only [HashTable.FindEntryLoop, HashTable.EntryKeyAt, hp2, h.get_key hp1, bind,
      Except.bind]
    have hnext := ih (i + 1)
    have e1 : Int.ofNat i + 1 = Int.ofNat (i + 1) := rfl
    by_cases hu : IsUndefined (HashTable.entryAt slots (HashTable.probe hash i (2 ^ k))).1 = true
    · simp only [hu, Bool.not_true, Bool.false_eq_true, if_false, e1]
      exact hnext _
    · have hu' : IsUndefined (HashTable.entryAt slots (HashTable.probe hash i (2 ^ k))).1 = false := by
        simpa using hu
      have hm : HashTable.entryAt slots (HashTable.probe hash i (2 ^ k)) ∈
          HashTable.pairs slots (2 ^ k) :=
        HashTable.mem_pairs.mpr ⟨_, hp1, rfl, hu'⟩
      obtain ⟨a, ha⟩ := IsString_value (hkeys _ hm)
      have hne : a ≠ s := by
        intro e
        rw [e] at ha
        exact habs _ hm ha
      simp only [hu', Bool.not_false, if_true, Equals_strings F ha hkey, hne, decide_False,
        Bool.false_eq_true, if_false, e1, hnext]
      split <;> rfl

theorem HashTable.FindEntry_absent (F : FloatOps) {σ : State} {t key : Object}
    {slots : List Object} {n : Int} {k : Nat} {s : String}
    (h : HashTable.Shaped σ t slots n k) (hkeys : HashTable.Keyed σ slots (2 ^ k))
    (hkey : String.Value σ key = .ok s)
    (habs : ∀ p ∈ HashTable.pairs slots (2 ^ k), String.Value σ p.1 ≠ .ok s)
    (hash : Int) :
    HashTable.FindEntry F σ t key hash = .ok (-1) := by
  obtain ⟨hp1, hp2⟩ := HashTable.probe_spec hash 0 k h.bound
  have hz : (0 : Int) = Int.ofNat 0 := rfl
  have h1 : (1 : Int) = Int.ofNat 1 := rfl
  simp only [HashTable.FindEntry, h.ElementsSize_ok F, h.Capacity_ok F, bind, Except.bind,
    HashTable.EntryKeyAt]
  by_cases hn : n = 0
  · simp only [hn, if_true]
    rfl
  · simp only [hn, if_false]
    rw [hz, hp2, h.get_key hp1]
    simp only []
    by_cases hu : IsUndefined (HashTable.entryAt slots (HashTable.probe hash 0 (2 ^ k))).1 = true
    · simp only [hu, Bool.not_true, Bool.false_eq_true, if_false]
      rw [h1]
      exact HashTable.FindEntryLoop_absent F h hkeys hkey habs hash n _ _ _
    · have hu' : IsUndefined (HashTable.entryAt slots (HashTable.probe hash 0 (2 ^ k))).1 = false := by
        simpa using hu
      have hm : HashTable.entryAt slots (HashTable.probe hash 0 (2 ^ k)) ∈
          HashTable.pairs slots (2 ^ k) :=
        HashTable.mem_pairs.mpr ⟨_, hp1, rfl, hu'⟩
      obtain ⟨a, ha⟩ := IsString_value (hkeys _ hm)
      have hne : a ≠ s := by
        intro e
        rw [e] at ha
        exact habs _ hm ha
      simp only [hu', Bool.not_false, if_true, Equals_strings F ha hkey, hne, decide_False,
        Bool.false_eq_true, if_false]
      rw [h1]
      exact HashTable.FindEntryLoop_absent F h hkeys hkey habs hash n _ _ _

theorem HashTable.FindEntryLoop_present (F : FloatOps) {σ : State} {t key : Object}
    {slots : List Object} {n : Int} {k : Nat} {s : String}
    (h : HashTable.Shaped σ t slots n k) (hkeys : HashTable.Keyed σ slots (2 ^ k))
    (hkey : String.Value σ key = .ok s) (e : Nat)
    (hocc : IsUndefined (HashTable.entryAt slots e).1 = false)
    (hval : String.Value σ (HashTable.entryAt slots e).1 = .ok s)
    (hdist : ∀ e', e' < 2 ^ k → IsUndefined (HashTable.entryAt slots e').1 = false →
      String.Value σ (HashTable.entryAt slots e').1 = .ok s → e' = e)
    (hash m : Int) :
    ∀ (d i r : Nat) (passed : Int),
      HashTable.probe hash (i + d) (2 ^ k) = e →
      (∀ j, i ≤ j → j < i + d → HashTable.probe hash j (2 ^ k) ≠ e) →
      d < r →
      passed + ((List.range' i d).countP (HashTable.occupied slots hash (2 ^ k)) : Nat) < m →
      HashTable.FindEntryLoop F σ t key hash m (2 ^ k) r (Int.ofNat i) passed =
        .ok (Int.ofNat e) := by
  intro d
  induction d with
  | zero =>
    intro i r passed h1 _ hr _
    obtain ⟨r, rfl⟩ : ∃ f, r = f + 1 := ⟨r - 1, by omega⟩
    obtain ⟨hp1, hp2⟩ := HashTable.probe_spec hash i k h.bound
    rw [Nat.add_zero] at h1
    have hg := h.get_key hp1
    rw [h1] at hg hp2
    simp only [HashTable.FindEntryLoop, HashTable.EntryKeyAt, hp2, hg, bind,
      Except.bind, hocc, Bool.not_false, if_true, Equals_strings F hval hkey, decide_True]
    rfl
  | succ d ih =>
    intro i r passed h1 h2 hr hc
    obtain ⟨r, rfl⟩ : ∃ f, r = f + 1 := ⟨r - 1, by omega⟩
    obtain ⟨hp1, hp2⟩ := HashTable.probe_spec hash i k h.bound
    have e1 : Int.ofNat i + 1 = Int.ofNat (i + 1) := rfl
    have e2 : i + (d + 1) = (i + 1) + d := by omega
    rw [e2] at h1
    have hne := h2 i (Nat.le_refl _) (by omega)
    rw [List.range'_succ, List.countP_cons] at hc
    simp only [HashTable.FindEntryLoop, HashTable.EntryKeyAt, hp2, h.get_key hp1, bind,
      Except.bind]
    by_cases hu : IsUndefined (HashTable.entryAt slots (HashTable.probe hash i (2 ^ k))).1 = true
    · simp only [hu, Bool.not_true, Bool.false_eq_true, if_false, e1]
      apply ih (i + 1) r passed h1 (fun j hj1 hj2 => h2 j (by omega) (by omega)) (by omega)
      have : HashTable.occupied slots hash (2 ^ k) i = false := by
        simp [HashTable.occupied, hu]
      simp only [this, Bool.false_eq_true, if_false, Nat.add_zero] at hc
      exact hc
    · have hu' : IsUndefined (HashTable.entryAt slots (HashTable.probe hash i (2 ^ k))).1 = false := by
        simpa using hu
      have hm : HashTable.entryAt slots (HashTable.probe hash i (2 ^ k)) ∈
          HashTable.pairs slots (2 ^ k) :=
        HashTable.mem_pairs.mpr ⟨_, hp1, rfl, hu'⟩
      obtain ⟨a, ha⟩ := IsString_value (hkeys _ hm)
      have hnes : a ≠ s := by
        intro e
        rw [e] at ha
        exact hne (hdist _ hp1 hu' ha)
      have ho : HashTable.occupied slots hash (2 ^ k) i = true := by
        simp [HashTable.occupied, hu']
      simp only [ho, if_true] at hc
      push_cast at hc
      have hpm : ¬ passed + 1 = m := by omega
      simp only [hu', Bool.not_false, if_true, Equals_strings F ha hkey, hnes, decide_False,
        Bool.false_eq_true, if_false, e1, hpm]
      apply ih (i + 1) r (passed + 1) h1 (fun j hj1 hj2 => h2 j (by omega) (by omega))
        (by omega)
      omega

theorem HashTable.count_probes_lt (slots : List Object) (hash : Int) (k : Nat) (hk : k ≤ 30)
    (i0 : Nat) (hi0 : i0 < 2 ^ k) (ho : HashTable.occupied slots hash (2 ^ k) i0 = true) :
    (List.range' 0 i0).countP (HashTable.occupied slots hash (2 ^ k)) <
      (HashTable.pairs slots (2 ^ k)).length := by
  have hc : Int.ofNat (2 ^ k) = (2 : Int) ^ k := by simp
  let P := (List.range (i0 + 1)).map (fun j => HashTable.probe hash j (2 ^ k))
  have hnd : P.Nodup := by
    refine List.Nodup.map_on ?_ (List.nodup_range _)
    intro i hi j hj hij
    have hi' := List.mem_range.mp hi
    have hj' := List.mem_range.mp hj
    apply HashTable.Location_inj hash k hk i j (by omega) (by omega)
    have a1 := (HashTable.probe_spec hash i k hk).2
    have a2 := (HashTable.probe_spec hash j k hk).2
    simp only [Int.ofNat_eq_coe] at a1 a2
    rw [a1, a2, hij]
  have hsub : P ⊆ List.range (2 ^ k) := by
    intro x hx
    obtain ⟨j, _, rfl⟩ := List.mem_map.mp hx
    exact List.mem_range.mpr (HashTable.probe_spec hash j k hk).1
  have hsp : P.Subperm (List.range (2 ^ k)) := List.Nodup.subperm hnd hsub
  have hle := (hsp.filter (fun e => !IsUndefined (HashTable.entryAt slots e).1)).length_le
  have hq : (HashTable.pairs slots (2 ^ k)).length =
      ((List.range (2 ^ k)).filter (fun e => !IsUndefined (HashTable.entryAt slots e).1)).length := by
    simp only [HashTable.pairs, HashTable.entries, List.filter_map, List.length_map]
    rfl
  have hp : (P.filter (fun e => !IsUndefined (HashTable.entryAt slots e).1)).length =
      (List.range' 0 i0).countP (HashTable.occupied slots hash (2 ^ k)) + 1 := by
    simp only [P, List.filter_map, List.length_map]
    rw [← List.countP_eq_length_filter, List.range_succ, List.countP_append,
      List.range_eq_range']
    have : List.countP ((fun e => !IsUndefined (HashTable.entryAt slots e).1) ∘
        fun j => HashTable.probe hash j (2 ^ k)) [i0] = 1 := by
      simp only [HashTable.occupied] at ho
      simp [List.countP_cons, ho]
    rw [this]
    rfl
  omega

theorem HashTable.probe_inj (hash : Int) (k : Nat) (hk : k ≤ 30) (i j : Nat)
    (hi : i < 2 ^ k) (hj : j < 2 ^ k)
    (h : HashTable.probe hash i (2 ^ k) = HashTable.probe hash j (2 ^ k)) : i = j := by
  apply HashTable.Location_inj hash k hk i j hi hj
  have a1 := (HashTable.probe_spec hash i k hk).2
  have a2 := (HashTable.probe_spec hash j k hk).2
  simp only [Int.ofNat_eq_coe] at a1 a2
  rw [a1, a2, h]

theorem HashTable.FindEntry_present (F : FloatOps) {σ : State} {t key : Object}
    {slots : List Object} {n : Int} {k : Nat} {s : String}
    (h : HashTable.Shaped σ t slots n k) (hkeys : HashTable.Keyed σ slots (2 ^ k))
    (hkey : String.Value σ key = .ok s) (e : Nat) (he : e < 2 ^ k)
    (hocc : IsUndefined (HashTable.entryAt slots e).1 = false)
    (hval : String.Value σ (HashTable.entryAt slots e).1 = .ok s)
    (hdist : ∀ e', e' < 2 ^ k → IsUndefined (HashTable.entryAt slots e').1 = false →
      String.Value σ (HashTable.entryAt slots e').1 = .ok s → e' = e)
    (hn : ((HashTable.pairs slots (2 ^ k)).length : Int) ≤ n) (hash : Int) :
    HashTable.FindEntry F σ t key hash = .ok (Int.ofNat e) := by
  obtain ⟨i0, hi0, hloc⟩ := HashTable.exists_probe hash k h.bound e he
  have hpe : HashTable.probe hash i0 (2 ^ k) = e := by
    have := (HashTable.probe_spec hash i0 k h.bound).2
    rw [hloc] at this
    exact (Int.ofNat_inj.mp this).symm
  have ho : HashTable.occupied slots hash (2 ^ k) i0 = true := by
    simp [HashTable.occupied, hpe, hocc]
  have hcount := HashTable.count_probes_lt slots hash k h.bound i0 hi0 ho
  obtain ⟨hp1, hp2⟩ := HashTable.probe_spec hash 0 k h.bound
  have hz : (0 : Int) = Int.ofNat 0 := rfl
  have h1 : (1 : Int) = Int.ofNat 1 := rfl
  have hn0 : ¬ n = 0 := by omega
  simp only [HashTable.FindEntry, h.ElementsSize_ok F, h.Capacity_ok F, bind, Except.bind,
    HashTable.EntryKeyAt, hn0, if_false]
  rw [hz, hp2, h.get_key hp1]
  simp only []
  by_cases h0 : i0 = 0
  · rw [h0] at hpe
    rw [hpe]
    simp only [hocc, Bool.not_false, if_true, Equals_strings F hval hkey, decide_True]
    rfl
  · have hne : HashTable.probe hash 0 (2 ^ k) ≠ e := by
      intro e0
      rw [← hpe] at e0
      exact h0 (HashTable.probe_inj hash k h.bound 0 i0 (by omega) hi0 e0).symm
    have hmin : ∀ j, 1 ≤ j → j < 1 + (i0 - 1) → HashTable.probe hash j (2 ^ k) ≠ e := by
      intro j hj1 hj2 e0
      rw [← hpe] at e0
      have := HashTable.probe_inj hash k h.bound j i0 (by omega) hi0 e0
      omega
    have hsplit : List.range' 0 i0 = 0 :: List.range' 1 (i0 - 1) := by
      obtain ⟨d, rfl⟩ : ∃ d, i0 = d + 1 := ⟨i0 - 1, by omega⟩
      rw [List.range'_succ]
      rfl
    rw [hsplit, List.countP_cons] at hcount
    have hit : ((2 : Int) ^ k - Int.ofNat 1).toNat = 2 ^ k - 1 := by
      have h2 : 1 ≤ 2 ^ k := Nat.one_le_two_pow
      have : (2 : Int) ^ k - Int.ofNat 1 = ((2 ^ k - 1 : Nat) : Int) := by
        push_cast [Nat.cast_sub h2]
        rfl
      rw [this, Int.toNat_natCast]
    by_cases hu : IsUndefined (HashTable.entryAt slots (HashTable.probe hash 0 (2 ^ k))).1 = true
    · simp only [hu, Bool.not_true, Bool.false_eq_true, if_false]
      rw [h1, hit]
      apply HashTable.FindEntryLoop_present F h hkeys hkey e hocc hval hdist hash n
        (i0 - 1) 1 _ 0 (by rw [show 1 + (i0 - 1) = i0 by omega]; exact hpe) hmin (by omega)
      omega
    · have hu' : IsUndefined (HashTable.entryAt slots (HashTable.probe hash 0 (2 ^ k))).1 = false := by
        simpa using hu
      have hm : HashTable.entryAt slots (HashTable.probe hash 0 (2 ^ k)) ∈
          HashTable.pairs slots (2 ^ k) :=
        HashTable.mem_pairs.mpr ⟨_, hp1, rfl, hu'⟩
      obtain ⟨a, ha⟩ := IsString_value (hkeys _ hm)
      have hnes : a ≠ s := by
        intro e0
        rw [e0] at ha
        exact hne (hdist _ hp1 hu' ha)
      have ho0 : HashTable.occupied slots hash (2 ^ k) 0 = true := by
        simp [HashTable.occupied, hu']
      simp only [ho0, if_true] at hcount
      simp only [hu', Bool.not_false, if_true, Equals_strings F ha hkey, hnes, decide_False,
        Bool.false_eq_true, if_false]
      rw [h1, hit]
      apply HashTable.FindEntryLoop_present F h hkeys hkey e hocc hval hdist hash n
        (i0 - 1) 1 _ 1 (by rw [show 1 + (i0 - 1) = i0 by omega]; exact hpe) hmin (by omega)
      omega

theorem HashTable.Search_present (F : FloatOps) {σ : State} {t key : Object}
    {slots : List Object} {n : Int} {k : Nat} {s : String}
    (h : HashTable.Shaped σ t slots n k) (hkeys : HashTable.Keyed σ slots (2 ^ k))
    (hkey : String.Value σ key = .ok s) (e : Nat) (he : e < 2 ^ k)
    (hocc : IsUndefined (HashTable.entryAt slots e).1 = false)
    (hval : String.Value σ (HashTable.entryAt slots e).1 = .ok s)
    (hdist : ∀ e', e' < 2 ^ k → IsUndefined (HashTable.entryAt slots e').1 = false →
      String.Value σ (HashTable.entryAt slots e').1 = .ok s → e' = e)
    (hn : ((HashTable.pairs slots (2 ^ k)).length : Int) ≤ n) :
    HashTable.Search F σ t key = .ok (HashTable.entryAt slots e).2 := by
  have hne : ¬ Int.ofNat e = -1 := by
    simp only [Int.ofNat_eq_coe]
    omega
  simp only [HashTable.Search, String.Hash, hkey, bind, Except.bind, pure, Except.pure,
    HashTable.FindEntry_present F h hkeys hkey e he hocc hval hdist hn, ne_eq, hne,
    not_false_eq_true, if_true]
  exact h.get_value he

theorem NextPowerOf2.smear_low (y i : Nat) (h : ∀ j, i ≤ j → y.testBit j = false) :
    (NextPowerOf2.smear y).testBit i = false := by
  simp only [NextPowerOf2.smear, Nat.testBit_or, Nat.testBit_shiftRight, ← Nat.add_assoc,
    Nat.reduceAdd]
  simp (disch := omega) only [h, Bool.or_self]

theorem NextPowerOf2.smear_high (y i d : Nat) (hd : d < 32) (h : y.testBit (d + i) = true) :
    (NextPowerOf2.smear y).testBit i = true := by
  simp only [NextPowerOf2.smear, Nat.testBit_or, Nat.testBit_shiftRight, ← Nat.add_assoc,
    Nat.reduceAdd]
  interval_cases d <;> simp_all

theorem NextPowerOf2.smear_eq (y L : Nat) (hL : L ≤ 32) (hlt : y < 2 ^ L)
    (hge : L = 0 ∨ 2 ^ (L - 1) ≤ y) : NextPowerOf2.smear y = 2 ^ L - 1 := by
  apply Nat.eq_of_testBit_eq
  intro i
  rw [Nat.testBit_two_pow_sub_one]
  by_cases hi : i < L
  · rw [decide_eq_true hi]
    have hL1 : L ≠ 0 := by omega
    have hge' : 2 ^ (L - 1) ≤ y := by
      rcases hge with h | h
      · exact absurd h hL1
      · exact h
    apply NextPowerOf2.smear_high y i (L - 1 - i) (by omega)
    rw [show L - 1 - i + i = L - 1 by omega, Nat.testBit_to_div_mod]
    have hp : 2 ^ L = 2 * 2 ^ (L - 1) := by
      rw [← pow_succ']
      congr 1
      omega
    have : y / 2 ^ (L - 1) = 1 := by
      apply Nat.div_eq_of_lt_le
      · simpa using hge'
      · omega
    rw [this]
    rfl
  · rw [decide_eq_false hi]
    apply NextPowerOf2.smear_low
    intro j hj
    apply Nat.testBit_lt_two_pow
    exact lt_of_lt_of_le hlt (Nat.pow_le_pow_right (by norm_num) (by omega))

theorem NextPowerOf2_spec (x : Nat) (h1 : 1 ≤ x) (h2 : x ≤ 2 ^ 31) :
    NextPowerOf2 x = 2 ^ (Nat.size (x - 1)) ∧ x ≤ 2 ^ (Nat.size (x - 1)) ∧
      Nat.size (x - 1) ≤ 31 ∧ ∀ i, x ≤ 2 ^ i → Nat.size (x - 1) ≤ i := by
  have hs : Nat.size (x - 1) ≤ 31 := Nat.size_le.mpr (by omega)
  have hlt : x - 1 < 2 ^ Nat.size (x - 1) := Nat.lt_size_self _
  have hge : Nat.size (x - 1) = 0 ∨ 2 ^ (Nat.size (x - 1) - 1) ≤ x - 1 := by
    by_cases h0 : Nat.size (x - 1) = 0
    · exact Or.inl h0
    · exact Or.inr (Nat.lt_size.mp (by omega))
  have hx : (x + 2 ^ 32 - 1) % 2 ^ 32 = x - 1 := by omega
  have hsm := NextPowerOf2.smear_eq (x - 1) _ (by omega) hlt hge
  have hp : 2 ^ Nat.size (x - 1) ≤ 2 ^ 31 := Nat.pow_le_pow_right (by norm_num) hs
  have hp1 : 1 ≤ 2 ^ Nat.size (x - 1) := Nat.one_le_two_pow
  refine ⟨?_, by omega, hs, ?_⟩
  · have : NextPowerOf2 x = (NextPowerOf2.smear ((x + 2 ^ 32 - 1) % 2 ^ 32) + 1) % 2 ^ 32 := rfl
    rw [this, hx, hsm]
    omega
  · intro i hi
    apply Nat.size_le.mpr
    omega

theorem HashTable.entryAt_fresh (c : Nat) (a b : Object) (e : Nat) :
    HashTable.entryAt (((List.replicate (2 + 2 * c) Constant.Undefined).set 0 a).set 1 b) e =
      (if e < c then Constant.Undefined else Constant.Undefined,
       if e < c then Constant.Undefined else Constant.Undefined) := by
  simp only [HashTable.entryAt, List.getD_eq_getElem?_getD, ite_self]
  rw [List.getElem?_set_ne (by omega), List.getElem?_set_ne (by omega),
    List.getElem?_set_ne (by omega), List.getElem?_set_ne (by omega)]
  simp only [List.getElem?_replicate]
  split <;> split <;> rfl

theorem HashTable.pairs_fresh (c : Nat) (a b : Object) :
    HashTable.pairs (((List.replicate (2 + 2 * c) Constant.Undefined).set 0 a).set 1 b) c = [] := by
  simp only [HashTable.pairs, HashTable.entries, List.filter_eq_nil_iff, List.mem_map,
    List.mem_range]
  rintro p ⟨e, _, rfl⟩
  rw [HashTable.entryAt_fresh]
  simp only [ite_self]
  decide

theorem AllocateHashTableNoGCInternal_eq (σ : State) (elements_size c : Int)
    (policy : AllocationPolicy) (t : Object) (σ1 : State)
    (h : Int32.wrap (Int.ofNat (NextPowerOf2 (toUInt32 elements_size))) = c)
    (h2 : ¬ c < 2) (ha : AllocateArrayNoGC σ (HashTable.EnsureSize c) policy = .ok (t, σ1)) :
    AllocateHashTableNoGCInternal σ elements_size policy =
      (do
        let σ ← HashTable.SetElementsSize σ1 t 0
        let σ ← HashTable.SetCapacity σ t c
        pure (t, σ)) := by
  have e := (by delta AllocateHashTableNoGCInternal; exact rfl :
    AllocateHashTableNoGCInternal = _)
  rw [e]
  beta_reduce
  rw [h]
  simp only [h2, if_false, ha, bind, Except.bind]

theorem AllocateHashTableNoGCInternal_full (σ : State) (elements_size c : Int)
    (policy : AllocationPolicy) (err : Error)
    (h : Int32.wrap (Int.ofNat (NextPowerOf2 (toUInt32 elements_size))) = c)
    (h2 : ¬ c < 2) (ha : AllocateArrayNoGC σ (HashTable.EnsureSize c) policy = .error err) :
    AllocateHashTableNoGCInternal σ elements_size policy = .error err := by
  have e := (by delta AllocateHashTableNoGCInternal; exact rfl :
    AllocateHashTableNoGCInternal = _)
  rw [e]
  beta_reduce
  rw [h]
  simp only [h2, if_false, ha, bind, Except.bind]

theorem State.store_available (σ : State) (p : Object) (o : HeapObject)
    (sp : AllocationSpace) : (σ.store p o).available sp = σ.available sp := by
  cases sp <;> rfl

theorem AllocateHashTableNoGCInternal_fresh (σ : State) (L : Nat) (hL : L ≤ 30)
    (hb : σ.objects.length < 2 ^ 48) (space : AllocationSpace) (t : Object) (σ1 : State)
    (ht : t = HeapObject_Make σ.objects.length)
    (hσ : σ1 = σ.allocated space (.ARRAY (List.replicate (2 + 2 * 2 ^ L) Constant.Undefined))) :
    ∃ (σ' : State) (slots : List Object),
      (do
        let σ ← HashTable.SetElementsSize σ1 t 0
        let σ ← HashTable.SetCapacity σ t ((2 ^ L : Nat) : Int)
        pure (t, σ) : Except Error (Object × State)) = .ok (t, σ') ∧
      HashTable.Shaped σ' t slots 0 L ∧ HashTable.pairs slots (2 ^ L) = [] ∧
      ADDRESS t = σ.objects.length ∧
      σ'.objects.length = σ.objects.length + 1 ∧
      (∀ q o, σ.find q = some o → σ'.find q = some o) ∧
      (∀ sp, σ.available sp ≤ σ'.available sp
        + Align (12 + kPointerSize * (2 + 2 * 2 ^ L))) := by
  have hpos : (0 : Int) < 2 ^ L := by positivity
  have hf1 : σ1.find t = some (.ARRAY (List.replicate (2 + 2 * 2 ^ L) Constant.Undefined)) := by
    rw [ht, hσ]
    exact find_alloc_new hb
  have hat : ADDRESS t = σ.objects.length := by
    rw [ht]
    exact ADDRESS_Make _ hb
  have hs1 : Array.Set σ1 t HashTable.kElementsSizeIndex (Int32.Make 0) =
      .ok (Int32.Make 0, σ1.store t (.ARRAY ((List.replicate (2 + 2 * 2 ^ L)
        Constant.Undefined).set 0 (Int32.Make 0)))) :=
    Array.Set_eq _ hf1 (by decide)
      (by simp only [List.length_replicate, HashTable.kElementsSizeIndex]; omega)
  have hf2 := @find_store_same σ1 t _ (.ARRAY ((List.replicate (2 + 2 * 2 ^ L)
        Constant.Undefined).set 0 (Int32.Make 0))) hf1
  have hs2 : Array.Set (σ1.store t (.ARRAY ((List.replicate (2 + 2 * 2 ^ L)
        Constant.Undefined).set 0 (Int32.Make 0)))) t
      HashTable.kCapacityIndex (Int32.Make ((2 ^ L : Nat) : Int)) =
      .ok (Int32.Make ((2 ^ L : Nat) : Int), (σ1.store t (.ARRAY ((List.replicate
        (2 + 2 * 2 ^ L) Constant.Undefined).set 0 (Int32.Make 0)))).store t
        (.ARRAY (((List.replicate (2 + 2 * 2 ^ L) Constant.Undefined).set 0
          (Int32.Make 0)).set 1 (Int32.Make ((2 ^ L : Nat) : Int))))) :=
    Array.Set_eq _ hf2 (by decide)
      (by simp only [List.length_replicate, List.length_set, HashTable.kCapacityIndex]; omega)
  refine ⟨σ1.store t (.ARRAY (((List.replicate (2 + 2 * 2 ^ L) Constant.Undefined).set 0
    (Int32.Make 0)).set 1 (Int32.Make ((2 ^ L : Nat) : Int)))),
    ((List.replicate (2 + 2 * 2 ^ L) Constant.Undefined).set 0
    (Int32.Make 0)).set 1 (Int32.Make ((2 ^ L : Nat) : Int)), ?_, ?_, ?_, hat, ?_, ?_, ?_⟩
  · simp only [HashTable.SetElementsSize, HashTable.SetCapacity, bind, Except.bind, pure,
      Except.pure, hs1, hs2, State.store_store]
  · refine ⟨find_store_same hf1, by simp, ?_, ?_, hL, by decide⟩
    · rw [List.getElem?_set_ne (by omega), List.getElem?_set_self (by simp)]
    · rw [List.getElem?_set_self (by simp only [List.length_set, List.length_replicate]; omega)]
      simp
  · exact HashTable.pairs_fresh _ _ _
  · rw [hσ]
    simp [State.store, State.allocated_objects]
  · intro q o hq
    have hq1 : σ1.find q = some o := by
      rw [hσ]
      exact find_alloc_old hq
    have : ADDRESS t ≠ ADDRESS q := by
      have := find_lt hq
      omega
    rw [find_store_other this]
    exact hq1
  · intro sp
    rw [State.store_available, hσ]
    have := State.allocated_available σ space sp
      (.ARRAY (List.replicate (2 + 2 * 2 ^ L) Constant.Undefined))
    simpa only [HeapObject.Size, List.length_replicate] using this

/-- `Heap::AllocateHashTableNoGCInternal` for a size between 2 and `2 ^ 30`: the
capacity is the least power of two that is at least the size; with room for the array
of the table in the space of the policy the result is an empty table, and without it
`AllocationError` is thrown. -/
theorem AllocateHashTableNoGCInternal_spec (σ : State) (size : Int) (policy : AllocationPolicy)
    (h1 : 2 ≤ size) (h2 : size ≤ 2 ^ 30) (hb : σ.objects.length < 2 ^ 48) :
    ∃ j : Nat, size ≤ 2 ^ j ∧ (∀ i : Nat, size ≤ 2 ^ i → j ≤ i) ∧
      (Align (12 + kPointerSize * (2 + 2 * 2 ^ j)) ≤ σ.available policy.space →
        ∃ (t : Object) (σ' : State) (slots : List Object),
          AllocateHashTableNoGCInternal σ size policy = .ok (t, σ') ∧
          HashTable.Shaped σ' t slots 0 j ∧ HashTable.pairs slots (2 ^ j) = [] ∧
          ADDRESS t = σ.objects.length ∧
          σ'.objects.length = σ.objects.length + 1 ∧
          (∀ q o, σ.find q = some o → σ'.find q = some o) ∧
          (∀ sp, σ.available sp ≤ σ'.available sp
            + Align (12 + kPointerSize * (2 + 2 * 2 ^ j)))) ∧
      (σ.available policy.space < Align (12 + kPointerSize * (2 + 2 * 2 ^ j)) →
        AllocateHashTableNoGCInternal σ size policy
          = .error (.AllocationError policy.space)) := by
  obtain ⟨x, rfl⟩ : ∃ x : Nat, size = (x : Int) :=
    ⟨size.toNat, (Int.toNat_of_nonneg (by omega)).symm⟩
  have hx1 : 2 ≤ x := by omega
  have hx2 : x ≤ 2 ^ 30 := by
    have : ((x : Int)) ≤ ((2 ^ 30 : Nat) : Int) := by push_cast; exact h2
    exact Int.ofNat_le.mp this
  obtain ⟨hn1, hn2, _, hn4⟩ := NextPowerOf2_spec x (by omega) (by omega)
  have hL : Nat.size (x - 1) ≤ 30 := hn4 30 hx2
  generalize Nat.size (x - 1) = L at hn1 hn2 hn4 hL
  have hp30 : 2 ^ L ≤ 2 ^ 30 := Nat.pow_le_pow_right (by norm_num) hL
  have hpos : (0 : Int) < 2 ^ L := by positivity
  have hu : toUInt32 (x : Int) = x := by
    unfold toUInt32
    omega
  have hcap : Int32.wrap (Int.ofNat (NextPowerOf2 (toUInt32 (x : Int)))) = ((2 ^ L : Nat) : Int) := by
    rw [hu, hn1]
    exact Int32.wrap_of_fits _ (by simp only [Int.ofNat_eq_coe]; omega)
      (by simp only [Int.ofNat_eq_coe]; omega)
  have hc2 : ¬ ((2 ^ L : Nat) : Int) < 2 := by omega
  have hlen : (HashTable.EnsureSize ((2 ^ L : Nat) : Int)).toNat = 2 + 2 * 2 ^ L := by
    simp only [HashTable.EnsureSize, HashTable.EntryToIndex, HashTable.kElementsOffsetIndex]
    omega
  have hne : HashTable.EnsureSize ((2 ^ L : Nat) : Int) ≠ 0 := by
    simp only [HashTable.EnsureSize, HashTable.EntryToIndex, HashTable.kElementsOffsetIndex]
    omega
  have hsize : (HeapObject.ARRAY (List.replicate (2 + 2 * 2 ^ L) Constant.Undefined)).Size
      = Align (12 + kPointerSize * (2 + 2 * 2 ^ L)) := by
    simp only [HeapObject.Size, List.length_replicate]
  refine ⟨L, by exact_mod_cast hn2, fun i hi => hn4 i (by exact_mod_cast hi), ?_, ?_⟩
  · intro hroom
    have ha : AllocateArrayNoGC σ (HashTable.EnsureSize ((2 ^ L : Nat) : Int)) policy
        = .ok (HeapObject_Make σ.objects.length, σ.allocated policy.space
            (.ARRAY (List.replicate (2 + 2 * 2 ^ L) Constant.Undefined))) := by
      unfold AllocateArrayNoGC AllocateArrayNoGCInternal
      rw [if_pos hne, hlen]
      exact AllocateRaw_ok (by rw [hsize]; exact hroom)
    obtain ⟨σ', slots, hrun, hsh, hpairs, hat, hlen', hframe, havail⟩ :=
      AllocateHashTableNoGCInternal_fresh σ L hL hb policy.space _ _ rfl rfl
    refine ⟨_, σ', slots, ?_, hsh, hpairs, hat, hlen', hframe, havail⟩
    rw [AllocateHashTableNoGCInternal_eq σ _ _ policy _ _ hcap hc2 ha]
    exact hrun
  · intro hfull
    refine AllocateHashTableNoGCInternal_full σ _ _ policy _ hcap hc2 ?_
    unfold AllocateArrayNoGC AllocateArrayNoGCInternal
    rw [if_pos hne, hlen]
    exact AllocateRaw_full (by rw [hsize]; exact hfull)

theorem HashTable.Frame.store_table {σ σ' : State} {t : Object} (h : HashTable.Frame σ σ' t)
    (o : HeapObject) : HashTable.Frame σ (σ'.store t o) t := by
  intro q hq
  rw [find_store_other (fun e => hq e.symm)]
  exact h q hq

theorem HashTable.Shaped.congr_find {σ σ' : State} {t : Object} {slots : List Object} {n : Int}
    {k : Nat} (h : HashTable.Shaped σ t slots n k) (hf : σ'.find t = σ.find t) :
    HashTable.Shaped σ' t slots n k :=
  ⟨hf.trans h.find, h.length, h.size, h.capacity, h.bound, h.fits⟩

theorem String.Value_congr_find {σ σ' : State} {p : Object} (hf : σ'.find p = σ.find p) :
    String.Value σ' p = String.Value σ p := by
  simp only [String.Value, hf]

theorem IsString_congr_find {σ σ' : State} {p : Object} (hf : σ'.find p = σ.find p) :
    IsString σ' p = IsString σ p := by
  simp only [IsString, hf]

theorem String.Hash_eq {σ : State} {p : Object} {a : String} (h : String.Value σ p = .ok a) :
    String.Hash σ p = .ok (String.HashOf a) := by
  simp only [String.Hash, h, bind, Except.bind, pure, Except.pure]

theorem HashTable.entries_length (slots : List Object) (c : Nat) :
    (HashTable.entries slots c).length = c := by
  simp [HashTable.entries]

theorem HashTable.AddElementLoop_spec (F : FloatOps) {σ0 : State} {t new_table : Object}
    {slots : List Object} {n m : Int} {k j : Nat} (fuel : Nat)
    (hold : HashTable.Shaped σ0 t slots n k) (hkeys : HashTable.Keyed σ0 slots (2 ^ k))
    (hne : ADDRESS t ≠ ADDRESS new_table)
    (hkt : ∀ p ∈ HashTable.pairs slots (2 ^ k), ADDRESS p.1 ≠ ADDRESS new_table)
    (hcap : 2 ^ k ≤ 2 ^ j) (hfuel : 2 ^ j ≤ fuel) :
    ∀ (r i : Nat) (σ : State) (slots' : List Object),
      i + r = 2 ^ k →
      HashTable.Shaped σ new_table slots' m j →
      HashTable.Frame σ0 σ new_table →
      (HashTable.pairs slots' (2 ^ j)).Perm
        (((HashTable.entries slots (2 ^ k)).take i).filter (fun p => !IsUndefined p.1)) →
      ∃ (σ' : State) (slots'' : List Object),
        HashTable.AddElementLoop F fuel t new_table r (Int.ofNat i) σ = .ok σ' ∧
        HashTable.Shaped σ' new_table slots'' m j ∧ HashTable.Frame σ0 σ' new_table ∧
        (HashTable.pairs slots'' (2 ^ j)).Perm (HashTable.pairs slots (2 ^ k)) ∧
        σ'.objects.length = σ.objects.length := by
  intro r
  induction r with
  | zero =>
    intro i σ slots' hi hnew hframe hperm
    refine ⟨σ, slots', rfl, hnew, hframe, ?_, rfl⟩
    rw [Nat.add_zero] at hi
    rw [hi, List.take_of_length_le (by rw [HashTable.entries_length])] at hperm
    exact hperm
  | succ r ih =>
    intro i σ slots' hi hnew hframe hperm
    have hi' : i < 2 ^ k := by omega
    have hold' : HashTable.Shaped σ t slots n k := hold.congr_find (hframe t hne)
    have e1 : Int.ofNat i + 1 = Int.ofNat (i + 1) := rfl
    have htake : (HashTable.entries slots (2 ^ k)).take (i + 1) =
        (HashTable.entries slots (2 ^ k)).take i ++ [HashTable.entryAt slots i] := by
      rw [List.take_succ, HashTable.entries_getElem? slots (2 ^ k) i hi']
      rfl
    simp only [HashTable.AddElementLoop, hold'.get_key hi', bind, Except.bind]
    by_cases hu : IsUndefined (HashTable.entryAt slots i).1 = true
    · simp only [hu, Bool.not_true, Bool.false_eq_true, if_false, e1]
      apply ih (i + 1) σ slots' (by omega) hnew hframe
      rw [htake, List.filter_append]
      simp only [List.filter_cons, hu, Bool.not_true, Bool.false_eq_true, if_false,
        List.filter_nil, List.append_nil]
      exact hperm
    · have hu' : IsUndefined (HashTable.entryAt slots i).1 = false := by simpa using hu
      have hm : HashTable.entryAt slots i ∈ HashTable.pairs slots (2 ^ k) :=
        HashTable.mem_pairs.mpr ⟨i, hi', rfl, hu'⟩
      obtain ⟨a, ha⟩ := IsString_value (hkeys _ hm)
      have ha' : String.Value σ (HashTable.entryAt slots i).1 = .ok a := by
        rw [String.Value_congr_find (hframe _ (hkt _ hm))]
        exact ha
      have hlt : (HashTable.pairs slots' (2 ^ j)).length < 2 ^ j := by
        rw [hperm.length_eq]
        have h1 := List.length_filter_le (fun p : Object × Object => !IsUndefined p.1)
          ((HashTable.entries slots (2 ^ k)).take i)
        have h2 : ((HashTable.entries slots (2 ^ k)).take i).length ≤ i := by
          rw [List.length_take]
          exact Nat.min_le_left _ _
        omega
      obtain ⟨e, he, hue, hfi⟩ := HashTable.FindInsertionIndex_spec F hnew
        (String.HashOf a) fuel hfuel (HashTable.exists_empty slots' (2 ^ j) hlt)
      have hset := hnew.SetEntry_eq he (HashTable.entryAt slots i).1 (HashTable.entryAt slots i).2
      have hl := hnew.length
      have hnew2 : HashTable.Shaped (σ.store new_table (.ARRAY (HashTable.setEntry slots' e
          (HashTable.entryAt slots i).1 (HashTable.entryAt slots i).2))) new_table
          (HashTable.setEntry slots' e (HashTable.entryAt slots i).1
            (HashTable.entryAt slots i).2) m j :=
        hnew.store_slots _ m (HashTable.length_setEntry _ _ _ _)
          ((HashTable.head_setEntry _ _ _ _).1.trans hnew.size)
          (HashTable.head_setEntry _ _ _ _).2 hnew.fits
      simp only [hu', Bool.not_false, if_true, String.Hash_eq ha', hfi, hold'.get_value hi',
        hset, e1, pure, Except.pure]
      obtain ⟨σ', slots'', h1, h2, h3, h4, h5⟩ := ih (i + 1) _ _ (by omega) hnew2
        (hframe.store_table _) (by
          rw [htake, List.filter_append]
          simp only [List.filter_cons, hu', Bool.not_false, if_true, List.filter_nil]
          refine (HashTable.pairs_setEntry slots' (2 ^ j) e _ _ (by omega) he hue hu').trans ?_
          exact ((List.Perm.cons _ hperm).trans (List.perm_append_singleton _ _).symm))
      refine ⟨σ', slots'', h1, h2, h3, h4, ?_⟩
      rw [h5]
      simp [State.store]

theorem HashTable.entry_unique {σ : State} {slots : List Object} {c : Nat}
    (h : ((HashTable.pairs slots c).map (fun p => String.Value σ p.1)).Nodup)
    {e1 e2 : Nat} (h1 : e1 < c) (h2 : e2 < c)
    (ho1 : IsUndefined (HashTable.entryAt slots e1).1 = false)
    (ho2 : IsUndefined (HashTable.entryAt slots e2).1 = false)
    (hv : String.Value σ (HashTable.entryAt slots e1).1 =
      String.Value σ (HashTable.entryAt slots e2).1) : e1 = e2 := by
  have hq : (HashTable.pairs slots c).map (fun p => String.Value σ p.1) =
      ((List.range c).filter (fun e => !IsUndefined (HashTable.entryAt slots e).1)).map
        (fun e => String.Value σ (HashTable.entryAt slots e).1) := by
    simp only [HashTable.pairs, HashTable.entries, List.filter_map, List.map_map]
    rfl
  rw [hq] at h
  apply List.inj_on_of_nodup_map h
  · exact List.mem_filter.mpr ⟨List.mem_range.mpr h1, by simp [ho1]⟩
  · exact List.mem_filter.mpr ⟨List.mem_range.mpr h2, by simp [ho2]⟩
  · exact hv

theorem HashTable.Keyed.perm {σ σ' : State} {slots slots' : List Object} {c c' : Nat}
    (h : HashTable.Keyed σ slots c)
    (hp : (HashTable.pairs slots' c').Perm (HashTable.pairs slots c))
    (hs : ∀ q, IsString σ q = true → σ'.find q = σ.find q) :
    HashTable.Keyed σ' slots' c' := by
  intro p hm
  have hm' := hp.mem_iff.mp hm
  rw [IsString_congr_find (hs _ (h _ hm'))]
  exact h _ hm'

theorem HashTable.distinct_perm {σ σ' : State} {slots slots' : List Object} {c c' : Nat}
    (h : HashTable.Keyed σ slots c)
    (hd : ((HashTable.pairs slots c).map (fun p => String.Value σ p.1)).Nodup)
    (hp : (HashTable.pairs slots' c').Perm (HashTable.pairs slots c))
    (hs : ∀ q, IsString σ q = true → σ'.find q = σ.find q) :
    ((HashTable.pairs slots' c').map (fun p => String.Value σ' p.1)).Nodup := by
  have h1 := (hp.map (fun p => String.Value σ' p.1)).nodup_iff
  rw [h1]
  have h2 : (HashTable.pairs slots c).map (fun p => String.Value σ' p.1) =
      (HashTable.pairs slots c).map (fun p => String.Value σ p.1) := by
    apply List.map_congr_left
    intro p hm
    exact String.Value_congr_find (hs _ (h _ hm))
  rw [h2]
  exact hd

theorem HashTable.pow_lt_of_least {x : Int} {j : Nat} (h1 : 1 ≤ x)
    (hmin : ∀ i : Nat, x ≤ 2 ^ i → j ≤ i) : (2 : Int) ^ j < 2 * x := by
  rcases Nat.eq_zero_or_pos j with h0 | hpos
  · rw [h0]
    simp only [pow_zero]
    omega
  · have hn : ¬ x ≤ 2 ^ (j - 1) := by
      intro hle
      have := hmin (j - 1) hle
      omega
    have e : (2 : Int) ^ j = 2 * 2 ^ (j - 1) := by
      rw [← pow_succ']
      congr 1
      omega
    rw [e]
    omega

theorem HashTable.AddElement_keep (F : FloatOps) (fuel : Nat) {σ : State} {t : Object}
    {slots : List Object} {n : Int} {k : Nat} (h : HashTable.Shaped σ t slots n k)
    (count : Int) (hle : n + count + (n + count) / 4 ≤ 2 ^ k) :
    HashTable.AddElement F fuel σ t count =
      .ok (t, σ.store t (.ARRAY (slots.set 0 (Int32.Make (n + count))))) := by
  simp only [HashTable.AddElement, h.Capacity_ok F, h.ElementsSize_ok F, bind, Except.bind,
    pure, Except.pure, hle, if_true, h.SetElementsSize_ok]

theorem HashTable.AddElement_grow (F : FloatOps) (fuel : Nat) {σ : State} {t : Object}
    {slots : List Object} {n : Int} {k : Nat} (h : HashTable.Shaped σ t slots n k)
    (hkeys : HashTable.Keyed σ slots (2 ^ k)) (count : Int)
    (hb : σ.objects.length < 2 ^ 48)
    (hn : 0 ≤ n + count) (hcb : n + count ≤ 2 ^ 29)
    (hgt : ¬ n + count + (n + count) / 4 ≤ 2 ^ k) (hfuel : 4 * (n + count) ≤ (fuel : Int)) :
    ∃ j : Nat, 2 * (n + count) ≤ 2 ^ j ∧ (∀ i : Nat, 2 * (n + count) ≤ 2 ^ i → j ≤ i) ∧
      2 ^ j ≤ fuel ∧
      (Align (12 + kPointerSize * (2 + 2 * 2 ^ j)) ≤ σ.new_space_available →
        ∃ (t' : Object) (σ' : State) (slots' : List Object),
          HashTable.AddElement F fuel σ t count = .ok (t', σ') ∧
          ADDRESS t' = σ.objects.length ∧
          HashTable.Shaped σ' t' slots' (n + count) j ∧
          (HashTable.pairs slots' (2 ^ j)).Perm (HashTable.pairs slots (2 ^ k)) ∧
          (∀ q o, σ.find q = some o → σ'.find q = some o) ∧
          σ'.objects.length = σ.objects.length + 1) ∧
      (σ.new_space_available < Align (12 + kPointerSize * (2 + 2 * 2 ^ j)) →
        HashTable.AddElement F fuel σ t count = .error (.AllocationError .NEW_SPACE)) := by
  have hk1 : (1 : Int) ≤ 2 ^ k := one_le_pow₀ (by norm_num)
  have hnew1 : 1 ≤ n + count := by omega
  have hsz : (n + count) * 2 ≠ 0 := by omega
  obtain ⟨j, hge, hmin, hok, hfull⟩ :=
    AllocateHashTableNoGCInternal_spec σ ((n + count) * 2) .NOT_TENURED (by omega) (by omega) hb
  have hge' : 2 * (n + count) ≤ 2 ^ j := by omega
  have hmin' : ∀ i : Nat, 2 * (n + count) ≤ 2 ^ i → j ≤ i := fun i hi => hmin i (by omega)
  have hfuelN : 2 ^ j ≤ fuel := by
    have h1 := HashTable.pow_lt_of_least (x := 2 * (n + count)) (j := j) (by omega) hmin'
    have : ((2 ^ j : Nat) : Int) ≤ (fuel : Int) := by
      push_cast
      omega
    exact Int.ofNat_le.mp this
  refine ⟨j, hge', hmin', hfuelN, ?_, ?_⟩
  swap
  · intro hf
    have halloc := hfull hf
    simp only [HashTable.AddElement, h.Capacity_ok F, h.ElementsSize_ok F, bind, Except.bind,
      pure, Except.pure, hgt, if_false, AllocateHashTableNoGC, hsz, ne_eq, not_false_eq_true,
      if_true, halloc]
    rfl
  intro hroom
  obtain ⟨t', σ1, slots1, halloc, hsh1, hp1, haddr, hlen1, hfr1, _⟩ := hok hroom
  have hfit : Int32.kMinInt32 ≤ n + count ∧ n + count ≤ Int32.kMaxInt32 := by
    simp only [Int32.kMinInt32, Int32.kMaxInt32]
    constructor <;> omega
  have hl1 := hsh1.length
  have hsh2 : HashTable.Shaped (σ1.store t' (.ARRAY (slots1.set 0 (Int32.Make (n + count)))))
      t' (slots1.set 0 (Int32.Make (n + count))) (n + count) j :=
    hsh1.store_slots _ _ (by simp) (by rw [List.getElem?_set_self (by omega)])
      (by rw [List.getElem?_set_ne (by omega)]) hfit
  have hat : ADDRESS t ≠ ADDRESS t' := by
    have := find_lt h.find
    omega
  have hfind2 : ∀ q o, σ.find q = some o →
      (σ1.store t' (.ARRAY (slots1.set 0 (Int32.Make (n + count))))).find q = some o := by
    intro q o hq
    have : ADDRESS t' ≠ ADDRESS q := by
      have := find_lt hq
      omega
    rw [find_store_other this]
    exact hfr1 q o hq
  have hold2 : HashTable.Shaped (σ1.store t' (.ARRAY (slots1.set 0 (Int32.Make (n + count)))))
      t slots n k :=
    ⟨hfind2 _ _ h.find, h.length, h.size, h.capacity, h.bound, h.fits⟩
  have hkeys2 : HashTable.Keyed (σ1.store t' (.ARRAY (slots1.set 0 (Int32.Make (n + count)))))
      slots (2 ^ k) := by
    intro p hm
    obtain ⟨e, v, hf⟩ := IsString_iff.mp (hkeys p hm)
    exact IsString_iff.mpr ⟨e, v, hfind2 _ _ hf⟩
  have hkt : ∀ p ∈ HashTable.pairs slots (2 ^ k), ADDRESS p.1 ≠ ADDRESS t' := by
    intro p hm
    obtain ⟨e, v, hf⟩ := IsString_iff.mp (hkeys p hm)
    have := find_lt hf
    omega
  have hcapN : 2 ^ k ≤ 2 ^ j := by
    have : ((2 ^ k : Nat) : Int) ≤ ((2 ^ j : Nat) : Int) := by
      push_cast
      omega
    exact Int.ofNat_le.mp this
  obtain ⟨σ3, slots3, hloop, hsh3, hfr3, hperm3, hlen3⟩ :=
    HashTable.AddElementLoop_spec F fuel hold2 hkeys2 hat hkt hcapN hfuelN (2 ^ k) 0 _ _
      (by omega) hsh2 (fun q _ => rfl) (by
        rw [HashTable.pairs_set_zero, hp1]
        simp)
  have htn : ((2 : Int) ^ k).toNat = 2 ^ k := by
    have : (2 : Int) ^ k = ((2 ^ k : Nat) : Int) := by push_cast; rfl
    rw [this, Int.toNat_natCast]
  have hz : (0 : Int) = Int.ofNat 0 := rfl
  refine ⟨t', σ3, slots3, ?_, haddr, hsh3, hperm3, ?_, ?_⟩
  · simp only [HashTable.AddElement, h.Capacity_ok F, h.ElementsSize_ok F, bind, Except.bind,
      pure, Except.pure, hgt, if_false, AllocateHashTableNoGC, hsz, ne_eq, not_false_eq_true,
      if_true, halloc, hsh1.SetElementsSize_ok, htn]
    rw [hz, hloop]
  · intro q o hq
    have : ADDRESS q ≠ ADDRESS t' := by
      have := find_lt hq
      omega
    rw [hfr3 q this]
    exact hfind2 q o hq
  · rw [hlen3]
    simp only [State.store, List.length_set]
    exact hlen1

/-- The array of a table of the least capacity `2 ^ j` that is at least `x` takes
at most `32 * x + 16` bytes. -/
theorem HashTable.size_le_of_least {x : Int} {j : Nat} (hx : 1 ≤ x)
    (hmin : ∀ i : Nat, x ≤ 2 ^ i → j ≤ i) :
    (Align (12 + kPointerSize * (2 + 2 * 2 ^ j)) : Int) ≤ 32 * x + 16 := by
  have h1 := HashTable.pow_lt_of_least (x := x) (j := j) hx hmin
  have h2 : ((2 ^ j : Nat) : Int) < 2 * x := by push_cast; exact h1
  have h3 : Align (12 + kPointerSize * (2 + 2 * 2 ^ j)) = 32 + 16 * 2 ^ j := by
    simp only [Align, kPointerSize]
    omega
  rw [h3]
  push_cast
  push_cast at h2
  omega

theorem HashTable.Search_of_mem (F : FloatOps) {σ : State} {t : Object}
    {slots : List Object} {n : Int} {k : Nat}
    (h : HashTable.Shaped σ t slots n k) (hkeys : HashTable.Keyed σ slots (2 ^ k))
    (hd : ((HashTable.pairs slots (2 ^ k)).map (fun p => String.Value σ p.1)).Nodup)
    (hn : ((HashTable.pairs slots (2 ^ k)).length : Int) ≤ n)
    {p : Object × Object} (hm : p ∈ HashTable.pairs slots (2 ^ k)) :
    HashTable.Search F σ t p.1 = .ok p.2 := by
  obtain ⟨e, he, hp, hocc⟩ := HashTable.mem_pairs.mp hm
  obtain ⟨a, ha⟩ := IsString_value (hkeys p hm)
  rw [← hp] at hocc ha ⊢
  apply HashTable.Search_present F h hkeys ha e he hocc ha ?_ hn
  intro e' he' hocc' hval'
  exact HashTable.entry_unique hd he' he hocc' hocc (hval'.trans ha.symm)

theorem HashTable.AddElement_spec (F : FloatOps) (fuel : Nat) {σ : State} {t : Object}
    {slots : List Object} {n : Int} {k : Nat} (h : HashTable.Shaped σ t slots n k)
    (hkeys : HashTable.Keyed σ slots (2 ^ k)) (count : Int)
    (hb : σ.objects.length < 2 ^ 48)
    (hn : 0 ≤ n + count) (hcb : n + count ≤ 2 ^ 29)
    (hfuel : 4 * (n + count) ≤ (fuel : Int)) (hfk : 2 ^ k ≤ fuel)
    (hroom : 64 * (n + count) + 16 ≤ (σ.new_space_available : Int)) :
    ∃ (j : Nat) (t' : Object) (σ' : State) (slots' : List Object),
      HashTable.AddElement F fuel σ t count = .ok (t', σ') ∧
      HashTable.Shaped σ' t' slots' (n + count) j ∧ 2 ^ j ≤ fuel ∧
      n + count + (n + count) / 4 ≤ 2 ^ j ∧
      (HashTable.pairs slots' (2 ^ j)).Perm (HashTable.pairs slots (2 ^ k)) ∧
      (∀ q, IsString σ q = true → σ'.find q = σ.find q) ∧
      σ'.objects.length ≤ σ.objects.length + 1 := by
  have hfit : Int32.kMinInt32 ≤ n + count ∧ n + count ≤ Int32.kMaxInt32 := by
    simp only [Int32.kMinInt32, Int32.kMaxInt32]
    constructor <;> omega
  by_cases hle : n + count + (n + count) / 4 ≤ 2 ^ k
  · have hl := h.length
    refine ⟨k, t, _, slots.set 0 (Int32.Make (n + count)),
      HashTable.AddElement_keep F fuel h count hle, ?_, hfk, hle, ?_, ?_, ?_⟩
    · exact h.store_slots _ _ (by simp) (by rw [List.getElem?_set_self (by omega)])
        (by rw [List.getElem?_set_ne (by omega)]) hfit
    · rw [HashTable.pairs_set_zero]
    · intro q hq
      exact String.find_store h.find hq
    · simp [State.store]
  · obtain ⟨j, h4, hmin, h9, hok, _⟩ :=
      HashTable.AddElement_grow F fuel h hkeys count hb hn hcb hle hfuel
    have hk1 : (1 : Int) ≤ 2 ^ k := one_le_pow₀ (by norm_num)
    have hsz := HashTable.size_le_of_least (x := 2 * (n + count)) (j := j) (by omega) hmin
    obtain ⟨t', σ', slots', h1, _, h3, h6, h7, h8⟩ := hok (by omega)
    refine ⟨j, t', σ', slots', h1, h3, h9, by omega, h6, ?_, by omega⟩
    intro q hq
    obtain ⟨e, v, hf⟩ := IsString_iff.mp hq
    rw [hf]
    exact h7 q _ hf

theorem HashTable.entryAt_set_value (slots : List Object) (e e' : Nat) (v : Object) :
    (HashTable.entryAt (slots.set (2 + 2 * e + 1) v) e').1 = (HashTable.entryAt slots e').1 := by
  simp only [HashTable.entryAt, List.getD_eq_getElem?_getD]
  rw [List.getElem?_set_ne (by omega)]

theorem HashTable.entryAt_set_value_same (slots : List Object) (e : Nat) (v : Object)
    (h : 2 + 2 * e + 1 < slots.length) :
    (HashTable.entryAt (slots.set (2 + 2 * e + 1) v) e).2 = v := by
  simp only [HashTable.entryAt, List.getD_eq_getElem?_getD]
  rw [List.getElem?_set_self h]
  rfl

theorem HashTable.keys_set_value (slots : List Object) (c e : Nat) (v : Object) :
    (HashTable.pairs (slots.set (2 + 2 * e + 1) v) c).map Prod.fst =
      (HashTable.pairs slots c).map Prod.fst := by
  simp only [HashTable.pairs, HashTable.entries, List.filter_map, List.map_map]
  have h1 : ((fun p : Object × Object => !IsUndefined p.1) ∘
      HashTable.entryAt (slots.set (2 + 2 * e + 1) v)) =
      ((fun p : Object × Object => !IsUndefined p.1) ∘ HashTable.entryAt slots) := by
    funext e'
    simp only [Function.comp, HashTable.entryAt_set_value]
  have h2 : (Prod.fst ∘ HashTable.entryAt (slots.set (2 + 2 * e + 1) v)) =
      (Prod.fst ∘ HashTable.entryAt slots) := by
    funext e'
    simp only [Function.comp, HashTable.entryAt_set_value]
  rw [h1, h2]

theorem HashTable.WellFormed.of_keys {σ σ' : State} {t t' : Object} {slots slots' : List Object}
    {k j : Nat} (hwf : HashTable.WellFormed σ t slots k)
    (hk : (HashTable.pairs slots' (2 ^ j)).map Prod.fst =
      (HashTable.pairs slots (2 ^ k)).map Prod.fst)
    (hs : ∀ q, IsString σ q = true → σ'.find q = σ.find q)
    (hsh : HashTable.Shaped σ' t' slots' ((HashTable.pairs slots' (2 ^ j)).length : Int) j) :
    HashTable.WellFormed σ' t' slots' j := by
  have hmem : ∀ p ∈ HashTable.pairs slots' (2 ^ j), ∃ p0 ∈ HashTable.pairs slots (2 ^ k),
      p0.1 = p.1 := by
    intro p hm
    have : p.1 ∈ (HashTable.pairs slots' (2 ^ j)).map Prod.fst := List.mem_map.mpr ⟨p, hm, rfl⟩
    rw [hk] at this
    exact List.mem_map.mp this
  refine ⟨hsh, ?_, ?_⟩
  · intro p hm
    obtain ⟨p0, hm0, he⟩ := hmem p hm
    rw [← he, IsString_congr_find (hs _ (hwf.keys _ hm0))]
    exact hwf.keys _ hm0
  · have e1 : (HashTable.pairs slots' (2 ^ j)).map (fun p => String.Value σ' p.1) =
        ((HashTable.pairs slots' (2 ^ j)).map Prod.fst).map (String.Value σ') := by
      rw [List.map_map]
      rfl
    have e2 : (HashTable.pairs slots (2 ^ k)).map (fun p => String.Value σ p.1) =
        ((HashTable.pairs slots (2 ^ k)).map Prod.fst).map (String.Value σ') := by
      rw [List.map_map]
      apply List.map_congr_left
      intro p hm
      exact (String.Value_congr_find (hs _ (hwf.keys _ hm))).symm
    rw [e1, hk, ← e2]
    exact hwf.distinct

theorem HashTable.Insert_present (F : FloatOps) (fuel : Nat) {σ : State} {t key : Object}
    {slots : List Object} {k : Nat} {s : String} (hwf : HashTable.WellFormed σ t slots k)
    (hkey : String.Value σ key = .ok s) (value : Object)
    {p : Object × Object} (hm : p ∈ HashTable.pairs slots (2 ^ k))
    (hp : String.Value σ p.1 = .ok s) :
    ∃ (σ' : State) (slots' : List Object),
      HashTable.Insert F fuel σ t key value = .ok (t, σ') ∧
      HashTable.WellFormed σ' t slots' k ∧ HashTable.Search F σ' t key = .ok value ∧
      σ'.objects.length = σ.objects.length := by
  obtain ⟨e, he, hpe, hocc⟩ := HashTable.mem_pairs.mp hm
  rw [← hpe] at hocc hp
  have hl := hwf.shaped.length
  have hfe := HashTable.FindEntry_present F hwf.shaped hwf.keys hkey e he hocc hp
    (fun e' he' hocc' hval' =>
      HashTable.entry_unique hwf.distinct he' he hocc' hocc (hval'.trans hp.symm))
    (le_refl _) (String.HashOf s)
  have hne : ¬ Int.ofNat e = -1 := by
    simp only [Int.ofNat_eq_coe]
    omega
  have e2 : (HashTable.EntryToIndex (Int.ofNat e) + 1).toNat = 2 + 2 * e + 1 := by
    simp only [HashTable.EntryToIndex, HashTable.kElementsOffsetIndex, Int.ofNat_eq_coe]; omega
  have hset : Array.Set σ t (HashTable.EntryToIndex (Int.ofNat e) + 1) value =
      .ok (value, σ.store t (.ARRAY (slots.set (2 + 2 * e + 1) value))) := by
    rw [← e2]
    apply Array.Set_eq value hwf.shaped.find
    · simp only [HashTable.EntryToIndex, HashTable.kElementsOffsetIndex, Int.ofNat_eq_coe]; omega
    · simp only [HashTable.EntryToIndex, HashTable.kElementsOffsetIndex, Int.ofNat_eq_coe]; omega
  have hkeys := HashTable.keys_set_value slots (2 ^ k) e value
  have hlen : (HashTable.pairs (slots.set (2 + 2 * e + 1) value) (2 ^ k)).length =
      (HashTable.pairs slots (2 ^ k)).length := by
    have := congrArg List.length hkeys
    simpa using this
  have hstr : ∀ q, IsString σ q = true →
      (σ.store t (.ARRAY (slots.set (2 + 2 * e + 1) value))).find q = σ.find q :=
    fun q hq => String.find_store hwf.shaped.find hq
  have hsh : HashTable.Shaped (σ.store t (.ARRAY (slots.set (2 + 2 * e + 1) value))) t
      (slots.set (2 + 2 * e + 1) value)
      ((HashTable.pairs (slots.set (2 + 2 * e + 1) value) (2 ^ k)).length : Int) k := by
    rw [hlen]
    exact hwf.shaped.store_slots _ _ (by simp)
      (by rw [List.getElem?_set_ne (by omega)]; exact hwf.shaped.size)
      (by rw [List.getElem?_set_ne (by omega)]) hwf.shaped.fits
  have hwf' := hwf.of_keys hkeys hstr hsh
  refine ⟨_, _, ?_, hwf', ?_, by simp [State.store]⟩
  · simp only [HashTable.Insert, String.Hash_eq hkey, hfe, bind, Except.bind, pure,
      Except.pure, ne_eq, hne, not_false_eq_true, if_true, hset]
  · have hkey' : String.Value (σ.store t (.ARRAY (slots.set (2 + 2 * e + 1) value))) key =
        .ok s := by
      obtain ⟨e0, hf⟩ := String.Value_ok hkey
      rw [String.Value_congr_find (hstr key (IsString_iff.mpr ⟨e0, s, hf⟩))]
      exact hkey
    have hocc' : IsUndefined (HashTable.entryAt (slots.set (2 + 2 * e + 1) value) e).1 = false := by
      rw [HashTable.entryAt_set_value]
      exact hocc
    have hval' : String.Value (σ.store t (.ARRAY (slots.set (2 + 2 * e + 1) value)))
        (HashTable.entryAt (slots.set (2 + 2 * e + 1) value) e).1 = .ok s := by
      rw [HashTable.entryAt_set_value]
      obtain ⟨e0, hf⟩ := String.Value_ok hp
      rw [String.Value_congr_find (hstr _ (IsString_iff.mpr ⟨e0, s, hf⟩))]
      exact hp
    have := HashTable.Search_present F hwf'.shaped hwf'.keys hkey' e he hocc' hval'
      (fun e' he' ho' hv' =>
        HashTable.entry_unique hwf'.distinct he' he ho' hocc' (hv'.trans hval'.symm))
      (le_refl _)
    rw [this, HashTable.entryAt_set_value_same _ _ _ (by omega)]

theorem IsHeapObject_not_undefined (p : Nat) (h : IsHeapObject p = true) :
    IsUndefined p = false := by
  simp only [IsHeapObject, READ_TAG, kCanonicalBits, kHeapObjectTag, decide_eq_true_eq] at h
  simp only [IsUndefined, Constant.kUndefined, Constant.kNull, Constant.kBoolFalse,
    Constant.kBoolTrue, Constant.kConstantTag, decide_eq_false_iff_not]
  intro he
  have h' : (p : Nat) / 2 ^ 48 * 2 ^ 48 = 18445618173802708992 := h
  have he' : (p : Nat) = 18445055223849287680 + 1 + 1 + 1 := he
  omega

theorem HashTable.Insert_absent (F : FloatOps) (fuel : Nat) {σ : State} {t key : Object}
    {slots : List Object} {k : Nat} {s : String} (hwf : HashTable.WellFormed σ t slots k)
    (hk : k ≤ 28) (hb : σ.objects.length < 2 ^ 48)
    (hkey : String.Value σ key = .ok s) (value : Object)
    (habs : ∀ p ∈ HashTable.pairs slots (2 ^ k), String.Value σ p.1 ≠ .ok s)
    (hfuel : 4 * ((HashTable.pairs slots (2 ^ k)).length + 1) ≤ fuel) (hfk : 2 ^ k ≤ fuel)
    (hspace : 64 * ((HashTable.pairs slots (2 ^ k)).length + 1) + 16
      ≤ σ.new_space_available) :
    ∃ (j : Nat) (t' : Object) (σ' : State) (slots' : List Object),
      HashTable.Insert F fuel σ t key value = .ok (t', σ') ∧
      HashTable.WellFormed σ' t' slots' j ∧ HashTable.Search F σ' t' key = .ok value ∧
      (HashTable.pairs slots' (2 ^ j)).Perm ((key, value) :: HashTable.pairs slots (2 ^ k)) ∧
      σ'.objects.length ≤ σ.objects.length + 1 := by
  have hnle := HashTable.length_pairs_le slots (2 ^ k)
  have hp28 : 2 ^ k ≤ 2 ^ 28 := Nat.pow_le_pow_right (by norm_num) hk
  obtain ⟨e0, hkf⟩ := String.Value_ok hkey
  have hks : IsString σ key = true := IsString_iff.mpr ⟨e0, s, hkf⟩
  have hku : IsUndefined key = false :=
    IsHeapObject_not_undefined key (find_some_iff.mp hkf).1
  obtain ⟨j, t1, σ1, slots1, hadd, hsh1, hfj, hroom, hperm1, hstr1, hlen1⟩ :=
    HashTable.AddElement_spec F fuel hwf.shaped hwf.keys 1 hb (by omega)
      (by
        have : ((HashTable.pairs slots (2 ^ k)).length : Int) ≤ 2 ^ 28 := by
          exact_mod_cast hnle.trans hp28
        omega)
      (by exact_mod_cast hfuel) hfk (by exact_mod_cast hspace)
  have hlt : (HashTable.pairs slots1 (2 ^ j)).length < 2 ^ j := by
    rw [hperm1.length_eq]
    have : (((HashTable.pairs slots (2 ^ k)).length : Nat) : Int) < ((2 ^ j : Nat) : Int) := by
      push_cast
      omega
    exact Int.ofNat_lt.mp this
  obtain ⟨e, he, hue, hfi⟩ := HashTable.FindInsertionIndex_spec F hsh1 (String.HashOf s) fuel
    hfj (HashTable.exists_empty slots1 (2 ^ j) hlt)
  have hset := hsh1.SetEntry_eq he key value
  have hl := hsh1.length
  have hperm2 := HashTable.pairs_setEntry slots1 (2 ^ j) e key value (by omega) he hue hku
  have hperm3 : (HashTable.pairs (HashTable.setEntry slots1 e key value) (2 ^ j)).Perm
      ((key, value) :: HashTable.pairs slots (2 ^ k)) := hperm2.trans (List.Perm.cons _ hperm1)
  have hstr2 : ∀ q, IsString σ q = true →
      (σ1.store t1 (.ARRAY (HashTable.setEntry slots1 e key value))).find q = σ.find q := by
    intro q hq
    have h1 := hstr1 q hq
    have hq1 : IsString σ1 q = true := by rw [IsString_congr_find h1]; exact hq
    rw [String.find_store hsh1.find hq1]
    exact h1
  have hsh2 : HashTable.Shaped (σ1.store t1 (.ARRAY (HashTable.setEntry slots1 e key value))) t1
      (HashTable.setEntry slots1 e key value)
      ((HashTable.pairs (HashTable.setEntry slots1 e key value) (2 ^ j)).length : Int) j := by
    have hlen : ((HashTable.pairs (HashTable.setEntry slots1 e key value) (2 ^ j)).length : Int) =
        ((HashTable.pairs slots (2 ^ k)).length : Int) + 1 := by
      rw [hperm3.length_eq]
      simp
    rw [hlen]
    exact hsh1.store_slots _ _ (HashTable.length_setEntry _ _ _ _)
      ((HashTable.head_setEntry _ _ _ _).1.trans hsh1.size)
      (HashTable.head_setEntry _ _ _ _).2 hsh1.fits
  have hkeys2 : HashTable.Keyed (σ1.store t1 (.ARRAY (HashTable.setEntry slots1 e key value)))
      (HashTable.setEntry slots1 e key value) (2 ^ j) := by
    intro p hm
    rcases List.mem_cons.mp (hperm3.mem_iff.mp hm) with hp | hp
    · rw [hp, IsString_congr_find (hstr2 key hks)]
      exact hks
    · rw [IsString_congr_find (hstr2 _ (hwf.keys p hp))]
      exact hwf.keys p hp
  have hdist2 : ((HashTable.pairs (HashTable.setEntry slots1 e key value) (2 ^ j)).map
      (fun p => String.Value (σ1.store t1 (.ARRAY (HashTable.setEntry slots1 e key value)))
        p.1)).Nodup := by
    rw [(hperm3.map _).nodup_iff, List.map_cons, List.nodup_cons]
    have hcongr : (HashTable.pairs slots (2 ^ k)).map (fun p => String.Value
        (σ1.store t1 (.ARRAY (HashTable.setEntry slots1 e key value))) p.1) =
        (HashTable.pairs slots (2 ^ k)).map (fun p => String.Value σ p.1) := by
      apply List.map_congr_left
      intro p hm
      exact String.Value_congr_find (hstr2 _ (hwf.keys p hm))
    rw [hcongr]
    refine ⟨?_, hwf.distinct⟩
    intro hmem
    obtain ⟨p, hm, hv⟩ := List.mem_map.mp hmem
    apply habs p hm
    rw [hv]
    simp only []
    rw [String.Value_congr_find (hstr2 key hks)]
    exact hkey
  have hwf2 : HashTable.WellFormed (σ1.store t1 (.ARRAY (HashTable.setEntry slots1 e key value)))
      t1 (HashTable.setEntry slots1 e key value) j := ⟨hsh2, hkeys2, hdist2⟩
  have hne : ¬ (-1 : Int) ≠ -1 := by simp
  refine ⟨j, t1, _, _, ?_, hwf2, ?_, hperm3, ?_⟩
  · simp only [HashTable.Insert, String.Hash_eq hkey,
      HashTable.FindEntry_absent F hwf.shaped hwf.keys hkey habs, bind, Except.bind, pure,
      Except.pure, hne, if_false, hadd, hfi, hset]
  · exact HashTable.Search_of_mem F hsh2 hkeys2 hdist2 (le_refl _)
      (p := (key, value)) (hperm3.mem_iff.mpr (List.mem_cons_self _ _))
  · simp only [State.store, List.length_set]
    exact hlen1

theorem HashTable.Insert_spec (F : FloatOps) (fuel : Nat) {σ : State} {t key : Object}
    {slots : List Object} {k : Nat} {s : String} (hwf : HashTable.WellFormed σ t slots k)
    (hk : k ≤ 28) (hb : σ.objects.length < 2 ^ 48)
    (hkey : String.Value σ key = .ok s) (value : Object)
    (hfuel : 4 * ((HashTable.pairs slots (2 ^ k)).length + 1) ≤ fuel) (hfk : 2 ^ k ≤ fuel)
    (hspace : 64 * ((HashTable.pairs slots (2 ^ k)).length + 1) + 16
      ≤ σ.new_space_available) :
    ∃ (j : Nat) (t' : Object) (σ' : State) (slots' : List Object),
      HashTable.Insert F fuel σ t key value = .ok (t', σ') ∧
      HashTable.WellFormed σ' t' slots' j ∧ HashTable.Search F σ' t' key = .ok value ∧
      σ'.objects.length ≤ σ.objects.length + 1 := by
  by_cases hex : ∃ p ∈ HashTable.pairs slots (2 ^ k), String.Value σ p.1 = .ok s
  · obtain ⟨p, hm, hp⟩ := hex
    obtain ⟨σ', slots', h1, h2, h3, h4⟩ := HashTable.Insert_present F fuel hwf hkey value hm hp
    exact ⟨k, t, σ', slots', h1, h2, h3, by omega⟩
  · obtain ⟨j, t', σ', slots', h1, h2, h3, _, h5⟩ := HashTable.Insert_absent F fuel hwf hk hb
      hkey value (fun p hm hv => hex ⟨p, hm, hv⟩) hfuel hfk hspace
    exact ⟨j, t', σ', slots', h1, h2, h3, h5⟩

theorem List.filter_unset_perm {α : Type} (p : α → Bool) :
    ∀ (l : List α) (e : Nat) (x y : α), l[e]? = some y → p y = true → p x = false →
      (l.filter p).Perm (y :: (l.set e x).filter p)
  | [], _, _, _, h, _, _ => by simp at h
  | a :: l, 0, x, y, h, hy, hx => by
    simp only [List.getElem?_cons_zero, Option.some.injEq] at h
    subst h
    simp [List.filter_cons, hy, hx]
  | a :: l, e + 1, x, y, h, hy, hx => by
    simp only [List.getElem?_cons_succ] at h
    have ih := List.filter_unset_perm p l e x y h hy hx
    simp only [List.set_cons_succ, List.filter_cons]
    by_cases ha : p a = true
    · simp only [ha, if_true]
      exact (List.Perm.cons a ih).trans (List.Perm.swap y a _)
    · simp only [ha, Bool.false_eq_true, if_false]
      exact ih

theorem HashTable.pairs_clearEntry (slots : List Object) (c e : Nat)
    (h : 2 + 2 * e + 1 < slots.length) (he : e < c)
    (hocc : IsUndefined (HashTable.entryAt slots e).1 = false) :
    (HashTable.pairs slots c).Perm (HashTable.entryAt slots e ::
      HashTable.pairs (HashTable.setEntry slots e Constant.Undefined Constant.Undefined) c) := by
  unfold HashTable.pairs
  rw [HashTable.entries_setEntry _ _ _ _ _ h]
  exact List.filter_unset_perm _ _ _ _ _ (HashTable.entries_getElem? slots c e he)
    (by simp [hocc]) (by decide)

theorem HashTable.Delete_spec (F : FloatOps) {σ : State} {t key : Object}
    {slots : List Object} {k : Nat} {s : String} (hwf : HashTable.WellFormed σ t slots k)
    (hkey : String.Value σ key = .ok s) :
    ∃ (deleted : Bool) (σ' : State) (slots' : List Object),
      HashTable.Delete F σ t key = .ok (deleted, σ') ∧ HashTable.WellFormed σ' t slots' k := by
  by_cases hex : ∃ p ∈ HashTable.pairs slots (2 ^ k), String.Value σ p.1 = .ok s
  · obtain ⟨p, hm, hp⟩ := hex
    obtain ⟨e, he, hpe, hocc⟩ := HashTable.mem_pairs.mp hm
    rw [← hpe] at hocc hp
    have hl := hwf.shaped.length
    have hfe := HashTable.FindEntry_present F hwf.shaped hwf.keys hkey e he hocc hp
      (fun e' he' hocc' hval' =>
        HashTable.entry_unique hwf.distinct he' he hocc' hocc (hval'.trans hp.symm))
      (le_refl _) (String.HashOf s)
    have hne : ¬ Int.ofNat e = -1 := by
      simp only [Int.ofNat_eq_coe]
      omega
    have hperm := HashTable.pairs_clearEntry slots (2 ^ k) e (by omega) he hocc
    have hlen := hperm.length_eq
    simp only [List.length_cons] at hlen
    have hsh1 := hwf.shaped.store_slots
      (HashTable.setEntry slots e Constant.Undefined Constant.Undefined) _
      (HashTable.length_setEntry _ _ _ _)
      ((HashTable.head_setEntry _ _ _ _).1.trans hwf.shaped.size)
      (HashTable.head_setEntry _ _ _ _).2 hwf.shaped.fits
    have hl1 := hsh1.length
    have hfit : Int32.kMinInt32 ≤ ((HashTable.pairs slots (2 ^ k)).length : Int) - 1 ∧
        ((HashTable.pairs slots (2 ^ k)).length : Int) - 1 ≤ Int32.kMaxInt32 := by
      have := hwf.shaped.fits
      simp only [Int32.kMinInt32, Int32.kMaxInt32] at this ⊢
      constructor <;> omega
    have hsh2 := hsh1.store_slots
      ((HashTable.setEntry slots e Constant.Undefined Constant.Undefined).set 0
        (Int32.Make (((HashTable.pairs slots (2 ^ k)).length : Int) - 1)))
      (((HashTable.pairs slots (2 ^ k)).length : Int) - 1) (by simp)
      (by rw [List.getElem?_set_self (by omega)])
      (by rw [List.getElem?_set_ne (by omega)]) hfit
    rw [State.store_store] at hsh2
    have hpz := HashTable.pairs_set_zero
      (HashTable.setEntry slots e Constant.Undefined Constant.Undefined)
      (Int32.Make (((HashTable.pairs slots (2 ^ k)).length : Int) - 1)) (2 ^ k)
    have hstr : ∀ q, IsString σ q = true →
        (σ.store t (.ARRAY ((HashTable.setEntry slots e Constant.Undefined
          Constant.Undefined).set 0
          (Int32.Make (((HashTable.pairs slots (2 ^ k)).length : Int) - 1))))).find q =
        σ.find q := fun q hq => String.find_store hwf.shaped.find hq
    have hsub : ∀ q ∈ HashTable.pairs ((HashTable.setEntry slots e Constant.Undefined
        Constant.Undefined).set 0
        (Int32.Make (((HashTable.pairs slots (2 ^ k)).length : Int) - 1))) (2 ^ k),
        q ∈ HashTable.pairs slots (2 ^ k) := by
      intro q hq
      rw [hpz] at hq
      exact hperm.mem_iff.mpr (List.mem_cons_of_mem _ hq)
    refine ⟨true, σ.store t (.ARRAY ((HashTable.setEntry slots e Constant.Undefined
      Constant.Undefined).set 0
      (Int32.Make (((HashTable.pairs slots (2 ^ k)).length : Int) - 1)))),
      (HashTable.setEntry slots e Constant.Undefined Constant.Undefined).set 0
      (Int32.Make (((HashTable.pairs slots (2 ^ k)).length : Int) - 1)), ?_, ⟨?_, ?_, ?_⟩⟩
    · simp only [HashTable.Delete, String.Hash_eq hkey, hfe, bind, Except.bind, pure,
        Except.pure, ne_eq, hne, not_false_eq_true, if_true,
        hwf.shaped.SetEntry_eq he, hsh1.ElementsSize_ok F, hsh1.SetElementsSize_ok,
        State.store_store]
    · have e1 : ((HashTable.pairs ((HashTable.setEntry slots e Constant.Undefined
          Constant.Undefined).set 0
          (Int32.Make (((HashTable.pairs slots (2 ^ k)).length : Int) - 1)))
          (2 ^ k)).length : Int) = ((HashTable.pairs slots (2 ^ k)).length : Int) - 1 := by
        rw [hpz]
        omega
      rw [e1]
      exact hsh2
    · intro q hq
      rw [IsString_congr_find (hstr _ (hwf.keys q (hsub q hq)))]
      exact hwf.keys q (hsub q hq)
    · rw [hpz]
      have h1 : ((HashTable.pairs slots (2 ^ k)).map (fun p => String.Value σ p.1)).Perm
          (String.Value σ (HashTable.entryAt slots e).1 ::
            (HashTable.pairs (HashTable.setEntry slots e Constant.Undefined
              Constant.Undefined) (2 ^ k)).map (fun p => String.Value σ p.1)) :=
        hperm.map _
      have h2 := (List.nodup_cons.mp (h1.nodup_iff.mp hwf.distinct)).2
      have h3 : (HashTable.pairs (HashTable.setEntry slots e Constant.Undefined
          Constant.Undefined) (2 ^ k)).map (fun p => String.Value (σ.store t
            (.ARRAY ((HashTable.setEntry slots e Constant.Undefined Constant.Undefined).set 0
            (Int32.Make (((HashTable.pairs slots (2 ^ k)).length : Int) - 1))))) p.1) =
          (HashTable.pairs (HashTable.setEntry slots e Constant.Undefined
            Constant.Undefined) (2 ^ k)).map (fun p => String.Value σ p.1) := by
        apply List.map_congr_left
        intro q hq
        exact String.Value_congr_find (hstr _ (hwf.keys q
          (hperm.mem_iff.mpr (List.mem_cons_of_mem _ hq))))
      rw [h3]
      exact h2
  · refine ⟨false, σ, slots, ?_, hwf⟩
    have hne : ¬ (-1 : Int) ≠ -1 := by simp
    simp only [HashTable.Delete, String.Hash_eq hkey,
      HashTable.FindEntry_absent F hwf.shaped hwf.keys hkey (fun p hm hv => hex ⟨p, hm, hv⟩),
      bind, Except.bind, pure, Except.pure, hne, if_false]

theorem AllocateHashTableNoGCInternal_wf (σ : State) (size : Int) (policy : AllocationPolicy)
    (h1 : 2 ≤ size) (h2 : size ≤ 2 ^ 30) (hb : σ.objects.length < 2 ^ 48)
    (hspace : 32 * size + 16 ≤ (σ.available policy.space : Int)) :
    ∃ (j : Nat) (t : Object) (σ' : State) (slots : List Object),
      AllocateHashTableNoGCInternal σ size policy = .ok (t, σ') ∧
      HashTable.WellFormed σ' t slots j := by
  obtain ⟨j, _, hmin, hok, _⟩ := AllocateHashTableNoGCInternal_spec σ size policy h1 h2 hb
  have hsz := HashTable.size_le_of_least (x := size) (j := j) (by omega) hmin
  obtain ⟨t, σ', slots, h3, h4, h5, _⟩ := hok (by omega)
  refine ⟨j, t, σ', slots, h3, ?_, ?_, ?_⟩
  · rw [h5]
    exact h4
  · intro p hp
    rw [h5] at hp
    cases hp
  · rw [h5]
    exact List.nodup_nil

/-! ### Conversions of typed words -/

/-- For every word `v` that is of one of the types, on a platform whose doubles obey
IEEE 754 and that answers the operations asked, `ToBoolean(v)` is the boolean
singleton for "not falsy",
where the falsy values are `false`, `null`, `undefined`, a double that is zero or NaN,
the Int32 0, a `HeapNumber` 0, the empty string, an array of length zero and every
function; it returns a boolean unchanged, so applying it twice gives the same
result. -/
theorem ToBoolean_spec (F : FloatOps) (hF : F.Conforms) (σ : State) (v : Object)
    (hv : IsBoolean v = true ∨ IsDouble v = true ∨ v = Constant.kNull ∨
      v = Constant.kUndefined ∨ IsInt32 v = true ∨ (σ.find v).isSome = true)
    (hne : ToBoolean F σ v ≠ .error .FloatingPoint) :
    ToBoolean F σ v = .ok (Constant.Boolean (!Falsy σ v)) ∧
      (IsBoolean v = true → ToBoolean F σ v = .ok v) ∧
      ToBoolean F σ (Constant.Boolean (!Falsy σ v)) = .ok (Constant.Boolean (!Falsy σ v)) := by
  refine ⟨?_, ?_, ToBoolean_boolean F σ _⟩
  · by_cases hb : IsBoolean v = true
    · have hvb : ∃ b, v = Constant.Boolean b := by
        simp only [IsBoolean, Bool.or_eq_true, decide_eq_true_eq] at hb
        rcases hb with h | h
        · exact ⟨true, h⟩
        · exact ⟨false, h⟩
      obtain ⟨b, rfl⟩ := hvb
      rw [ToBoolean_boolean, (Falsy_of_boolean σ b).1, Bool.not_not]
    · have hb' : IsBoolean v = false := by simpa using hb
      by_cases hd : IsDouble v = true
      · exact ToBoolean_double hF σ v hd hne
      · have hd' : IsDouble v = false := by simpa using hd
        by_cases hnull : v = Constant.kNull ∨ v = Constant.kUndefined
        · have hf : Falsy σ v = true := by
            rcases hnull with h | h <;> simp [Falsy, h]
          simp only [ToBoolean, hb', hd', hnull, Bool.false_eq_true, if_false, if_true, hf,
            pure, Except.pure, Bool.not_true]
        · by_cases hi : IsInt32 v = true
          · obtain ⟨_, _, _, _, hf⟩ := Falsy_of_int32 σ v hi
            simp only [ToBoolean, hb', hd', hnull, hi, Bool.false_eq_true, if_false, if_true,
              hf, pure, Except.pure, ne_eq, decide_not]
          · have hi' : IsInt32 v = false := by simpa using hi
            have hfind : (σ.find v).isSome = true := by
              rcases hv with h | h | h | h | h | h
              · exact absurd h hb
              · exact absurd h hd
              · exact absurd (Or.inl h) hnull
              · exact absurd (Or.inr h) hnull
              · exact absurd h hi
              · exact h
            obtain ⟨o, ho⟩ := Option.isSome_iff_exists.mp hfind
            obtain ⟨_, _, _, _, _, hf⟩ := Falsy_of_heap σ v o ho
            have hderef : σ.deref v = .ok o := by simp only [State.deref, ho]
            simp only [ToBoolean, hb', hd', hnull, hi', Bool.false_eq_true, if_false, hderef,
              hf]
            cases o <;> simp only [pure, Except.pure, ne_eq, decide_not, Bool.not_true,
              Bool.not_false]
  · intro hb
    simp only [ToBoolean, hb, if_true, pure, Except.pure]

/-- For a word of which `IsDouble` holds: on a platform whose doubles obey IEEE 754
and that answers the operations asked, `ToInt32` is 0 for a NaN, 2147483647 for a
double that is at least
2147483647 (plus infinity included), -2147483648 for a double that is at most
-2147483648 (minus infinity included), and otherwise the double truncated toward
zero. -/
theorem ToInt32_double_spec (F : FloatOps) (hF : F.Conforms) (σ : State) (d : Object)
    (hd : IsDouble d = true) (hne : ToInt32 F σ d ≠ .error .FloatingPoint) :
    ToInt32 F σ d = .ok
      (match Double.Value d with
       | .nan => 0
       | .inf negative => if negative then -2147483648 else 2147483647
       | .finite q =>
         if 2147483647 ≤ q then 2147483647
         else if q ≤ -2147483648 then -2147483648
         else IEEE.truncate q) := by
  have hint : IsInt32 d = false := by
    simp only [IsDouble, Double.kDoubleLimit, decide_eq_true_eq] at hd
    have hd' : @LE.le Nat _ d 18444492273895866368 := hd
    simp only [IsInt32, READ_TAG, kCanonicalBits, Int32.kInt32Tag, decide_eq_false_iff_not,
      Nat.reducePow]
    omega
  have e : ToInt32 F σ d = DoubleToInt32 F d := by
    simp only [ToInt32, hint, hd, Bool.false_eq_true, if_false, if_true]
  rw [e] at hne ⊢
  exact DoubleToInt32_spec hF d hne

theorem Heap.metadata_of_memory {h : Heap} {p : Object} {c : Cell}
    (hm : h.memory (ADDRESS p) = some c) : h.metadata p = .ok c.metadata := by
  unfold Heap.metadata Heap.cell
  rw [hm]
  rfl

/-- The metadata of an object stored first, read after a store at another address. -/
theorem Heap.metadata_store_store (h : Heap) (p q : Object) (c d : Cell)
    (hne : ADDRESS p ≠ ADDRESS q) : ((h.store p c).store q d).metadata p = .ok c.metadata := by
  apply Heap.metadata_of_memory
  show Memory.set (Memory.set h.memory (ADDRESS p) c) (ADDRESS q) d (ADDRESS p) = some c
  rw [Memory.set_other _ _ hne, Memory.set_same]

/-! ### The claims -/

/-- C1 (failing input): on a fresh object, `SetProperty(o, "k", 0.0)` followed by
`GetProperty(o, "k")` yields undefined, not the double `0.0` that was stored: the
word of `0.0` is the null pointer, which `KSObject::GetProperty` takes for the
absence of an entry in the result of `HashTable::Search`. -/
theorem C1_double_zero_reads_back_undefined (F : FloatOps) :
    Scenario.zeroProperty F = .ok Constant.Undefined ∧
      Constant.Undefined ≠ Double.Make 0 ∧ Double.Make 0 = nullptr :=
  ⟨rfl, by decide, rfl⟩

/-- C2: for a `KSArray` of length `n` whose backing store holds at least `n` slots:
when the store has a free slot, or the new space has room for the larger store of
`n + 1 + n / 2` slots, `Push(a, v)` returns, the length becomes `n + 1`, `Get(n)`
returns `v` and `Get(i)` is unchanged for `0 <= i < n`; when the store is full and the
new space lacks that room, the member function `Push` throws `AllocationError` for the
new space (the static function then calls `Heap::Collect`). -/
theorem C2_push_appends (σ : State) (a v t arr : Object) (n : Int) (slots : List Object)
    (hbound : σ.objects.length < 2 ^ 48)
    (ha : σ.find a = some (.KSARRAY t n arr))
    (harr : σ.find arr = some (.ARRAY slots))
    (hn : 0 ≤ n) (hcap : n ≤ (slots.length : Int)) :
    ((n < (slots.length : Int) ∨
        Align (12 + kPointerSize * (n + 1 + n / 2).toNat) ≤ σ.new_space_available) →
      ∃ σ', KSArray.Push σ a v = .ok σ' ∧
        KSArray.Length σ' a = .ok (n + 1) ∧
        KSArray.Get σ' a n = .ok v ∧
        ∀ i : Int, 0 ≤ i → i < n → KSArray.Get σ' a i = KSArray.Get σ a i) ∧
    (n = (slots.length : Int) →
      σ.new_space_available < Align (12 + kPointerSize * (n + 1 + n / 2).toNat) →
      KSArray.PushNoGC σ a v = .error (.AllocationError .NEW_SPACE)) := by
  have hne : ADDRESS a ≠ ADDRESS arr := ADDRESS_ne_of_find ha harr (by simp)
  have hsize : ∀ fresh : List Object, fresh.length = (n + 1 + n / 2).toNat →
      (HeapObject.ARRAY fresh).Size = Align (12 + kPointerSize * (n + 1 + n / 2).toNat) := by
    intro fresh h
    simp only [HeapObject.Size, h]
  constructor
  swap
  · intro hlen hfull
    have hL : n + 1 + n / 2 ≠ 0 := by omega
    refine KSArray.Push_full (KSArray.Length_eq ha) (KSArray.Capacity_eq ha harr)
      (by omega) ?_
    simp only [AllocateArrayNoGC, if_pos hL, AllocateArrayNoGCInternal]
    exact AllocateRaw_full (s := .NEW_SPACE)
      (by rw [hsize _ (by simp)]; exact hfull)
  intro hroom
  by_cases hgrow : n ≥ (slots.length : Int)
  · -- the backing store is full: a larger one is allocated
    have hspace : Align (12 + kPointerSize * (n + 1 + n / 2).toNat) ≤ σ.new_space_available := by
      rcases hroom with h | h
      · omega
      · exact h
    have hlen : n = (slots.length : Int) := le_antisymm hcap hgrow
    have hL : n + 1 + n / 2 ≠ 0 := by omega
    have hLn : n.toNat < (n + 1 + n / 2).toNat := by omega
    have hslots : slots.length = n.toNat := by omega
    generalize hfresh : List.replicate (n + 1 + n / 2).toNat Constant.Undefined = fresh
    have hfreshlen : fresh.length = (n + 1 + n / 2).toNat := by rw [← hfresh]; simp
    generalize hna : HeapObject_Make σ.objects.length = na
    generalize hσ1 : σ.allocated .NEW_SPACE (.ARRAY fresh) = σ1
    have hAlloc : AllocateArrayNoGC σ (n + 1 + n / 2) .NOT_TENURED = .ok (na, σ1) := by
      simp only [AllocateArrayNoGC, if_pos hL, AllocateArrayNoGCInternal, hfresh, ← hna, ← hσ1]
      exact AllocateRaw_ok (s := .NEW_SPACE) (by rw [hsize _ hfreshlen]; exact hspace)
    have hna1 : σ1.find na = some (.ARRAY fresh) := by
      rw [← hna, ← hσ1]; exact find_alloc_new hbound
    have ha1 : σ1.find a = some (.KSARRAY t n arr) := by rw [← hσ1]; exact find_alloc_old ha
    have harr1 : σ1.find arr = some (.ARRAY slots) := by rw [← hσ1]; exact find_alloc_old harr
    have hnea : ADDRESS na ≠ ADDRESS a := ADDRESS_ne_of_find hna1 ha1 (by simp)
    generalize hgrown : slots ++ fresh.drop slots.length = grown
    have hgrownlen : grown.length = (n + 1 + n / 2).toNat := by
      rw [← hgrown]; simp; omega
    have hgrownget : ∀ k, k < slots.length → grown[k]? = slots[k]? := by
      intro k hk
      rw [← hgrown, List.getElem?_append_left hk]
    generalize hσ2 : σ1.store na (.ARRAY grown) = σ2
    have hCopy : Array.Copy σ1 na arr = .ok σ2 := by
      rw [Array.Copy_eq hna1 harr1 (by omega), hgrown, hσ2]
    have hna2 : σ2.find na = some (.ARRAY grown) := by rw [← hσ2]; exact find_store_same hna1
    have ha2 : σ2.find a = some (.KSARRAY t n arr) := by
      rw [← hσ2, find_store_other hnea]; exact ha1
    generalize hσ3 : σ2.store a (.KSARRAY t n na) = σ3
    have ha3 : σ3.find a = some (.KSARRAY t n na) := by rw [← hσ3]; exact find_store_same ha2
    have hna3 : σ3.find na = some (.ARRAY grown) := by
      rw [← hσ3, find_store_other hnea.symm]; exact hna2
    generalize hσ4 : σ3.store a (.KSARRAY t (n + 1) na) = σ4
    have ha4 : σ4.find a = some (.KSARRAY t (n + 1) na) := by
      rw [← hσ4]; exact find_store_same ha3
    have hna4 : σ4.find na = some (.ARRAY grown) := by
      rw [← hσ4, find_store_other hnea.symm]; exact hna3
    generalize hσ5 : σ4.store na (.ARRAY (grown.set n.toNat v)) = σ5
    have hna5 : σ5.find na = some (.ARRAY (grown.set n.toNat v)) := by
      rw [← hσ5]; exact find_store_same hna4
    have ha5 : σ5.find a = some (.KSARRAY t (n + 1) na) := by
      rw [← hσ5, find_store_other hnea]; exact ha4
    have hSet : Array.Set σ4 na n v = .ok (v, σ5) := by
      rw [Array.Set_eq v hna4 hn (by omega), hσ5]
    refine ⟨σ5, ?_, KSArray.Length_eq ha5, ?_, ?_⟩
    · exact CALL_WITH_GC_SUPPORT_ok (f := fun σ => KSArray.PushNoGC σ a v)
        (KSArray.Push_grow (KSArray.Length_eq ha) (KSArray.Capacity_eq ha harr) hgrow hAlloc
          (KSArray.Elements_eq ha1) hCopy
          (by rw [KSArray.SetElements_eq na ha2, hσ3])
          (by rw [KSArray.SetLength_eq (n + 1) ha3, hσ4])
          (KSArray.Elements_eq ha4) hSet)
    · rw [KSArray.Get_eq n ha5 hna5]
      have h1 : n.toNat < grown.length := by omega
      simp [hn, List.getElem?_set, h1]
    · intro i hi hin
      rw [KSArray.Get_eq i ha5 hna5, KSArray.Get_eq i ha harr]
      have h1 : n.toNat ≠ i.toNat := by omega
      have h2 : i < n + 1 := by omega
      have h3 : i.toNat < slots.length := by omega
      simp [hi, hin, h2, List.getElem?_set, h1, hgrownget _ h3]
  · -- there is room in the backing store
    have hlt : n < (slots.length : Int) := lt_of_not_ge hgrow
    have ha1 : (σ.store a (.KSARRAY t (n + 1) arr)).find a = some (.KSARRAY t (n + 1) arr) :=
      find_store_same ha
    have harr1 : (σ.store a (.KSARRAY t (n + 1) arr)).find arr = some (.ARRAY slots) := by
      rw [find_store_other hne]; exact harr
    have ha2 : ((σ.store a (.KSARRAY t (n + 1) arr)).store arr
        (.ARRAY (slots.set n.toNat v))).find a = some (.KSARRAY t (n + 1) arr) := by
      rw [find_store_other hne.symm]; exact ha1
    have harr2 : ((σ.store a (.KSARRAY t (n + 1) arr)).store arr
        (.ARRAY (slots.set n.toNat v))).find arr = some (.ARRAY (slots.set n.toNat v)) :=
      find_store_same harr1
    refine ⟨_, ?_, KSArray.Length_eq ha2, ?_, ?_⟩
    · exact CALL_WITH_GC_SUPPORT_ok (f := fun σ => KSArray.PushNoGC σ a v)
        (KSArray.Push_room (KSArray.Length_eq ha) (KSArray.Capacity_eq ha harr) hgrow
          (KSArray.SetLength_eq (n + 1) ha) (KSArray.Elements_eq ha1)
          (Array.Set_eq v harr1 hn hlt))
    · rw [KSArray.Get_eq n ha2 harr2]
      have h1 : n.toNat < slots.length := by omega
      simp [hn, List.getElem?_set, h1]
    · intro i hi hin
      rw [KSArray.Get_eq i ha2 harr2, KSArray.Get_eq i ha harr]
      have h1 : n.toNat ≠ i.toNat := by omega
      have h2 : i < n + 1 := by omega
      simp [hi, hin, h2, List.getElem?_set, h1]

/-- C2, witness: a full array of length 1; with the new space of 256 KB the push
allocates a larger store, and with no byte left in the new space the member function
throws. -/
theorem C2_push_appends_witness :
    (Scenario.fullArray.objects.length < 2 ^ 48 ∧
      Scenario.fullArray.find (HeapObject_Make 1) =
        some (.KSARRAY nullptr 1 (HeapObject_Make 0)) ∧
      Scenario.fullArray.find (HeapObject_Make 0) = some (.ARRAY [Int32.Make 7]) ∧
      Align (12 + kPointerSize * ((1 : Int) + 1 + 1 / 2).toNat)
        ≤ Scenario.fullArray.new_space_available ∧
      ({ Scenario.fullArray with new_space_available := 0 } : State).new_space_available
        < Align (12 + kPointerSize * ((1 : Int) + 1 + 1 / 2).toNat)) ∧
      (∃ σ', KSArray.Push Scenario.fullArray (HeapObject_Make 1) (Int32.Make 9) = .ok σ' ∧
        KSArray.Length σ' (HeapObject_Make 1) = .ok (1 + 1) ∧
        KSArray.Get σ' (HeapObject_Make 1) 1 = .ok (Int32.Make 9) ∧
        ∀ i : Int, 0 ≤ i → i < 1 →
          KSArray.Get σ' (HeapObject_Make 1) i
            = KSArray.Get Scenario.fullArray (HeapObject_Make 1) i) ∧
      KSArray.PushNoGC { Scenario.fullArray with new_space_available := 0 }
        (HeapObject_Make 1) (Int32.Make 9) = .error (.AllocationError .NEW_SPACE) :=
  ⟨⟨by decide, rfl, rfl, by decide, by decide⟩,
    (C2_push_appends Scenario.fullArray (HeapObject_Make 1) (Int32.Make 9) nullptr
      (HeapObject_Make 0) 1 [Int32.Make 7] (by decide) rfl rfl (by decide) (by decide)).1
      (Or.inr (by decide)),
    (C2_push_appends { Scenario.fullArray with new_space_available := 0 } (HeapObject_Make 1)
      (Int32.Make 9) nullptr (HeapObject_Make 0) 1 [Int32.Make 7] (by decide) rfl rfl
      (by decide) (by decide)).2 rfl (by decide)⟩

/-- C3: for a function whose parameter names `ps` are pairwise distinct and differ from
the symbol `arguments_`, called with the argument array `A` (of length `m`, over the
slots `slots`), when `arguments_` is interned already or the old space has room for
its string, the part of `Interpreter::Call` that precedes the body returns, and in the
callee context it creates `Resolve` of the parameter `i` yields a slot that holds
`A[i]` when `i < m` and undefined otherwise, and `Resolve` of `arguments_` yields a
slot that holds the array `A` itself. -/
theorem C3_call_binds_parameters (σ : State) (self args : Handle) (params A : Object)
    (context : Nat) (ps : List Object) (t arr : Object) (m : Int) (slots : List Object)
    (hparams : σ.find params = some (.ARRAY ps)) (hargs : σ.get args = .ok A)
    (hlive : args ≠ some (.cell σ.handle))
    (hA : σ.find A = some (.KSARRAY t m arr)) (harr : σ.find arr = some (.ARRAY slots))
    (hm : m ≤ (slots.length : Int)) (hnodup : ps.Nodup)
    (hroom : SymbolTable_Find σ "arguments_" = nullptr →
      Align (20 + ("arguments_" : String).length) ≤ σ.old_space_available)
    (hnotargs : ∀ sym σs, String.NewSymbol σ "arguments_" = .ok (sym, σs) → sym ∉ ps) :
    ∃ sym σs rv c saved σ', String.NewSymbol σ "arguments_" = .ok (sym, σs) ∧
      Interpreter.CallPrologue σ self params args context = .ok (rv, c, saved, σ') ∧
      (∀ (i : Nat) (name : Object), ps[i]? = some name →
        ∃ l, Context.Resolve σ' c name = .ok (some l) ∧
          σ'.read l = .ok (if (i : Int) < m then slots.getD i Constant.Undefined
            else Constant.Undefined)) ∧
      ∃ l, Context.Resolve σ' c sym = .ok (some l) ∧ σ'.read l = .ok A := by
  obtain ⟨sym, σs, hsym⟩ := String.NewSymbol_returns σ "arguments_" (fun h _ => hroom h)
  have hnot := hnotargs sym σs hsym
  obtain ⟨σ', ctx, hcall, hcs, _, _, hH, hrel⟩ :=
    Interpreter.CallPrologue_spec σ self args params A context ps t arr m slots hparams hargs
      hlive hA harr hm hnodup sym σs hsym hnot
  have hc : σ'.contexts[σ.contexts.length]? = some ctx := by
    rw [hcs, List.getElem?_append_right (le_refl _)]
    simp
  have hkeys : ((Interpreter.ParamBindings m slots 0 ps ++ [(sym, A)]).map Prod.fst).Nodup := by
    rw [List.map_append, Interpreter.ParamBindings_fst]
    simp only [List.map_cons, List.map_nil]
    rw [List.nodup_append]
    refine ⟨hnodup, List.nodup_singleton _, ?_⟩
    intro a ha hb
    rw [List.mem_singleton] at hb
    exact hnot (hb ▸ ha)
  have hlen : (Interpreter.ParamBindings m slots 0 ps).length = ps.length := by
    rw [← List.length_map (Interpreter.ParamBindings m slots 0 ps) Prod.fst,
      Interpreter.ParamBindings_fst]
  refine ⟨sym, σs, _, _, _, σ', hsym, hcall, ?_, ?_⟩
  · intro i name hi
    have hlt : i < ps.length := by
      by_contra hn
      rw [List.getElem?_eq_none (by omega)] at hi
      cases hi
    have hb := Interpreter.ParamBindings_getElem? m slots ps 0 i name hi
    rw [Nat.zero_add] at hb
    have hb' : (Interpreter.ParamBindings m slots 0 ps ++ [(sym, A)])[i]? = some (name,
          if (i : Int) < m then slots.getD i Constant.Undefined else Constant.Undefined) := by
      rw [List.getElem?_append_left (by omega)]
      exact hb
    exact Context.Resolve_found σ' _ ctx _ i _ hc hH hb' hkeys hrel
  · have hb' : (Interpreter.ParamBindings m slots 0 ps ++ [(sym, A)])[ps.length]?
        = some (sym, A) := by
      rw [List.getElem?_append_right (by omega), hlen]
      simp
    exact Context.Resolve_found σ' _ ctx _ ps.length _ hc hH hb' hkeys hrel

/-- C3, witness: the function with the parameters `a` and `b` is called with the
argument array `[7]`; `arguments_` is not interned yet and its string is allocated in
the old space, at the address 6. -/
theorem C3_call_binds_parameters_witness :
    (Scenario.callState.find (HeapObject_Make 3)
        = some (.ARRAY [HeapObject_Make 0, HeapObject_Make 1]) ∧
      Scenario.callState.get (some (.cell 0)) = .ok (HeapObject_Make 5) ∧
      Scenario.callState.find (HeapObject_Make 5)
        = some (.KSARRAY nullptr 1 (HeapObject_Make 4)) ∧
      Scenario.callState.find (HeapObject_Make 4) = some (.ARRAY [Int32.Make 7]) ∧
      [HeapObject_Make 0, HeapObject_Make 1].Nodup ∧
      SymbolTable_Find Scenario.callState "arguments_" = nullptr ∧
      Align (20 + ("arguments_" : String).length) ≤ Scenario.callState.old_space_available ∧
      (String.NewSymbol Scenario.callState "arguments_").toOption.map Prod.fst
        = some (HeapObject_Make 6)) ∧
      ∃ sym σs rv c saved σ',
        String.NewSymbol Scenario.callState "arguments_" = .ok (sym, σs) ∧
        Interpreter.CallPrologue Scenario.callState none (HeapObject_Make 3)
          (some (.cell 0)) GlobalContext = .ok (rv, c, saved, σ') ∧
        (∀ (i : Nat) (name : Object), [HeapObject_Make 0, HeapObject_Make 1][i]? = some name →
          ∃ l, Context.Resolve σ' c name = .ok (some l) ∧
            σ'.read l = .ok (if (i : Int) < 1 then [Int32.Make 7].getD i Constant.Undefined
              else Constant.Undefined)) ∧
        ∃ l, Context.Resolve σ' c sym = .ok (some l) ∧ σ'.read l = .ok (HeapObject_Make 5) :=
  ⟨⟨rfl, rfl, rfl, rfl, by decide, by decide, by decide, by decide⟩,
    C3_call_binds_parameters Scenario.callState none (some (.cell 0)) (HeapObject_Make 3)
      (HeapObject_Make 5) GlobalContext [HeapObject_Make 0, HeapObject_Make 1] nullptr
      (HeapObject_Make 4) 1 [Int32.Make 7] rfl rfl (by decide) rfl rfl (by decide)
      (by decide) (fun _ => by decide)
      (fun sym σs h => by
        have h6 : (String.NewSymbol Scenario.callState "arguments_").toOption.map Prod.fst
            = some (HeapObject_Make 6) := by decide
        rw [h] at h6
        have : sym = HeapObject_Make 6 := by
          simpa [Except.toOption] using h6
        rw [this]
        decide)⟩

/-- C4 (failing input): in the script `function f() { { x = 5; return x; } } r = f();`
the call does not return 5. The completion of the `return` holds a handle into the
context of the block, which binds `x`; the block ends, its context is destroyed and
the chunks are deallocated before `Interpreter::Call` reads the value through that
handle. Without the block (`function f() { x = 5; return x; }`) the call returns 5,
and a body that executes no `return` gives undefined. -/
theorem C4_return_from_block_reads_deallocated_context :
    Scenario.returns FloatOps.unavailable
        (fun x _ => [.BlockStatement [.assign x (.int 5),
          .ReturnStatement (some (.Identifier x))]]) = .error .UseAfterFree ∧
      Scenario.returns FloatOps.unavailable
        (fun x _ => [.assign x (.int 5), .ReturnStatement (some (.Identifier x))])
        = .ok (some (Int32.Make 5)) ∧
      Scenario.returns FloatOps.unavailable (fun x _ => [.assign x (.int 5)])
        = .ok (some Constant.Undefined) :=
  ⟨by decide!, by decide!, by decide!⟩

/-- C5 (failing input): after `Push(x, 1); Push(x, 2)` on a fresh context,
`Resolve(x)` yields 1, not 2, and the context stores two bindings for `x`. -/
theorem C5_resolve_after_two_pushes_yields_first :
    Scenario.pushTwice = .ok (some (Int32.Make 1), 2) ∧ Int32.Make 1 ≠ Int32.Make 2 := by
  decide!

/-- C6 (failing inputs): `Push(s, 100)` on a context that already binds `s` appends a
second binding instead of overwriting, when the binding of `s` is the one written
last (first part: one binding, in the slot at offset 1; the push returns the slot at
offset 3, the old slot keeps the word 0 and the context stores two bindings) and
when it sits in the first slot of an earlier chunk (second part: nine bindings; the
push returns a slot of the second chunk and the context stores ten bindings). -/
theorem C6_push_of_bound_symbol_appends_duplicate :
    Scenario.pushExisting ["s"] 0 =
        .ok (some (.slot 1 0 1), 1, some (.slot 1 0 3), some (Int32.Make 0), 2) ∧
      Scenario.pushExisting ["n0", "n1", "n2", "n3", "n4", "n5", "n6", "n7", "n8"] 0 =
        .ok (some (.slot 1 0 1), 9, some (.slot 1 1 3), some (Int32.Make 0), 10) :=
  ⟨by decide!, by decide!⟩

/-- C7 (counterexample): the function `f` with body `return x;` is declared where `x`
is unbound; called from `g`, whose local context binds `x` to 1, it returns 1, and
called from `h`, whose local context binds `x` to 2, it returns 2. -/
theorem C7_result_depends_on_caller_bindings :
    Scenario.dynamicScope FloatOps.unavailable =
      .ok (some (Int32.Make 1), some (Int32.Make 2), none) := by
  decide!

/-- C7 (amended): name lookup in a function body is dynamic. The context that
`Interpreter::Call` creates for the callee is a child of the context the call is made
in, so, when `arguments_` is interned already or the old space has room for its
string, a name that is neither a parameter nor `arguments_` resolves in the callee
context, when the body starts, to the binding it resolves to in the caller's context
at the call, and that binding holds the same word. -/
theorem C7_free_identifier_resolves_in_caller_chain (σ : State) (self args : Handle)
    (params A : Object) (context : Nat) (ps : List Object) (t arr : Object) (m : Int)
    (slots : List Object) (name : Object) (r : Handle)
    (hparams : σ.find params = some (.ARRAY ps)) (hargs : σ.get args = .ok A)
    (hlive : args ≠ some (.cell σ.handle))
    (hA : σ.find A = some (.KSARRAY t m arr)) (harr : σ.find arr = some (.ARRAY slots))
    (hm : m ≤ (slots.length : Int)) (hnodup : ps.Nodup)
    (hroom : SymbolTable_Find σ "arguments_" = nullptr →
      Align (20 + ("arguments_" : String).length) ≤ σ.old_space_available)
    (hnotargs : ∀ sym σs, String.NewSymbol σ "arguments_" = .ok (sym, σs) → sym ∉ ps)
    (hfree : name ∉ ps)
    (hne : ∀ sym σs, String.NewSymbol σ "arguments_" = .ok (sym, σs) → name ≠ sym)
    (hcaller : Context.Resolve σ context name = .ok r) :
    ∃ rv c saved σ', Interpreter.CallPrologue σ self params args context
        = .ok (rv, c, saved, σ') ∧
      Context.Resolve σ' c name = .ok r ∧ σ'.get r = σ.get r := by
  obtain ⟨sym, σs, hsym⟩ := String.NewSymbol_returns σ "arguments_" (fun h _ => hroom h)
  obtain ⟨σ', ctx, hcall, hcs, hpar, _, hH, _⟩ :=
    Interpreter.CallPrologue_spec σ self args params A context ps t arr m slots hparams hargs
      hlive hA harr hm hnodup sym σs hsym (hnotargs sym σs hsym)
  have hc : σ'.contexts[σ.contexts.length]? = some ctx := by
    rw [hcs, List.getElem?_append_right (le_refl _)]
    simp
  have hsub : ∀ (i : Nat) (x : Context), σ.contexts[i]? = some x →
      σ'.contexts[i]? = some x := by
    intro i x hi
    have hlt : i < σ.contexts.length := by
      by_contra hn
      rw [List.getElem?_eq_none (by omega)] at hi
      cases hi
    rw [hcs, List.getElem?_append_left hlt]
    exact hi
  have hnone : Context.searchOne ctx σ.contexts.length name = .ok none := by
    apply Context.searchOne_none ctx _ name _ hH
    intro b hb e
    rw [List.mem_append, List.mem_singleton] at hb
    rcases hb with hb | hb
    · exact hfree (e ▸ Interpreter.ParamBindings_keys m slots ps 0 b hb)
    · rw [hb] at e
      exact hne sym σs hsym e.symm
  have hlen : σ'.contexts.length = σ.contexts.length + 1 := by
    rw [hcs, List.length_append, List.length_singleton]
  refine ⟨_, _, _, σ', hcall, ?_, ?_⟩
  · simp only [Context.Resolve, Context.Search, hlen, Context.SearchFrom, hc, hnone, bind,
      Except.bind, hpar]
    exact Context.SearchFrom_mono σ σ' name hsub _ _ _ hcaller
  · cases r with
    | none => rfl
    | some l =>
      obtain ⟨c, k, o, e, hlt⟩ := Context.SearchFrom_slot σ name _ _ l hcaller
      subst e
      simp only [State.get, State.read, hcs, List.getElem?_append_left hlt]

/-- C7 (amended), witness: the name `x`, bound in the global context, seen from the
callee context of a function with the parameters `a` and `b`. -/
theorem C7_free_identifier_resolves_in_caller_chain_witness :
    (Scenario.callState.find (HeapObject_Make 3)
        = some (.ARRAY [HeapObject_Make 0, HeapObject_Make 1]) ∧
      Scenario.callState.get (some (.cell 0)) = .ok (HeapObject_Make 5) ∧
      HeapObject_Make 2 ∉ [HeapObject_Make 0, HeapObject_Make 1] ∧
      Align (20 + ("arguments_" : String).length) ≤ Scenario.callState.old_space_available ∧
      (String.NewSymbol Scenario.callState "arguments_").toOption.map Prod.fst
        = some (HeapObject_Make 6) ∧
      Context.Resolve Scenario.callState GlobalContext (HeapObject_Make 2)
        = .ok (some (.slot 0 0 1))) ∧
      ∃ rv c saved σ', Interpreter.CallPrologue Scenario.callState none (HeapObject_Make 3)
          (some (.cell 0)) GlobalContext = .ok (rv, c, saved, σ') ∧
        Context.Resolve σ' c (HeapObject_Make 2) = .ok (some (.slot 0 0 1)) ∧
        σ'.get (some (.slot 0 0 1)) = Scenario.callState.get (some (.slot 0 0 1)) :=
  have hsym : ∀ sym σs, String.NewSymbol Scenario.callState "arguments_" = .ok (sym, σs) →
      sym = HeapObject_Make 6 := by
    intro sym σs h
    have h6 : (String.NewSymbol Scenario.callState "arguments_").toOption.map Prod.fst
        = some (HeapObject_Make 6) := by decide
    rw [h] at h6
    simpa [Except.toOption] using h6
  ⟨⟨rfl, rfl, by decide, by decide, by decide, by decide⟩,
    C7_free_identifier_resolves_in_caller_chain Scenario.callState none (some (.cell 0))
      (HeapObject_Make 3) (HeapObject_Make 5) GlobalContext
      [HeapObject_Make 0, HeapObject_Make 1] nullptr (HeapObject_Make 4) 1 [Int32.Make 7]
      (HeapObject_Make 2) (some (.slot 0 0 1)) rfl rfl (by decide) rfl rfl (by decide)
      (by decide) (fun _ => by decide)
      (fun sym σs h => by rw [hsym sym σs h]; decide) (by decide)
      (fun sym σs h => by rw [hsym sym σs h]; decide) (by decide)⟩

/-- C8 (failing input): the assignment `x = 5` to an identifier bound nowhere stores
5 but evaluates to the empty handle, so the script `y = (x = 5);` stops with a read
through an empty handle instead of storing 5 in `y`. -/
theorem C8_assignment_to_fresh_identifier_yields_empty_handle :
    Scenario.assignFresh FloatOps.unavailable = .ok (none, some (Int32.Make 5)) ∧
      Scenario.assignChain FloatOps.unavailable = .error .NullDereference := by
  decide!

/-- C9 (failing input): after `x = 1; y = x++;` both `x` and `y` hold 2: the postfix
expression on a named variable evaluates to the handle of the variable, read after
the store. On an array element the same expression yields the old value:
after `a = [7]; y = a[0]++;` the element holds 8 and `y` holds 7. -/
theorem C9_postfix_on_variable_yields_new_value :
    Scenario.postIncrement FloatOps.unavailable =
        .ok (some (Int32.Make 2), some (Int32.Make 2)) ∧
      Scenario.postIncrementElement FloatOps.unavailable =
        .ok (Int32.Make 8, some (Int32.Make 7)) := by
  decide!

/-- C10 (counterexample): `a` is an array of the language whose first element is `a`
itself (`a = [0]; a[0] = a;`). The conversion of `a` to a string recurses through the
backing store into `a` again, so with no amount of fuel does `"foo" + a` return. -/
theorem C10_add_of_self_containing_array_does_not_return :
    IsString Scenario.selfArray (HeapObject_Make 3) = true ∧
      KSArray.Get Scenario.selfArray (HeapObject_Make 2) 0 = .ok (HeapObject_Make 2) ∧
      ∀ fuel, Interpreter.Add FloatOps.unavailable fuel Scenario.selfArray
        (some (.fixed (HeapObject_Make 3))) (some (.fixed (HeapObject_Make 2)))
          = .error .OutOfFuel := by
  refine ⟨by decide, by decide, ?_⟩
  have hloop : ∀ fuel,
      ToStdString FloatOps.unavailable fuel Scenario.selfArray (HeapObject_Make 2)
        = .error .OutOfFuel ∧
      ToStdString FloatOps.unavailable fuel Scenario.selfArray (HeapObject_Make 1)
        = .error .OutOfFuel := by
    intro fuel
    induction fuel with
    | zero => exact ⟨rfl, rfl⟩
    | succ n ih =>
      have h2 : ToStdString FloatOps.unavailable (n + 1) Scenario.selfArray (HeapObject_Make 2)
          = ToStdString FloatOps.unavailable n Scenario.selfArray (HeapObject_Make 1) := rfl
      have h1 : ToStdString FloatOps.unavailable (n + 1) Scenario.selfArray (HeapObject_Make 1)
          = (do
            let items ← [HeapObject_Make 2].mapM
              (ToStdString FloatOps.unavailable n Scenario.selfArray)
            pure ("[" ++ ", ".intercalate items ++ "]")) := rfl
      refine ⟨h2.trans ih.2, ?_⟩
      rw [h1]
      simp only [List.mapM_cons, ih.1, bind, Except.bind]
  intro fuel
  have hs3 : IsString Scenario.selfArray (HeapObject_Make 3) = true := by decide
  have hs2 : IsString Scenario.selfArray (HeapObject_Make 2) = false := by decide
  simp only [Interpreter.Add, State.get, State.read, bind, Except.bind, pure, Except.pure,
    ToString, hs3, hs2, (hloop fuel).1, Bool.true_or, if_true, Bool.false_eq_true, if_false]

/-- C10 (amended): when at least one operand of `Interpreter::Add` is a string, the
conversions of the operands return the texts `a` and `b`, and the new space has room
for the strings of the two texts and of the result, the result is a handle to a string
whose bytes are `a` followed by `b`. -/
theorem C10_add_concatenates (F : FloatOps) (fuel : Nat) (σ : State) (left right : Handle)
    (l r : Object) (a b : String)
    (hbound : σ.objects.length + 2 < 2 ^ 48)
    (hroot : String.Value σ σ.empty_string = .ok "")
    (hcursor : σ.handle ≤ σ.handles.length)
    (hl : σ.get left = .ok l) (hr : σ.get right = .ok r)
    (hstr : IsString σ l = true ∨ IsString σ r = true)
    (ha : ToStdString F fuel σ l = .ok a) (hb : ToStdString F fuel σ r = .ok b)
    (hroom : Align (20 + a.length) + Align (20 + b.length)
      + Align (20 + (a.length + b.length)) ≤ σ.new_space_available) :
    ∃ h σ' s, Interpreter.Add F fuel σ left right = .ok (some h, σ') ∧
      σ'.read h = .ok s ∧ String.Value σ' s = .ok (a ++ b) := by
  have hor : (IsString σ l || IsString σ r) = true := by
    rcases hstr with h | h <;> simp [h]
  obtain ⟨ls, σ1, h1, hv1, hmono1, hlen1, hh1, hc1, hsame1, hroot1, hav1⟩ :=
    ToString_spec F (by omega) hroot ha (fun _ _ => by omega)
  -- the text of the right operand, taken in the state after the left conversion
  have hright : ∃ rs σ2, ToString F fuel σ1 r = .ok (rs, σ2) ∧ String.Value σ2 rs = .ok b ∧
      (∀ q o, σ1.find q = some o → σ2.find q = some o) ∧
      σ2.objects.length ≤ σ1.objects.length + 1 ∧
      σ2.handles = σ1.handles ∧ σ2.handle = σ1.handle ∧
      σ1.new_space_available ≤ σ2.new_space_available + Align (20 + b.length) := by
    by_cases hsl : IsString σ l = true
    · obtain ⟨_, hσ⟩ := hsame1 hsl
      subst hσ
      obtain ⟨rs, σ2, h2, hv2, hmono2, hlen2, hh2, hc2, _, _, hav2⟩ :=
        ToString_spec F (by omega) hroot hb (fun _ _ => by omega)
      exact ⟨rs, σ2, h2, hv2, hmono2, hlen2, hh2, hc2, hav2⟩
    · have hsr : IsString σ r = true := by
        rcases hstr with h | h
        · exact absurd h hsl
        · exact h
      have hsr1 : IsString σ1 r = true := IsString_mono hmono1 hsr
      refine ⟨r, σ1, ?_, String.Value_mono hmono1 (ToStdString_of_string F hsr hb),
        fun q o hq => hq, by omega, rfl, rfl, Nat.le_add_right _ _⟩
      simp only [ToString, if_pos hsr1, pure, Except.pure]
  obtain ⟨rs, σ2, h2, hv2, hmono2, hlen2, hh2, hc2, hav2⟩ := hright
  obtain ⟨s, σ3, h3, hv3, hh3, hc3, _⟩ :=
    (String.Concat_spec (σ := σ2) (by omega) (String.Value_mono hmono2 hv1) hv2).1
      (fun _ => by omega)
  refine ⟨(MakeHandle σ3 s).1, (MakeHandle σ3 s).2, s,
    Interpreter.Add_string F hl hr hor h1 h2 h3, ?_, ?_⟩
  · apply MakeHandle_read
    rw [hh3, hc3, hh2, hc2, hh1, hc1]
    exact hcursor
  · obtain ⟨e, he⟩ := String.Value_ok hv3
    exact String.Value_eq (σ := (MakeHandle σ3 s).2) he

/-- C10 (amended), witness: `"foo" + 1` is `"foo1"` and `1 + "foo"` is `"1foo"`. -/
theorem C10_add_concatenates_witness :
    (Scenario.fooState.objects.length + 2 < 2 ^ 48 ∧
      IsString Scenario.fooState (HeapObject_Make 1) = true ∧
      ToStdString FloatOps.unavailable 1 Scenario.fooState (HeapObject_Make 1) = .ok "foo" ∧
      ToStdString FloatOps.unavailable 1 Scenario.fooState (Int32.Make 1) = .ok "1" ∧
      Align (20 + ("foo" : String).length) + Align (20 + ("1" : String).length)
        + Align (20 + (("foo" : String).length + ("1" : String).length))
        ≤ Scenario.fooState.new_space_available) ∧
      (∃ h σ' s, Interpreter.Add FloatOps.unavailable 1 Scenario.fooState
          (some (.fixed (HeapObject_Make 1))) (some (.fixed (Int32.Make 1))) = .ok (some h, σ') ∧
        σ'.read h = .ok s ∧ String.Value σ' s = .ok ("foo" ++ "1")) ∧
      (∃ h σ' s, Interpreter.Add FloatOps.unavailable 1 Scenario.fooState
          (some (.fixed (Int32.Make 1))) (some (.fixed (HeapObject_Make 1))) = .ok (some h, σ') ∧
        σ'.read h = .ok s ∧ String.Value σ' s = .ok ("1" ++ "foo")) :=
  ⟨⟨by decide, by decide, by decide, by decide, by decide⟩,
    C10_add_concatenates FloatOps.unavailable 1 Scenario.fooState _ _ (HeapObject_Make 1)
      (Int32.Make 1) "foo" "1" (by decide) (by decide) (by decide) rfl rfl
      (Or.inl (by decide)) (by decide) (by decide) (by decide),
    C10_add_concatenates FloatOps.unavailable 1 Scenario.fooState _ _ (Int32.Make 1)
      (HeapObject_Make 1) "1" "foo" (by decide) (by decide) (by decide) rfl rfl
      (Or.inr (by decide)) (by decide) (by decide) (by decide)⟩

/-- C11: for two strings with the bytes `a` and `b`, when `b` is empty or the new space
has room for a string of the two lengths, `a.Concat(b)` returns a string whose bytes
are those of `a` followed by those of `b` and whose length is the sum of the two
lengths; so the concatenation with the empty string, on either side, has the bytes of
the other operand. When `b` is not empty and the new space lacks that room,
`Heap::AllocateString` calls `Heap::Collect` for the new space. -/
theorem C11_concat_appends_bytes (σ : State) (p that : Object) (a b : String)
    (hbound : σ.objects.length < 2 ^ 48)
    (ha : String.Value σ p = .ok a) (hb : String.Value σ that = .ok b) :
    ((b.length ≠ 0 → Align (20 + (a.length + b.length)) ≤ σ.new_space_available) →
      ∃ s σ', String.Concat σ p that = .ok (s, σ') ∧ String.Value σ' s = .ok (a ++ b) ∧
        String.Length σ' s = .ok ((a.length : Int) + (b.length : Int)) ∧
        (b = "" → String.Value σ' s = .ok a) ∧ (a = "" → String.Value σ' s = .ok b)) ∧
    (b.length ≠ 0 → σ.new_space_available < Align (20 + (a.length + b.length)) →
      String.Concat σ p that = .error (.Collection .NEW_SPACE)) := by
  obtain ⟨hok, hfull⟩ := String.Concat_spec hbound ha hb
  refine ⟨fun hroom => ?_, hfull⟩
  obtain ⟨s, σ', hc, hv, _, _, _⟩ := hok hroom
  refine ⟨s, σ', hc, hv, ?_, ?_, ?_⟩
  · simp only [String.Length, hv, bind, Except.bind, pure, Except.pure, String.length_append,
      Int.ofNat_eq_coe, Nat.cast_add]
  · intro h
    rw [hv, h, String.append_empty]
  · intro h
    rw [hv, h, String.empty_append]

/-- C11, witness: `"foo".Concat("foo")` allocates the string `"foofoo"`, at the
address 2; with 24 bytes left in the new space the allocation calls `Heap::Collect`. -/
theorem C11_concat_appends_bytes_witness :
    (Scenario.fooState.objects.length < 2 ^ 48 ∧
      String.Value Scenario.fooState (HeapObject_Make 1) = .ok "foo" ∧
      Align (20 + (("foo" : String).length + ("foo" : String).length))
        ≤ Scenario.fooState.new_space_available ∧
      ("foo" : String).length ≠ 0 ∧
      ({ Scenario.fooState with new_space_available := 24 } : State).new_space_available
        < Align (20 + (("foo" : String).length + ("foo" : String).length))) ∧
      (∃ s σ', String.Concat Scenario.fooState (HeapObject_Make 1) (HeapObject_Make 1)
          = .ok (s, σ') ∧
        String.Value σ' s = .ok ("foo" ++ "foo") ∧
        String.Length σ' s
          = .ok ((("foo" : String).length : Int) + (("foo" : String).length : Int)) ∧
        (("foo" : String) = "" → String.Value σ' s = .ok "foo") ∧
        (("foo" : String) = "" → String.Value σ' s = .ok "foo")) ∧
      String.Concat { Scenario.fooState with new_space_available := 24 }
        (HeapObject_Make 1) (HeapObject_Make 1) = .error (.Collection .NEW_SPACE) :=
  ⟨⟨by decide, by decide, by decide, by decide, by decide⟩,
    (C11_concat_appends_bytes Scenario.fooState (HeapObject_Make 1) (HeapObject_Make 1)
      "foo" "foo" (by decide) (by decide) (by decide)).1 (fun _ => by decide),
    (C11_concat_appends_bytes { Scenario.fooState with new_space_available := 24 }
      (HeapObject_Make 1) (HeapObject_Make 1) "foo" "foo" (by decide) (by decide)
      (by decide)).2 (by decide) (by decide)⟩

/-- C12: for Int32 operands `a` and `b`, on a platform whose doubles obey IEEE 754
and that answers the operations asked, each of `+`, `-` and `*` returns a handle to
the Int32 holding the exact result when that result lies in `[-2^31, 2^31 - 1]`, and
otherwise to a Double (not an Int32) that is a double nearest to the exact result. -/
theorem C12_int32_arithmetic_fits_or_widens (F : FloatOps) (hF : F.Conforms) (fuel : Nat)
    (σ : State) (left right : Handle) (a b : Int)
    (ha : Int32.kMinInt32 ≤ a ∧ a ≤ Int32.kMaxInt32)
    (hb : Int32.kMinInt32 ≤ b ∧ b ≤ Int32.kMaxInt32)
    (hcursor : σ.handle ≤ σ.handles.length)
    (hl : σ.get left = .ok (Int32.Make a)) (hr : σ.get right = .ok (Int32.Make b)) :
    (Interpreter.Add F fuel σ left right ≠ .error .FloatingPoint →
        Interpreter.Int32Result (a + b) (Interpreter.Add F fuel σ left right)) ∧
      (Interpreter.Sub F σ left right ≠ .error .FloatingPoint →
        Interpreter.Int32Result (a - b) (Interpreter.Sub F σ left right)) ∧
      (Interpreter.Mult F σ left right ≠ .error .FloatingPoint →
        Interpreter.Int32Result (a * b) (Interpreter.Mult F σ left right)) := by
  have hsa := (IsString_of_not_heap (σ := σ) (Int32.Make_spec a ha.1 ha.2).2.2.1).1
  have hsb := (IsString_of_not_heap (σ := σ) (Int32.Make_spec b hb.1 hb.2).2.2.1).1
  have hadd := Interpreter.Add_eq_Arith F fuel σ left right _ _ hl hr hsa hsb
  have ha' : -(2 ^ 31) ≤ a ∧ a ≤ 2 ^ 31 := by
    simp only [Int32.kMinInt32, Int32.kMaxInt32] at ha
    constructor <;> omega
  have hb' : -(2 ^ 31) ≤ b ∧ b ≤ 2 ^ 31 := by
    simp only [Int32.kMinInt32, Int32.kMaxInt32] at hb
    constructor <;> omega
  refine ⟨?_, ?_, ?_⟩
  · rw [hadd]
    exact Interpreter.Arith_int32 hF F.add (fun p q => p + q) hF.add σ left right a b (a + b)
      ha hb (by push_cast; rfl) (by rw [abs_le]; constructor <;> omega) hcursor hl hr
  · exact Interpreter.Arith_int32 hF F.sub (fun p q => p - q) hF.sub σ left right a b (a - b)
      ha hb (by push_cast; rfl) (by rw [abs_le]; constructor <;> omega) hcursor hl hr
  · have hprod : |a * b| ≤ 2 ^ 62 := by
      rw [abs_mul]
      have h1 : |a| ≤ 2 ^ 31 := by rw [abs_le]; exact ha'
      have h2 : |b| ≤ 2 ^ 31 := by rw [abs_le]; exact hb'
      calc |a| * |b| ≤ 2 ^ 31 * 2 ^ 31 := mul_le_mul h1 h2 (abs_nonneg _) (by norm_num)
        _ = 2 ^ 62 := by norm_num
    exact Interpreter.Arith_int32 hF F.mul (fun p q => p * q) hF.mul σ left right a b (a * b)
      ha hb (by push_cast; rfl) hprod hcursor hl hr

theorem C12_int32_arithmetic_fits_or_widens_witness :
    (FloatOps.exact.Conforms ∧
      (Int32.kMinInt32 ≤ 2147483647 ∧ (2147483647 : Int) ≤ Int32.kMaxInt32) ∧
      (Int32.kMinInt32 ≤ 2 ∧ (2 : Int) ≤ Int32.kMaxInt32)) ∧
      Interpreter.Int32Result (2147483647 + 2)
        (Interpreter.Add FloatOps.exact 1 Scenario.fooState
          (some (.fixed (Int32.Make 2147483647))) (some (.fixed (Int32.Make 2)))) ∧
      Interpreter.Int32Result (2147483647 - 2)
        (Interpreter.Sub FloatOps.exact Scenario.fooState
          (some (.fixed (Int32.Make 2147483647))) (some (.fixed (Int32.Make 2)))) ∧
      Interpreter.Int32Result (2147483647 * 2)
        (Interpreter.Mult FloatOps.exact Scenario.fooState
          (some (.fixed (Int32.Make 2147483647))) (some (.fixed (Int32.Make 2)))) :=
  ⟨⟨FloatOps.exact_Conforms, by decide, by decide⟩,
    (C12_int32_arithmetic_fits_or_widens FloatOps.exact FloatOps.exact_Conforms 1
      Scenario.fooState (some (.fixed (Int32.Make 2147483647))) (some (.fixed (Int32.Make 2)))
      2147483647 2 (by decide) (by decide) (by decide) rfl rfl).1
      (Except.ne_error_of_toBool _ (by decide!)),
    (C12_int32_arithmetic_fits_or_widens FloatOps.exact FloatOps.exact_Conforms 1
      Scenario.fooState (some (.fixed (Int32.Make 2147483647))) (some (.fixed (Int32.Make 2)))
      2147483647 2 (by decide) (by decide) (by decide) rfl rfl).2.1
      (Except.ne_error_of_toBool _ (by decide!)),
    (C12_int32_arithmetic_fits_or_widens FloatOps.exact FloatOps.exact_Conforms 1
      Scenario.fooState (some (.fixed (Int32.Make 2147483647))) (some (.fixed (Int32.Make 2)))
      2147483647 2 (by decide) (by decide) (by decide) rfl rfl).2.2
      (Except.ne_error_of_toBool _ (by decide!))⟩

/-- C13 (failing input): the script `q = 3 / 2;` binds `q` to the Int32 1. The
quotient is the double 1.5, which lies in the range of `int32_t`, so `Double::MakeFit`
passes it to `Int32::Make`, whose conversion to `int32_t` drops the fraction. -/
theorem C13_three_halves_evaluates_to_one :
    Scenario.divide FloatOps.binary64 3 2 = .ok (some (Int32.Make 1), 1) ∧
      Double.div (Double.ofInt 3) (Double.ofInt 2) = 0x3ff8000000000000 ∧
      Double.Value 0x3ff8000000000000 = .finite (3 / 2) ∧
      Double.MakeFit FloatOps.binary64 0x3ff8000000000000 = .ok (Int32.Make 1) :=
  ⟨by decide!, by decide!, by decide!, by decide!⟩

/-- C14 (failing input): a `HeapNumber` holding `2 ^ 53 + 1` equals the double
`2 ^ 53`, in both orders: `Object::Equals` converts the `HeapNumber` to a double,
and the conversion rounds `2 ^ 53 + 1` to `2 ^ 53`. -/
theorem C14_heap_number_equals_double_of_other_integer :
    Scenario.equalsHeapNumber FloatOps.binary64 (2 ^ 53 + 1) 0x4340000000000000
        = .ok (true, true) ∧
      Double.Value 0x4340000000000000 = .finite (2 ^ 53) ∧
      Double.ofInt (2 ^ 53 + 1) = 0x4340000000000000 :=
  ⟨by decide!, by decide!, by decide!⟩

/-- C15 (failing inputs): the double of bit pattern `0xfff9000000000005` is a NaN;
`Double::Make` gives the word of the Int32 5 for it, and `ToBoolean` of that word is
`true`, not `false`. The double of bit pattern `0xfffb000000000000` is a NaN too; its
word is of none of the types, and `ToBoolean` casts it to a heap object, which it is
not, so the result is neither of the boolean singletons. -/
theorem C15_to_boolean_of_nan_with_reserved_pattern :
    Double.Value 0xfff9000000000005 = .nan ∧
    (∀ (F : FloatOps) (σ : State),
      ToBoolean F σ (Double.Make 0xfff9000000000005) = .ok Constant.kBoolTrue) ∧
    Constant.kBoolTrue ≠ Constant.kBoolFalse ∧
    Double.Value 0xfffb000000000000 = .nan ∧
    (∀ (F : FloatOps) (σ : State),
      ToBoolean F σ (Double.Make 0xfffb000000000000) = .error .BadCast) := by
  refine ⟨by decide!, fun F σ => ?_, by decide, by decide!, fun F σ => ?_⟩
  · have h1 : IsBoolean (Double.Make 0xfff9000000000005) = false := by decide!
    have h2 : IsDouble (Double.Make 0xfff9000000000005) = false := by decide!
    have h3 : ¬ (Double.Make 0xfff9000000000005 = Constant.kNull ∨
        Double.Make 0xfff9000000000005 = Constant.kUndefined) := by decide!
    have h4 : IsInt32 (Double.Make 0xfff9000000000005) = true := by decide!
    have h5 : Int32.Value (Double.Make 0xfff9000000000005) = 5 := by decide!
    simp only [ToBoolean, h1, h2, h3, h4, h5, Bool.false_eq_true, if_false, if_true, pure,
      Except.pure]
    rfl
  · have h1 : IsBoolean (Double.Make 0xfffb000000000000) = false := by decide!
    have h2 : IsDouble (Double.Make 0xfffb000000000000) = false := by decide!
    have h3 : ¬ (Double.Make 0xfffb000000000000 = Constant.kNull ∨
        Double.Make 0xfffb000000000000 = Constant.kUndefined) := by decide!
    have h4 : IsInt32 (Double.Make 0xfffb000000000000) = false := by decide!
    have h5 : IsHeapObject (Double.Make 0xfffb000000000000) = false := by decide!
    have h6 : σ.deref (Double.Make 0xfffb000000000000) = .error .BadCast := by
      simp only [State.deref, State.find, h5, Bool.false_eq_true, if_false]
    simp only [ToBoolean, h1, h2, h3, h4, h6, Bool.false_eq_true, if_false]

/-- C16 (failing input): the double of bit pattern `0xfff9000000000005` is a NaN;
`Double::Make` gives the word of the Int32 5 for it, of which `IsDouble` is false, and
`ToInt32` of that word is 5, not 0. -/
theorem C16_to_int32_of_nan_with_reserved_pattern :
    Double.Value 0xfff9000000000005 = .nan ∧
    IsDouble (Double.Make 0xfff9000000000005) = false ∧
    (∀ (F : FloatOps) (σ : State),
      ToInt32 F σ (Double.Make 0xfff9000000000005) = .ok 5) := by
  refine ⟨by decide!, by decide!, fun F σ => ?_⟩
  have h4 : IsInt32 (Double.Make 0xfff9000000000005) = true := by decide!
  have h5 : Int32.Value (Double.Make 0xfff9000000000005) = 5 := by decide!
  simp only [ToInt32, h4, h5, if_true, pure, Except.pure]

/-- C17 (counterexample): the scripts `q = 1 / 0;` and `q = -1 / 0;` bind `q` to the
doubles plus and minus infinity, which `ToInt32` converts to 2147483647 and to
-2147483648; only the NaN of `q = 0 / 0;` is converted to 0. -/
theorem C17_division_by_zero_saturates :
    Scenario.divide FloatOps.binary64 1 0
        = .ok (some (Double.Make (Double.infinity false)), 2147483647) ∧
      Scenario.divide FloatOps.binary64 (-1) 0
        = .ok (some (Double.Make (Double.infinity true)), -2147483648) ∧
      Scenario.divide FloatOps.binary64 0 0 = .ok (some Double.NaN, 0) :=
  ⟨by decide!, by decide!, by decide!⟩

/-- C17 (amended): a division whose operands convert to a finite double and to a zero
returns a Double that is an infinity or a NaN, and `ToInt32` converts that Double to 0
when it is a NaN, to 2147483647 when it is plus infinity and to -2147483648 when it is
minus infinity. -/
theorem C17_division_by_zero_to_int32 (F : FloatOps) (hF : F.Conforms) (σ : State)
    (left right : Handle) (l r : Object) (x y : Nat) (a : ℚ)
    (hcursor : σ.handle ≤ σ.handles.length)
    (hl : σ.get left = .ok l) (hr : σ.get right = .ok r)
    (hx : ToDouble F σ l = .ok x) (hy : ToDouble F σ r = .ok y)
    (hvx : Double.Value x = .finite a) (hvy : Double.Value y = .finite 0)
    (hdiv : Interpreter.Div F σ left right ≠ .error .FloatingPoint) :
    ∃ h σ' w, Interpreter.Div F σ left right = .ok (some h, σ') ∧ σ'.read h = .ok w ∧
      IsDouble w = true ∧
      (ToInt32 F σ' w ≠ .error .FloatingPoint →
        (Double.Value w = .nan ∧ ToInt32 F σ' w = .ok 0) ∨
        (Double.Value w = .inf false ∧ ToInt32 F σ' w = .ok 2147483647) ∨
        (Double.Value w = .inf true ∧ ToInt32 F σ' w = .ok (-2147483648))) := by
  unfold Interpreter.Div at hdiv ⊢
  rw [Interpreter.Arith_unfold F F.div σ left right l r hl hr, hx, hy] at hdiv ⊢
  simp only at hdiv ⊢
  cases hd : F.div x y with
  | none => rw [hd] at hdiv; exact absurd rfl hdiv
  | some d =>
    rw [hd] at hdiv
    simp only at hdiv ⊢
    obtain ⟨hdbl, hnf⟩ := hF.div_zero x y d a hd hvx hvy
    have hfit_ne : Double.MakeFit F d ≠ .error .FloatingPoint := by
      intro e
      rw [e] at hdiv
      exact hdiv rfl
    rw [Double.MakeFit_nonfinite hF hnf hfit_ne]
    simp only
    refine ⟨_, _, _, rfl, MakeHandle_read _ hcursor, hdbl, ?_⟩
    intro hto
    rw [ToInt32_of_double F _ (Double.Make d) hdbl] at hto ⊢
    rw [DoubleToInt32_spec hF (Double.Make d) hto]
    show _ ∨ _ ∨ _
    cases hval : Double.Value d with
    | nan => exact Or.inl ⟨hval, by rw [show Double.Value (Double.Make d) = .nan from hval]⟩
    | inf negative =>
      cases negative with
      | false =>
        exact Or.inr (Or.inl ⟨hval, by
          rw [show Double.Value (Double.Make d) = .inf false from hval]; rfl⟩)
      | true =>
        exact Or.inr (Or.inr ⟨hval, by
          rw [show Double.Value (Double.Make d) = .inf true from hval]; rfl⟩)
    | finite q => exact absurd hval (hnf q)

theorem C17_division_by_zero_to_int32_witness :
    (FloatOps.exact.Conforms ∧
      ToDouble FloatOps.exact Scenario.fooState (Int32.Make 1) = .ok 0x3ff0000000000000 ∧
      ToDouble FloatOps.exact Scenario.fooState (Int32.Make 0) = .ok 0 ∧
      Double.Value 0x3ff0000000000000 = .finite 1 ∧ Double.Value 0 = .finite 0) ∧
      ∃ h σ' w, Interpreter.Div FloatOps.exact Scenario.fooState
          (some (.fixed (Int32.Make 1))) (some (.fixed (Int32.Make 0))) = .ok (some h, σ') ∧
        σ'.read h = .ok w ∧ IsDouble w = true ∧
        (ToInt32 FloatOps.exact σ' w ≠ .error .FloatingPoint →
          (Double.Value w = .nan ∧ ToInt32 FloatOps.exact σ' w = .ok 0) ∨
          (Double.Value w = .inf false ∧ ToInt32 FloatOps.exact σ' w = .ok 2147483647) ∨
          (Double.Value w = .inf true ∧ ToInt32 FloatOps.exact σ' w = .ok (-2147483648))) :=
  ⟨⟨FloatOps.exact_Conforms, by decide!, by decide!, by decide!, by decide!⟩,
    C17_division_by_zero_to_int32 FloatOps.exact FloatOps.exact_Conforms Scenario.fooState
      (some (.fixed (Int32.Make 1))) (some (.fixed (Int32.Make 0))) (Int32.Make 1)
      (Int32.Make 0) 0x3ff0000000000000 0 1 (by decide) rfl rfl (by decide!) (by decide!)
      (by decide!) (by decide!) (Except.ne_error_of_toBool _ (by decide!))⟩

/-- C18 (failing input): in the script `a = 0; if (1) a = 1; w = 0; while (1) { w = 1;
break; } f = 0; for (; 1; ) { f = 1; break; } n = !1; c = 1 ? 2 : 3;` the then-branch
and the two loop bodies do not run (`a`, `w` and `f` stay 0) and `!1` is `true`,
although `ToBoolean(1)` is `true` and the conditional expression selects 2: the
statements and `!` test `IsTrue()` on the value itself. -/
theorem C18_statements_test_identity_with_true :
    Scenario.truthiness FloatOps.unavailable =
        .ok [some (Int32.Make 0), some (Int32.Make 0), some (Int32.Make 0),
          some (Constant.Boolean true), some (Int32.Make 2)] ∧
      ToBoolean FloatOps.unavailable State.empty (Int32.Make 1)
        = .ok (Constant.Boolean true) :=
  ⟨by decide!, by decide!⟩

/-- C19: in a `while` or `for` loop whose test passes (or is absent) and whose body
then completes with `completion`, the loop stops with a NORMAL completion when the
body completed with BREAK, stops with the completion of the body, and so with its
value, when the body completed with RETURN, and otherwise (CONTINUE or NORMAL)
evaluates the update expression, if there is one, and goes on with the next
iteration. A `while` statement is this loop without an update, and a `for` statement
is this loop after its initialiser. -/
theorem C19_loop_body_completion (F : FloatOps) (fuel : Nat)
    (condition update : Option Expression) (loop_stmt : Statement) (c d : Nat)
    (σ σ1 σ2 : State) (log log1 log2 : List Event) (completion : Completion)
    (hgo : (condition = none ∧ σ1 = σ ∧ log1 = log) ∨
      ∃ e h v, condition = some e ∧ Evaluate F fuel e c d σ log = .ok (h, σ1, log1) ∧
        σ1.get h = .ok v ∧ IsTrue v = true)
    (hbody : Execute F fuel loop_stmt c d σ1 log1 = .ok (completion, σ2, log2)) :
    ExecuteLoop F (fuel + 1) condition update loop_stmt c d σ log =
        (match completion.type with
         | .BREAK => .ok ({ type := .NORMAL }, σ2, log2)
         | .RETURN => .ok (completion, σ2, log2)
         | _ =>
           match update with
           | some e =>
             (Evaluate F fuel e c d σ2 log2).bind
               (fun r => ExecuteLoop F fuel condition update loop_stmt c d r.2.1 r.2.2)
           | none => ExecuteLoop F fuel condition update loop_stmt c d σ2 log2) ∧
      (∀ cond σ0 log0, Execute F (fuel + 2) (.WhileStatement cond loop_stmt) c d σ0 log0 =
        ExecuteLoop F (fuel + 1) (some cond) none loop_stmt c d σ0 (log0 ++ [.execute d])) ∧
      (∀ init σ0 log0,
        Execute F (fuel + 2) (.ForStatement init condition update loop_stmt) c d σ0 log0 =
          match init with
          | some e =>
            (Evaluate F (fuel + 1) e c d σ0 (log0 ++ [.execute d])).bind
              (fun r => ExecuteLoop F (fuel + 1) condition update loop_stmt c d r.2.1 r.2.2)
          | none =>
            ExecuteLoop F (fuel + 1) condition update loop_stmt c d σ0
              (log0 ++ [.execute d])) := by
  refine ⟨ExecuteLoop_step F fuel condition update loop_stmt c d σ σ1 σ2 log log1 log2
    completion hgo hbody, fun cond σ0 log0 => rfl, fun init σ0 log0 => ?_⟩
  cases init with
  | none => rfl
  | some e =>
    have h : Execute F (fuel + 2) (.ForStatement (some e) condition update loop_stmt) c d σ0 log0
        = (do
          let (σ, log) ←
            (do
              let (_, σ, log) ← Evaluate F (fuel + 1) e c d σ0 (log0 ++ [.execute d])
              pure (σ, log) : Except Error (State × List Event))
          ExecuteLoop F (fuel + 1) condition update loop_stmt c d σ log) := rfl
    rw [h]
    simp only [bind, Except.bind]
    cases Evaluate F (fuel + 1) e c d σ0 (log0 ++ [.execute d]) <;> rfl

theorem C19_loop_body_completion_witness :
    Execute FloatOps.unavailable 1 .BreakStatement 0 0 State.empty []
        = .ok ({ type := .BREAK }, State.empty, [.execute 0]) ∧
      ExecuteLoop FloatOps.unavailable 2 (some (.BooleanLiteral Constant.kBoolTrue)) none
        .BreakStatement 0 0 State.empty [] = .ok ({ type := .NORMAL }, State.empty, [.execute 0]) :=
  ⟨rfl,
    (C19_loop_body_completion FloatOps.unavailable 1 (some (.BooleanLiteral Constant.kBoolTrue))
      none .BreakStatement 0 0 State.empty State.empty State.empty [] [] [.execute 0]
      { type := .BREAK }
      (Or.inr ⟨_, some (.fixed Constant.kBoolTrue), Constant.kBoolTrue, rfl, rfl, rfl, rfl⟩)
      rfl).1⟩

/-- C20: a call expression whose target is a reference with a value evaluates to the
error `KSNotFunctionError` when that value is not a function, and so it returns a
result only when the value is a function. -/
theorem C20_call_of_non_function (F : FloatOps) (fuel : Nat) (target : Expression)
    (args : List Expression) (loc : String) (c d : Nat) (σ σ1 σ2 : State)
    (log log1 : List Event) (ref : Reference) (result : Handle) (v : Object)
    (href : Reference.New F fuel target c d σ log = .ok (ref, σ1, log1))
    (hval : Reference.GetValue F fuel ref σ1 = .ok (result, σ2))
    (hv : σ2.get result = .ok v) :
    (IsFunction σ2 v = false →
        Evaluate F (fuel + 1) (.FunctionCall target args loc) c d σ log
          = .error .KSNotFunctionError) ∧
      (∀ r, Evaluate F (fuel + 1) (.FunctionCall target args loc) c d σ log = .ok r →
        IsFunction σ2 v = true) := by
  have hunfold : Evaluate F (fuel + 1) (.FunctionCall target args loc) c d σ log =
      (do
        let (ref, σ, log) ← Reference.New F fuel target c d σ log
        let (result, σ) ← Reference.GetValue F fuel ref σ
        match σ.find (← σ.get result) with
        | some (.FUNCTION name _ _) =>
          let self : Handle := if ref.IsPropertyReference then ref.GetBase else none
          let (array, σ) ← KSArray.New σ (Int.ofNat args.length) .TENURED
          let (arguments, σ) := MakeHandle σ array
          let (σ, log) ← EvaluateElements F fuel args array 0 c d σ log
          let σ ← FunctionCall.PushLocation σ name (← σ.read arguments) loc
          Call F fuel self result (some arguments) c d σ log
        | _ => .error .KSNotFunctionError) := rfl
  have hnot : IsFunction σ2 v = false →
      Evaluate F (fuel + 1) (.FunctionCall target args loc) c d σ log
        = .error .KSNotFunctionError := by
    intro hnf
    rw [hunfold]
    simp only [href, hval, hv, bind, Except.bind]
    cases hf : σ2.find v with
    | none => rfl
    | some o =>
      cases o with
      | FUNCTION name params body => simp [IsFunction, hf] at hnf
      | _ => rfl
  refine ⟨hnot, fun r hr => ?_⟩
  by_contra hnf
  rw [hnot (by simpa using hnf)] at hr
  cases hr

theorem C20_call_of_non_function_witness :
    (Reference.New FloatOps.unavailable 1 (.Identifier (HeapObject_Make 2)) 0 0
        Scenario.callState [] =
        .ok ({ expr := .Identifier (HeapObject_Make 2), base := some (.slot 0 0 1),
               key := none, type := .NAMED }, Scenario.callState, []) ∧
      Scenario.callState.get (some (.slot 0 0 1)) = .ok (Int32.Make 1) ∧
      IsFunction Scenario.callState (Int32.Make 1) = false) ∧
      Evaluate FloatOps.unavailable 2 (.FunctionCall (.Identifier (HeapObject_Make 2)) [] "")
        0 0 Scenario.callState [] = .error .KSNotFunctionError :=
  ⟨⟨rfl, rfl, rfl⟩,
    (C20_call_of_non_function FloatOps.unavailable 1 (.Identifier (HeapObject_Make 2)) [] ""
      0 0 Scenario.callState Scenario.callState Scenario.callState [] []
      { expr := .Identifier (HeapObject_Make 2), base := some (.slot 0 0 1),
        key := none, type := .NAMED } (some (.slot 0 0 1)) (Int32.Make 1) rfl rfl rfl).1 rfl⟩

/-- C21: for a name bound in no context, `GetValue` of the NAMED reference yields the
empty handle, not a handle to `undefined`; `x++`, `--x`, `x += 1` and the call `x()`
then read through the empty handle, while the plain read `x` evaluates. -/
theorem C21_unbound_reference_yields_empty_handle :
    Scenario.unbound FloatOps.unavailable (fun x => .PostfixExpression (.Identifier x) .INC)
        = .ok (none, none, some .NullDereference) ∧
      Scenario.unbound FloatOps.unavailable (fun x => .UnaryExpression (.Identifier x) .DEC)
        = .ok (none, none, some .NullDereference) ∧
      Scenario.unbound FloatOps.unavailable
          (fun x => .Assignment (.Identifier x) (.int 1) .ADD_ASSIGN)
        = .ok (none, none, some .NullDereference) ∧
      Scenario.unbound FloatOps.unavailable (fun x => .call0 x)
        = .ok (none, none, some .NullDereference) ∧
      Scenario.unbound FloatOps.unavailable (fun x => .Identifier x)
        = .ok (none, none, none) :=
  ⟨by decide!, by decide!, by decide!, by decide!, by decide!⟩

/-- C22: on the array `[1, 2, 3]` built by three pushes, whose backing store has four
slots, `Set(3, 9)` is out of range for the length 3, yet it returns 9 and writes the
store, so that the string form changes; `Get(-1)` and `Set(-1, 9)` reach outside the
element store. `Set(4, 9)`, outside the store as well, returns undefined and changes
nothing, and `Get(3)` returns undefined. -/
theorem C22_set_beyond_length_writes_backing_store :
    Scenario.setAt 3 =
        .ok (⟨3, 4, [Int32.Make 1, Int32.Make 2, Int32.Make 3], "[1, 2, 3, undefined]"⟩,
          Int32.Make 9,
          ⟨3, 4, [Int32.Make 1, Int32.Make 2, Int32.Make 3], "[1, 2, 3, 9]"⟩) ∧
      Scenario.setAt (-1) = .error .OutOfBounds ∧
      Scenario.getAt (-1) = .error .OutOfBounds ∧
      Scenario.setAt 4 =
        .ok (⟨3, 4, [Int32.Make 1, Int32.Make 2, Int32.Make 3], "[1, 2, 3, undefined]"⟩,
          Constant.Undefined,
          ⟨3, 4, [Int32.Make 1, Int32.Make 2, Int32.Make 3], "[1, 2, 3, undefined]"⟩) ∧
      Scenario.getAt 3 = .ok Constant.Undefined :=
  ⟨by decide!, by decide!, by decide!, by decide!, by decide!⟩

/-- C23: the string form of the array built by three pushes onto `[]` lists the four
slots of its backing store, not its three elements; the forms of `[]`, of a fresh
array of length 1 and of the arrays built by one or two pushes list the elements. -/
theorem C23_to_string_lists_backing_store :
    Scenario.pushedString [1, 2, 3] = .ok (3, "[1, 2, 3, undefined]") ∧
      Scenario.pushedString [] = .ok (0, "[]") ∧
      Scenario.freshString 1 = .ok "[undefined]" ∧
      Scenario.pushedString [1] = .ok (1, "[1]") ∧
      Scenario.pushedString [1, 2] = .ok (2, "[1, 2]") :=
  ⟨by decide!, by decide!, by decide!, by decide!, by decide!⟩

/-- C24: on the array `[7]` the keyed read `a["length"]` converts the key to the
index 0 and yields the element 7, while the dotted read `a.length` yields 1. -/
theorem C24_keyed_string_key_is_converted_to_index :
    Scenario.keyedLength = .ok (some (Int32.Make 7), some (Int32.Make 1)) := by
  decide!

/-- C25: on a well-formed symbol table, when the old space has room for the strings of
`s` and `t`, `NewSymbol(s)` returns an object that holds the bytes `s`; a second
`NewSymbol(s)` returns that object and leaves the state, the heap included, as it is;
`NewSymbol(t)` for other bytes `t` returns another object; and the table stays well
formed: no two entries have equal bytes. When `s` is not in the table and not empty
and the old space lacks room for its string, `Heap::AllocateString` calls
`Heap::Collect` for the old space. -/
theorem C25_new_symbol_interns (σ : State) (s t : String)
    (hwf : SymbolTable.WellFormed σ) (hbound : σ.objects.length + 1 < 2 ^ 48) :
    (Align (20 + s.length) + Align (20 + t.length) ≤ σ.old_space_available →
      ∃ x σ1 y σ2, String.NewSymbol σ s = .ok (x, σ1) ∧
        String.NewSymbol σ1 s = .ok (x, σ1) ∧
        String.Value σ1 x = .ok s ∧
        String.NewSymbol σ1 t = .ok (y, σ2) ∧ (s ≠ t → y ≠ x) ∧
        SymbolTable.WellFormed σ1 ∧ SymbolTable.WellFormed σ2) ∧
    (SymbolTable_Find σ s = nullptr → s.length ≠ 0 →
      σ.old_space_available < Align (20 + s.length) →
      String.NewSymbol σ s = .error (.Collection .OLD_SPACE)) := by
  constructor
  · intro hroom
    obtain ⟨x, σ1, h1, hval, _, hlen, hwf1, hagain, hav⟩ :=
      String.NewSymbol_spec s hwf (Nat.lt_of_succ_lt hbound) (fun _ _ => by omega)
    obtain ⟨y, σ2, h2, hval2, hmono2, _, hwf2, _, _⟩ :=
      String.NewSymbol_spec (σ := σ1) t hwf1 (Nat.lt_of_le_of_lt hlen hbound)
        (fun _ _ => by omega)
    refine ⟨x, σ1, y, σ2, h1, hagain, hval, h2, fun hne heq => ?_, hwf1, hwf2⟩
    obtain ⟨e, he⟩ := String.Value_ok hval
    have h3 := String.Value_eq (hmono2 _ _ he)
    rw [← heq, hval2] at h3
    exact hne (by injection h3 with h; exact h.symm)
  · intro hnone hne hfull
    unfold String.NewSymbol
    simp only [hnone, ne_eq, not_true_eq_false, if_false]
    rw [(AllocateString_full (σ := σ) s .TENURED hne hfull).2]
    rfl

/-- C25, witness: `x` is interned at the address 2, found again there, and `y` is
interned elsewhere; with no byte left in the old space the lookup of `x` calls
`Heap::Collect`. -/
theorem C25_new_symbol_interns_witness :
    (SymbolTable.WellFormed Scenario.fooState ∧
      Align (20 + ("x" : String).length) + Align (20 + ("y" : String).length)
        ≤ Scenario.fooState.old_space_available ∧
      SymbolTable_Find { Scenario.fooState with old_space_available := 0 } "x" = nullptr ∧
      (String.NewSymbol Scenario.fooState "x").toOption.map Prod.fst
        = some (HeapObject_Make 2)) ∧
      (∃ x σ1 y σ2, String.NewSymbol Scenario.fooState "x" = .ok (x, σ1) ∧
        String.NewSymbol σ1 "x" = .ok (x, σ1) ∧
        String.Value σ1 x = .ok "x" ∧
        String.NewSymbol σ1 "y" = .ok (y, σ2) ∧ ("x" ≠ "y" → y ≠ x) ∧
        SymbolTable.WellFormed σ1 ∧ SymbolTable.WellFormed σ2) ∧
      String.NewSymbol { Scenario.fooState with old_space_available := 0 } "x"
        = .error (.Collection .OLD_SPACE) :=
  ⟨⟨by decide, by decide, by decide, by decide⟩,
    (C25_new_symbol_interns Scenario.fooState "x" "y" (by decide) (by decide)).1 (by decide),
    (C25_new_symbol_interns { Scenario.fooState with old_space_available := 0 } "x" "y"
      (by decide) (by decide)).2 (by decide) (by decide) (by decide)⟩

/-- C26: `Heap::AllocateArray(30)` ends in `AllocationError`, not in
`OutOfMemoryError`: the collection that `ALLOC_WITH_GC_SUPPORT` runs in its handler
copies an object a second time, through the reference that a store without barrier
left behind, and the allocation for the copy fails inside `Heap::Collect`. On the
fresh heap an array of 10 elements is returned without a collection, and an array
of 100 elements, which no semispace holds, raises `OutOfMemoryError` after one
collection. -/
theorem C26_allocation_error_escapes_collect :
    Scenario.escape =
        .ok (1, ⟨[HeapObject_Make 5224, HeapObject_Make 4608], 5008, 5256,
                [HeapObject_Make 5224], []⟩,
          .error (.AllocationError .NEW_SPACE)) ∧
      Scenario.allocate 10 = .ok (.ok (HeapObject_Make 4096), 0) ∧
      Scenario.allocate 100 = .ok (.error .OutOfMemoryError, 1) := by
  refine ⟨?_, ?_, ?_⟩ <;> decide!

/-- C28: after `Heap::Collect(OLD_SPACE)` the array `n` of the new space, a root,
still holds the word for the address 5248 of the string `"b"`. When only `n` refers
to `"b"`, the string is not marked: the old space is free from 5224 on, and the next
allocations put the string `"d"` at 5248. When `"b"` is a root as well, it moves to
5224 and the root is adjusted, but `n[0]` is not: it denotes the string `"c"`
allocated next. -/
theorem C28_old_collection_ignores_new_space_objects :
    Scenario.oldCollect false =
        .ok (⟨[HeapObject_Make 4096], 4120, 5224, [], []⟩,
          some ([HeapObject_Make 5248], ""), some ([HeapObject_Make 5136], "d")) ∧
      Scenario.oldCollect true =
        .ok (⟨[HeapObject_Make 4096, HeapObject_Make 5224], 4120, 5248, [], []⟩,
          some ([HeapObject_Make 5248], ""), some ([HeapObject_Make 5136], "c")) := by
  refine ⟨?_, ?_⟩ <;> decide!

/-- C29: `KSObject::SetElements` stores a table of the new space (at 4096) into a
tenured object: before the store every object of the old space that refers to the
new space is remembered, after it the object is not, and the remembered set is
empty. `Array::Set`, `KSArray::SetElements` and `Function::New` remember the tenured
object (at 5224) they store into. -/
theorem C29_set_elements_has_no_write_barrier :
    Scenario.rehash = .ok (⟨true, false, []⟩, some ([HeapObject_Make 4096], "")) ∧
      Scenario.barriers =
        .ok [(true, [HeapObject_Make 5224]), (true, [HeapObject_Make 5224]),
          (true, [HeapObject_Make 5224])] := by
  refine ⟨?_, ?_⟩ <;> decide!

/-- C27: for a heap size of `2 ^ 33` bytes the old-space size becomes 0: half the
heap size is `2 ^ 32`, which `NextPowerOf2` receives as the `uint32_t` 0; the
semispace size is `2 ^ 31`. The heap size 16 KB gives 4096 and 8192, and `Configure`
changes nothing once the heap is initialised. -/
theorem C27_configure_truncates_large_sizes :
    ((Heap.Configure {} (2 ^ 33) 2).semispace_size = 2 ^ 31 ∧
        (Heap.Configure {} (2 ^ 33) 2).old_space_size = 0) ∧
      ((Heap.Configure {} (16 * 1024) 3).semispace_size = 4096 ∧
        (Heap.Configure {} (16 * 1024) 3).old_space_size = 8192 ∧
        (Heap.Configure {} (16 * 1024) 3).young_space_size = 8192 ∧
        (Heap.Configure {} (16 * 1024) 3).tenure_threshold = 3) ∧
      (Heap.Configure { initialized := true } (16 * 1024) 3).semispace_size = 256 * KB ∧
      (Heap.Configure { initialized := true } (16 * 1024) 3).old_space_size = 16 * MB :=
  ⟨⟨by decide!, by decide!⟩, ⟨by decide!, by decide!, by decide!, by decide!⟩,
    by decide!, by decide!⟩

/-- C30: a young collection preserves what the roots denote. On a well-formed heap,
in which in particular every old-space object holding a reference into the new space
is in the remembered set, `CopyingCollector::Collect` returns, given fuel for the
objects of the new space, and each root word then denotes, to every depth, a value
of the same type with the same scalar fields, the same number of references and,
reference by reference, the same values as before. -/
theorem C30_young_collection_preserves_roots (h : Heap) (L O : List Nat) (fuel : Nat)
    (hwf : h.WellFormed L O) (hf : L.length + 2 ≤ fuel) :
    ∃ h', CopyingCollector.Collect fuel h = .ok h' ∧
      ∀ depth,
        h'.slots.map (h'.denote depth) = h.slots.map (h.denote depth) ∧
        h'.denote depth h'.empty_array = h.denote depth h.empty_array ∧
        h'.denote depth h'.empty_hash_table = h.denote depth h.empty_hash_table ∧
        h'.denote depth h'.empty_string = h.denote depth h.empty_string := by
  have hB := hwf.base
  obtain ⟨h', FT, FP, prog, hrun, hS, r1, r2, r3, r4⟩ :=
    CopyingCollector.Copying_spec (h := { h with new_space := h.new_space.Flip }) hB hf
  refine ⟨h', hrun, fun depth => ?_⟩
  have hd := hS.denote hB depth
  have hc : ∀ w, Heap.denote { h with new_space := h.new_space.Flip, promoted := [] } depth w =
      h.denote depth w :=
    Heap.denote_congr (g := { h with new_space := h.new_space.Flip, promoted := [] })
      (h := h) rfl depth
  have hroot : ∀ w ∈ h.slots ++ [h.empty_array, h.empty_hash_table, h.empty_string],
      Good L O w := hB.roots
  refine ⟨?_, ?_, ?_, ?_⟩
  · have hall : ∀ (ws ws' : List Object), (∀ w ∈ ws, Good L O w) →
        List.Forall₂ (Relocated { h with new_space := h.new_space.Flip, promoted := [] }
          (FT ++ FP)) ws ws' →
        ws'.map (h'.denote depth) = ws.map (h.denote depth) := by
      intro ws ws' hg hr
      induction hr with
      | nil => rfl
      | cons hr _ ih =>
        simp only [List.map_cons]
        rw [hd _ _ (hg _ (List.mem_cons_self _ _)) hr, hc,
          ih (fun w hw => hg w (List.mem_cons_of_mem _ hw))]
    exact hall _ _ (fun w hw => hroot w (List.mem_append_left _ hw)) r1
  · rw [hd _ _ (hroot _ (by simp)) r2, hc]
  · rw [hd _ _ (hroot _ (by simp)) r3, hc]
  · rw [hd _ _ (hroot _ (by simp)) r4, hc]

theorem C30_young_collection_preserves_roots_witness :
    Scenario.youngHeap.WellFormed [4096, 4128, 4152, 4184, 4232] [5120, 5136, 5200, 5224] ∧
      ∃ h', CopyingCollector.Collect 7 Scenario.youngHeap = .ok h' ∧
        ∀ depth,
          h'.slots.map (h'.denote depth) =
            Scenario.youngHeap.slots.map (Scenario.youngHeap.denote depth) ∧
          h'.denote depth h'.empty_array =
            Scenario.youngHeap.denote depth Scenario.youngHeap.empty_array ∧
          h'.denote depth h'.empty_hash_table =
            Scenario.youngHeap.denote depth Scenario.youngHeap.empty_hash_table ∧
          h'.denote depth h'.empty_string =
            Scenario.youngHeap.denote depth Scenario.youngHeap.empty_string :=
  ⟨by decide!,
    C30_young_collection_preserves_roots Scenario.youngHeap [4096, 4128, 4152, 4184, 4232]
      [5120, 5136, 5200, 5224] 7 (by decide!) (by decide)⟩

/-- C31 (counterexample): on the fresh heap (tenure threshold 2) with the old space
full, a number that is a root is copied into the new space at every young collection,
because `Promote` fails and `CopyObject` falls back to copying: after the third and
the fourth collection the number is in the new space with age 3 and 4, above the
threshold. -/
theorem C31_age_exceeds_threshold_when_old_space_is_full :
    Scenario.ages 4 = .ok (2, 0,
      [⟨18445618173802713600, true, 1⟩, ⟨18445618173802713088, true, 2⟩,
       ⟨18445618173802713600, true, 3⟩, ⟨18445618173802713088, true, 4⟩]) := by
  decide!

/-- C31 (amended): `Heap::CopyObject` of a new-space object that is not forwarded yet,
when the to-space has room for it. An object whose age has reached the tenure
threshold is promoted when the old space has room for it: the result lies at `free_`
of the old space and keeps the age. An object whose age is below the threshold, and
also one whose age has reached it when the old space lacks the room, is copied to
`free_` of the to-space with its age raised by one (modulo 256); so the age of a
new-space object is not bounded by the threshold. -/
theorem C31_copy_object_promotes_or_raises_the_age (h : Heap) (from_obj : Object) (c : Cell)
    (hnew : h.IsInNewSpace from_obj = true) (hc : h.cell from_obj = .ok c)
    (hfw : c.metadata.IsForwarding = false)
    (hto : h.new_space.free ≠ 0 ∧ h.new_space.free < 2 ^ 48 ∧
      h.new_space.free ≠ ADDRESS from_obj)
    (hold : h.old_space.free ≠ 0 ∧ h.old_space.free < 2 ^ 48 ∧
      h.old_space.free ≠ ADDRESS from_obj)
    (hroom : h.new_space.free + c.body.Size ≤ h.new_space.ToSpaceHigh) :
    (h.tenure_threshold ≤ c.metadata.Age →
      h.old_space.free + c.body.Size ≤ h.old_space.end_ →
      ∃ h', h.CopyObject from_obj = .ok (HeapObject_Make h.old_space.free, h') ∧
        h'.metadata (HeapObject_Make h.old_space.free) = .ok c.metadata) ∧
    (c.metadata.Age < h.tenure_threshold ∨
        h.old_space.end_ < h.old_space.free + c.body.Size →
      ∃ h', h.CopyObject from_obj = .ok (HeapObject_Make h.new_space.free, h') ∧
        h'.metadata (HeapObject_Make h.new_space.free)
          = .ok { c.metadata with age := (c.metadata.age + 1) % 2 ^ 8 }) := by
  have hTa : ADDRESS (HeapObject_Make h.new_space.free) = h.new_space.free :=
    ADDRESS_Make _ hto.2.1
  have hPa : ADDRESS (HeapObject_Make h.old_space.free) = h.old_space.free :=
    ADDRESS_Make _ hold.2.1
  have hfit : ¬ (h.new_space.free + c.body.Size > h.new_space.ToSpaceHigh) := by omega
  have hnew' : (!h.IsInNewSpace from_obj) = false := by rw [hnew]; rfl
  -- the copy into the to-space, from a heap that differs from `h` in nothing
  have hcopy : ∀ h0 : Heap, h0 = h →
      ∃ h', (match h0.AllocateRaw c.body.Size .NEW_SPACE with
          | (.error e, _) => (.error e : Except KError (Object × Heap))
          | (.ok result, h) =>
            let h := h.store result { c with metadata := c.metadata.IncrementAge }
            let h := h.store from_obj
              { c with metadata := c.metadata.SetForwarding (ADDRESS result) }
            pure (result, h)) = .ok (HeapObject_Make h.new_space.free, h') ∧
        h'.metadata (HeapObject_Make h.new_space.free)
          = .ok { c.metadata with age := (c.metadata.age + 1) % 2 ^ 8 } := by
    intro h0 e
    subst e
    have halloc : h0.AllocateRaw c.body.Size .NEW_SPACE =
        (.ok (HeapObject_Make h0.new_space.free),
          { h0 with new_space :=
            { h0.new_space with available_objects := h0.new_space.available_objects + 1
                                free := h0.new_space.free + c.body.Size } }) := by
      simp only [Heap.AllocateRaw, NewSpace.Allocate, hfit, if_false, ne_eq, hto.1,
        not_false_eq_true, if_true]
    rw [halloc]
    exact ⟨_, rfl, Heap.metadata_store_store _ _ _ _ _ (by rw [hTa]; exact hto.2.2)⟩
  constructor
  · intro hage hfitP
    have hfitP' : ¬ (h.old_space.free + c.body.Size > h.old_space.end_) := by omega
    have halloc : h.AllocateRaw c.body.Size .OLD_SPACE =
        (.ok (HeapObject_Make h.old_space.free),
          { h with old_space :=
            { h.old_space with available_objects := h.old_space.available_objects + 1
                               free := h.old_space.free + c.body.Size } }) := by
      simp only [Heap.AllocateRaw, OldSpace.Allocate, hfitP', if_false, ne_eq, hold.1,
        not_false_eq_true, if_true]
    have hp : ∃ h', h.Promote from_obj = (.ok (HeapObject_Make h.old_space.free), h') ∧
        h'.metadata (HeapObject_Make h.old_space.free) = .ok c.metadata := by
      have hne : ADDRESS (HeapObject_Make h.old_space.free) ≠ ADDRESS from_obj := by
        rw [hPa]; exact hold.2.2
      generalize HeapObject_Make h.old_space.free = r at halloc hne ⊢
      simp only [Heap.Promote, hc, halloc, Heap.andThen]
      refine ⟨_, rfl, Heap.metadata_of_memory ?_⟩
      show Memory.set (Memory.set h.memory (ADDRESS r) c) (ADDRESS from_obj) _ (ADDRESS r)
        = some c
      rw [Memory.set_other _ _ hne, Memory.set_same]
    obtain ⟨h', hp1, hp2⟩ := hp
    refine ⟨h', ?_, hp2⟩
    simp only [Heap.CopyObject, hnew', Bool.false_eq_true, if_false, hc, bind, Except.bind,
      hfw, ge_iff_le, hage, if_true, hp1, pure, Except.pure]
  · intro hcase
    by_cases hage : h.tenure_threshold ≤ c.metadata.Age
    · have hfull : h.old_space.free + c.body.Size > h.old_space.end_ := by
        rcases hcase with h1 | h1
        · omega
        · exact h1
      have halloc : h.AllocateRaw c.body.Size .OLD_SPACE =
          (.error (.AllocationError .OLD_SPACE), { h with old_space := h.old_space }) := by
        simp only [Heap.AllocateRaw, OldSpace.Allocate, hfull, if_true, ne_eq,
          not_true_eq_false, if_false]
      obtain ⟨h', h1, h2⟩ := hcopy { h with old_space := h.old_space } rfl
      refine ⟨h', ?_, h2⟩
      have hp : h.Promote from_obj
          = (.error (.AllocationError .OLD_SPACE), { h with old_space := h.old_space }) := by
        simp only [Heap.Promote, hc, halloc, Heap.andThen]
      simp only [Heap.CopyObject, hnew', Bool.false_eq_true, if_false, hc, bind, Except.bind,
        hfw, ge_iff_le, hage, if_true, hp]
      exact h1
    · obtain ⟨h', h1, h2⟩ := hcopy h rfl
      refine ⟨h', ?_, h2⟩
      simp only [Heap.CopyObject, hnew', Bool.false_eq_true, if_false, hc, bind, Except.bind,
        hfw, ge_iff_le, hage]
      exact h1

/-- C31 (amended), witness: a number of age 2, the tenure threshold. With room in the
old space it is promoted and keeps the age 2; with the old space full it is copied to
the to-space with the age 3; a number of age 1 is copied with the age 2. -/
theorem C31_copy_object_promotes_or_raises_the_age_witness :
    ((Scenario.agedHeap 2 0).tenure_threshold = 2 ∧
      (Scenario.agedHeap 2 0).IsInNewSpace (HeapObject_Make 4160) = true ∧
      (Scenario.agedHeap 2 0).cell (HeapObject_Make 4160)
        = .ok { metadata := { age := 2 }, body := .HEAP_NUMBER 7 } ∧
      (Scenario.agedHeap 2 0).old_space.free + 16 ≤ (Scenario.agedHeap 2 0).old_space.end_ ∧
      (Scenario.agedHeap 2 64).old_space.end_ < (Scenario.agedHeap 2 64).old_space.free + 16) ∧
    (∃ h', (Scenario.agedHeap 2 0).CopyObject (HeapObject_Make 4160)
        = .ok (HeapObject_Make 8192, h') ∧
      h'.metadata (HeapObject_Make 8192) = .ok { age := 2 }) ∧
    (∃ h', (Scenario.agedHeap 2 64).CopyObject (HeapObject_Make 4160)
        = .ok (HeapObject_Make 4096, h') ∧
      h'.metadata (HeapObject_Make 4096) = .ok { age := 3 }) ∧
    (∃ h', (Scenario.agedHeap 1 0).CopyObject (HeapObject_Make 4160)
        = .ok (HeapObject_Make 4096, h') ∧
      h'.metadata (HeapObject_Make 4096) = .ok { age := 2 }) :=
  ⟨⟨rfl, by decide, rfl, by decide, by decide⟩,
    (C31_copy_object_promotes_or_raises_the_age (Scenario.agedHeap 2 0) (HeapObject_Make 4160)
      { metadata := { age := 2 }, body := .HEAP_NUMBER 7 } (by decide) rfl rfl
      (by decide) (by decide) (by decide)).1 (by decide) (by decide),
    (C31_copy_object_promotes_or_raises_the_age (Scenario.agedHeap 2 64) (HeapObject_Make 4160)
      { metadata := { age := 2 }, body := .HEAP_NUMBER 7 } (by decide) rfl rfl
      (by decide) (by decide) (by decide)).2 (Or.inr (by decide)),
    (C31_copy_object_promotes_or_raises_the_age (Scenario.agedHeap 1 0) (HeapObject_Make 4160)
      { metadata := { age := 1 }, body := .HEAP_NUMBER 7 } (by decide) rfl rfl
      (by decide) (by decide) (by decide)).2 (Or.inl (by decide))⟩

/-- C33: `Double::Make` returns the bit pattern of its argument unchanged; for the NaN
of pattern `0xfff9000000000001` (sign bit set, payload not zero) the word is not the
canonical NaN word, `IsDouble` is false of it, and `IsInt32` is true of it, with
`Int32::Value` 1. -/
theorem C33_double_make_keeps_reserved_patterns :
    (∀ bits : Nat, Double.Make bits = bits) ∧
    Double.Make 0xfff9000000000001 ≠ Double.kNaN ∧
    IsDouble (Double.Make 0xfff9000000000001) = false ∧
    IsInt32 (Double.Make 0xfff9000000000001) = true ∧
    Int32.Value (Double.Make 0xfff9000000000001) = 1 :=
  ⟨fun _ => rfl, by decide!, by decide!, by decide!, by decide!⟩

/-- C35: the parser rejects a `break` that follows a nested inner loop inside the body
of an outer loop, and likewise a `continue`, with the error of an illegal statement,
and it accepts a `return` without a value at top level (one statement, no function
declaration), while `return 1;` at top level is rejected. -/
theorem C35_break_after_nested_loop_is_rejected :
    Scenario.parse "while (a) \x7b while (b) \x7b \x7d break; \x7d" =
      .error (.KSSyntaxError "syntax error: illegal break statement" []) ∧
    Scenario.parse "for (;;) \x7b for (;;) \x7b continue; \x7d continue; \x7d" =
      .error (.KSSyntaxError "syntax error: illegal continue statement" []) ∧
    Scenario.parse "return" = .ok (1, 0) ∧
    Scenario.parse "return 1;" =
      .error (.KSSyntaxError "syntax error: illegal return statement" []) ∧
    Scenario.parse "while (a) \x7b break; \x7d" = .ok (1, 0) := by
  refine ⟨?_, ?_, ?_, ?_, ?_⟩ <;> decide!

/-- C36: the scanner stops at the character `|` and at the character `&` with the
error of an unexpected character, so the sources `a || b` and `a && b` have no token
sequence, and the statements `x = a || b;` and `x = a && b;` do not parse. -/
theorem C36_scanner_rejects_logic_operators :
    Scenario.scan "a || b" =
      .error (.KSSyntaxError "unexpected character: \x7b\x7d" [String.mk [Scanner.NUL]]) ∧
    Scenario.scan "a && b" =
      .error (.KSSyntaxError "unexpected character: \x7b\x7d" [String.mk [Scanner.NUL]]) ∧
    Scenario.parse "x = a || b;" =
      .error (.KSSyntaxError "unexpected character: \x7b\x7d" [String.mk [Scanner.NUL]]) ∧
    Scenario.parse "x = a && b;" =
      .error (.KSSyntaxError "unexpected character: \x7b\x7d" [String.mk [Scanner.NUL]]) := by
  refine ⟨?_, ?_, ?_, ?_⟩ <;> decide!

/-- C37: two objects created empty, an empty array and a string are four distinct
objects; the property `k` is undefined in the second object, the array and the string,
and after `SetProperty` of `k` to the Int32 7 on the first object, `GetProperty` of `k`
on each of the three others gives the Int32 7. -/
theorem C37_empty_objects_share_the_property_table :
    Scenario.sharedTable FloatOps.unavailable =
      .ok ([Constant.kUndefined, Constant.kUndefined, Constant.kUndefined],
           [Int32.Make 7, Int32.Make 7, Int32.Make 7], true) := by
  decide!

/-- C40: for the Int32 5 the expression `-v` evaluates to the double word of -5.0
(`0xc014000000000000`), and `0 - v` to the Int32 word of -5; for the Int32 0 the
expression `-v` evaluates to the double word of -0.0, and `0 - v` to the Int32 0. -/
theorem C40_unary_minus_yields_a_double :
    Scenario.negate FloatOps.binary64 5 =
      .ok (Double.Make 0xc014000000000000, Int32.Make (-5)) ∧
    Scenario.negate FloatOps.binary64 0 =
      .ok (Double.Make 0x8000000000000000, Int32.Make 0) ∧
    IsDouble (Double.Make 0xc014000000000000) = true ∧
    IsInt32 (Double.Make 0xc014000000000000) = false ∧
    IsInt32 (Int32.Make (-5)) = true := by
  refine ⟨?_, ?_, ?_, ?_, ?_⟩ <;> decide!

/-- C32 (counterexample): of the 64-bit word `0xfffb000000000000` none of the six type
predicates is true. -/
theorem C32_reserved_word_has_no_type :
    (0xfffb000000000000 : Nat) < 2 ^ 64 ∧
    typePredicates 0xfffb000000000000 = [false, false, false, false, false, false] := by
  decide

/-- C32 (amended): of every word at most one of the six type predicates is true, and
exactly one is true exactly when the word is at most `kDoubleLimit`, or has the tag of
an Int32, or is one of the four constant words, or has the tag of a heap object. -/
theorem C32_at_most_one_type_predicate (p : Object) :
    (typePredicates p).count true ≤ 1 ∧
    ((typePredicates p).count true = 1 ↔
      (p ≤ Double.kDoubleLimit ∨ READ_TAG p = Int32.kInt32Tag ∨
        p = Constant.kBoolTrue ∨ p = Constant.kBoolFalse ∨ p = Constant.kNull ∨
        p = Constant.kUndefined ∨ READ_TAG p = kHeapObjectTag)) := by
  have e : (2 : Nat) ^ 48 = 281474976710656 := by norm_num
  revert p
  intro (p : Nat)
  simp only [typePredicates, IsDouble, IsInt32, IsBoolean, IsNull, IsUndefined, IsHeapObject,
    READ_TAG, kCanonicalBits, Double.kDoubleLimit, Int32.kInt32Tag, Constant.kBoolTrue,
    Constant.kBoolFalse, Constant.kNull, Constant.kUndefined, Constant.kConstantTag,
    kHeapObjectTag, e]
  by_cases h1 : p ≤ 0xfff8000000000000 <;>
  by_cases h2 : p / 281474976710656 * 281474976710656 = 0xfff9000000000000 <;>
  by_cases h3 : p = 0xfffa000000000000 <;>
  by_cases h4 : p = 0xfffa000000000000 + 1 <;>
  by_cases h5 : p = 0xfffa000000000000 + 1 + 1 <;>
  by_cases h6 : p = 0xfffa000000000000 + 1 + 1 + 1 <;>
  by_cases h7 : p / 281474976710656 * 281474976710656 = 0xfffc000000000000 <;>
  first
  | omega
  | simp [h1, h2, h3, h4, h5, h6, h7]

/-- C34: for every `v` of `int32_t` the word `Int32::Make(v)` satisfies `IsInt32` and
none of the five other type predicates, `Int32::Value` of it is `v`, `ToInt64` of it
is `v`, and `ToDouble` of it, on a platform whose doubles obey IEEE 754 and that
answers the conversion asked, is the double of value `v`. -/
theorem C34_int32_make_round_trips (F : FloatOps) (hF : F.Conforms) (σ : State) (v : Int)
    (hlo : Int32.kMinInt32 ≤ v) (hhi : v ≤ Int32.kMaxInt32) :
    typePredicates (Int32.Make v) = [false, true, false, false, false, false] ∧
    Int32.Value (Int32.Make v) = v ∧
    ToInt64 F σ (Int32.Make v) = .ok v ∧
    (ToDouble F σ (Int32.Make v) ≠ .error .FloatingPoint →
      ∃ x, ToDouble F σ (Int32.Make v) = .ok x ∧ Double.Value x = .finite (v : ℚ)) := by
  obtain ⟨h1, h2, h3, h4, h5, h6, h7, h8⟩ := Int32.Make_spec v hlo hhi
  have hn := (IsString_of_not_heap (σ := σ) h3).2
  refine ⟨?_, h8, ?_, ?_⟩
  · simp [typePredicates, h1, h2, h3, h4, h5, h6, h7, IsBoolean, IsNull, IsUndefined]
  · simp only [ToInt64, hn, h1, h2, h8, if_true, if_false, Bool.false_eq_true]
    rfl
  · rw [ToDouble_int32 F σ v hlo hhi]
    intro hne
    cases hx : F.ofInt v with
    | none => rw [hx] at hne; exact absurd rfl hne
    | some x =>
      refine ⟨x, rfl, Double.Value_ofInt hF hx ?_⟩
      simp only [Int32.kMinInt32, Int32.kMaxInt32] at hlo hhi
      rw [abs_le]
      constructor <;> omega

theorem C34_int32_make_round_trips_witness :
    (FloatOps.exact.Conforms ∧ Int32.kMinInt32 ≤ -2147483648 ∧
      (-2147483648 : Int) ≤ Int32.kMaxInt32) ∧
    typePredicates (Int32.Make (-2147483648)) = [false, true, false, false, false, false] ∧
    Int32.Value (Int32.Make (-2147483648)) = -2147483648 ∧
    ToInt64 FloatOps.exact Scenario.fooState (Int32.Make (-2147483648)) = .ok (-2147483648) ∧
    ∃ x, ToDouble FloatOps.exact Scenario.fooState (Int32.Make (-2147483648)) = .ok x ∧
      Double.Value x = .finite ((-2147483648 : Int) : ℚ) :=
  have h := C34_int32_make_round_trips FloatOps.exact FloatOps.exact_Conforms
    Scenario.fooState (-2147483648) (by decide) (by decide)
  ⟨⟨FloatOps.exact_Conforms, by decide, by decide⟩, h.1, h.2.1, h.2.2.1,
    h.2.2.2 (Except.ne_error_of_toBool _ (by decide!))⟩

/-- C38: on a well-formed table (the element count is the number of pairs, the keys are
strings of pairwise different values) `HashTable::AddElement(count)` keeps the table,
with the new element count, when `new_size + new_size / 4 <= capacity`, where
`new_size` is the old count plus `count`; otherwise, with enough fuel for the probing,
it allocates a table whose capacity `2 ^ j` is the least power of two that is at least
`2 * new_size` (and at least 2): when the new space has room for the array of that
table it returns the table, whose element count is `new_size` and which holds the
pairs of the old table, and when the new space lacks that room it throws
`AllocationError`. In both cases in which it returns, `Search` finds each pair of the
old table. -/
theorem C38_add_element_keeps_or_rehashes (F : FloatOps) (fuel : Nat) (σ : State) (t : Object)
    (slots : List Object) (k : Nat) (count : Int)
    (hwf : HashTable.WellFormed σ t slots k) (hb : σ.objects.length < 2 ^ 48)
    (hcount : 0 ≤ count)
    (hsize : ((HashTable.pairs slots (2 ^ k)).length : Int) + count ≤ 2 ^ 29)
    (hfuel : 4 * (((HashTable.pairs slots (2 ^ k)).length : Int) + count) ≤ fuel) :
    (((HashTable.pairs slots (2 ^ k)).length : Int) + count +
        (((HashTable.pairs slots (2 ^ k)).length : Int) + count) / 4 ≤ 2 ^ k →
      ∃ σ' : State,
        HashTable.AddElement F fuel σ t count = .ok (t, σ') ∧
        σ'.find t = some (.ARRAY (slots.set 0
          (Int32.Make (((HashTable.pairs slots (2 ^ k)).length : Int) + count)))) ∧
        HashTable.Capacity F σ' t = .ok (2 ^ k) ∧
        HashTable.ElementsSize F σ' t =
          .ok (((HashTable.pairs slots (2 ^ k)).length : Int) + count) ∧
        ∀ p ∈ HashTable.pairs slots (2 ^ k), HashTable.Search F σ' t p.1 = .ok p.2) ∧
    (¬ ((HashTable.pairs slots (2 ^ k)).length : Int) + count +
        (((HashTable.pairs slots (2 ^ k)).length : Int) + count) / 4 ≤ 2 ^ k →
      ∃ j : Nat,
        1 ≤ j ∧ 2 * (((HashTable.pairs slots (2 ^ k)).length : Int) + count) ≤ 2 ^ j ∧
        (∀ i : Nat, 2 * (((HashTable.pairs slots (2 ^ k)).length : Int) + count) ≤ 2 ^ i →
          j ≤ i) ∧
        (Align (12 + kPointerSize * (2 + 2 * 2 ^ j)) ≤ σ.new_space_available →
          ∃ (t' : Object) (σ' : State) (slots' : List Object),
            HashTable.AddElement F fuel σ t count = .ok (t', σ') ∧ t' ≠ t ∧
            σ'.find t' = some (.ARRAY slots') ∧
            HashTable.Capacity F σ' t' = .ok (2 ^ j) ∧
            HashTable.ElementsSize F σ' t' =
              .ok (((HashTable.pairs slots (2 ^ k)).length : Int) + count) ∧
            (HashTable.pairs slots' (2 ^ j)).Perm (HashTable.pairs slots (2 ^ k)) ∧
            ∀ p ∈ HashTable.pairs slots (2 ^ k), HashTable.Search F σ' t' p.1 = .ok p.2) ∧
        (σ.new_space_available < Align (12 + kPointerSize * (2 + 2 * 2 ^ j)) →
          HashTable.AddElement F fuel σ t count
            = .error (.AllocationError .NEW_SPACE))) := by
  have hn0 : (0 : Int) ≤ ((HashTable.pairs slots (2 ^ k)).length : Int) := Int.natCast_nonneg _
  constructor
  · intro hle
    have hfit : Int32.kMinInt32 ≤ ((HashTable.pairs slots (2 ^ k)).length : Int) + count ∧
        ((HashTable.pairs slots (2 ^ k)).length : Int) + count ≤ Int32.kMaxInt32 := by
      simp only [Int32.kMinInt32, Int32.kMaxInt32]
      constructor <;> omega
    have hl := hwf.shaped.length
    have hsh := hwf.shaped.store_slots (slots.set 0
      (Int32.Make (((HashTable.pairs slots (2 ^ k)).length : Int) + count)))
      (((HashTable.pairs slots (2 ^ k)).length : Int) + count) (by simp)
      (by rw [List.getElem?_set_self (by omega)])
      (by rw [List.getElem?_set_ne (by omega)]) hfit
    have hp := HashTable.pairs_set_zero slots
      (Int32.Make (((HashTable.pairs slots (2 ^ k)).length : Int) + count)) (2 ^ k)
    have hs : ∀ q, IsString σ q = true → (σ.store t (.ARRAY (slots.set 0
        (Int32.Make (((HashTable.pairs slots (2 ^ k)).length : Int) + count))))).find q =
        σ.find q := fun q hq => String.find_store hwf.shaped.find hq
    refine ⟨_, HashTable.AddElement_keep F fuel hwf.shaped count hle, hsh.find,
      hsh.Capacity_ok F, hsh.ElementsSize_ok F, ?_⟩
    intro p hm
    rw [← hp] at hm
    exact HashTable.Search_of_mem F hsh (hwf.keys.perm (by rw [hp]) hs)
      (HashTable.distinct_perm hwf.keys hwf.distinct (by rw [hp]) hs)
      (by rw [hp]; omega) hm
  · intro hgt
    obtain ⟨j, h4, h5, _, hok, hfull⟩ :=
      HashTable.AddElement_grow F fuel hwf.shaped hwf.keys count hb (by omega) hsize hgt hfuel
    have hk1 : (1 : Int) ≤ 2 ^ k := one_le_pow₀ (by norm_num)
    refine ⟨j, ?_, h4, h5, ?_, hfull⟩
    · rcases Nat.eq_zero_or_pos j with h0 | hpos
      · rw [h0] at h4
        simp only [pow_zero] at h4
        omega
      · exact hpos
    intro hroom
    obtain ⟨t', σ', slots', h1, h2, h3, h6, h7, _⟩ := hok hroom
    have hs : ∀ q, IsString σ q = true → σ'.find q = σ.find q := by
      intro q hq
      obtain ⟨e, v, hf⟩ := IsString_iff.mp hq
      rw [hf]
      exact h7 q _ hf
    refine ⟨t', σ', slots', h1, ?_, h3.find, h3.Capacity_ok F, h3.ElementsSize_ok F, h6, ?_⟩
    · intro e
      have := find_lt hwf.shaped.find
      rw [← e] at this
      omega
    · intro p hm
      exact HashTable.Search_of_mem F h3 (hwf.keys.perm h6 hs)
        (HashTable.distinct_perm hwf.keys hwf.distinct h6 hs)
        (by rw [h6.length_eq]; omega) (h6.mem_iff.mpr hm)

/-- C38, witness: a table of capacity 2 with two pairs receives a third element; the
new table has the capacity 8, for which the new space of 256 KB has room, and with 100
bytes left in the new space `AllocationError` is thrown. -/
theorem C38_add_element_keeps_or_rehashes_witness :
    (HashTable.WellFormed Scenario.tableState (HeapObject_Make 3) Scenario.fullTable 1 ∧
      Scenario.tableState.objects.length < 2 ^ 48 ∧
      HashTable.pairs Scenario.fullTable (2 ^ 1) =
        [(HeapObject_Make 1, Int32.Make 2), (HeapObject_Make 0, Int32.Make 1)] ∧
      Align (12 + kPointerSize * (2 + 2 * 2 ^ 3)) ≤ Scenario.tableState.new_space_available) ∧
    (∃ (t' : Object) (σ' : State) (slots' : List Object),
      HashTable.AddElement FloatOps.unavailable 12 Scenario.tableState (HeapObject_Make 3) 1 =
        .ok (t', σ') ∧ t' ≠ HeapObject_Make 3 ∧
      σ'.find t' = some (.ARRAY slots') ∧
      HashTable.Capacity FloatOps.unavailable σ' t' = .ok (2 ^ 3) ∧
      HashTable.ElementsSize FloatOps.unavailable σ' t' =
        .ok (((HashTable.pairs Scenario.fullTable (2 ^ 1)).length : Int) + 1) ∧
      (HashTable.pairs slots' (2 ^ 3)).Perm (HashTable.pairs Scenario.fullTable (2 ^ 1)) ∧
      ∀ p ∈ HashTable.pairs Scenario.fullTable (2 ^ 1),
        HashTable.Search FloatOps.unavailable σ' t' p.1 = .ok p.2) ∧
    HashTable.AddElement FloatOps.unavailable 12
      { Scenario.tableState with new_space_available := 100 } (HeapObject_Make 3) 1
        = .error (.AllocationError .NEW_SPACE) :=
  have hwf : HashTable.WellFormed Scenario.tableState (HeapObject_Make 3)
      Scenario.fullTable 1 :=
    ⟨⟨rfl, by decide, by decide, by decide, by decide, by decide⟩,
      (by unfold HashTable.Keyed; decide), by decide⟩
  have hwf0 : HashTable.WellFormed { Scenario.tableState with new_space_available := 100 }
      (HeapObject_Make 3) Scenario.fullTable 1 :=
    ⟨⟨rfl, by decide, by decide, by decide, by decide, by decide⟩,
      (by unfold HashTable.Keyed; decide), by decide⟩
  have hj : ∀ j : Nat, 2 * (((HashTable.pairs Scenario.fullTable (2 ^ 1)).length : Int) + 1)
      ≤ 2 ^ j → (∀ i : Nat,
        2 * (((HashTable.pairs Scenario.fullTable (2 ^ 1)).length : Int) + 1) ≤ 2 ^ i → j ≤ i) →
      j = 3 := fun j h1 h2 => by
    have h3 : j ≤ 3 := h2 3 (by decide)
    have h4 : (6 : Int) ≤ 2 ^ j := h1
    interval_cases j <;> simp_all
  ⟨⟨hwf, by decide, by decide, by decide⟩,
    (by
      obtain ⟨j, _, h1, h2, h3, _⟩ :=
        (C38_add_element_keeps_or_rehashes FloatOps.unavailable 12 Scenario.tableState
          (HeapObject_Make 3) Scenario.fullTable 1 1 hwf (by decide) (by decide) (by decide)
          (by decide)).2 (by decide)
      have e := hj j h1 h2
      subst e
      exact h3 (by decide)),
    (by
      obtain ⟨j, _, h1, h2, _, h4⟩ :=
        (C38_add_element_keeps_or_rehashes FloatOps.unavailable 12
          { Scenario.tableState with new_space_available := 100 }
          (HeapObject_Make 3) Scenario.fullTable 1 1 hwf0 (by decide) (by decide) (by decide)
          (by decide)).2 (by decide)
      have e := hj j h1 h2
      subst e
      exact h4 (by decide))⟩

/-- C39: in a table of capacity `2 ^ k` the probe sequence `Location(hash, i, 2 ^ k)`,
`i = 0 .. 2 ^ k - 1`, of every hash (negative ones included) is a permutation of the
entries; hence `FindInsertionIndex`, with fuel for one round of the entries, returns
the index of an entry whose key is undefined whenever there is one; and `Insert` of a
string key in a well-formed table (the element count is the number of pairs, so it
never exceeds the capacity), when the new space has room for a table that `AddElement`
may allocate (at most `64 * (count + 1) + 16` bytes), returns a table that is well
formed again, whose element count is at most its capacity, and in which `Search` finds
the value. -/
theorem C39_probing_visits_every_slot (F : FloatOps) (fuel : Nat) (σ : State)
    (t key value : Object) (slots : List Object) (k : Nat) (s : String) :
    (∀ hash : Int, k ≤ 30 →
      (HashTable.probes hash (2 ^ k)).Perm ((List.range (2 ^ k)).map Int.ofNat)) ∧
    (∀ hash n : Int, HashTable.Shaped σ t slots n k → 2 ^ k ≤ fuel →
      (∃ e, e < 2 ^ k ∧ IsUndefined (HashTable.entryAt slots e).1 = true) →
      ∃ e, e < 2 ^ k ∧ IsUndefined (HashTable.entryAt slots e).1 = true ∧
        HashTable.FindInsertionIndex F fuel σ t hash =
          .ok (HashTable.EntryToIndex (Int.ofNat e))) ∧
    (HashTable.WellFormed σ t slots k → k ≤ 28 → σ.objects.length < 2 ^ 48 →
      String.Value σ key = .ok s →
      4 * ((HashTable.pairs slots (2 ^ k)).length + 1) ≤ fuel → 2 ^ k ≤ fuel →
      64 * ((HashTable.pairs slots (2 ^ k)).length + 1) + 16 ≤ σ.new_space_available →
      ∃ (j : Nat) (t' : Object) (σ' : State) (slots' : List Object),
        HashTable.Insert F fuel σ t key value = .ok (t', σ') ∧
        HashTable.WellFormed σ' t' slots' j ∧
        HashTable.ElementsSize F σ' t' = .ok ((HashTable.pairs slots' (2 ^ j)).length : Int) ∧
        HashTable.Capacity F σ' t' = .ok (2 ^ j) ∧
        (HashTable.pairs slots' (2 ^ j)).length ≤ 2 ^ j ∧
        HashTable.Search F σ' t' key = .ok value) := by
  refine ⟨fun hash hk => HashTable.probes_perm hash k hk, ?_, ?_⟩
  · intro hash n hsh hfuel hempty
    exact HashTable.FindInsertionIndex_spec F hsh hash fuel hfuel hempty
  · intro hwf hk hb hkey hfuel hfk hspace
    obtain ⟨j, t', σ', slots', h1, h2, h3, _⟩ :=
      HashTable.Insert_spec F fuel hwf hk hb hkey value hfuel hfk hspace
    exact ⟨j, t', σ', slots', h1, h2, h2.shaped.ElementsSize_ok F, h2.shaped.Capacity_ok F,
      HashTable.length_pairs_le _ _, h3⟩

theorem C39_probing_visits_every_slot_witness :
    (HashTable.probes (-7) (2 ^ 3)).Perm ((List.range (2 ^ 3)).map Int.ofNat) ∧
    (HashTable.Shaped Scenario.tableState (HeapObject_Make 4) Scenario.sparseTable 1 2 ∧
      IsUndefined (HashTable.entryAt Scenario.sparseTable 3).1 = false ∧
      HashTable.Location 99 0 4 = 3 ∧
      ∃ e, e < 2 ^ 2 ∧ IsUndefined (HashTable.entryAt Scenario.sparseTable e).1 = true ∧
        HashTable.FindInsertionIndex FloatOps.unavailable 4 Scenario.tableState
          (HeapObject_Make 4) 99 = .ok (HashTable.EntryToIndex (Int.ofNat e))) ∧
    (HashTable.WellFormed Scenario.tableState (HeapObject_Make 3) Scenario.fullTable 1 ∧
      String.Value Scenario.tableState (HeapObject_Make 2) = .ok "c" ∧
      (HashTable.pairs Scenario.fullTable (2 ^ 1)).length = 2 ^ 1 ∧
      64 * ((HashTable.pairs Scenario.fullTable (2 ^ 1)).length + 1) + 16
        ≤ Scenario.tableState.new_space_available ∧
      ∃ (j : Nat) (t' : Object) (σ' : State) (slots' : List Object),
        HashTable.Insert FloatOps.unavailable 12 Scenario.tableState (HeapObject_Make 3)
          (HeapObject_Make 2) (Int32.Make 3) = .ok (t', σ') ∧
        HashTable.WellFormed σ' t' slots' j ∧
        HashTable.ElementsSize FloatOps.unavailable σ' t' =
          .ok ((HashTable.pairs slots' (2 ^ j)).length : Int) ∧
        HashTable.Capacity FloatOps.unavailable σ' t' = .ok (2 ^ j) ∧
        (HashTable.pairs slots' (2 ^ j)).length ≤ 2 ^ j ∧
        HashTable.Search FloatOps.unavailable σ' t' (HeapObject_Make 2) = .ok (Int32.Make 3)) :=
  have hsh : HashTable.Shaped Scenario.tableState (HeapObject_Make 4)
      Scenario.sparseTable 1 2 :=
    ⟨rfl, by decide, by decide, by decide, by decide, by decide⟩
  have hwf : HashTable.WellFormed Scenario.tableState (HeapObject_Make 3)
      Scenario.fullTable 1 :=
    ⟨⟨rfl, by decide, by decide, by decide, by decide, by decide⟩,
      (by unfold HashTable.Keyed; decide), by decide⟩
  ⟨(C39_probing_visits_every_slot FloatOps.unavailable 0 State.empty 0 0 0 [] 3 "").1 (-7)
      (by decide),
    ⟨hsh, by decide, by decide,
      (C39_probing_visits_every_slot FloatOps.unavailable 4 Scenario.tableState
        (HeapObject_Make 4) 0 0 Scenario.sparseTable 2 "").2.1 99 1 hsh (by decide)
        ⟨0, by decide, by decide⟩⟩,
    ⟨hwf, by decide, by decide, by decide,
      (C39_probing_visits_every_slot FloatOps.unavailable 12 Scenario.tableState
        (HeapObject_Make 3) (HeapObject_Make 2) (Int32.Make 3) Scenario.fullTable 1 "c").2.2
        hwf (by decide) (by decide) (by decide) (by decide) (by decide) (by decide)⟩⟩

end Kipper
